import Mathlib

/-!
YM2413 (OPLL) FM sound generator, Burczynski core.

A shallow embedding of `src/sound/YM2413Burczynski.cc` and theorems about it.

Conventions of the embedding
* C `int` values are `Int`, `unsigned`/`byte` values are `Nat`.  Wrap-around of
  32-bit counters is written out (`wrap32`, `% 2 ^ 32`) where a counter can
  reach the word size.
* On two's-complement integers `x >> k` is `x >>> k` (the floor of `x / 2 ^ k`)
  and `x & (2 ^ k - 1)` is the Euclidean remainder `x % 2 ^ k`.
* A pointer to a row of `eg_inc` is the row number; a pointer into `sin_tab`
  is the offset of the waveform.
* The two tables filled in by `initTables` with floating-point arithmetic are
  built, exactly as in the source, from the integers that the floating-point
  expressions yield; those integers are the fields of `Params`.
-/

namespace YM2413Burczynski

/-! ## Constants and tables -/

def ENV_BITS : Nat := 10

def MAX_ATT_INDEX : Int := ((1 <<< (ENV_BITS - 2) : Nat) : Int) - 1

def MIN_ATT_INDEX : Int := 0

def SIN_BITS : Nat := 10

def SIN_LEN : Nat := 1 <<< SIN_BITS

def SIN_MASK : Nat := SIN_LEN - 1

def TL_RES_LEN : Nat := 256

def TL_TAB_LEN : Nat := 11 * 2 * TL_RES_LEN

/-- Key scale level table: entry `DV(x) = int(x / 0.1875)`; every `x` of the
source is a multiple of `0.375`, so each quotient is an exact even integer. -/
def ksl_tab_data : List Nat :=
  List.replicate 16 0 ++
  [ 0, 0, 0, 0, 0, 0, 0, 0, 0, 4, 6, 8, 10, 12, 14, 16,
    0, 0, 0, 0, 0, 6, 10, 14, 16, 20, 22, 24, 26, 28, 30, 32,
    0, 0, 0, 10, 16, 22, 26, 30, 32, 36, 38, 40, 42, 44, 46, 48,
    0, 0, 16, 26, 32, 38, 42, 46, 48, 52, 54, 56, 58, 60, 62, 64,
    0, 16, 32, 42, 48, 54, 58, 62, 64, 68, 70, 72, 74, 76, 78, 80,
    0, 32, 48, 58, 64, 70, 74, 78, 80, 84, 86, 88, 90, 92, 94, 96,
    0, 48, 64, 74, 80, 86, 90, 94, 96, 100, 102, 104, 106, 108, 110, 112 ]

def ksl_tab (i : Nat) : Nat := ksl_tab_data.getD i 0

/-- Sustain level table: `SC(db) = int(db / ENV_STEP)` with `ENV_STEP = 0.125`,
that is `8 * db` for `db = 0 .. 15`. -/
def sl_tab_data : List Int :=
  [0, 8, 16, 24, 32, 40, 48, 56, 64, 72, 80, 88, 96, 104, 112, 120]

def sl_tab (i : Nat) : Int := sl_tab_data.getD i 0

def eg_inc_data : List (List Nat) :=
  [ [0,1, 0,1, 0,1, 0,1],
    [0,1, 0,1, 1,1, 0,1],
    [0,1, 1,1, 0,1, 1,1],
    [0,1, 1,1, 1,1, 1,1],
    [1,1, 1,1, 1,1, 1,1],
    [1,1, 1,2, 1,1, 1,2],
    [1,2, 1,2, 1,2, 1,2],
    [1,2, 2,2, 1,2, 2,2],
    [2,2, 2,2, 2,2, 2,2],
    [2,2, 2,4, 2,2, 2,4],
    [2,4, 2,4, 2,4, 2,4],
    [2,4, 4,4, 2,4, 4,4],
    [4,4, 4,4, 4,4, 4,4],
    [8,8, 8,8, 8,8, 8,8],
    [0,0, 0,0, 0,0, 0,0] ]

/-- Entry `eg_inc[row][i]`. -/
def eg_inc (row i : Nat) : Nat := (eg_inc_data.getD row []).getD i 0

/-- Rate select: 16 infinite-time rates (row 14), rates 00 to 12, rate 13,
rate 14, rate 15, and 16 dummy rates (row 12). -/
def eg_rate_select_data : List Nat :=
  List.replicate 16 14 ++
  [ 0, 1, 2, 3,  0, 1, 2, 3,  0, 1, 2, 3,  0, 1, 2, 3,
    0, 1, 2, 3,  0, 1, 2, 3,  0, 1, 2, 3,  0, 1, 2, 3,
    0, 1, 2, 3,  0, 1, 2, 3,  0, 1, 2, 3,  0, 1, 2, 3,
    0, 1, 2, 3,
    4, 5, 6, 7,
    8, 9,10,11,
    12,12,12,12 ] ++
  List.replicate 16 12

def eg_rate_select (i : Nat) : Nat := eg_rate_select_data.getD i 0

/-- Counter shifts: 16 infinite-time rates, rates 00 to 12, then shift 0 for
rates 13, 14, 15 (4 entries each) and for the 16 dummy rates. -/
def eg_rate_shift_data : List Nat :=
  List.replicate 16 0 ++
  [ 13,13,13,13, 12,12,12,12, 11,11,11,11, 10,10,10,10,
    9, 9, 9, 9,  8, 8, 8, 8,  7, 7, 7, 7,  6, 6, 6, 6,
    5, 5, 5, 5,  4, 4, 4, 4,  3, 3, 3, 3,  2, 2, 2, 2,
    1, 1, 1, 1 ] ++
  List.replicate (4 + 4 + 4) 0 ++ List.replicate 16 0

def eg_rate_shift (i : Nat) : Nat := eg_rate_shift_data.getD i 0

/-- Multiple table: `ML(x) = byte(2 * x)`. -/
def mul_tab_data : List Nat :=
  [1, 2, 4, 6, 8, 10, 12, 14, 16, 18, 20, 20, 24, 24, 30, 30]

def mul_tab (i : Nat) : Nat := mul_tab_data.getD i 0

def LFO_AM_TAB_ELEMENTS : Nat := 210

/-- The triangle of `lfo_am_table`, 210 entries: 0 seven times, each of
1, 2, ..., 25 four times, 26 three times, each of 25, 24, ..., 1 four times. -/
def lfo_am_table_data : List Nat :=
  List.replicate 7 0
    ++ (((List.range 25).map fun k => List.replicate 4 (k + 1)).flatten
    ++ (List.replicate 3 26
    ++ ((List.range 25).map fun k => List.replicate 4 (25 - k)).flatten))

def lfo_am_table (i : Nat) : Nat := lfo_am_table_data.getD i 0

def lfo_pm_table_data : List (List Int) :=
  [ [0, 0, 0, 0, 0, 0, 0, 0],
    [1, 0, 0, 0,-1, 0, 0, 0],
    [2, 1, 0,-1,-2,-1, 0, 1],
    [3, 1, 0,-1,-3,-1, 0, 1],
    [4, 2, 0,-2,-4,-2, 0, 2],
    [5, 2, 0,-2,-5,-2, 0, 2],
    [6, 3, 0,-3,-6,-3, 0, 3],
    [7, 3, 0,-3,-7,-3, 0, 3] ]

def lfo_pm_table (row i : Nat) : Int := (lfo_pm_table_data.getD row []).getD i 0

/-- Instrument ROM: the user instrument, 15 melodic presets, 3 rhythm
instruments. -/
def table_data : List (List Nat) :=
  [ [0x00, 0x00, 0x00, 0x00, 0x00, 0x00, 0x00, 0x00],
    [0x61, 0x61, 0x1e, 0x17, 0xf0, 0x7f, 0x00, 0x17],
    [0x13, 0x41, 0x16, 0x0e, 0xfd, 0xf4, 0x23, 0x23],
    [0x03, 0x01, 0x9a, 0x04, 0xf3, 0xf3, 0x13, 0xf3],
    [0x11, 0x61, 0x0e, 0x07, 0xfa, 0x64, 0x70, 0x17],
    [0x22, 0x21, 0x1e, 0x06, 0xf0, 0x76, 0x00, 0x28],
    [0x21, 0x22, 0x16, 0x05, 0xf0, 0x71, 0x00, 0x18],
    [0x21, 0x61, 0x1d, 0x07, 0x82, 0x80, 0x17, 0x17],
    [0x23, 0x21, 0x2d, 0x16, 0x90, 0x90, 0x00, 0x07],
    [0x21, 0x21, 0x1b, 0x06, 0x64, 0x65, 0x10, 0x17],
    [0x21, 0x21, 0x0b, 0x1a, 0x85, 0xa0, 0x70, 0x07],
    [0x23, 0x01, 0x83, 0x10, 0xff, 0xb4, 0x10, 0xf4],
    [0x97, 0xc1, 0x20, 0x07, 0xff, 0xf4, 0x22, 0x22],
    [0x61, 0x00, 0x0c, 0x05, 0xc2, 0xf6, 0x40, 0x44],
    [0x01, 0x01, 0x56, 0x03, 0x94, 0xc2, 0x03, 0x12],
    [0x21, 0x01, 0x89, 0x03, 0xf1, 0xe4, 0xf0, 0x23],
    [0x01, 0x01, 0x16, 0x00, 0xfd, 0xf8, 0x2f, 0x6d],
    [0x01, 0x01, 0x00, 0x00, 0xd8, 0xd8, 0xf9, 0xf8],
    [0x05, 0x01, 0x00, 0x00, 0xf8, 0xba, 0x49, 0x55] ]

def table (instrument part : Nat) : Nat := (table_data.getD instrument []).getD part 0

/-! ## The tables built by `initTables` -/

/-- The integers produced by floating-point expressions of the source, and a
constant declared outside the file.
* `tlM x` is `int(floor((1 << 16) / pow(2, (x + 1) * (ENV_STEP / 4.0) / 8.0)))`,
* `sinN i` is `int(round(log(sin(((i * 2) + 1) * M_PI / SIN_LEN)) * (-256.0 / log(2.0))))`,
* `CLOCK_FREQ` is the chip clock of `YM2413Core`. -/
structure Params where
  tlM : Nat → Nat
  sinN : Nat → Nat
  CLOCK_FREQ : Nat

/-- The value `n` that `initTables` derives from `m` for column `x`:
`n = int(m); n >>= 4; n = (n >> 1) + (n & 1)`. -/
def tlN (P : Params) (x : Nat) : Nat :=
  let n := P.tlM x >>> 4
  (n >>> 1) + (n &&& 1)

/-- Entry `tl_tab[p]`: `tl_tab[x * 2 + 0 + i * 2 * TL_RES_LEN] = n >> i` and
`tl_tab[x * 2 + 1 + i * 2 * TL_RES_LEN] = -(n >> i)`, for `x < 256`, `i < 11`. -/
def tl_tab (P : Params) (p : Nat) : Int :=
  let i := p / (2 * TL_RES_LEN)
  let x := (p % (2 * TL_RES_LEN)) / 2
  if p % 2 = 0 then ((tlN P x >>> i : Nat) : Int) else -((tlN P x >>> i : Nat) : Int)

/-- First half of either waveform: `full[i] = half[i] = 2 * n` for
`i < SIN_LEN / 4` and `full[SIN_LEN / 4 + i] = half[SIN_LEN / 4 + i] =
full[SIN_LEN / 4 - 1 - i]`. -/
def sinFirstHalf (P : Params) (j : Nat) : Nat :=
  if j < SIN_LEN / 4 then 2 * P.sinN j else 2 * P.sinN (SIN_LEN / 2 - 1 - j)

/-- Entry `sin_tab[k]`: waveform 0 (`full`) occupies `[0, SIN_LEN)`, waveform 1
(`half`) occupies `[SIN_LEN, 2 * SIN_LEN)`; `full[SIN_LEN / 2 + i] = full[i] | 1`
and `half[SIN_LEN / 2 + i] = TL_TAB_LEN`. -/
def sin_tab (P : Params) (k : Nat) : Nat :=
  if k < SIN_LEN then
    if k < SIN_LEN / 2 then sinFirstHalf P k else sinFirstHalf P (k - SIN_LEN / 2) ||| 1
  else
    if k - SIN_LEN < SIN_LEN / 2 then sinFirstHalf P (k - SIN_LEN) else TL_TAB_LEN

/-! ## Fixed-point numbers

The class `FixedPoint` is declared outside the file.  A fixed-point number is
its raw `int`: construction from an integer shifts left by the number of
fractional bits, `toInt` shifts right by it, `addQuantum` adds one to the raw
value, `+=`, `*` and `>>` act on the raw value. -/

/-- Wrap-around of a 32-bit two's-complement `int`. -/
def wrap32 (x : Int) : Int := (x + 2 ^ 31) % 2 ^ 32 - 2 ^ 31

/-- Modelled from the spec: `FreqIndex`, declared outside the file, is the
16.16 fixed-point type of the phase accumulator. -/
def FREQ_BITS : Nat := 16

/-- Modelled from the spec: `LFOAMIndex`, declared outside the file, is a
fixed-point counter with 6 fractional bits (one table entry lasts 64 samples). -/
def LFO_AM_BITS : Nat := 6

/-- Modelled from the spec: `LFOPMIndex`, declared outside the file, is a
fixed-point counter with 10 fractional bits (one phase lasts 1024 samples). -/
def LFO_PM_BITS : Nat := 10

/-- Phase increment of a frequency number: `block = (block_fnum & 0x1C00) >> 10`,
result `FreqIndex(block_fnum & 0x03FF) >> (11 - block)`. -/
def fnumToIncrement (block_fnum : Int) : Int :=
  let block := (block_fnum % 0x2000) / 0x400
  ((block_fnum % 0x400) * 2 ^ FREQ_BITS) >>> (11 - block).toNat

/-! ## Data model -/

inductive EnvelopeState where
  | EG_DUMP
  | EG_ATTACK
  | EG_DECAY
  | EG_SUSTAIN
  | EG_RELEASE
  | EG_OFF
deriving DecidableEq, Repr

/-- Modelled from the spec: the key parts, declared outside the file, are the
two bits of the mask `key`; this is the bit of the main key-on. -/
def KEY_MAIN : Nat := 1

/-- Modelled from the spec: the bit of `key` for the rhythm-mode key-on. -/
def KEY_RHYTHM : Nat := 2

/-- Modelled from the spec: the class is declared outside the file; the
members are those the source file assigns and the spec's data model lists.
`op1_out0`, `op1_out1` are `op1_out[0]`, `op1_out[1]`; `eg_sel_*` is the row of
`eg_inc` the pointer points to; `wavetable` is the offset into `sin_tab`. -/
structure Slot where
  phase : Int
  freq : Int
  op1_out0 : Int
  op1_out1 : Int
  fb_shift : Nat
  wavetable : Nat
  TL : Int
  TLL : Int
  egout : Int
  sl : Int
  state : EnvelopeState
  eg_mask_dp : Nat
  eg_sh_dp : Nat
  eg_sel_dp : Nat
  eg_mask_ar : Nat
  eg_sh_ar : Nat
  eg_sel_ar : Nat
  eg_mask_dr : Nat
  eg_sh_dr : Nat
  eg_sel_dr : Nat
  eg_mask_rr : Nat
  eg_sh_rr : Nat
  eg_sel_rr : Nat
  eg_mask_rs : Nat
  eg_sh_rs : Nat
  eg_sel_rs : Nat
  eg_sustain : Bool
  key : Nat
  ar : Nat
  dr : Nat
  rr : Nat
  KSR : Nat
  ksl : Nat
  mul : Nat
  AMmask : Nat
  vib : Bool
deriving DecidableEq, Repr

/-- Modelled from the spec: the class is declared outside the file; two slots
and the frequency, sustain and instrument/volume members. -/
structure Channel where
  mod : Slot
  car : Slot
  block_fnum : Nat
  fc : Int
  ksl_base : Nat
  sus : Bool
  instvol_r : Nat
deriving DecidableEq, Repr

/-- Modelled from the spec: the class is declared outside the file; nine
channels, the counters, the 19 x 8 instrument table and the register mirror
`reg[0x40]`. -/
structure YM2413 where
  channels : Fin 9 → Channel
  eg_cnt : Nat
  noise_rng : Nat
  idleSamples : Nat
  lfo_pm_cnt : Int
  lfo_am_cnt : Int
  inst_tab : Fin 19 → Fin 8 → Nat
  reg : Fin 0x40 → Nat
  rhythm : Bool

/-! ## Slot -/

namespace Slot

def setEnvelopeState (s : Slot) (state_ : EnvelopeState) : Slot :=
  { s with state := state_ }

def isActive (s : Slot) : Bool := s.state != EnvelopeState.EG_OFF

/-- One envelope step.  The value the source returns is the `egout` of the
resulting slot. -/
def calc_envelope (s : Slot) (channel : Channel) (eg_cnt : Nat) (carrier : Bool) : Slot :=
  match s.state with
  | .EG_DUMP =>
    if eg_cnt &&& s.eg_mask_dp = 0 then
      let e := s.egout + eg_inc s.eg_sel_dp ((eg_cnt >>> s.eg_sh_dp) &&& 7)
      if e ≥ MAX_ATT_INDEX then
        { (setEnvelopeState { s with egout := MAX_ATT_INDEX } .EG_ATTACK) with phase := 0 }
      else { s with egout := e }
    else s
  | .EG_ATTACK =>
    if eg_cnt &&& s.eg_mask_ar = 0 then
      let e := s.egout + ((~~~s.egout * eg_inc s.eg_sel_ar ((eg_cnt >>> s.eg_sh_ar) &&& 7)) >>> (2 : Nat))
      if e ≤ MIN_ATT_INDEX then
        setEnvelopeState { s with egout := MIN_ATT_INDEX } .EG_DECAY
      else { s with egout := e }
    else s
  | .EG_DECAY =>
    if eg_cnt &&& s.eg_mask_dr = 0 then
      let e := s.egout + eg_inc s.eg_sel_dr ((eg_cnt >>> s.eg_sh_dr) &&& 7)
      if e ≥ s.sl then setEnvelopeState { s with egout := e } .EG_SUSTAIN
      else { s with egout := e }
    else s
  | .EG_SUSTAIN =>
    if s.eg_sustain then s
    else
      if eg_cnt &&& s.eg_mask_rr = 0 then
        let e := s.egout + eg_inc s.eg_sel_rr ((eg_cnt >>> s.eg_sh_rr) &&& 7)
        if e ≥ MAX_ATT_INDEX then { s with egout := MAX_ATT_INDEX } else { s with egout := e }
      else s
  | .EG_RELEASE =>
    if carrier then
      let sustain := !s.eg_sustain || channel.sus
      let mask := if sustain then s.eg_mask_rs else s.eg_mask_rr
      if eg_cnt &&& mask = 0 then
        let shift := if sustain then s.eg_sh_rs else s.eg_sh_rr
        let sel := if sustain then s.eg_sel_rs else s.eg_sel_rr
        let e := s.egout + eg_inc sel ((eg_cnt >>> shift) &&& 7)
        if e ≥ MAX_ATT_INDEX then
          setEnvelopeState { s with egout := MAX_ATT_INDEX } .EG_OFF
        else { s with egout := e }
      else s
    else s
  | .EG_OFF => s

/-- Advance the phase generator; the second component is `phase.toInt()`. -/
def calc_phase (s : Slot) (channel : Channel) (lfo_pm : Nat) : Slot × Int :=
  let phase :=
    if s.vib then
      let lfo_fn_table_index_offset :=
        lfo_pm_table ((channel.block_fnum &&& 0x01FF) >>> 6) lfo_pm
      wrap32 (s.phase
        + fnumToIncrement ((channel.block_fnum : Int) * 2 + lfo_fn_table_index_offset) * s.mul)
    else
      wrap32 (s.phase + s.freq)
  ({ s with phase := phase }, phase >>> FREQ_BITS)

def updateTotalLevel (s : Slot) (channel : Channel) : Slot :=
  { s with TLL := s.TL + ((channel.ksl_base >>> s.ksl : Nat) : Int) }

def updateAttackRate (s : Slot) (kcodeScaled : Nat) : Slot :=
  let s1 :=
    if s.ar + kcodeScaled < 16 + 62 then
      { s with eg_sh_ar := eg_rate_shift (s.ar + kcodeScaled),
               eg_sel_ar := eg_rate_select (s.ar + kcodeScaled) }
    else
      { s with eg_sh_ar := 0, eg_sel_ar := 13 }
  { s1 with eg_mask_ar := (1 <<< s1.eg_sh_ar) - 1 }

def updateDecayRate (s : Slot) (kcodeScaled : Nat) : Slot :=
  let s1 := { s with eg_sh_dr := eg_rate_shift (s.dr + kcodeScaled),
                     eg_sel_dr := eg_rate_select (s.dr + kcodeScaled) }
  { s1 with eg_mask_dr := (1 <<< s1.eg_sh_dr) - 1 }

def updateReleaseRate (s : Slot) (kcodeScaled : Nat) : Slot :=
  let s1 := { s with eg_sh_rr := eg_rate_shift (s.rr + kcodeScaled),
                     eg_sel_rr := eg_rate_select (s.rr + kcodeScaled) }
  { s1 with eg_mask_rr := (1 <<< s1.eg_sh_rr) - 1 }

/-- Operator output.  `p` is never negative while `TLL` and `egout` are not, so
the table index is `p` itself. -/
def calcOutput (P : Params) (s : Slot) (channel : Channel) (eg_cnt : Nat) (carrier : Bool)
    (lfo_am : Nat) (phase : Int) : Slot × Int :=
  let s1 := calc_envelope s channel eg_cnt carrier
  let env : Int := (s1.TLL + s1.egout + ((lfo_am &&& s1.AMmask : Nat) : Int)) * 2 ^ 5
  let p : Int := env + (sin_tab P (s1.wavetable + (phase % (SIN_LEN : Int)).toNat) : Nat)
  (s1, if p < (TL_TAB_LEN : Int) then tl_tab P p.toNat else 0)

/-- Modulator output: phase with feedback, two-place output buffer; the result
is `op1_out[0] << 1`. -/
def calc_slot_mod (P : Params) (s : Slot) (channel : Channel) (eg_cnt : Nat) (carrier : Bool)
    (lfo_pm lfo_am : Nat) : Slot × Int :=
  let r := calc_phase s channel lfo_pm
  let s1 := r.1
  let phase : Int :=
    if s1.fb_shift ≠ 0 then r.2 + ((s1.op1_out0 + s1.op1_out1) >>> s1.fb_shift) else r.2
  let s2 := { s1 with op1_out0 := s1.op1_out1 }
  let o := calcOutput P s2 channel eg_cnt carrier lfo_am phase
  let s3 := { o.1 with op1_out1 := o.2 }
  (s3, s3.op1_out0 * 2)

/-- The constructor `Slot::Slot()`. -/
def new : Slot :=
  { phase := 0, freq := 0, op1_out0 := 0, op1_out1 := 0, fb_shift := 0, wavetable := 0 * SIN_LEN,
    TL := 0, TLL := 0, egout := 0, sl := 0, state := .EG_OFF,
    eg_mask_dp := 0, eg_sh_dp := 0, eg_sel_dp := 0,
    eg_mask_ar := 0, eg_sh_ar := 0, eg_sel_ar := 0,
    eg_mask_dr := 0, eg_sh_dr := 0, eg_sel_dr := 0,
    eg_mask_rr := 0, eg_sh_rr := 0, eg_sel_rr := 0,
    eg_mask_rs := 0, eg_sh_rs := 0, eg_sel_rs := 0,
    eg_sustain := false, key := 0, ar := 0, dr := 0, rr := 0, KSR := 0, ksl := 0, mul := 0,
    AMmask := 0, vib := false }

def setKeyOn (s : Slot) (part : Nat) : Slot :=
  let s1 := if s.key = 0 then setEnvelopeState s .EG_DUMP else s
  { s1 with key := s1.key ||| part }

/-- Key off; `key &= ~part` on a byte clears the bits of `part`. -/
def setKeyOff (s : Slot) (part : Nat) : Slot :=
  if s.key ≠ 0 then
    let s1 := { s with key := s.key &&& (0xFF ^^^ part) }
    if s1.key = 0 then
      if s1.isActive then setEnvelopeState s1 .EG_RELEASE else s1
    else s1
  else s

def setKeyOnOff (s : Slot) (part : Nat) (enabled : Bool) : Slot :=
  if enabled then setKeyOn s part else setKeyOff s part

def setFrequencyMultiplier (s : Slot) (value : Nat) : Slot :=
  { s with mul := mul_tab value }

def setKeyScaleRate (s : Slot) (value : Bool) : Slot :=
  { s with KSR := if value then 0 else 2 }

def setEnvelopeSustained (s : Slot) (value : Bool) : Slot :=
  { s with eg_sustain := value }

def setVibrato (s : Slot) (value : Bool) : Slot :=
  { s with vib := value }

/-- The mask is `~0` or `0`, stored in a byte. -/
def setAmplitudeModulation (s : Slot) (value : Bool) : Slot :=
  { s with AMmask := if value then 0xFF else 0 }

def setTotalLevel (s : Slot) (channel : Channel) (value : Nat) : Slot :=
  updateTotalLevel { s with TL := ((value <<< (ENV_BITS - 2 - 7) : Nat) : Int) } channel

def setKeyScaleLevel (s : Slot) (channel : Channel) (value : Nat) : Slot :=
  updateTotalLevel { s with ksl := if value ≠ 0 then 3 - value else 31 } channel

def setWaveform (s : Slot) (value : Nat) : Slot :=
  { s with wavetable := value * SIN_LEN }

def setFeedbackShift (s : Slot) (value : Nat) : Slot :=
  { s with fb_shift := if value ≠ 0 then 8 - value else 0 }

def setSustainLevel (s : Slot) (value : Nat) : Slot :=
  { s with sl := sl_tab value }

def resetOperators (s : Slot) : Slot :=
  { (setEnvelopeState { s with wavetable := 0 * SIN_LEN } .EG_OFF) with egout := MAX_ATT_INDEX }

end Slot

/-! ## Channel -/

namespace Channel

/-- Key code: `(block_fnum & 0x0F00) >> 8`. -/
def getKeyCode (c : Channel) : Nat := (c.block_fnum &&& 0x0F00) >>> 8

end Channel

namespace Slot

def setAttackRate (s : Slot) (channel : Channel) (value : Nat) : Slot :=
  let kcodeScaled := channel.getKeyCode >>> s.KSR
  updateAttackRate { s with ar := if value ≠ 0 then 16 + (value <<< 2) else 0 } kcodeScaled

def setDecayRate (s : Slot) (channel : Channel) (value : Nat) : Slot :=
  let kcodeScaled := channel.getKeyCode >>> s.KSR
  updateDecayRate { s with dr := if value ≠ 0 then 16 + (value <<< 2) else 0 } kcodeScaled

def setReleaseRate (s : Slot) (channel : Channel) (value : Nat) : Slot :=
  let kcodeScaled := channel.getKeyCode >>> s.KSR
  updateReleaseRate { s with rr := if value ≠ 0 then 16 + (value <<< 2) else 0 } kcodeScaled

def updateGenerators (s : Slot) (channel : Channel) : Slot :=
  let s0 := { s with freq := channel.fc * s.mul }
  let kcodeScaled := channel.getKeyCode >>> s0.KSR
  let s1 := updateReleaseRate (updateDecayRate (updateAttackRate s0 kcodeScaled) kcodeScaled)
    kcodeScaled
  let rs := if channel.sus then 16 + (5 <<< 2) else 16 + (7 <<< 2)
  let s2 := { s1 with eg_sh_rs := eg_rate_shift (rs + kcodeScaled),
                      eg_sel_rs := eg_rate_select (rs + kcodeScaled) }
  let dp := 16 + (13 <<< 2)
  let s3 := { s2 with eg_sh_dp := eg_rate_shift (dp + kcodeScaled),
                      eg_sel_dp := eg_rate_select (dp + kcodeScaled) }
  { s3 with eg_mask_rs := (1 <<< s3.eg_sh_rs) - 1, eg_mask_dp := (1 <<< s3.eg_sh_dp) - 1 }

def updateFrequency (s : Slot) (channel : Channel) : Slot :=
  updateGenerators (updateTotalLevel s channel) channel

end Slot

namespace Channel

/-- The constructor `Channel::Channel()`. -/
def new : Channel :=
  { mod := Slot.new, car := Slot.new, block_fnum := 0, fc := 0, ksl_base := 0, sus := false,
    instvol_r := 0 }

/-- Carrier output of a channel fed with the modulator value `fm`. -/
def calcOutput (P : Params) (c : Channel) (eg_cnt lfo_pm lfo_am : Nat) (fm : Int) :
    Channel × Int :=
  let r := c.car.calc_phase c lfo_pm
  let phase := r.2 + fm
  let o := Slot.calcOutput P r.1 c eg_cnt true lfo_am phase
  ({ c with car := o.1 }, o.2)

def setFrequency (c : Channel) (block_fnum_ : Nat) : Channel :=
  if c.block_fnum = block_fnum_ then c
  else
    let c1 := { c with block_fnum := block_fnum_ }
    let c2 := { c1 with ksl_base := ksl_tab (c1.block_fnum >>> 5),
                        fc := fnumToIncrement ((c1.block_fnum : Int) * 2) }
    let c3 := { c2 with mod := c2.mod.updateFrequency c2 }
    { c3 with car := c3.car.updateFrequency c3 }

def setFrequencyLow (c : Channel) (value : Nat) : Channel :=
  setFrequency c ((c.block_fnum &&& 0x0F00) ||| value)

def setFrequencyHigh (c : Channel) (value : Nat) : Channel :=
  setFrequency c ((value <<< 8) ||| (c.block_fnum &&& 0x00FF))

def setSustain (c : Channel) (sustained : Bool) : Channel :=
  { c with sus := sustained }

def updateInstrumentPart (c : Channel) (part : Nat) (value : Nat) : Channel :=
  match part with
  | 0 =>
    let m := c.mod.setFrequencyMultiplier (value &&& 0x0F)
    let m := m.setKeyScaleRate (decide (value &&& 0x10 ≠ 0))
    let m := m.setEnvelopeSustained (decide (value &&& 0x20 ≠ 0))
    let m := m.setVibrato (decide (value &&& 0x40 ≠ 0))
    let m := m.setAmplitudeModulation (decide (value &&& 0x80 ≠ 0))
    { c with mod := m.updateGenerators c }
  | 1 =>
    let m := c.car.setFrequencyMultiplier (value &&& 0x0F)
    let m := m.setKeyScaleRate (decide (value &&& 0x10 ≠ 0))
    let m := m.setEnvelopeSustained (decide (value &&& 0x20 ≠ 0))
    let m := m.setVibrato (decide (value &&& 0x40 ≠ 0))
    let m := m.setAmplitudeModulation (decide (value &&& 0x80 ≠ 0))
    { c with car := m.updateGenerators c }
  | 2 =>
    let m := c.mod.setKeyScaleLevel c (value >>> 6)
    { c with mod := m.setTotalLevel c (value &&& 0x3F) }
  | 3 =>
    let m := c.mod.setWaveform ((value &&& 0x08) >>> 3)
    let m := m.setFeedbackShift (value &&& 0x07)
    let k := c.car.setKeyScaleLevel c (value >>> 6)
    { c with mod := m, car := k.setWaveform ((value &&& 0x10) >>> 4) }
  | 4 =>
    let m := c.mod.setAttackRate c (value >>> 4)
    { c with mod := m.setDecayRate c (value &&& 0x0F) }
  | 5 =>
    let k := c.car.setAttackRate c (value >>> 4)
    { c with car := k.setDecayRate c (value &&& 0x0F) }
  | 6 =>
    let m := c.mod.setSustainLevel (value >>> 4)
    { c with mod := m.setReleaseRate c (value &&& 0x0F) }
  | 7 =>
    let k := c.car.setSustainLevel (value >>> 4)
    { c with car := k.setReleaseRate c (value &&& 0x0F) }
  | _ => c

/-- Load the eight parts of an instrument, part 0 first. -/
def updateInstrument (c : Channel) (inst : Fin 8 → Nat) : Channel :=
  (List.finRange 8).foldl (fun c part => updateInstrumentPart c part.val (inst part)) c

end Channel

/-! ## The chip -/

/-- Sample buffers: one nullable pointer per melodic channel and drum. -/
abbrev Bufs := Fin (9 + 5) → Option (Nat → Int)

/-- The statement `bufs[k][i] += x`. -/
def addSample (bufs : Bufs) (k : Fin (9 + 5)) (i : Nat) (x : Int) : Bufs :=
  Function.update bufs k ((bufs k).map fun b => Function.update b i (b i + x))

/-- High hat phase. -/
def genPhaseHighHat (phaseM7 phaseC8 : Int) (noise_rng : Nat) : Int :=
  let hi : Bool :=
    if Int.land phaseC8 0x28 ≠ 0 then true
    else
      let bit7 := decide (Int.land phaseM7 0x80 ≠ 0)
      let bit3 := decide (Int.land phaseM7 0x08 ≠ 0)
      let bit2 := decide (Int.land phaseM7 0x04 ≠ 0)
      (xor bit2 bit7) || bit3
  if noise_rng &&& 1 ≠ 0 then
    if hi then ((0x200 ||| 0xD0 : Nat) : Int) else ((0xD0 >>> 2 : Nat) : Int)
  else
    if hi then ((0x200 ||| (0xD0 >>> 2) : Nat) : Int) else ((0xD0 : Nat) : Int)

/-- Snare drum phase. -/
def genPhaseSnare (phaseM7 : Int) (noise_rng : Nat) : Int :=
  Int.xor (Int.land phaseM7 0x100 + 0x100) (((noise_rng &&& 1) <<< 8 : Nat) : Int)

/-- Top cymbal phase. -/
def genPhaseCymbal (phaseM7 phaseC8 : Int) : Int :=
  if Int.land phaseC8 0x28 ≠ 0 then 0x300
  else
    let bit7 := decide (Int.land phaseM7 0x80 ≠ 0)
    let bit3 := decide (Int.land phaseM7 0x08 ≠ 0)
    let bit2 := decide (Int.land phaseM7 0x04 ≠ 0)
    if (bit2 != bit7) || bit3 then 0x300 else 0x100

/-- The noise generator step: `if (noise_rng & 1) noise_rng ^= 0x800302;`
then `noise_rng >>= 1`. -/
def noiseStep (noise_rng : Nat) : Nat :=
  (if noise_rng &&& 1 ≠ 0 then noise_rng ^^^ 0x800302 else noise_rng) >>> 1

/-- The amplitude-modulation counter step: `addQuantum`, then back to
`LFOAMIndex(0)` when the counter equals `LFOAMIndex(LFO_AM_TAB_ELEMENTS)`. -/
def lfoAmStep (lfo_am_cnt : Int) : Int :=
  let c := wrap32 (lfo_am_cnt + 1)
  if c = (LFO_AM_TAB_ELEMENTS : Int) * 2 ^ LFO_AM_BITS then 0 else c

/-- The table index `lfo_am_cnt.toInt()`. -/
def lfoAmIndex (lfo_am_cnt : Int) : Int := lfo_am_cnt >>> LFO_AM_BITS

/-- The vibrato phase `lfo_pm_cnt.toInt() & 7`. -/
def lfoPm (lfo_pm_cnt : Int) : Nat := ((lfo_pm_cnt >>> LFO_PM_BITS) % 8).toNat

/-- The vibrato counter step `lfo_pm_cnt.addQuantum()`. -/
def lfoPmStep (lfo_pm_cnt : Int) : Int := wrap32 (lfo_pm_cnt + 1)

namespace YM2413

def getNumMelodicChannels (s : YM2413) : Nat := if s.rhythm then 6 else 9

/-- Row `inst_tab[k]`. -/
def instrument (s : YM2413) (k : Nat) : Fin 8 → Nat :=
  if h : k < 19 then s.inst_tab ⟨k, h⟩ else fun _ => 0

/-- Store `f` applied to channel `ch`. -/
def modifyChannel (s : YM2413) (ch : Fin 9) (f : Channel → Channel) : YM2413 :=
  { s with channels := Function.update s.channels ch (f (s.channels ch)) }

/-- Update the user instrument; the loop over the melodic channels touches
each channel on its own. -/
def updateCustomInstrument (s : YM2413) (part : Fin 8) (value : Nat) : YM2413 :=
  let user := Function.update (s.inst_tab 0) part value
  let s1 := { s with inst_tab := Function.update s.inst_tab 0 user }
  let numMelodicChannels := s1.getNumMelodicChannels
  { s1 with channels := fun ch =>
      if ch.val < numMelodicChannels ∧ (s1.channels ch).instvol_r &&& 0xF0 = 0 then
        (s1.channels ch).updateInstrumentPart part.val value
      else s1.channels ch }

def setRhythmMode (s : YM2413) (rhythm_ : Bool) : YM2413 :=
  if s.rhythm = rhythm_ then s
  else
    let s := { s with rhythm := rhythm_ }
    if s.rhythm then
      let s := s.modifyChannel 6 fun ch6 => ch6.updateInstrument (s.instrument 16)
      let s := s.modifyChannel 7 fun ch7 => ch7.updateInstrument (s.instrument 17)
      let s := s.modifyChannel 7 fun ch7 =>
        { ch7 with mod := ch7.mod.setTotalLevel ch7 ((ch7.instvol_r >>> 4) <<< 2) }
      let s := s.modifyChannel 8 fun ch8 => ch8.updateInstrument (s.instrument 18)
      s.modifyChannel 8 fun ch8 =>
        { ch8 with mod := ch8.mod.setTotalLevel ch8 ((ch8.instvol_r >>> 4) <<< 2) }
    else
      let s := s.modifyChannel 6 fun ch6 =>
        ch6.updateInstrument (s.instrument (ch6.instvol_r >>> 4))
      let s := s.modifyChannel 7 fun ch7 =>
        ch7.updateInstrument (s.instrument (ch7.instvol_r >>> 4))
      let s := s.modifyChannel 8 fun ch8 =>
        ch8.updateInstrument (s.instrument (ch8.instvol_r >>> 4))
      let s := s.modifyChannel 6 fun ch6 => { ch6 with mod := ch6.mod.setKeyOff KEY_RHYTHM }
      let s := s.modifyChannel 6 fun ch6 => { ch6 with car := ch6.car.setKeyOff KEY_RHYTHM }
      let s := s.modifyChannel 7 fun ch7 => { ch7 with mod := ch7.mod.setKeyOff KEY_RHYTHM }
      let s := s.modifyChannel 7 fun ch7 => { ch7 with car := ch7.car.setKeyOff KEY_RHYTHM }
      let s := s.modifyChannel 8 fun ch8 => { ch8 with mod := ch8.mod.setKeyOff KEY_RHYTHM }
      s.modifyChannel 8 fun ch8 => { ch8 with car := ch8.car.setKeyOff KEY_RHYTHM }

def setRhythmFlags (s : YM2413) (flags : Nat) : YM2413 :=
  let s := s.setRhythmMode (decide (flags &&& 0x20 ≠ 0))
  if s.rhythm then
    let s := s.modifyChannel 6 fun c =>
      { c with mod := c.mod.setKeyOnOff KEY_RHYTHM (decide (flags &&& 0x10 ≠ 0)) }
    let s := s.modifyChannel 6 fun c =>
      { c with car := c.car.setKeyOnOff KEY_RHYTHM (decide (flags &&& 0x10 ≠ 0)) }
    let s := s.modifyChannel 7 fun c =>
      { c with mod := c.mod.setKeyOnOff KEY_RHYTHM (decide (flags &&& 0x01 ≠ 0)) }
    let s := s.modifyChannel 7 fun c =>
      { c with car := c.car.setKeyOnOff KEY_RHYTHM (decide (flags &&& 0x08 ≠ 0)) }
    let s := s.modifyChannel 8 fun c =>
      { c with mod := c.mod.setKeyOnOff KEY_RHYTHM (decide (flags &&& 0x04 ≠ 0)) }
    s.modifyChannel 8 fun c =>
      { c with car := c.car.setKeyOnOff KEY_RHYTHM (decide (flags &&& 0x02 ≠ 0)) }
  else s

/-- Channel addressed by a register: `(reg & 0x0F) % 9`. -/
def getChannelForReg (reg : Nat) : Fin 9 :=
  ⟨(reg &&& 0x0F) % 9, Nat.mod_lt _ (by decide)⟩

/-- The body of `writeReg` for an address inside the register mirror
`reg[0x40]`. -/
def writeRegAt (s : YM2413) (r : Fin 0x40) (v : Nat) : YM2413 :=
  let s := { s with reg := Function.update s.reg r v }
  if r.val &&& 0xF0 = 0x00 then
    if h : r.val &&& 0x0F < 8 then s.updateCustomInstrument ⟨r.val &&& 0x0F, h⟩ v
    else if r.val &&& 0x0F = 0x0E then s.setRhythmFlags v
    else s
  else if r.val &&& 0xF0 = 0x10 then
    s.modifyChannel (getChannelForReg r.val) fun ch => ch.setFrequencyLow v
  else if r.val &&& 0xF0 = 0x20 then
    let s := s.modifyChannel (getChannelForReg r.val) fun ch =>
      { ch with mod := ch.mod.setKeyOnOff KEY_MAIN (decide (v &&& 0x10 ≠ 0)) }
    let s := s.modifyChannel (getChannelForReg r.val) fun ch =>
      { ch with car := ch.car.setKeyOnOff KEY_MAIN (decide (v &&& 0x10 ≠ 0)) }
    let s := s.modifyChannel (getChannelForReg r.val) fun ch =>
      ch.setSustain (decide (v &&& 0x20 ≠ 0))
    s.modifyChannel (getChannelForReg r.val) fun ch => ch.setFrequencyHigh (v &&& 0x0F)
  else if r.val &&& 0xF0 = 0x30 then
    let old_instvol := (s.channels (getChannelForReg r.val)).instvol_r
    let s := s.modifyChannel (getChannelForReg r.val) fun ch => { ch with instvol_r := v }
    let s := s.modifyChannel (getChannelForReg r.val) fun ch =>
      { ch with car := ch.car.setTotalLevel ch ((v &&& 0x0F) <<< 2) }
    let chan := (r.val &&& 0x0F) % 9
    if chan ≥ s.getNumMelodicChannels then
      if chan ≥ 7 then
        s.modifyChannel (getChannelForReg r.val) fun ch =>
          { ch with mod := ch.mod.setTotalLevel ch ((ch.instvol_r >>> 4) <<< 2) }
      else s
    else
      if old_instvol &&& 0xF0 ≠ v &&& 0xF0 then
        s.modifyChannel (getChannelForReg r.val) fun ch =>
          ch.updateInstrument (s.instrument (v >>> 4))
      else s
  else s

/-- The register write `writeReg(r, v)`.  The first statement, `reg[r] = v`,
stores into the mirror `reg[0x40]`; an address outside the mirror has no
element to store into, and the write has no defined result. -/
def writeReg (s : YM2413) (r v : Nat) : Option YM2413 :=
  if h : r < 0x40 then some (writeRegAt s ⟨r, h⟩ v) else none

/-- The register read `peekReg(r)`, an element of the mirror `reg[0x40]`. -/
def peekReg (s : YM2413) (r : Nat) : Option Nat :=
  if h : r < 0x40 then some (s.reg ⟨r, h⟩) else none

def resetOperators (s : YM2413) : YM2413 :=
  { s with channels := fun ch =>
      let c := s.channels ch
      { c with mod := c.mod.resetOperators, car := c.car.resetOperators } }

/-- The addresses `0x3F` down to `0x10`, in the order `reset` writes them. -/
def resetOrder : List (Fin 0x40) :=
  ((List.finRange 0x40).filter fun i => 0x10 ≤ i.val).reverse

/-- The first part of `reset`: counters cleared, instrument table set up from
the ROM table. -/
def resetStart (s : YM2413) : YM2413 :=
  let s := { s with eg_cnt := 0, noise_rng := 1, idleSamples := 0 }
  { s with inst_tab := fun instrument part => table instrument.val part.val }

def reset (s : YM2413) : YM2413 :=
  let s := s.resetStart
  let s := s.writeRegAt 0x0F 0
  let s := resetOrder.foldl (fun s i => s.writeRegAt i 0) s
  s.resetOperators

/-- The state built by the constructor before it calls `reset`: registers
cleared, counters zero; `inst_tab` and `idleSamples` are assigned by `reset`
before they are read. -/
def init : YM2413 :=
  { channels := fun _ => Channel.new, eg_cnt := 0, noise_rng := 0, idleSamples := 0,
    lfo_pm_cnt := 0, lfo_am_cnt := 0, inst_tab := fun _ _ => 0, reg := fun _ => 0,
    rhythm := false }

/-- The constructor `YM2413::YM2413()`. -/
def new : YM2413 := reset init

def getAmplificationFactor : Int := ((1 <<< 4 : Nat) : Int)

/-- The channels `0 .. n - 1`, in order. -/
def melodicChannels (n : Nat) : List (Fin 9) :=
  (List.finRange 9).filter fun ch => ch.val < n

/-- One round of the activity scan: an active carrier sets bit `ch` of
`channelActiveBits`, an inactive one nulls buffer `buf`. -/
def markCarrier (s : YM2413) (buf : Fin 9 → Fin (9 + 5)) (st : Nat × Bufs) (ch : Fin 9) :
    Nat × Bufs :=
  if (s.channels ch).car.isActive then (st.1 ||| (1 <<< ch.val), st.2)
  else (st.1, Function.update st.2 (buf ch) none)

/-- The same for the modulators of channels 7 and 8 (bits `ch + 9`). -/
def markModulator (s : YM2413) (ch : Fin 9) (buf : Fin (9 + 5)) (st : Nat × Bufs) :
    Nat × Bufs :=
  if (s.channels ch).mod.isActive then (st.1 ||| (1 <<< (ch.val + 9)), st.2)
  else (st.1, Function.update st.2 buf none)

/-- The first part of `generateChannels`: `channelActiveBits` and the nulled
buffers. -/
def scanActive (s : YM2413) (bufs : Bufs) : Nat × Bufs :=
  let st := (melodicChannels s.getNumMelodicChannels).foldl
    (markCarrier s fun ch => Fin.castLE (by decide) ch) (0, bufs)
  if s.rhythm then
    let b := Function.update (Function.update (Function.update st.2 6 none) 7 none) 8 none
    let st := [(6 : Fin 9), 7, 8].foldl
      (markCarrier s fun ch => ⟨(ch.val + 3) % (9 + 5), Nat.mod_lt _ (by decide)⟩) (st.1, b)
    let st := markModulator s 7 12 st
    markModulator s 8 13 st
  else
    (st.1, Function.update (Function.update (Function.update (Function.update
      (Function.update st.2 9 none) 10 none) 11 none) 12 none) 13 none)

/-- One round of the melodic loop of a sample. -/
def melodicStep (P : Params) (eg_cnt lfo_pm lfo_am channelActiveBits i : Nat)
    (st : (Fin 9 → Channel) × Bufs) (ch : Fin 9) : (Fin 9 → Channel) × Bufs :=
  let channel := st.1 ch
  let m := channel.mod.calc_slot_mod P channel eg_cnt false lfo_pm lfo_am
  let channel := { channel with mod := m.1 }
  if (channelActiveBits >>> ch.val) &&& 1 ≠ 0 then
    let o := channel.calcOutput P eg_cnt lfo_pm lfo_am m.2
    (Function.update st.1 ch o.1, addSample st.2 (Fin.castLE (by decide) ch) i o.2)
  else
    (Function.update st.1 ch channel, st.2)

/-- A drum played by a carrier: `if (active) bufs[k][i] += 2 * car.calcOutput(...)`. -/
def drumCarrier (P : Params) (active : Bool) (eg_cnt lfo_am i : Nat) (k : Fin (9 + 5))
    (phase : Int) (st : Channel × Bufs) : Channel × Bufs :=
  if active then
    let o := st.1.car.calcOutput P st.1 eg_cnt true lfo_am phase
    ({ st.1 with car := o.1 }, addSample st.2 k i (2 * o.2))
  else st

/-- A drum played by a modulator: `if (active) bufs[k][i] += 2 * mod.calcOutput(...)`. -/
def drumModulator (P : Params) (active : Bool) (eg_cnt lfo_am i : Nat) (k : Fin (9 + 5))
    (phase : Int) (st : Channel × Bufs) : Channel × Bufs :=
  if active then
    let o := st.1.mod.calcOutput P st.1 eg_cnt true lfo_am phase
    ({ st.1 with mod := o.1 }, addSample st.2 k i (2 * o.2))
  else st

/-- The bass drum: channel 6 as a two-operator channel whose modulator runs
with `carrier = true`; the output is doubled. -/
def bassDrum (P : Params) (active : Bool) (eg_cnt lfo_pm lfo_am i : Nat)
    (st : Channel × Bufs) : Channel × Bufs :=
  let m := st.1.mod.calc_slot_mod P st.1 eg_cnt true lfo_pm lfo_am
  let channel6 := { st.1 with mod := m.1 }
  if active then
    let o := channel6.calcOutput P eg_cnt lfo_pm lfo_am m.2
    (o.1, addSample st.2 9 i (2 * o.2))
  else (channel6, st.2)

/-- The rhythm section of a sample: bass drum on channel 6, the four phase
generators of channels 7 and 8, then snare, top cymbal, high hat and tom-tom
on the operators of channels 7 and 8. -/
def rhythmStep (P : Params) (noise_rng eg_cnt lfo_pm lfo_am channelActiveBits i : Nat)
    (st : (Fin 9 → Channel) × Bufs) : (Fin 9 → Channel) × Bufs :=
  let bd := bassDrum P (decide (channelActiveBits &&& (1 <<< 6) ≠ 0)) eg_cnt lfo_pm lfo_am i
    (st.1 6, st.2)
  let c7 := st.1 7
  let pC7 := c7.car.calc_phase c7 lfo_pm
  let c7 := { c7 with car := pC7.1 }
  let pM7 := c7.mod.calc_phase c7 lfo_pm
  let c7 := { c7 with mod := pM7.1 }
  let c8 := st.1 8
  let pC8 := c8.car.calc_phase c8 lfo_pm
  let c8 := { c8 with car := pC8.1 }
  let pM8 := c8.mod.calc_phase c8 lfo_pm
  let c8 := { c8 with mod := pM8.1 }
  let phaseM7 := pM7.2
  let phaseC8 := pC8.2
  let phaseM8 := pM8.2
  let sd := drumCarrier P (decide (channelActiveBits &&& (1 <<< 7) ≠ 0)) eg_cnt lfo_am i 10
    (genPhaseSnare phaseM7 noise_rng) (c7, bd.2)
  let tc := drumCarrier P (decide (channelActiveBits &&& (1 <<< 8) ≠ 0)) eg_cnt lfo_am i 11
    (genPhaseCymbal phaseM7 phaseC8) (c8, sd.2)
  let hh := drumModulator P (decide (channelActiveBits &&& (1 <<< (7 + 9)) ≠ 0)) eg_cnt lfo_am i 12
    (genPhaseHighHat phaseM7 phaseC8 noise_rng) (sd.1, tc.2)
  let tom := drumModulator P (decide (channelActiveBits &&& (1 <<< (8 + 9)) ≠ 0)) eg_cnt lfo_am i 13
    phaseM8 (tc.1, hh.2)
  (Function.update (Function.update (Function.update st.1 6 bd.1) 7 hh.1) 8 tom.1, tom.2)

/-- The body of the sample loop for sample `i`. -/
def sample (P : Params) (channelActiveBits i : Nat) (st : YM2413 × Bufs) : YM2413 × Bufs :=
  let s := st.1
  let s := { s with lfo_am_cnt := lfoAmStep s.lfo_am_cnt }
  let lfo_am := lfo_am_table (lfoAmIndex s.lfo_am_cnt).toNat >>> 1
  let lfo_pm := lfoPm s.lfo_pm_cnt
  let m := (melodicChannels s.getNumMelodicChannels).foldl
    (melodicStep P s.eg_cnt lfo_pm lfo_am channelActiveBits i) (s.channels, st.2)
  let r :=
    if s.rhythm then rhythmStep P s.noise_rng s.eg_cnt lfo_pm lfo_am channelActiveBits i m
    else m
  ({ s with channels := r.1, lfo_pm_cnt := lfoPmStep s.lfo_pm_cnt,
            eg_cnt := (s.eg_cnt + 1) % 2 ^ 32, noise_rng := noiseStep s.noise_rng }, r.2)

/-- The loop `for (i = 0; i < num; ++i)`: `k` samples are left, the next index
is `i`. -/
def sampleLoop (P : Params) (channelActiveBits : Nat) :
    Nat → Nat → YM2413 × Bufs → YM2413 × Bufs
  | 0, _, st => st
  | k + 1, i, st => sampleLoop P channelActiveBits k (i + 1) (sample P channelActiveBits i st)

/-- Generate `num` samples into the buffers.  The caller hands in 14 buffers;
the result holds the chip state and the buffers, nulled where the routine
nulls them. -/
def generateChannels (P : Params) (s : YM2413) (bufs : Fin (9 + 5) → Nat → Int) (num : Nat) :
    YM2413 × Bufs :=
  let st := scanActive s fun k => some (bufs k)
  let channelActiveBits := st.1
  if channelActiveBits ≠ 0 then
    sampleLoop P channelActiveBits num 0 ({ s with idleSamples := 0 }, st.2)
  else if s.idleSamples > P.CLOCK_FREQ / (72 * 5) then
    (s, st.2)
  else
    sampleLoop P channelActiveBits num 0
      ({ s with idleSamples := (s.idleSamples + num) % 2 ^ 32 }, st.2)

end YM2413

/-! ## The tables on the host -/

/-- The values of `floor((1 << 16) / pow(2, (x + 1) * (ENV_STEP / 4.0) / 8.0))`
for `x = 0 .. 255`, that is the integer part of `2 ^ (16 - (x + 1) / 256)`. -/
def tlM_data : List Nat :=
  [ 65358, 65182, 65005, 64830, 64654, 64479, 64305, 64131, 63958, 63785, 63612, 63440,
    63269, 63098, 62927, 62757, 62587, 62418, 62249, 62081, 61913, 61746, 61579, 61412,
    61246, 61081, 60915, 60751, 60586, 60423, 60259, 60096, 59934, 59772, 59610, 59449,
    59288, 59128, 58968, 58809, 58650, 58491, 58333, 58175, 58018, 57861, 57704, 57548,
    57393, 57238, 57083, 56928, 56775, 56621, 56468, 56315, 56163, 56011, 55860, 55709,
    55558, 55408, 55258, 55108, 54959, 54811, 54663, 54515, 54367, 54220, 54074, 53928,
    53782, 53636, 53491, 53347, 53202, 53059, 52915, 52772, 52629, 52487, 52345, 52204,
    52062, 51922, 51781, 51641, 51502, 51362, 51223, 51085, 50947, 50809, 50672, 50535,
    50398, 50262, 50126, 49990, 49855, 49720, 49586, 49452, 49318, 49185, 49052, 48919,
    48787, 48655, 48523, 48392, 48261, 48131, 48001, 47871, 47741, 47612, 47484, 47355,
    47227, 47099, 46972, 46845, 46718, 46592, 46466, 46340, 46215, 46090, 45966, 45841,
    45717, 45594, 45470, 45347, 45225, 45103, 44981, 44859, 44738, 44617, 44496, 44376,
    44256, 44136, 44017, 43898, 43779, 43661, 43543, 43425, 43307, 43190, 43074, 42957,
    42841, 42725, 42610, 42494, 42379, 42265, 42151, 42037, 41923, 41810, 41697, 41584,
    41471, 41359, 41247, 41136, 41025, 40914, 40803, 40693, 40583, 40473, 40363, 40254,
    40146, 40037, 39929, 39821, 39713, 39606, 39499, 39392, 39285, 39179, 39073, 38967,
    38862, 38757, 38652, 38548, 38443, 38339, 38236, 38132, 38029, 37926, 37824, 37722,
    37620, 37518, 37416, 37315, 37214, 37114, 37013, 36913, 36814, 36714, 36615, 36516,
    36417, 36319, 36220, 36122, 36025, 35927, 35830, 35733, 35637, 35540, 35444, 35348,
    35253, 35157, 35062, 34968, 34873, 34779, 34685, 34591, 34497, 34404, 34311, 34218,
    34126, 34033, 33941, 33850, 33758, 33667, 33576, 33485, 33394, 33304, 33214, 33124,
    33035, 32945, 32856, 32768 ]

/-- The values of `round(log(sin(((i * 2) + 1) * M_PI / SIN_LEN)) * (-256.0 / log(2.0)))`
for `i = 0 .. 255` in IEEE-754 double arithmetic. -/
def sinN_data : List Nat :=
  [ 2137, 1731, 1543, 1419, 1326, 1252, 1190, 1137, 1091, 1050, 1013, 979, 949, 920, 894, 869,
    846, 825, 804, 785, 767, 749, 732, 717, 701, 687, 672, 659, 646, 633, 621, 609,
    598, 587, 576, 566, 556, 546, 536, 527, 518, 509, 501, 492, 484, 476, 468, 461,
    453, 446, 439, 432, 425, 418, 411, 405, 399, 392, 386, 380, 375, 369, 363, 358,
    352, 347, 341, 336, 331, 326, 321, 316, 311, 307, 302, 297, 293, 289, 284, 280,
    276, 271, 267, 263, 259, 255, 251, 248, 244, 240, 236, 233, 229, 226, 222, 219,
    215, 212, 209, 205, 202, 199, 196, 193, 190, 187, 184, 181, 178, 175, 172, 169,
    167, 164, 161, 159, 156, 153, 151, 148, 146, 143, 141, 138, 136, 134, 131, 129,
    127, 125, 122, 120, 118, 116, 114, 112, 110, 108, 106, 104, 102, 100, 98, 96,
    94, 92, 91, 89, 87, 85, 83, 82, 80, 78, 77, 75, 74, 72, 70, 69,
    67, 66, 64, 63, 62, 60, 59, 57, 56, 55, 53, 52, 51, 49, 48, 47,
    46, 45, 43, 42, 41, 40, 39, 38, 37, 36, 35, 34, 33, 32, 31, 30,
    29, 28, 27, 26, 25, 24, 23, 23, 22, 21, 20, 20, 19, 18, 17, 17,
    16, 15, 15, 14, 13, 13, 12, 12, 11, 10, 10, 9, 9, 8, 8, 7,
    7, 7, 6, 6, 5, 5, 5, 4, 4, 4, 3, 3, 3, 2, 2, 2,
    2, 1, 1, 1, 1, 1, 1, 1, 0, 0, 0, 0, 0, 0, 0, 0 ]

/-- The parameters of the emulated machine: the two table seeds above and the
chip clock `CLOCK_FREQ = 3579545` Hz of `YM2413Core`. -/
def hostParams : Params :=
  { tlM := fun x => tlM_data.getD x 0, sinN := fun i => sinN_data.getD i 0,
    CLOCK_FREQ := 3579545 }

/-! ## Saved state

`serialize` with a loading archive reads the persisted members into a
constructed object; the functions below give the object after loading what
was saved from `saved`. -/

/-- Load a slot: `waveform` goes through `setWaveform`, the persisted members
are read back, the remaining members are those of a constructed slot. -/
def Slot.serialize (saved : Slot) : Slot :=
  let s := Slot.new.setWaveform (if saved.wavetable = 0 * SIN_LEN then 0 else 1)
  { s with phase := saved.phase, TL := saved.TL, egout := saved.egout, sl := saved.sl,
           state := saved.state, op1_out0 := saved.op1_out0, op1_out1 := saved.op1_out1,
           eg_sustain := saved.eg_sustain, fb_shift := saved.fb_shift, key := saved.key,
           ar := saved.ar, dr := saved.dr, rr := saved.rr, KSR := saved.KSR, ksl := saved.ksl,
           mul := saved.mul, AMmask := saved.AMmask, vib := saved.vib }

/-- Load a channel: both slots, the persisted members, then `updateFrequency`
on the modulator and on the carrier. -/
def Channel.serialize (saved : Channel) : Channel :=
  let c := { Channel.new with mod := saved.mod.serialize, car := saved.car.serialize }
  let c := { c with instvol_r := saved.instvol_r, block_fnum := saved.block_fnum,
                    fc := saved.fc, ksl_base := saved.ksl_base, sus := saved.sus }
  let c := { c with mod := c.mod.updateFrequency c }
  { c with car := c.car.updateFrequency c }

/-- Load the chip into a constructed chip: registers, the user instrument,
the channels and the counters; `idleSamples` is not persisted. -/
def YM2413.serialize (saved : YM2413) : YM2413 :=
  let s := YM2413.new
  { s with reg := saved.reg,
           inst_tab := Function.update s.inst_tab 0 (saved.inst_tab 0),
           channels := fun ch => (saved.channels ch).serialize,
           eg_cnt := saved.eg_cnt, noise_rng := saved.noise_rng,
           lfo_am_cnt := saved.lfo_am_cnt, lfo_pm_cnt := saved.lfo_pm_cnt,
           rhythm := saved.rhythm }

/-! ## Reachable states -/

/-- The chip states a host can produce: construction, then register writes
(address and value are bytes), resets and sample generation. -/
inductive Reachable (P : Params) : YM2413 → Prop
  | new : Reachable P YM2413.new
  | writeReg {s s1 : YM2413} (r v : Nat) :
      Reachable P s → v < 256 → s.writeReg r v = some s1 → Reachable P s1
  | reset {s : YM2413} : Reachable P s → Reachable P s.reset
  | generateChannels {s : YM2413} (bufs : Fin (9 + 5) → Nat → Int) (num : Nat) :
      Reachable P s → Reachable P (YM2413.generateChannels P s bufs num).1

/-! ## Linear maps on bit vectors

The noise step is linear over GF(2).  A linear map is stored as the list of
the images of the unit vectors `1, 2, 4, ...`; long runs of the noise
generator are computed by repeated squaring. -/

/-- Apply the linear map with columns `cols` to the bit vector `x`. -/
def linApply : List Nat → Nat → Nat
  | [], _ => 0
  | c :: cs, x => (if x % 2 = 1 then c else 0) ^^^ linApply cs (x / 2)

/-- Columns of the composition "first `B`, then `A`". -/
def matMul (A B : List Nat) : List Nat := B.map (linApply A)

/-- The unit vectors `2 ^ k, 2 ^ (k + 1), ...` (`n` of them). -/
def unitCols : Nat → Nat → List Nat
  | _, 0 => []
  | k, n + 1 => 2 ^ k :: unitCols (k + 1) n

/-- The noise step as a linear map on 23 bits: bit 0 is sent to
`0x800302 >> 1`, bit `i + 1` to bit `i`. -/
def noiseMat : List Nat := (0x800302 >>> 1) :: unitCols 0 22

/-- Square-and-multiply: with `M` the map of `m` noise steps, the result is
`x` after `m * (n % 2 ^ fuel)` steps. -/
def noiseFast : Nat → List Nat → Nat → Nat → Nat
  | 0, _, _, x => x
  | fuel + 1, M, n, x =>
    noiseFast fuel (matMul M M) (n / 2) (if n % 2 = 1 then linApply M x else x)

/-! ## Channel invariants -/

/-- A property of channels that every channel operation of the chip keeps. -/
structure ChannelInvariant (I : Channel → Prop) : Prop where
  updateInstrumentPart : ∀ (c : Channel) (part value : Nat), I c →
    I (c.updateInstrumentPart part value)
  setTotalLevel_mod : ∀ (c : Channel) (value : Nat), I c →
    I { c with mod := c.mod.setTotalLevel c value }
  setTotalLevel_car : ∀ (c : Channel) (value : Nat), I c →
    I { c with car := c.car.setTotalLevel c value }
  setKeyOn_mod : ∀ (c : Channel) (part : Nat), I c → I { c with mod := c.mod.setKeyOn part }
  setKeyOn_car : ∀ (c : Channel) (part : Nat), I c → I { c with car := c.car.setKeyOn part }
  setKeyOff_mod : ∀ (c : Channel) (part : Nat), I c → I { c with mod := c.mod.setKeyOff part }
  setKeyOff_car : ∀ (c : Channel) (part : Nat), I c → I { c with car := c.car.setKeyOff part }
  setFrequency : ∀ (c : Channel) (block_fnum_ : Nat), I c → I (c.setFrequency block_fnum_)
  setSustain : ∀ (c : Channel) (sustained : Bool), I c → I (c.setSustain sustained)
  setInstvol : ∀ (c : Channel) (v : Nat), I c → I { c with instvol_r := v }
  resetOperators : ∀ (c : Channel), I c →
    I { c with mod := c.mod.resetOperators, car := c.car.resetOperators }
  calc_slot_mod : ∀ (P : Params) (c : Channel) (eg_cnt : Nat) (carrier : Bool)
    (lfo_pm lfo_am : Nat), I c →
    I { c with mod := (c.mod.calc_slot_mod P c eg_cnt carrier lfo_pm lfo_am).1 }
  calcOutput : ∀ (P : Params) (c : Channel) (eg_cnt lfo_pm lfo_am : Nat) (fm : Int), I c →
    I (c.calcOutput P eg_cnt lfo_pm lfo_am fm).1
  calc_phase_mod : ∀ (c : Channel) (lfo_pm : Nat), I c →
    I { c with mod := (c.mod.calc_phase c lfo_pm).1 }
  calc_phase_car : ∀ (c : Channel) (lfo_pm : Nat), I c →
    I { c with car := (c.car.calc_phase c lfo_pm).1 }
  slotOutput_mod : ∀ (P : Params) (c : Channel) (eg_cnt lfo_am : Nat) (phase : Int), I c →
    I { c with mod := (c.mod.calcOutput P c eg_cnt true lfo_am phase).1 }
  slotOutput_car : ∀ (P : Params) (c : Channel) (eg_cnt lfo_am : Nat) (phase : Int), I c →
    I { c with car := (c.car.calcOutput P c eg_cnt true lfo_am phase).1 }

/-! ## The envelope range -/

/-- The envelope of a slot is in range: `egout` within `[0, 255]`, the sustain
level at most 120, below 120 while decaying and, when `strict` holds, at 255
while off. -/
def Slot.EnvOK (strict : Prop) (s : Slot) : Prop :=
  0 ≤ s.egout ∧ s.egout ≤ 255 ∧ s.sl ≤ 120 ∧
    (s.state = .EG_DECAY → s.egout < 120) ∧ (strict → s.state = .EG_OFF → s.egout = 255)

def Channel.EnvOK (strict : Prop) (c : Channel) : Prop :=
  c.mod.EnvOK strict ∧ c.car.EnvOK strict

/-- Two slots with the same envelope level, envelope state and sustain level. -/
def Slot.SameEnv (a b : Slot) : Prop :=
  a.egout = b.egout ∧ a.state = b.state ∧ a.sl = b.sl

/-! ## Channel properties per index -/

/-- A family of properties of the channels, one per channel index, kept by
every channel operation of the chip other than the rhythm key switches.  The
operations carry the arguments the chip calls them with. -/
structure ChannelFrame (I : Fin 9 → Channel → Prop) : Prop where
  updateInstrumentPart : ∀ (k : Fin 9) (c : Channel) (part value : Nat), I k c →
    I k (c.updateInstrumentPart part value)
  setVolume_mod : ∀ (k : Fin 9) (c : Channel), I k c →
    I k { c with mod := c.mod.setTotalLevel c ((c.instvol_r >>> 4) <<< 2) }
  setVolume_car : ∀ (k : Fin 9) (c : Channel) (v : Nat), I k c →
    I k { c with car := c.car.setTotalLevel c ((v &&& 0x0F) <<< 2) }
  setInstvol : ∀ (k : Fin 9) (c : Channel) (v : Nat), v < 256 → I k c →
    I k { c with instvol_r := v }
  keyMain_mod : ∀ (k : Fin 9) (c : Channel) (b : Bool), I k c →
    I k { c with mod := c.mod.setKeyOnOff KEY_MAIN b }
  keyMain_car : ∀ (k : Fin 9) (c : Channel) (b : Bool), I k c →
    I k { c with car := c.car.setKeyOnOff KEY_MAIN b }
  setFrequencyLow : ∀ (k : Fin 9) (c : Channel) (v : Nat), v < 256 → I k c →
    I k (c.setFrequencyLow v)
  setFrequencyHigh : ∀ (k : Fin 9) (c : Channel) (v : Nat), I k c →
    I k (c.setFrequencyHigh (v &&& 0x0F))
  setSustain : ∀ (k : Fin 9) (c : Channel) (sustained : Bool), I k c →
    I k (c.setSustain sustained)
  resetOperators : ∀ (k : Fin 9) (c : Channel), I k c →
    I k { c with mod := c.mod.resetOperators, car := c.car.resetOperators }
  calc_slot_mod : ∀ (k : Fin 9) (P : Params) (c : Channel) (eg_cnt : Nat) (carrier : Bool)
    (lfo_pm lfo_am : Nat), I k c →
    I k { c with mod := (c.mod.calc_slot_mod P c eg_cnt carrier lfo_pm lfo_am).1 }
  calcOutput : ∀ (k : Fin 9) (P : Params) (c : Channel) (eg_cnt lfo_pm lfo_am : Nat) (fm : Int),
    I k c → I k (c.calcOutput P eg_cnt lfo_pm lfo_am fm).1
  calc_phase_mod : ∀ (k : Fin 9) (c : Channel) (lfo_pm : Nat), I k c →
    I k { c with mod := (c.mod.calc_phase c lfo_pm).1 }
  calc_phase_car : ∀ (k : Fin 9) (c : Channel) (lfo_pm : Nat), I k c →
    I k { c with car := (c.car.calc_phase c lfo_pm).1 }
  slotOutput_mod : ∀ (k : Fin 9) (P : Params) (c : Channel) (eg_cnt lfo_am : Nat) (phase : Int),
    I k c → I k { c with mod := (c.mod.calcOutput P c eg_cnt true lfo_am phase).1 }
  slotOutput_car : ∀ (k : Fin 9) (P : Params) (c : Channel) (eg_cnt lfo_am : Nat) (phase : Int),
    I k c → I k { c with car := (c.car.calcOutput P c eg_cnt true lfo_am phase).1 }

/-! ## Volume and instrument -/

/-- Two channels that agree on the modulator and on the frequency members,
the carrier of the second being the carrier of the first with total level
`v`. -/
def Channel.SameButVolume (v : Nat) (a b : Channel) : Prop :=
  b.mod = a.mod ∧ b.car = a.car.setTotalLevel a v ∧ b.block_fnum = a.block_fnum ∧
    b.fc = a.fc ∧ b.ksl_base = a.ksl_base ∧ b.sus = a.sus

/-! ## Runs of register writes -/

/-- A run of register writes `(address, value)`, first to last; the result is
defined when every write of the run is. -/
def YM2413.writeRegs (s : YM2413) : List (Nat × Nat) → Option YM2413
  | [] => some s
  | rv :: l =>
    match s.writeReg rv.1 rv.2 with
    | some s1 => YM2413.writeRegs s1 l
    | none => none

/-! ## Runs of sample generation -/

/-- A run of `generateChannels` calls, each with its buffers and its number
of samples; the result is the chip state after the last call. -/
def YM2413.generateRun (P : Params) (s : YM2413) :
    List ((Fin (9 + 5) → Nat → Int) × Nat) → YM2413
  | [] => s
  | c :: l => YM2413.generateRun P (YM2413.generateChannels P s c.1 c.2).1 l

/-- Both operators of the channel are off. -/
def Channel.Silent (c : Channel) : Prop :=
  c.car.isActive = false ∧ c.mod.isActive = false

/-! ## Envelope runs, levels and frequency members -/

/-- The envelope of a slot over `k` consecutive samples, the envelope counter
starting at `eg_cnt` and growing by one (modulo `2 ^ 32`) per sample. -/
def Slot.envelopeSteps (channel : Channel) (carrier : Bool) : Nat → Nat → Slot → Slot
  | 0, _, s => s
  | k + 1, eg_cnt, s =>
    Slot.envelopeSteps channel carrier k ((eg_cnt + 1) % 2 ^ 32)
      (s.calc_envelope channel eg_cnt carrier)

/-- The level and frequency members of a slot: `TL`, `TLL`, `ksl`, `mul`,
`freq`. -/
def Slot.levels (s : Slot) : Int × Int × Nat × Nat × Int :=
  (s.TL, s.TLL, s.ksl, s.mul, s.freq)

/-- The derived members of a slot agree with the channel's `ksl_base` and
`fc`: `TLL = TL + (ksl_base >> ksl)` and `freq = fc * mul`. -/
def Slot.LevelOK (ksl_base : Nat) (fc : Int) (s : Slot) : Prop :=
  s.TLL = s.TL + ((ksl_base >>> s.ksl : Nat) : Int) ∧ s.freq = fc * s.mul

/-- The slot part of the channel property: the derived members are up to
date and the total level is `m * t` for some `t <= n`. -/
def Slot.TLOK (k : Nat) (f : Int) (n m : Nat) (s : Slot) : Prop :=
  s.LevelOK k f ∧ ∃ t : Nat, t ≤ n ∧ s.TL = (m : Int) * (t : Int)

/-- The frequency members of a channel are derived from `block_fnum`, the
total levels have the form the register writes give them (`2 * t` with
`t <= 63` for the modulator, `8 * vol` with `vol <= 15` for the carrier), and
the derived members of both slots are up to date. -/
def Channel.LevelOK (c : Channel) : Prop :=
  c.instvol_r < 256 ∧ c.block_fnum < 4096 ∧ c.ksl_base = ksl_tab (c.block_fnum >>> 5) ∧
    c.fc = fnumToIncrement ((c.block_fnum : Int) * 2) ∧
    c.mod.TLOK c.ksl_base c.fc 63 2 ∧ c.car.TLOK c.ksl_base c.fc 15 8

/-! # Theorems -/

/-! ## What a register write leaves alone -/

namespace YM2413

theorem setRhythmMode_shape (s : YM2413) (b : Bool) :
    ∃ chs r, s.setRhythmMode b = { s with channels := chs, rhythm := r } := by
  unfold setRhythmMode; split
  · exact ⟨_, _, rfl⟩
  · dsimp only; split <;> exact ⟨_, _, rfl⟩

theorem setRhythmFlags_shape (s : YM2413) (v : Nat) :
    ∃ chs r, s.setRhythmFlags v = { s with channels := chs, rhythm := r } := by
  obtain ⟨chs, r, h⟩ := setRhythmMode_shape s (decide (v &&& 0x20 ≠ 0))
  unfold setRhythmFlags; dsimp only; rw [h]; split <;> exact ⟨_, _, rfl⟩

/-- A register write stores the value in the mirror and, besides, changes
only channels, the rhythm flag and the instrument table. -/
theorem writeRegAt_shape (s : YM2413) (r : Fin 0x40) (v : Nat) :
    ∃ chs b tab, s.writeRegAt r v =
      { s with reg := Function.update s.reg r v, channels := chs, rhythm := b,
               inst_tab := tab } := by
  unfold writeRegAt; dsimp only
  split_ifs
  · exact ⟨_, _, _, rfl⟩
  · obtain ⟨chs, b, h⟩ := setRhythmFlags_shape { s with reg := Function.update s.reg r v } v
    rw [h]; exact ⟨_, _, _, rfl⟩
  all_goals exact ⟨_, _, _, rfl⟩

theorem writeRegAt_reg (s : YM2413) (r : Fin 0x40) (v : Nat) :
    (s.writeRegAt r v).reg = Function.update s.reg r v := by
  obtain ⟨chs, b, tab, h⟩ := writeRegAt_shape s r v
  rw [h]

/-- Any quantity that does not look at the mirror, the channels, the rhythm
flag or the instrument table survives a register write. -/
theorem writeRegAt_frame {α : Type} (g : YM2413 → α)
    (hg : ∀ (s : YM2413) reg chs b tab,
      g { s with reg := reg, channels := chs, rhythm := b, inst_tab := tab } = g s)
    (s : YM2413) (r : Fin 0x40) (v : Nat) : g (s.writeRegAt r v) = g s := by
  obtain ⟨chs, b, tab, h⟩ := writeRegAt_shape s r v
  rw [h]; exact hg s _ _ _ _

theorem addr_not_instrument :
    ∀ r : Fin 0x40, 8 ≤ r.val → ¬ (r.val &&& 0xF0 = 0x00 ∧ r.val &&& 0x0F < 8) := by
  decide

theorem setRhythmFlags_inst_tab (s : YM2413) (v : Nat) :
    (s.setRhythmFlags v).inst_tab = s.inst_tab := by
  obtain ⟨chs, r, h⟩ := setRhythmFlags_shape s v
  rw [h]

/-- Only the addresses `0x00 .. 0x07` change the instrument table. -/
theorem writeRegAt_inst_tab (s : YM2413) (r : Fin 0x40) (v : Nat) (hr : 8 ≤ r.val) :
    (s.writeRegAt r v).inst_tab = s.inst_tab := by
  have hno := addr_not_instrument r hr
  unfold writeRegAt; dsimp only
  split_ifs with h1 h2 h3
  · exact absurd ⟨h1, h2⟩ hno
  · rw [setRhythmFlags_inst_tab]
  all_goals rfl

/-- The registers after a run of zero writes. -/
theorem foldl_writeRegAt_reg (l : List (Fin 0x40)) (s : YM2413) (j : Fin 0x40) :
    (l.foldl (fun s i => s.writeRegAt i 0) s).reg j = if j ∈ l then 0 else s.reg j := by
  induction l generalizing s with
  | nil => simp
  | cons a l ih =>
    rw [List.foldl_cons, ih, writeRegAt_reg]
    by_cases hj : j ∈ l
    · simp [hj]
    · by_cases hja : j = a
      · subst hja; simp [hj]
      · simp [hj, hja]

theorem foldl_writeRegAt_frame {α : Type} (g : YM2413 → α)
    (hg : ∀ (s : YM2413) reg chs b tab,
      g { s with reg := reg, channels := chs, rhythm := b, inst_tab := tab } = g s)
    (l : List (Fin 0x40)) (s : YM2413) :
    g (l.foldl (fun s i => s.writeRegAt i 0) s) = g s := by
  induction l generalizing s with
  | nil => rfl
  | cons a l ih => rw [List.foldl_cons, ih, writeRegAt_frame g hg]

theorem foldl_writeRegAt_inst_tab (l : List (Fin 0x40)) (hl : ∀ i ∈ l, 8 ≤ i.val)
    (s : YM2413) : (l.foldl (fun s i => s.writeRegAt i 0) s).inst_tab = s.inst_tab := by
  induction l generalizing s with
  | nil => rfl
  | cons a l ih =>
    rw [List.foldl_cons, ih (fun i hi => hl i (List.mem_cons_of_mem _ hi)),
      writeRegAt_inst_tab _ _ _ (hl a (List.mem_cons_self _ _))]

theorem resetOrder_ge : ∀ i ∈ resetOrder, 8 ≤ i.val := by decide

theorem mem_resetOrder : ∀ k : Fin 0x30, (⟨0x10 + k.val, by omega⟩ : Fin 0x40) ∈ resetOrder := by
  decide

/-- C1: a write to the first address past the mirror, and to every later one
(`0x40 + k`), is not a no-op of the chip: the statement `reg[r] = v` comes
before the address is examined and has no element of `reg[0x40]` to store
into, so the write has no defined result. -/
theorem writeReg_outside_mirror (s : YM2413) (k v : Nat) : s.writeReg (0x40 + k) v = none := by
  unfold writeReg
  rw [dif_neg (by omega)]

/-- C2: after `writeReg(r, v)` with `r < 0x40`, `peekReg(r)` returns `v` and
`peekReg` of every other address below `0x40` returns what it returned
before. -/
theorem writeReg_peekReg (s : YM2413) (r v : Nat) (hr : r < 0x40) :
    ∃ s1, s.writeReg r v = some s1 ∧ s1.peekReg r = some v ∧
      ∀ r1, r1 < 0x40 → r1 ≠ r → s1.peekReg r1 = s.peekReg r1 := by
  refine ⟨s.writeRegAt ⟨r, hr⟩ v, by simp [writeReg, hr], ?_, ?_⟩
  · simp [peekReg, hr, writeRegAt_reg]
  · intro r1 h1 hne
    have hfin : (⟨r1, h1⟩ : Fin 0x40) ≠ ⟨r, hr⟩ := fun h => hne (Fin.mk.inj h)
    simp [peekReg, h1, writeRegAt_reg, Function.update_noteq hfin]

theorem writeReg_peekReg_witness :
    ∃ s1, YM2413.new.writeReg 0x30 0x15 = some s1 ∧ s1.peekReg 0x30 = some 0x15 ∧
      ∀ r1, r1 < 0x40 → r1 ≠ 0x30 → s1.peekReg r1 = YM2413.new.peekReg r1 :=
  writeReg_peekReg YM2413.new 0x30 0x15 (by decide)

/-! ## Reset -/

/-- The state `reset` starts its register writes from. -/
theorem reset_eq (s : YM2413) :
    s.reset = (resetOrder.foldl (fun (s : YM2413) (i : Fin 0x40) => s.writeRegAt i 0)
      (s.resetStart.writeRegAt 0x0F 0)).resetOperators := rfl

theorem resetOperators_reg (s : YM2413) : s.resetOperators.reg = s.reg := by
  unfold resetOperators; rfl

theorem resetOperators_inst_tab (s : YM2413) : s.resetOperators.inst_tab = s.inst_tab := by
  unfold resetOperators; rfl

/-- Any quantity that does not look at the mirror, the channels, the rhythm
flag or the instrument table has after `reset` the value it has once the
counters are cleared. -/
theorem reset_frame {α : Type} (g : YM2413 → α)
    (hg : ∀ (s : YM2413) reg chs b tab,
      g { s with reg := reg, channels := chs, rhythm := b, inst_tab := tab } = g s)
    (s : YM2413) :
    g s.reset = g { s with eg_cnt := 0, noise_rng := 1, idleSamples := 0 } := by
  rw [reset_eq]
  have h1 : ∀ t : YM2413, g t.resetOperators = g t := fun t =>
    hg t t.reg _ t.rhythm t.inst_tab
  rw [h1, foldl_writeRegAt_frame g hg, writeRegAt_frame g hg]
  unfold resetStart
  exact hg { s with eg_cnt := 0, noise_rng := 1, idleSamples := 0 } s.reg s.channels s.rhythm _

theorem reset_channels (s : YM2413) (ch : Fin 9) :
    ((s.reset.channels ch).mod.state = .EG_OFF ∧ (s.reset.channels ch).mod.egout = 255) ∧
    ((s.reset.channels ch).car.state = .EG_OFF ∧ (s.reset.channels ch).car.egout = 255) :=
  ⟨⟨rfl, rfl⟩, rfl, rfl⟩

/-- C4: after `reset()` the instrument table is the ROM table, the registers
`0x0F` and `0x10 .. 0x3F` read 0, `eg_cnt = 0`, `noise_rng = 1`,
`idleSamples = 0`, and each of the 18 slots is `OFF` with `egout = 255`. -/
theorem reset_state (s : YM2413) :
    (∀ i p, s.reset.inst_tab i p = table i.val p.val) ∧
    s.reset.peekReg 0x0F = some 0 ∧
    (∀ k : Fin 0x30, s.reset.peekReg (0x10 + k.val) = some 0) ∧
    s.reset.eg_cnt = 0 ∧ s.reset.noise_rng = 1 ∧ s.reset.idleSamples = 0 ∧
    ∀ ch, ((s.reset.channels ch).mod.state = .EG_OFF ∧ (s.reset.channels ch).mod.egout = 255) ∧
      ((s.reset.channels ch).car.state = .EG_OFF ∧ (s.reset.channels ch).car.egout = 255) := by
  have hreg : ∀ j : Fin 0x40, j = 0x0F ∨ j ∈ resetOrder → s.reset.reg j = 0 := by
    intro j hj
    rw [reset_eq, resetOperators_reg, foldl_writeRegAt_reg, writeRegAt_reg]
    rcases hj with hj | hj
    · subst hj; simp
    · simp [hj]
  refine ⟨?_, ?_, ?_, ?_, ?_, ?_, reset_channels s⟩
  · intro i p
    rw [reset_eq, resetOperators_inst_tab, foldl_writeRegAt_inst_tab _ resetOrder_ge,
      writeRegAt_inst_tab _ 0x0F 0 (by decide)]
    rfl
  · simp only [peekReg]
    rw [dif_pos (by decide)]
    exact congrArg some (hreg _ (Or.inl rfl))
  · intro k
    have hk : 0x10 + k.val < 0x40 := by omega
    simp only [peekReg]
    rw [dif_pos hk]
    exact congrArg some (hreg _ (Or.inr (mem_resetOrder k)))
  · exact reset_frame (fun s => s.eg_cnt) (fun _ _ _ _ _ => rfl) s
  · exact reset_frame (fun s => s.noise_rng) (fun _ _ _ _ _ => rfl) s
  · exact reset_frame (fun s => s.idleSamples) (fun _ _ _ _ _ => rfl) s

/-! ## Sample generation with every operator off -/

theorem melodicChannels_nine : melodicChannels 9 = [0, 1, 2, 3, 4, 5, 6, 7, 8] := by decide

theorem melodicChannels_six : melodicChannels 6 = [0, 1, 2, 3, 4, 5] := by decide

/-- With every operator off, the scan reports no active channel and nulls all
fourteen buffers. -/
theorem scanActive_of_inactive (s : YM2413) (bufs : Bufs)
    (hc : ∀ ch, (s.channels ch).car.isActive = false)
    (hm : ∀ ch, (s.channels ch).mod.isActive = false) :
    s.scanActive bufs = (0, fun _ => none) := by
  unfold scanActive getNumMelodicChannels
  cases hr : s.rhythm
  · simp only [melodicChannels_nine, List.foldl, markCarrier, markModulator, hc, hm, if_false,
      Bool.false_eq_true]
    refine Prod.ext rfl ?_
    funext k
    fin_cases k <;> simp +decide [Function.update, Fin.ext_iff]
  · simp only [melodicChannels_six, List.foldl, markCarrier, markModulator, hc, hm, if_false,
      if_true, Bool.false_eq_true]
    refine Prod.ext rfl ?_
    funext k
    fin_cases k <;> simp +decide [Function.update, Fin.ext_iff]

theorem melodicStep_bufs_zero (P : Params) (eg_cnt lfo_pm lfo_am i : Nat)
    (st : (Fin 9 → Channel) × Bufs) (ch : Fin 9) :
    (melodicStep P eg_cnt lfo_pm lfo_am 0 i st ch).2 = st.2 := by
  simp [melodicStep]

theorem foldl_melodicStep_bufs_zero (P : Params) (eg_cnt lfo_pm lfo_am i : Nat)
    (l : List (Fin 9)) (st : (Fin 9 → Channel) × Bufs) :
    (l.foldl (melodicStep P eg_cnt lfo_pm lfo_am 0 i) st).2 = st.2 := by
  induction l generalizing st with
  | nil => rfl
  | cons a l ih => rw [List.foldl_cons, ih, melodicStep_bufs_zero]

theorem rhythmStep_bufs_zero (P : Params) (noise_rng eg_cnt lfo_pm lfo_am i : Nat)
    (st : (Fin 9 → Channel) × Bufs) :
    (rhythmStep P noise_rng eg_cnt lfo_pm lfo_am 0 i st).2 = st.2 := by
  simp [rhythmStep, drumCarrier, drumModulator, bassDrum]

theorem sample_bufs_zero (P : Params) (i : Nat) (st : YM2413 × Bufs) :
    (sample P 0 i st).2 = st.2 := by
  unfold sample; dsimp only
  split
  · rw [rhythmStep_bufs_zero, foldl_melodicStep_bufs_zero]
  · rw [foldl_melodicStep_bufs_zero]

/-- With no active channel the sample loop leaves the buffers as they are. -/
theorem sampleLoop_bufs_zero (P : Params) (k i : Nat) (st : YM2413 × Bufs) :
    (sampleLoop P 0 k i st).2 = st.2 := by
  induction k generalizing i st with
  | zero => rfl
  | succ k ih => rw [sampleLoop, ih, sample_bufs_zero]

/-- With every operator off, `generateChannels` nulls all fourteen buffers. -/
theorem generateChannels_bufs_of_inactive (P : Params) (s : YM2413)
    (bufs : Fin (9 + 5) → Nat → Int) (num : Nat)
    (hc : ∀ ch, (s.channels ch).car.isActive = false)
    (hm : ∀ ch, (s.channels ch).mod.isActive = false) :
    (generateChannels P s bufs num).2 = fun _ => none := by
  unfold generateChannels
  simp only [scanActive_of_inactive s _ hc hm, ne_eq, not_true_eq_false, if_false]
  split
  · rfl
  · rw [sampleLoop_bufs_zero]

/-- C3: silence after reset.  Whatever the chip state was (rhythm mode, keyed
drums), `generateChannels` right after `reset()` nulls each of the 14 buffers,
for every number of samples; no sample is added anywhere. -/
theorem silence_after_reset (P : Params) (s : YM2413) (bufs : Fin (9 + 5) → Nat → Int)
    (num : Nat) (k : Fin (9 + 5)) : (generateChannels P s.reset bufs num).2 k = none := by
  rw [generateChannels_bufs_of_inactive P s.reset bufs num (fun _ => rfl) (fun _ => rfl)]

end YM2413

/-! ## The noise generator as a linear map -/

theorem xor_four (a b c d : Nat) : (a ^^^ b) ^^^ (c ^^^ d) = (a ^^^ c) ^^^ (b ^^^ d) := by
  ac_rfl

theorem parity_xor (c x y : Nat) :
    (if (x ^^^ y) % 2 = 1 then c else 0) =
      (if x % 2 = 1 then c else 0) ^^^ (if y % 2 = 1 then c else 0) := by
  have h : (x + y) % 2 = (x % 2 + y % 2) % 2 := Nat.add_mod x y 2
  rw [Nat.xor_mod_two_eq, h]
  rcases Nat.mod_two_eq_zero_or_one x with hx | hx <;>
    rcases Nat.mod_two_eq_zero_or_one y with hy | hy <;> simp [hx, hy]

theorem noiseStep_eq (x : Nat) :
    noiseStep x = (if x % 2 = 1 then 0x400181 else 0) ^^^ (x / 2) := by
  unfold noiseStep
  rw [Nat.and_one_is_mod, Nat.shiftRight_eq_div_pow, pow_one]
  rcases Nat.mod_two_eq_zero_or_one x with h | h
  · simp [h]
  · simp only [h, ne_eq, one_ne_zero, not_false_eq_true, if_true]
    rw [Nat.xor_div_two, Nat.xor_comm]

theorem noiseStep_lt {x : Nat} (h : x < 2 ^ 23) : noiseStep x < 2 ^ 23 := by
  rw [noiseStep_eq]
  apply Nat.xor_lt_two_pow
  · split <;> norm_num
  · omega

theorem noiseStep_pos {x : Nat} (h0 : 0 < x) (h : x < 2 ^ 23) : 0 < noiseStep x := by
  rw [noiseStep_eq]
  rcases Nat.mod_two_eq_zero_or_one x with hx | hx
  · simp only [hx, zero_ne_one, if_false, Nat.zero_xor]; omega
  · simp only [hx, if_true]
    apply Nat.pos_of_ne_zero
    intro h1
    rw [Nat.xor_eq_zero] at h1
    omega

theorem noiseStep_xor (a b : Nat) : noiseStep (a ^^^ b) = noiseStep a ^^^ noiseStep b := by
  simp only [noiseStep_eq, Nat.xor_div_two, parity_xor, xor_four]

theorem linApply_zero (A : List Nat) : linApply A 0 = 0 := by
  induction A with
  | nil => rfl
  | cons c cs ih => simp [linApply, ih]

theorem linApply_xor (A : List Nat) (x y : Nat) :
    linApply A (x ^^^ y) = linApply A x ^^^ linApply A y := by
  induction A generalizing x y with
  | nil => simp [linApply]
  | cons c cs ih => simp only [linApply, Nat.xor_div_two, ih, parity_xor, xor_four]

theorem linApply_matMul (A B : List Nat) (x : Nat) :
    linApply (matMul A B) x = linApply A (linApply B x) := by
  induction B generalizing x with
  | nil => simp [matMul, linApply, linApply_zero]
  | cons c cs ih =>
    have ih1 := ih (x / 2)
    simp only [matMul] at ih1 ⊢
    simp only [List.map_cons, linApply, linApply_xor, ih1]
    split <;> simp [linApply_zero]

/-- A bit below `2 ^ i` and a multiple of `2 ^ i` combine without carry. -/
theorem xor_of_lt_two_pow {b i : Nat} (hb : b < 2 ^ i) (a : Nat) :
    b ^^^ (2 ^ i * a) = 2 ^ i * a + b := by
  apply Nat.eq_of_testBit_eq
  intro j
  rw [Nat.testBit_xor, Nat.testBit_mul_pow_two_add a hb, Nat.testBit_mul_pow_two]
  by_cases hj : j < i
  · simp [hj, Nat.not_le.mpr hj]
  · have hij : i ≤ j := Nat.le_of_not_lt hj
    have hbj : b.testBit j = false :=
      Nat.testBit_lt_two_pow (Nat.lt_of_lt_of_le hb (Nat.pow_le_pow_right (by decide) hij))
    simp [hj, hij, hbj]

theorem linApply_unitCols (n k y : Nat) :
    linApply (unitCols k n) y = 2 ^ k * (y % 2 ^ n) := by
  induction n generalizing k y with
  | zero => simp [unitCols, linApply, Nat.mod_one]
  | succ n ih =>
    rw [unitCols, linApply, ih]
    have hmod : y % 2 ^ (n + 1) = y % 2 + 2 * (y / 2 % 2 ^ n) := by
      rw [pow_succ, mul_comm, Nat.mod_mul]
    have hb : (if y % 2 = 1 then 2 ^ k else 0) < 2 ^ (k + 1) := by
      split
      · exact Nat.pow_lt_pow_right (by decide) (Nat.lt_succ_self k)
      · positivity
    rw [xor_of_lt_two_pow hb, hmod]
    rcases Nat.mod_two_eq_zero_or_one y with h | h <;> simp [h] <;> ring

theorem linApply_noiseMat {x : Nat} (h : x < 2 ^ 23) : linApply noiseMat x = noiseStep x := by
  rw [noiseStep_eq, noiseMat, linApply, linApply_unitCols]
  have : x / 2 % 2 ^ 22 = x / 2 := Nat.mod_eq_of_lt (by omega)
  rw [this]
  simp


theorem noiseStep_iterate_lt (n : Nat) {x : Nat} (h : x < 2 ^ 23) : noiseStep^[n] x < 2 ^ 23 := by
  induction n generalizing x with
  | zero => exact h
  | succ n ih => rw [Function.iterate_succ_apply]; exact ih (noiseStep_lt h)

/-- Square-and-multiply computes the iterated noise step. -/
theorem noiseFast_eq (fuel : Nat) (M : List Nat) (m n x : Nat)
    (hM : ∀ y, y < 2 ^ 23 → linApply M y = noiseStep^[m] y) (hx : x < 2 ^ 23) :
    noiseFast fuel M n x = noiseStep^[m * (n % 2 ^ fuel)] x := by
  induction fuel generalizing M m n x with
  | zero => simp [noiseFast, Nat.mod_one]
  | succ fuel ih =>
    have hMM : ∀ y, y < 2 ^ 23 → linApply (matMul M M) y = noiseStep^[m + m] y := by
      intro y hy
      rw [linApply_matMul, hM y hy, hM _ (noiseStep_iterate_lt m hy),
        Function.iterate_add_apply]
    have hx1 : (if n % 2 = 1 then linApply M x else x) = noiseStep^[m * (n % 2)] x := by
      rcases Nat.mod_two_eq_zero_or_one n with h | h
      · simp [h]
      · simp [h, hM x hx]
    have hlt : (if n % 2 = 1 then linApply M x else x) < 2 ^ 23 := by
      rw [hx1]; exact noiseStep_iterate_lt _ hx
    have hmod : n % 2 ^ (fuel + 1) = n % 2 + 2 * (n / 2 % 2 ^ fuel) := by
      rw [pow_succ, mul_comm, Nat.mod_mul]
    rw [noiseFast, ih (matMul M M) (m + m) (n / 2) _ hMM hlt, hx1,
      ← Function.iterate_add_apply, hmod]
    congr 1
    ring

theorem noiseStep_iterate_eq_fast {n : Nat} (hn : n < 2 ^ 23) {x : Nat} (hx : x < 2 ^ 23) :
    noiseStep^[n] x = noiseFast 23 noiseMat n x := by
  rw [noiseFast_eq 23 noiseMat 1 n x (fun y hy => by simpa using linApply_noiseMat hy) hx,
    Nat.mod_eq_of_lt hn, one_mul]

set_option maxRecDepth 100000 in
theorem noise_cycle : noiseStep^[2 ^ 23 - 1] 1 = 1 := by
  rw [noiseStep_iterate_eq_fast (by norm_num) (by norm_num)]
  decide


theorem dvd_of_dvd_noise_period {d : Nat} (hd : d ∣ 2 ^ 23 - 1) (hne : d ≠ 2 ^ 23 - 1) :
    d ∣ 178481 ∨ d ∣ 47 := by
  have hP : 2 ^ 23 - 1 = 47 * 178481 := by norm_num
  have p47 : Nat.Prime 47 := by norm_num
  have p178481 : Nat.Prime 178481 := by norm_num
  rw [hP] at hd hne
  by_cases h : 47 ∣ d
  · obtain ⟨e, rfl⟩ := h
    have he : e ∣ 178481 := Nat.dvd_of_mul_dvd_mul_left (by decide) hd
    rcases (Nat.dvd_prime p178481).mp he with h1 | h1
    · right; subst h1; simp
    · exact absurd (by rw [h1]) hne
  · left
    have hc : Nat.Coprime d 47 := (Nat.Prime.coprime_iff_not_dvd p47).mpr h |>.symm
    exact hc.dvd_of_dvd_mul_left hd

theorem iterate_mul_fixed {f : Nat → Nat} {x d : Nat} (h : f^[d] x = x) (k : Nat) :
    f^[d * k] x = x := by
  induction k with
  | zero => rfl
  | succ k ih => rw [Nat.mul_succ, Function.iterate_add_apply, h, ih]

set_option maxRecDepth 100000 in
/-- No positive number of steps below `2 ^ 23 - 1` brings the noise register
back from 1 to 1. -/
theorem noise_cycle_min (n : Nat) (h0 : 0 < n) (hn : n < 2 ^ 23 - 1) : noiseStep^[n] 1 ≠ 1 := by
  intro hfix
  have hex : ∃ k, 0 < k ∧ noiseStep^[k] 1 = 1 := ⟨n, h0, hfix⟩
  classical
  have hd := Nat.find_spec hex
  have hmin : ∀ k, k < Nat.find hex → ¬ (0 < k ∧ noiseStep^[k] 1 = 1) :=
    fun k hk => Nat.find_min hex hk
  have hle : Nat.find hex ≤ n := Nat.find_min' hex ⟨h0, hfix⟩
  generalize Nat.find hex = d at hd hmin hle
  have hdvd : d ∣ 2 ^ 23 - 1 := by
    have hsplit : 2 ^ 23 - 1 = (2 ^ 23 - 1) % d + d * ((2 ^ 23 - 1) / d) :=
      (Nat.mod_add_div _ _).symm
    have h1 : noiseStep^[(2 ^ 23 - 1) % d] 1 = 1 := by
      have h2 := noise_cycle
      rw [hsplit, Function.iterate_add_apply, iterate_mul_fixed hd.2] at h2
      exact h2
    have h3 : ¬ 0 < (2 ^ 23 - 1) % d := fun hpos =>
      hmin _ (Nat.mod_lt _ hd.1) ⟨hpos, h1⟩
    exact Nat.dvd_of_mod_eq_zero (by omega)
  rcases dvd_of_dvd_noise_period hdvd (by omega) with ⟨k, hk⟩ | ⟨k, hk⟩
  · have h4 : noiseStep^[178481] 1 = 1 := by rw [hk]; exact iterate_mul_fixed hd.2 k
    rw [noiseStep_iterate_eq_fast (by norm_num) (by norm_num)] at h4
    revert h4; decide
  · have h4 : noiseStep^[47] 1 = 1 := by rw [hk]; exact iterate_mul_fixed hd.2 k
    rw [noiseStep_iterate_eq_fast (by norm_num) (by norm_num)] at h4
    revert h4; decide

/-! ## Counters of the sample loop -/

namespace YM2413

/-- The counters after one sample. -/
theorem sample_counters (P : Params) (a i : Nat) (st : YM2413 × Bufs) :
    (sample P a i st).1.noise_rng = noiseStep st.1.noise_rng ∧
    (sample P a i st).1.lfo_am_cnt = lfoAmStep st.1.lfo_am_cnt ∧
    (sample P a i st).1.lfo_pm_cnt = lfoPmStep st.1.lfo_pm_cnt ∧
    (sample P a i st).1.eg_cnt = (st.1.eg_cnt + 1) % 2 ^ 32 ∧
    (sample P a i st).1.idleSamples = st.1.idleSamples ∧
    (sample P a i st).1.rhythm = st.1.rhythm ∧
    (sample P a i st).1.reg = st.1.reg ∧
    (sample P a i st).1.inst_tab = st.1.inst_tab := by
  unfold sample
  exact ⟨rfl, rfl, rfl, rfl, rfl, rfl, rfl, rfl⟩

/-- The counters after the sample loop. -/
theorem sampleLoop_counters (P : Params) (a k i : Nat) (st : YM2413 × Bufs) :
    (sampleLoop P a k i st).1.noise_rng = noiseStep^[k] st.1.noise_rng ∧
    (sampleLoop P a k i st).1.lfo_am_cnt = lfoAmStep^[k] st.1.lfo_am_cnt ∧
    (sampleLoop P a k i st).1.lfo_pm_cnt = lfoPmStep^[k] st.1.lfo_pm_cnt ∧
    (sampleLoop P a k i st).1.eg_cnt = (fun c => (c + 1) % 2 ^ 32)^[k] st.1.eg_cnt ∧
    (sampleLoop P a k i st).1.idleSamples = st.1.idleSamples ∧
    (sampleLoop P a k i st).1.rhythm = st.1.rhythm ∧
    (sampleLoop P a k i st).1.reg = st.1.reg ∧
    (sampleLoop P a k i st).1.inst_tab = st.1.inst_tab := by
  induction k generalizing i st with
  | zero => exact ⟨rfl, rfl, rfl, rfl, rfl, rfl, rfl, rfl⟩
  | succ k ih =>
    obtain ⟨h1, h2, h3, h4, h5, h6, h7, h8⟩ := ih (i + 1) (sample P a i st)
    obtain ⟨g1, g2, g3, g4, g5, g6, g7, g8⟩ := sample_counters P a i st
    rw [sampleLoop, Function.iterate_succ_apply, Function.iterate_succ_apply,
      Function.iterate_succ_apply, Function.iterate_succ_apply]
    rw [← g1, ← g2, ← g3, ← g4, ← g5, ← g6, ← g7, ← g8]
    exact ⟨h1, h2, h3, h4, h5, h6, h7, h8⟩

/-- `generateChannels` runs the sample loop for `num` samples or, when idle,
for none. -/
theorem generateChannels_counters (P : Params) (s : YM2413) (bufs : Fin (9 + 5) → Nat → Int)
    (num : Nat) :
    ∃ k, (k = num ∨ k = 0) ∧
      (generateChannels P s bufs num).1.noise_rng = noiseStep^[k] s.noise_rng ∧
      (generateChannels P s bufs num).1.lfo_am_cnt = lfoAmStep^[k] s.lfo_am_cnt ∧
      (generateChannels P s bufs num).1.lfo_pm_cnt = lfoPmStep^[k] s.lfo_pm_cnt ∧
      (generateChannels P s bufs num).1.eg_cnt = (fun c => (c + 1) % 2 ^ 32)^[k] s.eg_cnt ∧
      (generateChannels P s bufs num).1.rhythm = s.rhythm ∧
      (generateChannels P s bufs num).1.reg = s.reg ∧
      (generateChannels P s bufs num).1.inst_tab = s.inst_tab := by
  unfold generateChannels
  dsimp only
  split_ifs
  · obtain ⟨h1, h2, h3, h4, _, h6, h7, h8⟩ := sampleLoop_counters P
      (s.scanActive fun k => some (bufs k)).1 num 0
      ({ s with idleSamples := 0 }, (s.scanActive fun k => some (bufs k)).2)
    exact ⟨num, Or.inl rfl, h1, h2, h3, h4, h6, h7, h8⟩
  · exact ⟨0, Or.inr rfl, rfl, rfl, rfl, rfl, rfl, rfl, rfl⟩
  · obtain ⟨h1, h2, h3, h4, _, h6, h7, h8⟩ := sampleLoop_counters P
      (s.scanActive fun k => some (bufs k)).1 num 0
      ({ s with idleSamples := (s.idleSamples + num) % 2 ^ 32 },
        (s.scanActive fun k => some (bufs k)).2)
    exact ⟨num, Or.inl rfl, h1, h2, h3, h4, h6, h7, h8⟩

end YM2413

theorem wrap32_of_small {x : Int} (h0 : -2 ^ 31 ≤ x) (h1 : x < 2 ^ 31) : wrap32 x = x := by
  unfold wrap32
  norm_num at h0 h1 ⊢
  omega

theorem lfoAmStep_iterate (n : Nat) (h : n < 13440) : lfoAmStep^[n] 0 = (n : Int) := by
  induction n with
  | zero => rfl
  | succ n ih =>
    rw [Function.iterate_succ_apply', ih (by omega)]
    unfold lfoAmStep
    rw [wrap32_of_small (by norm_num; omega) (by norm_num; omega)]
    simp only [LFO_AM_TAB_ELEMENTS, LFO_AM_BITS]
    norm_num
    omega

theorem lfoAmStep_iterate_succ (n : Nat) (h : n = 13439) : lfoAmStep^[n + 1] 0 = 0 := by
  rw [Function.iterate_succ_apply', lfoAmStep_iterate n (by omega)]
  subst h
  unfold lfoAmStep wrap32 LFO_AM_TAB_ELEMENTS LFO_AM_BITS
  norm_num

theorem lfoAmStep_iterate_wrap : lfoAmStep^[13440] 0 = 0 :=
  lfoAmStep_iterate_succ 13439 rfl

theorem lfoAmStep_range {c : Int} (h0 : 0 ≤ c) (h1 : c < 13440) :
    0 ≤ lfoAmStep c ∧ lfoAmStep c < 13440 := by
  unfold lfoAmStep
  rw [wrap32_of_small (by norm_num; omega) (by norm_num; omega)]
  simp only [LFO_AM_TAB_ELEMENTS, LFO_AM_BITS]
  norm_num
  split <;> omega

theorem lfoAmStep_iterate_range (n : Nat) {c : Int} (h0 : 0 ≤ c) (h1 : c < 13440) :
    0 ≤ lfoAmStep^[n] c ∧ lfoAmStep^[n] c < 13440 := by
  induction n generalizing c with
  | zero => exact ⟨h0, h1⟩
  | succ n ih =>
    rw [Function.iterate_succ_apply]
    exact ih (lfoAmStep_range h0 h1).1 (lfoAmStep_range h0 h1).2

theorem lfoAmIndex_range {c : Int} (h0 : 0 ≤ c) (h1 : c < 13440) :
    0 ≤ lfoAmIndex c ∧ lfoAmIndex c < 210 := by
  unfold lfoAmIndex LFO_AM_BITS
  rw [Int.shiftRight_eq_div_pow]
  norm_num
  omega

theorem lfoPmStep_iterate (n : Nat) : lfoPmStep^[n] 0 = wrap32 n := by
  induction n with
  | zero => rfl
  | succ n ih =>
    rw [Function.iterate_succ_apply', ih]
    unfold lfoPmStep wrap32
    push_cast
    norm_num
    omega

theorem lfoPm_wrap32 (n : Nat) : lfoPm (wrap32 n) = (n / 1024) % 8 := by
  unfold lfoPm wrap32 LFO_PM_BITS
  rw [Int.shiftRight_eq_div_pow]
  norm_num
  omega

/-! ## Invariants of the channels in reachable states -/

namespace ChannelInvariant

theorem setKeyOnOff_mod {I : Channel → Prop} (H : ChannelInvariant I) (c : Channel) (part : Nat) (enabled : Bool) (hc : I c) :
    I { c with mod := c.mod.setKeyOnOff part enabled } := by
  unfold Slot.setKeyOnOff
  cases enabled
  · exact H.setKeyOff_mod c part hc
  · exact H.setKeyOn_mod c part hc

theorem setKeyOnOff_car {I : Channel → Prop} (H : ChannelInvariant I) (c : Channel) (part : Nat) (enabled : Bool) (hc : I c) :
    I { c with car := c.car.setKeyOnOff part enabled } := by
  unfold Slot.setKeyOnOff
  cases enabled
  · exact H.setKeyOff_car c part hc
  · exact H.setKeyOn_car c part hc

theorem updateInstrument {I : Channel → Prop} (H : ChannelInvariant I) (c : Channel) (inst : Fin 8 → Nat) (hc : I c) :
    I (c.updateInstrument inst) := by
  unfold Channel.updateInstrument
  generalize List.finRange 8 = l
  induction l generalizing c with
  | nil => exact hc
  | cons a l ih => exact ih _ (H.updateInstrumentPart c _ _ hc)

theorem modifyChannel {I : Channel → Prop} (s : YM2413) (ch : Fin 9) (f : Channel → Channel)
    (hf : ∀ c, I c → I (f c)) (hs : ∀ k, I (s.channels k)) :
    ∀ k, I ((s.modifyChannel ch f).channels k) := by
  intro k
  unfold YM2413.modifyChannel
  by_cases hk : k = ch
  · subst hk; simp only [Function.update_same]; exact hf _ (hs k)
  · simp only [Function.update_noteq hk]; exact hs k

theorem updateCustomInstrument {I : Channel → Prop} (H : ChannelInvariant I) (s : YM2413) (part : Fin 8) (value : Nat)
    (hs : ∀ k, I (s.channels k)) : ∀ k, I ((s.updateCustomInstrument part value).channels k) := by
  intro k
  unfold YM2413.updateCustomInstrument
  dsimp only
  split
  · exact H.updateInstrumentPart _ _ _ (hs k)
  · exact hs k

theorem setRhythmMode {I : Channel → Prop} (H : ChannelInvariant I) (s : YM2413) (rhythm_ : Bool) (hs : ∀ k, I (s.channels k)) :
    ∀ k, I ((s.setRhythmMode rhythm_).channels k) := by
  unfold YM2413.setRhythmMode
  split
  · exact hs
  · dsimp only
    split
    · refine ChannelInvariant.modifyChannel _ _ _ (fun c hc => H.setTotalLevel_mod c _ hc) ?_
      refine ChannelInvariant.modifyChannel _ _ _ (fun c hc => H.updateInstrument c _ hc) ?_
      refine ChannelInvariant.modifyChannel _ _ _ (fun c hc => H.setTotalLevel_mod c _ hc) ?_
      refine ChannelInvariant.modifyChannel _ _ _ (fun c hc => H.updateInstrument c _ hc) ?_
      refine ChannelInvariant.modifyChannel _ _ _ (fun c hc => H.updateInstrument c _ hc) ?_
      exact hs
    · refine ChannelInvariant.modifyChannel _ _ _ (fun c hc => H.setKeyOff_car c _ hc) ?_
      refine ChannelInvariant.modifyChannel _ _ _ (fun c hc => H.setKeyOff_mod c _ hc) ?_
      refine ChannelInvariant.modifyChannel _ _ _ (fun c hc => H.setKeyOff_car c _ hc) ?_
      refine ChannelInvariant.modifyChannel _ _ _ (fun c hc => H.setKeyOff_mod c _ hc) ?_
      refine ChannelInvariant.modifyChannel _ _ _ (fun c hc => H.setKeyOff_car c _ hc) ?_
      refine ChannelInvariant.modifyChannel _ _ _ (fun c hc => H.setKeyOff_mod c _ hc) ?_
      refine ChannelInvariant.modifyChannel _ _ _ (fun c hc => H.updateInstrument c _ hc) ?_
      refine ChannelInvariant.modifyChannel _ _ _ (fun c hc => H.updateInstrument c _ hc) ?_
      refine ChannelInvariant.modifyChannel _ _ _ (fun c hc => H.updateInstrument c _ hc) ?_
      exact hs

theorem setRhythmFlags {I : Channel → Prop} (H : ChannelInvariant I) (s : YM2413) (flags : Nat) (hs : ∀ k, I (s.channels k)) :
    ∀ k, I ((s.setRhythmFlags flags).channels k) := by
  have h1 := H.setRhythmMode s (decide (flags &&& 0x20 ≠ 0)) hs
  unfold YM2413.setRhythmFlags
  dsimp only
  split
  · refine ChannelInvariant.modifyChannel _ _ _ (fun c hc => H.setKeyOnOff_car c _ _ hc) ?_
    refine ChannelInvariant.modifyChannel _ _ _ (fun c hc => H.setKeyOnOff_mod c _ _ hc) ?_
    refine ChannelInvariant.modifyChannel _ _ _ (fun c hc => H.setKeyOnOff_car c _ _ hc) ?_
    refine ChannelInvariant.modifyChannel _ _ _ (fun c hc => H.setKeyOnOff_mod c _ _ hc) ?_
    refine ChannelInvariant.modifyChannel _ _ _ (fun c hc => H.setKeyOnOff_car c _ _ hc) ?_
    refine ChannelInvariant.modifyChannel _ _ _ (fun c hc => H.setKeyOnOff_mod c _ _ hc) ?_
    exact h1
  · exact h1

theorem writeRegAt {I : Channel → Prop} (H : ChannelInvariant I) (s : YM2413) (r : Fin 0x40) (v : Nat) (hs : ∀ k, I (s.channels k)) :
    ∀ k, I ((s.writeRegAt r v).channels k) := by
  unfold YM2413.writeRegAt
  dsimp only
  split_ifs
  · exact H.updateCustomInstrument _ _ _ hs
  · exact H.setRhythmFlags _ _ hs
  · exact hs
  · exact ChannelInvariant.modifyChannel _ _ _ (fun c hc => H.setFrequency c _ hc) hs
  · refine ChannelInvariant.modifyChannel _ _ _ (fun c hc => H.setFrequency c _ hc) ?_
    refine ChannelInvariant.modifyChannel _ _ _ (fun c hc => H.setSustain c _ hc) ?_
    refine ChannelInvariant.modifyChannel _ _ _ (fun c hc => H.setKeyOnOff_car c _ _ hc) ?_
    exact ChannelInvariant.modifyChannel _ _ _ (fun c hc => H.setKeyOnOff_mod c _ _ hc) hs
  · refine ChannelInvariant.modifyChannel _ _ _ (fun c hc => H.setTotalLevel_mod c _ hc) ?_
    refine ChannelInvariant.modifyChannel _ _ _ (fun c hc => H.setTotalLevel_car c _ hc) ?_
    exact ChannelInvariant.modifyChannel _ _ _ (fun c hc => H.setInstvol c _ hc) hs
  · refine ChannelInvariant.modifyChannel _ _ _ (fun c hc => H.setTotalLevel_car c _ hc) ?_
    exact ChannelInvariant.modifyChannel _ _ _ (fun c hc => H.setInstvol c _ hc) hs
  · refine ChannelInvariant.modifyChannel _ _ _ (fun c hc => H.updateInstrument c _ hc) ?_
    refine ChannelInvariant.modifyChannel _ _ _ (fun c hc => H.setTotalLevel_car c _ hc) ?_
    exact ChannelInvariant.modifyChannel _ _ _ (fun c hc => H.setInstvol c _ hc) hs
  · refine ChannelInvariant.modifyChannel _ _ _ (fun c hc => H.setTotalLevel_car c _ hc) ?_
    exact ChannelInvariant.modifyChannel _ _ _ (fun c hc => H.setInstvol c _ hc) hs
  · exact hs


theorem foldl_writeRegAt {I : Channel → Prop} (H : ChannelInvariant I) (l : List (Fin 0x40))
    (s : YM2413) (hs : ∀ k, I (s.channels k)) :
    ∀ k, I ((l.foldl (fun (s : YM2413) (i : Fin 0x40) => s.writeRegAt i 0) s).channels k) := by
  induction l generalizing s with
  | nil => exact hs
  | cons a l ih => exact ih _ (H.writeRegAt s a 0 hs)

theorem reset {I : Channel → Prop} (H : ChannelInvariant I) (s : YM2413)
    (hs : ∀ k, I (s.channels k)) : ∀ k, I (s.reset.channels k) := by
  have h0 : ∀ k, I (s.resetStart.channels k) := hs
  have h1 := H.writeRegAt _ 0x0F 0 h0
  have h2 := H.foldl_writeRegAt YM2413.resetOrder _ h1
  rw [YM2413.reset_eq]
  intro k
  exact H.resetOperators _ (h2 k)

theorem melodicStep {I : Channel → Prop} (H : ChannelInvariant I) (P : Params)
    (eg_cnt lfo_pm lfo_am a i : Nat) (st : (Fin 9 → Channel) × Bufs) (ch : Fin 9)
    (hs : ∀ k, I (st.1 k)) :
    ∀ k, I ((YM2413.melodicStep P eg_cnt lfo_pm lfo_am a i st ch).1 k) := by
  intro k
  unfold YM2413.melodicStep
  dsimp only
  have hm := H.calc_slot_mod P (st.1 ch) eg_cnt false lfo_pm lfo_am (hs ch)
  split
  · by_cases hk : k = ch
    · subst hk; simp only [Function.update_same]; exact H.calcOutput P _ _ _ _ _ hm
    · simp only [Function.update_noteq hk]; exact hs k
  · by_cases hk : k = ch
    · subst hk; simp only [Function.update_same]; exact hm
    · simp only [Function.update_noteq hk]; exact hs k

theorem foldl_melodicStep {I : Channel → Prop} (H : ChannelInvariant I) (P : Params)
    (eg_cnt lfo_pm lfo_am a i : Nat) (l : List (Fin 9)) (st : (Fin 9 → Channel) × Bufs)
    (hs : ∀ k, I (st.1 k)) :
    ∀ k, I ((l.foldl (YM2413.melodicStep P eg_cnt lfo_pm lfo_am a i) st).1 k) := by
  induction l generalizing st with
  | nil => exact hs
  | cons c l ih => exact ih _ (H.melodicStep P eg_cnt lfo_pm lfo_am a i st c hs)

theorem update_all {I : Channel → Prop} (chs : Fin 9 → Channel) (ch : Fin 9) (c : Channel)
    (hc : I c) (hs : ∀ k, I (chs k)) : ∀ k, I (Function.update chs ch c k) := by
  intro k
  by_cases hk : k = ch
  · subst hk; simp only [Function.update_same]; exact hc
  · simp only [Function.update_noteq hk]; exact hs k

theorem drumCarrier {I : Channel → Prop} (H : ChannelInvariant I) (P : Params) (active : Bool)
    (eg_cnt lfo_am i : Nat) (k : Fin (9 + 5)) (phase : Int) (st : Channel × Bufs)
    (hs : I st.1) : I (YM2413.drumCarrier P active eg_cnt lfo_am i k phase st).1 := by
  unfold YM2413.drumCarrier
  split
  · exact H.slotOutput_car P _ _ _ _ hs
  · exact hs

theorem drumModulator {I : Channel → Prop} (H : ChannelInvariant I) (P : Params)
    (active : Bool) (eg_cnt lfo_am i : Nat) (k : Fin (9 + 5)) (phase : Int)
    (st : Channel × Bufs) (hs : I st.1) :
    I (YM2413.drumModulator P active eg_cnt lfo_am i k phase st).1 := by
  unfold YM2413.drumModulator
  split
  · exact H.slotOutput_mod P _ _ _ _ hs
  · exact hs

theorem bassDrum {I : Channel → Prop} (H : ChannelInvariant I) (P : Params) (active : Bool)
    (eg_cnt lfo_pm lfo_am i : Nat) (st : Channel × Bufs) (hs : I st.1) :
    I (YM2413.bassDrum P active eg_cnt lfo_pm lfo_am i st).1 := by
  unfold YM2413.bassDrum
  dsimp only
  have h6 := H.calc_slot_mod P st.1 eg_cnt true lfo_pm lfo_am hs
  split
  · exact H.calcOutput P _ _ _ _ _ h6
  · exact h6

theorem rhythmStep {I : Channel → Prop} (H : ChannelInvariant I) (P : Params)
    (noise_rng eg_cnt lfo_pm lfo_am a i : Nat) (st : (Fin 9 → Channel) × Bufs)
    (hs : ∀ k, I (st.1 k)) :
    ∀ k, I ((YM2413.rhythmStep P noise_rng eg_cnt lfo_pm lfo_am a i st).1 k) := by
  unfold YM2413.rhythmStep
  dsimp only
  have h7 := H.calc_phase_mod _ lfo_pm (H.calc_phase_car (st.1 7) lfo_pm (hs 7))
  have h8 := H.calc_phase_mod _ lfo_pm (H.calc_phase_car (st.1 8) lfo_pm (hs 8))
  refine update_all _ _ _ ?_ (update_all _ _ _ ?_ (update_all _ _ _ ?_ hs))
  · exact H.drumModulator P _ _ _ _ _ _ _ (H.drumCarrier P _ _ _ _ _ _ (_, _) h8)
  · exact H.drumModulator P _ _ _ _ _ _ _ (H.drumCarrier P _ _ _ _ _ _ (_, _) h7)
  · exact H.bassDrum P _ _ _ _ _ (_, _) (hs 6)

theorem sample {I : Channel → Prop} (H : ChannelInvariant I) (P : Params) (a i : Nat)
    (st : YM2413 × Bufs) (hs : ∀ k, I (st.1.channels k)) :
    ∀ k, I ((YM2413.sample P a i st).1.channels k) := by
  unfold YM2413.sample
  dsimp only
  split
  · exact H.rhythmStep P _ _ _ _ a i _ (H.foldl_melodicStep P _ _ _ a i _ _ hs)
  · exact H.foldl_melodicStep P _ _ _ a i _ _ hs

theorem sampleLoop {I : Channel → Prop} (H : ChannelInvariant I) (P : Params) (a k i : Nat)
    (st : YM2413 × Bufs) (hs : ∀ ch, I (st.1.channels ch)) :
    ∀ ch, I ((YM2413.sampleLoop P a k i st).1.channels ch) := by
  induction k generalizing i st with
  | zero => exact hs
  | succ k ih => rw [YM2413.sampleLoop]; exact ih _ _ (H.sample P a i st hs)

theorem generateChannels {I : Channel → Prop} (H : ChannelInvariant I) (P : Params)
    (s : YM2413) (bufs : Fin (9 + 5) → Nat → Int) (num : Nat) (hs : ∀ ch, I (s.channels ch)) :
    ∀ ch, I ((YM2413.generateChannels P s bufs num).1.channels ch) := by
  unfold YM2413.generateChannels
  dsimp only
  split_ifs
  · exact H.sampleLoop P _ _ _ _ hs
  · exact hs
  · exact H.sampleLoop P _ _ _ _ hs

/-- A channel invariant that holds in the constructed chip holds in every
reachable state. -/
theorem reachable {I : Channel → Prop} (H : ChannelInvariant I) {P : Params}
    (hnew : ∀ ch, I (YM2413.new.channels ch)) {s : YM2413} (hs : Reachable P s) :
    ∀ ch, I (s.channels ch) := by
  induction hs with
  | new => exact hnew
  | @writeReg s s1 r v _ _ hw ih =>
    unfold YM2413.writeReg at hw
    split at hw
    · cases hw; exact H.writeRegAt _ _ _ ih
    · cases hw
  | reset _ ih => exact H.reset _ ih
  | generateChannels bufs num _ ih => exact H.generateChannels P _ bufs num ih

end ChannelInvariant

/-! ## The envelope stays in range -/

theorem eg_inc_le (row i : Nat) : eg_inc row i ≤ 8 := by
  have h : ∀ row, row < 15 → ∀ i, i < 8 → eg_inc row i ≤ 8 := by decide
  by_cases hr : row < 15
  · by_cases hi : i < 8
    · exact h row hr i hi
    · have hlen : ∀ row, row < 15 → (eg_inc_data.getD row []).length = 8 := by decide
      unfold eg_inc
      rw [List.getD_eq_default _ _ (by rw [hlen row hr]; omega)]
      omega
  · unfold eg_inc
    rw [List.getD_eq_default eg_inc_data _ (by simp [eg_inc_data]; omega)]
    simp

theorem sl_tab_le (i : Nat) : 0 ≤ sl_tab i ∧ sl_tab i ≤ 120 := by
  have h : ∀ i, i < 16 → 0 ≤ sl_tab i ∧ sl_tab i ≤ 120 := by decide
  by_cases hi : i < 16
  · exact h i hi
  · unfold sl_tab
    rw [List.getD_eq_default _ _ (by simp [sl_tab_data]; omega)]
    omega

theorem int_not_eq (x : Int) : ~~~x = -x - 1 := by
  cases x with
  | ofNat n => show Int.negSucc n = _; simp [Int.negSucc_eq]; omega
  | negSucc n => show Int.ofNat n = _; simp [Int.negSucc_eq]

/-- The attack step stays within the envelope range. -/
theorem attack_step_range (e : Int) (k : Nat) (h0 : 0 ≤ e) (h1 : e ≤ 255) (hk : k ≤ 8) :
    e + ((~~~e * (k : Int)) >>> (2 : Nat)) ≤ 255 ∧
      (¬ e + ((~~~e * (k : Int)) >>> (2 : Nat)) ≤ 0 → 0 ≤ e + ((~~~e * (k : Int)) >>> (2 : Nat))) := by
  rw [int_not_eq, Int.shiftRight_eq_div_pow]
  interval_cases k <;> norm_num <;> omega


theorem Slot.EnvOK.congr {strict : Prop} {a b : Slot} (h : b.EnvOK strict)
    (h1 : a.egout = b.egout) (h2 : a.state = b.state) (h3 : a.sl = b.sl) : a.EnvOK strict := by
  unfold Slot.EnvOK at h ⊢
  rw [h1, h2, h3]
  exact h

theorem Slot.calc_envelope_envOK {strict : Prop} (s : Slot) (channel : Channel) (eg_cnt : Nat)
    (carrier : Bool) (h : s.EnvOK strict) : (s.calc_envelope channel eg_cnt carrier).EnvOK strict := by
  obtain ⟨h0, h1, h2, h3, h4⟩ := h
  have hM : MAX_ATT_INDEX = 255 := by decide
  have hm : MIN_ATT_INDEX = 0 := rfl
  unfold Slot.calc_envelope
  dsimp only
  split
  · -- DUMP
    rename_i hst
    have hk := eg_inc_le s.eg_sel_dp ((eg_cnt >>> s.eg_sh_dp) &&& 7)
    split_ifs with c1 c2
    · simp only [Slot.EnvOK, Slot.setEnvelopeState, hM]
      exact ⟨by omega, by omega, h2, by simp, by simp⟩
    · simp only [Slot.EnvOK, hst, hM] at c2 ⊢
      exact ⟨by omega, by omega, h2, by simp, by simp⟩
    · exact ⟨h0, h1, h2, h3, h4⟩
  · -- ATTACK
    rename_i hst
    have hk := eg_inc_le s.eg_sel_ar ((eg_cnt >>> s.eg_sh_ar) &&& 7)
    have ha := attack_step_range s.egout _ h0 h1 hk
    split_ifs with c1 c2
    · simp only [Slot.EnvOK, Slot.setEnvelopeState, hm]
      exact ⟨by omega, by omega, h2, by simp, by simp⟩
    · simp only [Slot.EnvOK, hst, hm] at c2 ⊢
      exact ⟨ha.2 c2, ha.1, h2, by simp, by simp⟩
    · exact ⟨h0, h1, h2, h3, h4⟩
  · -- DECAY
    rename_i hst
    have hk := eg_inc_le s.eg_sel_dr ((eg_cnt >>> s.eg_sh_dr) &&& 7)
    have h5 := h3 hst
    split_ifs with c1 c2
    · simp only [Slot.EnvOK, Slot.setEnvelopeState]
      exact ⟨by omega, by omega, h2, by simp, by simp⟩
    · simp only [Slot.EnvOK, hst] at c2 ⊢
      exact ⟨by omega, by omega, h2, by intro; omega, by simp⟩
    · exact ⟨h0, h1, h2, h3, h4⟩
  · -- SUSTAIN
    rename_i hst
    have hk := eg_inc_le s.eg_sel_rr ((eg_cnt >>> s.eg_sh_rr) &&& 7)
    split_ifs with c1 c2 c3
    · exact ⟨h0, h1, h2, h3, h4⟩
    · simp only [Slot.EnvOK, hst, hM]
      exact ⟨by omega, by omega, h2, by simp, by simp⟩
    · simp only [Slot.EnvOK, hst, hM] at c3 ⊢
      exact ⟨by omega, by omega, h2, by simp, by simp⟩
    · exact ⟨h0, h1, h2, h3, h4⟩
  · -- RELEASE
    rename_i hst
    cases carrier
    · exact ⟨h0, h1, h2, h3, h4⟩
    · simp only [if_true]
      generalize (!s.eg_sustain || channel.sus) = b
      generalize (if b = true then s.eg_mask_rs else s.eg_mask_rr) = mask
      generalize (if b = true then s.eg_sh_rs else s.eg_sh_rr) = shift
      generalize (if b = true then s.eg_sel_rs else s.eg_sel_rr) = sel
      have hk := eg_inc_le sel ((eg_cnt >>> shift) &&& 7)
      split_ifs with c1 c2
      · simp only [Slot.EnvOK, Slot.setEnvelopeState, hM]
        exact ⟨by omega, by omega, h2, by simp, by simp⟩
      · simp only [Slot.EnvOK, hst, hM] at c2 ⊢
        exact ⟨by omega, by omega, h2, by simp, by simp⟩
      · exact ⟨h0, h1, h2, h3, h4⟩
  · exact ⟨h0, h1, h2, h3, h4⟩


theorem Slot.SameEnv.envOK {strict : Prop} {a b : Slot} (hab : a.SameEnv b)
    (h : b.EnvOK strict) : a.EnvOK strict :=
  h.congr hab.1 hab.2.1 hab.2.2

theorem Slot.SameEnv.trans {a b c : Slot} (h1 : a.SameEnv b) (h2 : b.SameEnv c) :
    a.SameEnv c :=
  ⟨h1.1.trans h2.1, h1.2.1.trans h2.2.1, h1.2.2.trans h2.2.2⟩

theorem Slot.updateAttackRate_sameEnv (s : Slot) (k : Nat) : (s.updateAttackRate k).SameEnv s := by
  unfold Slot.updateAttackRate
  dsimp only
  split <;> exact ⟨rfl, rfl, rfl⟩

theorem Slot.updateDecayRate_sameEnv (s : Slot) (k : Nat) : (s.updateDecayRate k).SameEnv s :=
  ⟨rfl, rfl, rfl⟩

theorem Slot.updateReleaseRate_sameEnv (s : Slot) (k : Nat) :
    (s.updateReleaseRate k).SameEnv s :=
  ⟨rfl, rfl, rfl⟩

theorem Slot.updateGenerators_sameEnv (s : Slot) (c : Channel) :
    (s.updateGenerators c).SameEnv s := by
  have h1 := Slot.updateAttackRate_sameEnv { s with freq := c.fc * s.mul }
    (c.getKeyCode >>> s.KSR)
  have h2 := Slot.updateDecayRate_sameEnv
    (Slot.updateAttackRate { s with freq := c.fc * s.mul } (c.getKeyCode >>> s.KSR))
    (c.getKeyCode >>> s.KSR)
  have h3 := Slot.updateReleaseRate_sameEnv (Slot.updateDecayRate
    (Slot.updateAttackRate { s with freq := c.fc * s.mul } (c.getKeyCode >>> s.KSR))
    (c.getKeyCode >>> s.KSR)) (c.getKeyCode >>> s.KSR)
  have h := h3.trans (h2.trans h1)
  exact ⟨h.1, h.2.1, h.2.2⟩

theorem Slot.updateFrequency_sameEnv (s : Slot) (c : Channel) :
    (s.updateFrequency c).SameEnv s :=
  (Slot.updateGenerators_sameEnv _ c).trans ⟨rfl, rfl, rfl⟩

theorem Slot.setAttackRate_sameEnv (s : Slot) (c : Channel) (v : Nat) :
    (s.setAttackRate c v).SameEnv s :=
  (Slot.updateAttackRate_sameEnv _ _).trans ⟨rfl, rfl, rfl⟩

theorem Slot.setDecayRate_sameEnv (s : Slot) (c : Channel) (v : Nat) :
    (s.setDecayRate c v).SameEnv s :=
  (Slot.updateDecayRate_sameEnv _ _).trans ⟨rfl, rfl, rfl⟩

theorem Slot.calc_phase_sameEnv (s : Slot) (c : Channel) (lfo_pm : Nat) :
    (s.calc_phase c lfo_pm).1.SameEnv s := by
  unfold Slot.calc_phase
  exact ⟨rfl, rfl, rfl⟩

theorem Slot.setTotalLevel_sameEnv (s : Slot) (c : Channel) (v : Nat) :
    (s.setTotalLevel c v).SameEnv s := by
  unfold Slot.setTotalLevel Slot.updateTotalLevel
  exact ⟨rfl, rfl, rfl⟩

theorem Slot.setKeyScaleLevel_sameEnv (s : Slot) (c : Channel) (v : Nat) :
    (s.setKeyScaleLevel c v).SameEnv s := by
  unfold Slot.setKeyScaleLevel Slot.updateTotalLevel
  exact ⟨rfl, rfl, rfl⟩

theorem Slot.setWaveform_sameEnv (s : Slot) (v : Nat) : (s.setWaveform v).SameEnv s := by
  unfold Slot.setWaveform
  exact ⟨rfl, rfl, rfl⟩

theorem Slot.setFeedbackShift_sameEnv (s : Slot) (v : Nat) :
    (s.setFeedbackShift v).SameEnv s := by
  unfold Slot.setFeedbackShift
  exact ⟨rfl, rfl, rfl⟩

/-- The five setters of instrument bytes 0 and 1. -/
theorem Slot.flags_sameEnv (s : Slot) (a : Nat) (b d e f : Bool) :
    (((((s.setFrequencyMultiplier a).setKeyScaleRate b).setEnvelopeSustained d).setVibrato
      e).setAmplitudeModulation f).SameEnv s := by
  unfold Slot.setAmplitudeModulation Slot.setVibrato Slot.setEnvelopeSustained
    Slot.setKeyScaleRate Slot.setFrequencyMultiplier
  exact ⟨rfl, rfl, rfl⟩

theorem Slot.calcOutput_envOK {strict : Prop} (P : Params) (s : Slot) (c : Channel)
    (eg_cnt : Nat) (carrier : Bool) (lfo_am : Nat) (phase : Int) (h : s.EnvOK strict) :
    (s.calcOutput P c eg_cnt carrier lfo_am phase).1.EnvOK strict := by
  unfold Slot.calcOutput
  exact s.calc_envelope_envOK c eg_cnt carrier h

theorem Slot.calc_slot_mod_envOK {strict : Prop} (P : Params) (s : Slot) (c : Channel)
    (eg_cnt : Nat) (carrier : Bool) (lfo_pm lfo_am : Nat) (h : s.EnvOK strict) :
    (s.calc_slot_mod P c eg_cnt carrier lfo_pm lfo_am).1.EnvOK strict := by
  have h1 : (s.calc_phase c lfo_pm).1.EnvOK strict := (s.calc_phase_sameEnv c lfo_pm).envOK h
  have h2 : Slot.EnvOK strict { (s.calc_phase c lfo_pm).1 with
      op1_out0 := (s.calc_phase c lfo_pm).1.op1_out1 } := h1
  have h3 := Slot.calcOutput_envOK P _ c eg_cnt carrier lfo_am
    (if (s.calc_phase c lfo_pm).1.fb_shift ≠ 0 then
      (s.calc_phase c lfo_pm).2 + (((s.calc_phase c lfo_pm).1.op1_out0
        + (s.calc_phase c lfo_pm).1.op1_out1) >>> (s.calc_phase c lfo_pm).1.fb_shift)
     else (s.calc_phase c lfo_pm).2) h2
  unfold Slot.calc_slot_mod
  exact h3

theorem Slot.setKeyOn_envOK {strict : Prop} (s : Slot) (part : Nat) (h : s.EnvOK strict) :
    (s.setKeyOn part).EnvOK strict := by
  obtain ⟨h0, h1, h2, h3, h4⟩ := h
  unfold Slot.setKeyOn Slot.setEnvelopeState
  dsimp only
  split
  · unfold Slot.EnvOK
    dsimp only
    exact ⟨h0, h1, h2, (fun h => by cases h), (fun _ h => by cases h)⟩
  · exact ⟨h0, h1, h2, h3, h4⟩

theorem Slot.setKeyOff_envOK {strict : Prop} (s : Slot) (part : Nat) (h : s.EnvOK strict) :
    (s.setKeyOff part).EnvOK strict := by
  obtain ⟨h0, h1, h2, h3, h4⟩ := h
  unfold Slot.setKeyOff Slot.setEnvelopeState
  dsimp only
  split_ifs
  · unfold Slot.EnvOK
    dsimp only
    exact ⟨h0, h1, h2, (fun h => by cases h), (fun _ h => by cases h)⟩
  · exact ⟨h0, h1, h2, h3, h4⟩
  · exact ⟨h0, h1, h2, h3, h4⟩
  · exact ⟨h0, h1, h2, h3, h4⟩

theorem Slot.resetOperators_envOK {strict strict1 : Prop} (s : Slot) (h : s.EnvOK strict1) :
    s.resetOperators.EnvOK strict := by
  have hM : MAX_ATT_INDEX = 255 := by decide
  unfold Slot.resetOperators Slot.setEnvelopeState Slot.EnvOK
  dsimp only
  exact ⟨by omega, by omega, h.2.2.1, (fun h => by cases h), (fun _ _ => hM)⟩

theorem Slot.setSustainLevel_envOK {strict : Prop} (s : Slot) (v : Nat) (h : s.EnvOK strict) :
    (s.setSustainLevel v).EnvOK strict := by
  unfold Slot.setSustainLevel
  exact ⟨h.1, h.2.1, (sl_tab_le v).2, h.2.2.2.1, h.2.2.2.2⟩

theorem Slot.setReleaseRate_sameEnv (s : Slot) (c : Channel) (v : Nat) :
    (s.setReleaseRate c v).SameEnv s :=
  (Slot.updateReleaseRate_sameEnv _ _).trans ⟨rfl, rfl, rfl⟩

/-- A channel whose slots keep their envelope fields keeps the envelope range. -/
theorem Channel.EnvOK.of_slots {strict : Prop} {c : Channel} (m k : Slot)
    (hm : m.EnvOK strict) (hk : k.EnvOK strict) :
    Channel.EnvOK strict { c with mod := m, car := k } :=
  ⟨hm, hk⟩

theorem Channel.updateInstrumentPart_envOK {strict : Prop} (c : Channel) (part value : Nat)
    (h : c.EnvOK strict) : (c.updateInstrumentPart part value).EnvOK strict := by
  obtain ⟨hm, hc⟩ := h
  unfold Channel.updateInstrumentPart
  split
  · exact Channel.EnvOK.of_slots _ _
      (((Slot.updateGenerators_sameEnv _ c).trans (Slot.flags_sameEnv _ _ _ _ _ _)).envOK hm) hc
  · exact Channel.EnvOK.of_slots _ _ hm
      (((Slot.updateGenerators_sameEnv _ c).trans (Slot.flags_sameEnv _ _ _ _ _ _)).envOK hc)
  · exact Channel.EnvOK.of_slots _ _
      (((Slot.setTotalLevel_sameEnv _ c _).trans (Slot.setKeyScaleLevel_sameEnv _ c _)).envOK hm)
      hc
  · exact Channel.EnvOK.of_slots _ _
      (((Slot.setFeedbackShift_sameEnv _ _).trans (Slot.setWaveform_sameEnv _ _)).envOK hm)
      (((Slot.setWaveform_sameEnv _ _).trans (Slot.setKeyScaleLevel_sameEnv _ c _)).envOK hc)
  · exact Channel.EnvOK.of_slots _ _
      (((Slot.setDecayRate_sameEnv _ c _).trans (Slot.setAttackRate_sameEnv _ c _)).envOK hm) hc
  · exact Channel.EnvOK.of_slots _ _ hm
      (((Slot.setDecayRate_sameEnv _ c _).trans (Slot.setAttackRate_sameEnv _ c _)).envOK hc)
  · exact Channel.EnvOK.of_slots _ _
      ((Slot.setReleaseRate_sameEnv _ c _).envOK (Slot.setSustainLevel_envOK _ _ hm)) hc
  · exact Channel.EnvOK.of_slots _ _ hm
      ((Slot.setReleaseRate_sameEnv _ c _).envOK (Slot.setSustainLevel_envOK _ _ hc))
  · exact ⟨hm, hc⟩

theorem Channel.setFrequency_envOK {strict : Prop} (c : Channel) (block_fnum_ : Nat)
    (h : c.EnvOK strict) : (c.setFrequency block_fnum_).EnvOK strict := by
  unfold Channel.setFrequency
  split
  · exact h
  · exact Channel.EnvOK.of_slots _ _ ((Slot.updateFrequency_sameEnv _ _).envOK h.1)
      ((Slot.updateFrequency_sameEnv _ _).envOK h.2)

/-- The envelope range is kept by every channel operation. -/
theorem channelInvariant_envOK (strict : Prop) : ChannelInvariant (Channel.EnvOK strict) where
  updateInstrumentPart := fun c part value h => c.updateInstrumentPart_envOK part value h
  setTotalLevel_mod := fun c v h =>
    Channel.EnvOK.of_slots _ _ ((Slot.setTotalLevel_sameEnv _ c v).envOK h.1) h.2
  setTotalLevel_car := fun c v h =>
    Channel.EnvOK.of_slots _ _ h.1 ((Slot.setTotalLevel_sameEnv _ c v).envOK h.2)
  setKeyOn_mod := fun c part h => Channel.EnvOK.of_slots _ _ (c.mod.setKeyOn_envOK part h.1) h.2
  setKeyOn_car := fun c part h => Channel.EnvOK.of_slots _ _ h.1 (c.car.setKeyOn_envOK part h.2)
  setKeyOff_mod := fun c part h =>
    Channel.EnvOK.of_slots _ _ (c.mod.setKeyOff_envOK part h.1) h.2
  setKeyOff_car := fun c part h =>
    Channel.EnvOK.of_slots _ _ h.1 (c.car.setKeyOff_envOK part h.2)
  setFrequency := fun c bf h => c.setFrequency_envOK bf h
  setSustain := fun _ _ h => h
  setInstvol := fun _ _ h => h
  resetOperators := fun c h =>
    Channel.EnvOK.of_slots _ _ (c.mod.resetOperators_envOK h.1) (c.car.resetOperators_envOK h.2)
  calc_slot_mod := fun P c eg_cnt carrier lfo_pm lfo_am h =>
    Channel.EnvOK.of_slots _ _ (c.mod.calc_slot_mod_envOK P c eg_cnt carrier lfo_pm lfo_am h.1)
      h.2
  calcOutput := fun P c eg_cnt lfo_pm lfo_am fm h => by
    unfold Channel.calcOutput
    exact Channel.EnvOK.of_slots _ _ h.1 (Slot.calcOutput_envOK P _ c eg_cnt true lfo_am _
      ((c.car.calc_phase_sameEnv c lfo_pm).envOK h.2))
  calc_phase_mod := fun c lfo_pm h =>
    Channel.EnvOK.of_slots _ _ ((c.mod.calc_phase_sameEnv c lfo_pm).envOK h.1) h.2
  calc_phase_car := fun c lfo_pm h =>
    Channel.EnvOK.of_slots _ _ h.1 ((c.car.calc_phase_sameEnv c lfo_pm).envOK h.2)
  slotOutput_mod := fun P c eg_cnt lfo_am phase h =>
    Channel.EnvOK.of_slots _ _ (Slot.calcOutput_envOK P _ c eg_cnt true lfo_am phase h.1) h.2
  slotOutput_car := fun P c eg_cnt lfo_am phase h =>
    Channel.EnvOK.of_slots _ _ h.1 (Slot.calcOutput_envOK P _ c eg_cnt true lfo_am phase h.2)

/-! ## Persistence -/

set_option maxRecDepth 100000 in
/-- C5: round-trip persistence fails on the constructed chip after one key-on.
In the state reached by `writeReg(0x20, 0x10)` the slots of channel 0 still
hold the envelope rates of the constructor, which `updateGenerators` would not
derive; after save and load they are re-derived.  Sample 13 of channel 0 is 1
when generated from the state and 0 when generated from the restored state. -/
theorem persistence_round_trip_differs :
    ∃ s, Reachable hostParams s ∧
      ((YM2413.generateChannels hostParams s (fun _ _ => 0) 14).2 0).map (fun b => b 13)
        = some 1 ∧
      ((YM2413.generateChannels hostParams s.serialize (fun _ _ => 0) 14).2 0).map
        (fun b => b 13) = some 0 :=
  ⟨YM2413.new.writeRegAt ⟨0x20, by decide⟩ 0x10,
    Reachable.writeReg 0x20 0x10 Reachable.new (by decide) (by unfold YM2413.writeReg; rfl),
    by decide, by decide⟩

/-! ## Noise generator -/

theorem noiseStep_iterate_pos (n : Nat) {x : Nat} (h0 : 0 < x) (h : x < 2 ^ 23) :
    0 < noiseStep^[n] x := by
  induction n generalizing x with
  | zero => exact h0
  | succ n ih => rw [Function.iterate_succ_apply]; exact ih (noiseStep_pos h0 h) (noiseStep_lt h)

/-- In every reachable state the noise register is a non-zero 23-bit value. -/
theorem reachable_noise_rng {P : Params} {s : YM2413} (hs : Reachable P s) :
    0 < s.noise_rng ∧ s.noise_rng < 2 ^ 23 := by
  induction hs with
  | new =>
    rw [show YM2413.new = YM2413.init.reset from rfl, (YM2413.reset_state _).2.2.2.2.1]
    norm_num
  | @writeReg s s1 r v _ _ hw ih =>
    unfold YM2413.writeReg at hw
    split at hw
    · cases hw
      rw [YM2413.writeRegAt_frame (fun s => s.noise_rng) (fun _ _ _ _ _ => rfl)]
      exact ih
    · cases hw
  | @reset s _ _ =>
    rw [(YM2413.reset_state s).2.2.2.2.1]
    norm_num
  | @generateChannels s bufs num _ ih =>
    obtain ⟨k, _, hk, _⟩ := YM2413.generateChannels_counters P s bufs num
    rw [hk]
    exact ⟨noiseStep_iterate_pos k ih.1 ih.2, noiseStep_iterate_lt k ih.2⟩

/-- C6: the noise step keeps a non-zero 23-bit value non-zero and within 23
bits; from the reset value 1 the register is never 0, whatever the number of
samples, and it is non-zero in every reachable chip state. -/
theorem noise_rng_nonzero :
    (∀ x, 0 < x → x < 2 ^ 23 → 0 < noiseStep x ∧ noiseStep x < 2 ^ 23) ∧
    (∀ n, noiseStep^[n] 1 ≠ 0) ∧
    (∀ (P : Params) (s : YM2413), Reachable P s → s.noise_rng ≠ 0) :=
  ⟨fun _ h0 h => ⟨noiseStep_pos h0 h, noiseStep_lt h⟩,
    fun n => Nat.pos_iff_ne_zero.mp (noiseStep_iterate_pos n Nat.one_pos (by norm_num)),
    fun _ _ hs => Nat.pos_iff_ne_zero.mp (reachable_noise_rng hs).1⟩

set_option maxRecDepth 100000 in
theorem noise_before_cycle : noiseStep^[2 ^ 23 - 2] 1 = 2 := by
  rw [noiseStep_iterate_eq_fast (by norm_num) (by norm_num)]
  decide

/-- C7: from the reset value 1 the noise register is back at 1 after
`2 ^ 23 - 1` steps and after no smaller positive number of steps; after
`2 ^ 23 - 2` steps it holds 2.  The period is `2 ^ 23 - 1`, not `2 ^ 23 - 2`. -/
theorem noise_period :
    noiseStep^[2 ^ 23 - 1] 1 = 1 ∧ noiseStep^[2 ^ 23 - 2] 1 = 2 ∧
      ∀ n, 0 < n → n < 2 ^ 23 - 1 → noiseStep^[n] 1 ≠ 1 :=
  ⟨noise_cycle, noise_before_cycle, noise_cycle_min⟩

/-! ## LFO -/

/-- C8: from `lfo_am_cnt = 0` the amplitude-modulation counter is 0 again
after exactly `64 * 210 = 13440` samples and at no earlier sample; the table
index `lfo_am_cnt.toInt()` of every sample is within `[0, 210)`; and the
sample loop advances the counter by one such step per sample. -/
theorem lfo_am_period :
    lfoAmStep^[64 * 210] 0 = 0 ∧
    (∀ n, 0 < n → n < 64 * 210 → lfoAmStep^[n] 0 ≠ 0) ∧
    (∀ n, 0 ≤ lfoAmIndex (lfoAmStep^[n + 1] 0) ∧ lfoAmIndex (lfoAmStep^[n + 1] 0) < 210) ∧
    (∀ (P : Params) (a k i : Nat) (st : YM2413 × Bufs),
      (YM2413.sampleLoop P a k i st).1.lfo_am_cnt = lfoAmStep^[k] st.1.lfo_am_cnt) := by
  refine ⟨lfoAmStep_iterate_wrap, ?_, ?_, ?_⟩
  · intro n h0 hn
    rw [lfoAmStep_iterate n hn]
    omega
  · intro n
    have h := lfoAmStep_iterate_range (n + 1) (c := 0) (le_refl 0) (by norm_num)
    exact lfoAmIndex_range h.1 h.2
  · intro P a k i st
    exact (YM2413.sampleLoop_counters P a k i st).2.1

/-- C9: from `lfo_pm_cnt = 0` the vibrato phase `lfo_pm_cnt.toInt() & 7` used
for the `n`-th sample (counting from 0) is `(n / 1024) mod 8`, for every `n`,
also beyond the wrap-around of the 32-bit counter; the sample loop advances
the counter by one quantum per sample. -/
theorem lfo_pm_phase :
    (∀ n, lfoPm (lfoPmStep^[n] 0) = (n / 1024) % 8) ∧
    (∀ (P : Params) (a k i : Nat) (st : YM2413 × Bufs),
      (YM2413.sampleLoop P a k i st).1.lfo_pm_cnt = lfoPmStep^[k] st.1.lfo_pm_cnt) :=
  ⟨fun n => by rw [lfoPmStep_iterate, lfoPm_wrap32],
    fun P a k i st => (YM2413.sampleLoop_counters P a k i st).2.2.1⟩

/-! ## Envelope range in reachable states -/

theorem new_envOK (ch : Fin 9) : (YM2413.new.channels ch).EnvOK True := by
  have hn : Slot.new.EnvOK False := by
    unfold Slot.EnvOK Slot.new
    dsimp only
    exact ⟨by omega, by omega, by omega, (fun h => by cases h), (fun h => h.elim)⟩
  have h0 : ∀ k, (YM2413.init.resetStart.channels k).EnvOK False := fun _ => ⟨hn, hn⟩
  have h1 := (channelInvariant_envOK False).writeRegAt _ 0x0F 0 h0
  have h2 := (channelInvariant_envOK False).foldl_writeRegAt YM2413.resetOrder _ h1
  rw [show YM2413.new = YM2413.init.reset from rfl, YM2413.reset_eq]
  exact Channel.EnvOK.of_slots _ _ (Slot.resetOperators_envOK _ (h2 ch).1)
    (Slot.resetOperators_envOK _ (h2 ch).2)

/-- In every reachable state the envelope of every slot is in range. -/
theorem reachable_envOK {P : Params} {s : YM2413} (hs : Reachable P s) (ch : Fin 9) :
    (s.channels ch).EnvOK True :=
  (channelInvariant_envOK True).reachable new_envOK hs ch

/-- C10: in every chip state reachable from construction by register writes,
resets and sample generation, every slot has `0 <= egout <= 255`. -/
theorem envelope_clamp {P : Params} {s : YM2413} (hs : Reachable P s) (ch : Fin 9) :
    (0 ≤ (s.channels ch).mod.egout ∧ (s.channels ch).mod.egout ≤ 255) ∧
      (0 ≤ (s.channels ch).car.egout ∧ (s.channels ch).car.egout ≤ 255) :=
  ⟨⟨(reachable_envOK hs ch).1.1, (reachable_envOK hs ch).1.2.1⟩,
    ⟨(reachable_envOK hs ch).2.1, (reachable_envOK hs ch).2.2.1⟩⟩

theorem envelope_clamp_witness :
    (0 ≤ (((YM2413.generateChannels hostParams
        (YM2413.new.writeRegAt ⟨0x20, by decide⟩ 0x10) (fun _ _ => 0) 14).1).channels 0).mod.egout ∧
      (((YM2413.generateChannels hostParams
        (YM2413.new.writeRegAt ⟨0x20, by decide⟩ 0x10) (fun _ _ => 0) 14).1).channels 0).mod.egout
        ≤ 255) ∧
    (0 ≤ (((YM2413.generateChannels hostParams
        (YM2413.new.writeRegAt ⟨0x20, by decide⟩ 0x10) (fun _ _ => 0) 14).1).channels 0).car.egout ∧
      (((YM2413.generateChannels hostParams
        (YM2413.new.writeRegAt ⟨0x20, by decide⟩ 0x10) (fun _ _ => 0) 14).1).channels 0).car.egout
        ≤ 255) :=
  envelope_clamp (Reachable.generateChannels (fun _ _ => 0) 14
    (Reachable.writeReg 0x20 0x10 Reachable.new (by decide)
      (by unfold YM2413.writeReg; rfl))) 0

/-! ## An operator that is off is fully attenuated -/

/-- C11: in every chip state reachable from construction by register writes,
resets and sample generation, every slot whose envelope state is `OFF` has
`egout = 255`, the maximal attenuation. -/
theorem off_is_max {P : Params} {s : YM2413} (hs : Reachable P s) (ch : Fin 9) :
    ((s.channels ch).mod.state = .EG_OFF → (s.channels ch).mod.egout = 255) ∧
      ((s.channels ch).car.state = .EG_OFF → (s.channels ch).car.egout = 255) :=
  ⟨(reachable_envOK hs ch).1.2.2.2.2 trivial, (reachable_envOK hs ch).2.2.2.2.2 trivial⟩

set_option maxRecDepth 100000 in
theorem off_is_max_witness :
    ((YM2413.new.channels 0).mod.state = .EG_OFF ∧ (YM2413.new.channels 0).mod.egout = 255) ∧
      ((YM2413.new.channels 0).car.state = .EG_OFF ∧ (YM2413.new.channels 0).car.egout = 255) :=
  ⟨⟨by decide, (@off_is_max hostParams _ Reachable.new 0).1 (by decide)⟩,
    ⟨by decide, (@off_is_max hostParams _ Reachable.new 0).2 (by decide)⟩⟩

/-! ## Key on and key off -/

theorem Slot.setKeyOn_eq (s : Slot) (part : Nat) :
    s.setKeyOn part =
      { s with key := s.key ||| part,
               state := if s.key = 0 then EnvelopeState.EG_DUMP else s.state } := by
  unfold Slot.setKeyOn Slot.setEnvelopeState
  by_cases h : s.key = 0 <;> simp [h]

/-- C12: `setKeyOn(part)` sets `key` to `key | part`, enters `DUMP` when `key`
was 0 and keeps the envelope state otherwise; `phase`, `egout` and every other
member of the slot keep their values. -/
theorem setKeyOn_effect (s : Slot) (part : Nat) :
    s.setKeyOn part =
      { s with key := s.key ||| part,
               state := if s.key = 0 then EnvelopeState.EG_DUMP else s.state } :=
  Slot.setKeyOn_eq s part

theorem clear_bits_testBit {key : Nat} (part : Nat) (hk : key < 256) (i : Nat) :
    (key &&& (0xFF ^^^ part)).testBit i = (key.testBit i && !part.testBit i) := by
  rw [Nat.testBit_and, Nat.testBit_xor, show (0xFF : Nat) = 2 ^ 8 - 1 from rfl,
    Nat.testBit_two_pow_sub_one]
  by_cases hi : i < 8
  · simp [hi]
  · have : key.testBit i = false := by
      apply Nat.testBit_lt_two_pow
      calc key < 2 ^ 8 := hk
        _ ≤ 2 ^ i := Nat.pow_le_pow_right (by decide) (by omega)
    simp [this]

theorem Slot.setKeyOff_eq (s : Slot) (part : Nat) :
    s.setKeyOff part =
        { s with key := s.key &&& (0xFF ^^^ part),
                 state := if s.key ≠ 0 ∧ s.key &&& (0xFF ^^^ part) = 0 ∧ s.state ≠ .EG_OFF
                   then EnvelopeState.EG_RELEASE else s.state } := by
  unfold Slot.setKeyOff Slot.isActive Slot.setEnvelopeState
  by_cases h : s.key = 0
  · cases s; simp only at h; subst h; simp
  · by_cases h1 : s.key &&& (0xFF ^^^ part) = 0
    · by_cases h2 : s.state = .EG_OFF <;> simp [h, h1, h2]
    · simp [h, h1]

/-- C13: `setKeyOff(part)` sets `key` to `key & ~part` (on the byte `key`:
bit `i` of the result is bit `i` of `key` and not bit `i` of `part`), enters
`RELEASE` exactly when `key` was not 0, is 0 afterwards and the slot was not
`OFF`, and keeps the envelope state otherwise; `egout`, `phase` and every other
member of the slot keep their values. -/
theorem setKeyOff_effect (s : Slot) (part : Nat) :
    s.setKeyOff part =
        { s with key := s.key &&& (0xFF ^^^ part),
                 state := if s.key ≠ 0 ∧ s.key &&& (0xFF ^^^ part) = 0 ∧ s.state ≠ .EG_OFF
                   then EnvelopeState.EG_RELEASE else s.state } ∧
      (s.key < 256 → ∀ i, (s.setKeyOff part).key.testBit i = (s.key.testBit i && !part.testBit i)) := by
  refine ⟨Slot.setKeyOff_eq s part, fun hk i => ?_⟩
  rw [Slot.setKeyOff_eq]
  exact clear_bits_testBit part hk i

/-! ## Envelope steps -/

theorem attack_step_le (e : Int) (k : Nat) (h0 : 0 ≤ e) :
    e + ((~~~e * (k : Int)) >>> (2 : Nat)) ≤ e := by
  rw [int_not_eq, Int.shiftRight_eq_div_pow]
  have hp : (-e - 1) * (k : Int) ≤ 0 :=
    mul_nonpos_of_nonpos_of_nonneg (by omega) (Int.ofNat_nonneg k)
  generalize (-e - 1) * (k : Int) = x at hp
  norm_num
  omega

/-- C14: one `calc_envelope` step keeps the envelope state or moves it along
`DUMP -> ATTACK`, `ATTACK -> DECAY`, `DECAY -> SUSTAIN` or `RELEASE -> OFF`;
`SUSTAIN` and `OFF` are never left.  A step taken in `ATTACK` with `egout` not
negative (as it is in every reachable state) does not raise `egout` and keeps
it non-negative; a step taken in `DECAY` does not lower `egout`. -/
theorem calc_envelope_traversal (s : Slot) (channel : Channel) (eg_cnt : Nat) (carrier : Bool) :
    ((s.calc_envelope channel eg_cnt carrier).state = s.state ∨
      (s.state = .EG_DUMP ∧ (s.calc_envelope channel eg_cnt carrier).state = .EG_ATTACK) ∨
      (s.state = .EG_ATTACK ∧ (s.calc_envelope channel eg_cnt carrier).state = .EG_DECAY) ∨
      (s.state = .EG_DECAY ∧ (s.calc_envelope channel eg_cnt carrier).state = .EG_SUSTAIN) ∨
      (s.state = .EG_RELEASE ∧ (s.calc_envelope channel eg_cnt carrier).state = .EG_OFF)) ∧
    (s.state = .EG_SUSTAIN → (s.calc_envelope channel eg_cnt carrier).state = .EG_SUSTAIN) ∧
    (s.state = .EG_OFF → (s.calc_envelope channel eg_cnt carrier).state = .EG_OFF) ∧
    (s.state = .EG_ATTACK → 0 ≤ s.egout →
      (s.calc_envelope channel eg_cnt carrier).egout ≤ s.egout ∧
        0 ≤ (s.calc_envelope channel eg_cnt carrier).egout) ∧
    (s.state = .EG_DECAY → s.egout ≤ (s.calc_envelope channel eg_cnt carrier).egout) := by
  have hm : MIN_ATT_INDEX = 0 := rfl
  unfold Slot.calc_envelope
  dsimp only
  split
  · rename_i hst
    split_ifs <;> simp [Slot.setEnvelopeState, hst]
  · rename_i hst
    have ha := attack_step_le s.egout (eg_inc s.eg_sel_ar ((eg_cnt >>> s.eg_sh_ar) &&& 7))
    split_ifs with c1 c2
    · simp [Slot.setEnvelopeState, hst, hm]
    · simp only [hm] at c2
      simp only [hst]
      refine ⟨Or.inl trivial, by simp, by simp, fun _ h0 => ⟨ha h0, by omega⟩, by simp⟩
    · simp [hst]
  · rename_i hst
    split_ifs with c1 c2 <;> simp [Slot.setEnvelopeState, hst]
  · rename_i hst
    split_ifs <;> simp [hst]
  · rename_i hst
    cases carrier
    · simp [hst]
    · simp only [if_true]
      split_ifs <;> simp [Slot.setEnvelopeState, hst]
  · rename_i hst
    simp [hst]

/-- C15: for a slot in `RELEASE` with `egout <= 255`, processed with
`carrier = true`: a step does not lower `egout` and leaves it at most 255; the
state becomes `OFF` exactly when the step updates the envelope (the counter
passes the mask of the selected rate) and the updated value `egout + inc` is
255 or more, and then `egout = 255`; otherwise the state stays `RELEASE`. -/
theorem release_step (s : Slot) (channel : Channel) (eg_cnt : Nat)
    (hst : s.state = .EG_RELEASE) (hle : s.egout ≤ 255) :
    s.egout ≤ (s.calc_envelope channel eg_cnt true).egout ∧
      (s.calc_envelope channel eg_cnt true).egout ≤ 255 ∧
      ((s.calc_envelope channel eg_cnt true).state = .EG_OFF ↔
        (eg_cnt &&& (if (!s.eg_sustain || channel.sus) = true then s.eg_mask_rs
            else s.eg_mask_rr) = 0 ∧
          255 ≤ s.egout +
            eg_inc (if (!s.eg_sustain || channel.sus) = true then s.eg_sel_rs else s.eg_sel_rr)
              ((eg_cnt >>> (if (!s.eg_sustain || channel.sus) = true then s.eg_sh_rs
                else s.eg_sh_rr)) &&& 7))) ∧
      ((s.calc_envelope channel eg_cnt true).state = .EG_OFF →
        (s.calc_envelope channel eg_cnt true).egout = 255) ∧
      ((s.calc_envelope channel eg_cnt true).state ≠ .EG_OFF →
        (s.calc_envelope channel eg_cnt true).state = .EG_RELEASE) := by
  have hM : MAX_ATT_INDEX = 255 := by decide
  unfold Slot.calc_envelope
  simp only [hst, if_true]
  generalize (!s.eg_sustain || channel.sus) = b
  generalize (if b = true then s.eg_mask_rs else s.eg_mask_rr) = mask
  generalize (if b = true then s.eg_sh_rs else s.eg_sh_rr) = shift
  generalize (if b = true then s.eg_sel_rs else s.eg_sel_rr) = sel
  split_ifs with c1 c2
  · simp only [hM] at c2
    simp [Slot.setEnvelopeState, hM, c1, c2, hle]
  · simp only [hM] at c2
    simp only [hst]
    refine ⟨by simp, by omega, by simp [c2], by simp, by simp⟩
  · simp [hst, c1, hle]

theorem release_step_witness :
    (({ Slot.new with state := .EG_RELEASE, egout := 254 } : Slot).state = .EG_RELEASE ∧
      ({ Slot.new with state := .EG_RELEASE, egout := 254 } : Slot).egout ≤ 255) ∧
    (({ Slot.new with state := .EG_RELEASE, egout := 254 } : Slot).calc_envelope
      Channel.new 1 true).state = .EG_OFF ∧
    (({ Slot.new with state := .EG_RELEASE, egout := 254 } : Slot).calc_envelope
      Channel.new 1 true).egout = 255 :=
  ⟨⟨rfl, by decide⟩,
    (release_step { Slot.new with state := .EG_RELEASE, egout := 254 } Channel.new 1 rfl
      (by decide)).2.2.1.mpr ⟨by decide, by decide⟩,
    (release_step { Slot.new with state := .EG_RELEASE, egout := 254 } Channel.new 1 rfl
      (by decide)).2.2.2.1 (by decide)⟩

/-! ## Properties of the channels kept by register writes, reset and sample generation -/

namespace ChannelFrame

theorem frame_updateInstrument {I : Fin 9 → Channel → Prop} (H : ChannelFrame I) (k : Fin 9)
    (c : Channel) (inst : Fin 8 → Nat) (hc : I k c) : I k (c.updateInstrument inst) := by
  unfold Channel.updateInstrument
  generalize List.finRange 8 = l
  induction l generalizing c with
  | nil => exact hc
  | cons a l ih => exact ih _ (H.updateInstrumentPart k c _ _ hc)

theorem frame_modifyChannel {I : Fin 9 → Channel → Prop} (s : YM2413) (ch : Fin 9)
    (f : Channel → Channel) (hf : ∀ c, I ch c → I ch (f c)) (hs : ∀ k, I k (s.channels k)) :
    ∀ k, I k ((s.modifyChannel ch f).channels k) := by
  intro k
  unfold YM2413.modifyChannel
  by_cases hk : k = ch
  · subst hk; simp only [Function.update_same]; exact hf _ (hs k)
  · simp only [Function.update_noteq hk]; exact hs k

theorem frame_updateCustomInstrument {I : Fin 9 → Channel → Prop} (H : ChannelFrame I)
    (s : YM2413) (part : Fin 8) (value : Nat) (hs : ∀ k, I k (s.channels k)) :
    ∀ k, I k ((s.updateCustomInstrument part value).channels k) := by
  intro k
  unfold YM2413.updateCustomInstrument
  dsimp only
  split
  · exact H.updateInstrumentPart _ _ _ _ (hs k)
  · exact hs k

/-- Entering rhythm mode, or asking for the mode the chip is in. -/
theorem frame_setRhythmMode_on {I : Fin 9 → Channel → Prop} (H : ChannelFrame I) (s : YM2413)
    (rhythm_ : Bool) (hb : rhythm_ = true ∨ s.rhythm = rhythm_) (hs : ∀ k, I k (s.channels k)) :
    ∀ k, I k ((s.setRhythmMode rhythm_).channels k) := by
  unfold YM2413.setRhythmMode
  split
  · exact hs
  · rename_i hne
    have hb1 : rhythm_ = true := hb.resolve_right hne
    subst hb1
    dsimp only
    rw [if_pos rfl]
    refine frame_modifyChannel _ _ _ (fun c hc => H.setVolume_mod _ c hc) ?_
    refine frame_modifyChannel _ _ _ (fun c hc => H.frame_updateInstrument _ c _ hc) ?_
    refine frame_modifyChannel _ _ _ (fun c hc => H.setVolume_mod _ c hc) ?_
    refine frame_modifyChannel _ _ _ (fun c hc => H.frame_updateInstrument _ c _ hc) ?_
    refine frame_modifyChannel _ _ _ (fun c hc => H.frame_updateInstrument _ c _ hc) ?_
    exact hs

theorem low_nibble_rhythm : ∀ r : Fin 0x40, r.val &&& 0xF0 = 0x00 → r.val &&& 0x0F = 0x0E →
    r.val = 0x0E := by
  decide

/-- A register write to an address other than `0x0E`. -/
theorem frame_writeRegAt {I : Fin 9 → Channel → Prop} (H : ChannelFrame I) (s : YM2413)
    (r : Fin 0x40) (v : Nat) (hr : r.val ≠ 0x0E) (hv : v < 256) (hs : ∀ k, I k (s.channels k)) :
    ∀ k, I k ((s.writeRegAt r v).channels k) := by
  unfold YM2413.writeRegAt
  dsimp only
  split_ifs with h1 h2 h3
  · exact H.frame_updateCustomInstrument _ _ _ hs
  · exact absurd (low_nibble_rhythm r h1 h3) hr
  · exact hs
  · exact frame_modifyChannel _ _ _ (fun c hc => H.setFrequencyLow _ c _ hv hc) hs
  · refine frame_modifyChannel _ _ _ (fun c hc => H.setFrequencyHigh _ c _ hc) ?_
    refine frame_modifyChannel _ _ _ (fun c hc => H.setSustain _ c _ hc) ?_
    refine frame_modifyChannel _ _ _ (fun c hc => H.keyMain_car _ c _ hc) ?_
    exact frame_modifyChannel _ _ _ (fun c hc => H.keyMain_mod _ c _ hc) hs
  · refine frame_modifyChannel _ _ _ (fun c hc => H.setVolume_mod _ c hc) ?_
    refine frame_modifyChannel _ _ _ (fun c hc => H.setVolume_car _ c _ hc) ?_
    exact frame_modifyChannel _ _ _ (fun c hc => H.setInstvol _ c _ hv hc) hs
  · refine frame_modifyChannel _ _ _ (fun c hc => H.setVolume_car _ c _ hc) ?_
    exact frame_modifyChannel _ _ _ (fun c hc => H.setInstvol _ c _ hv hc) hs
  · refine frame_modifyChannel _ _ _ (fun c hc => H.frame_updateInstrument _ c _ hc) ?_
    refine frame_modifyChannel _ _ _ (fun c hc => H.setVolume_car _ c _ hc) ?_
    exact frame_modifyChannel _ _ _ (fun c hc => H.setInstvol _ c _ hv hc) hs
  · refine frame_modifyChannel _ _ _ (fun c hc => H.setVolume_car _ c _ hc) ?_
    exact frame_modifyChannel _ _ _ (fun c hc => H.setInstvol _ c _ hv hc) hs
  · exact hs

theorem frame_foldl_writeRegAt {I : Fin 9 → Channel → Prop} (H : ChannelFrame I)
    (l : List (Fin 0x40)) (hl : ∀ i ∈ l, i.val ≠ 0x0E) (s : YM2413)
    (hs : ∀ k, I k (s.channels k)) :
    ∀ k, I k ((l.foldl (fun (s : YM2413) (i : Fin 0x40) => s.writeRegAt i 0) s).channels k) := by
  induction l generalizing s with
  | nil => exact hs
  | cons a l ih =>
    exact ih (fun i hi => hl i (List.mem_cons_of_mem _ hi)) _
      (H.frame_writeRegAt s a 0 (hl a (List.mem_cons_self _ _)) (by decide) hs)

theorem resetOrder_ne : ∀ i ∈ YM2413.resetOrder, i.val ≠ 0x0E := by decide

theorem frame_reset {I : Fin 9 → Channel → Prop} (H : ChannelFrame I) (s : YM2413)
    (hs : ∀ k, I k (s.channels k)) : ∀ k, I k (s.reset.channels k) := by
  have h0 : ∀ k, I k (s.resetStart.channels k) := hs
  have h1 := H.frame_writeRegAt _ 0x0F 0 (by decide) (by decide) h0
  have h2 := H.frame_foldl_writeRegAt YM2413.resetOrder resetOrder_ne _ h1
  rw [YM2413.reset_eq]
  intro k
  exact H.resetOperators _ _ (h2 k)

theorem frame_melodicStep {I : Fin 9 → Channel → Prop} (H : ChannelFrame I) (P : Params)
    (eg_cnt lfo_pm lfo_am a i : Nat) (st : (Fin 9 → Channel) × Bufs) (ch : Fin 9)
    (hs : ∀ k, I k (st.1 k)) :
    ∀ k, I k ((YM2413.melodicStep P eg_cnt lfo_pm lfo_am a i st ch).1 k) := by
  intro k
  unfold YM2413.melodicStep
  dsimp only
  have hm := H.calc_slot_mod ch P (st.1 ch) eg_cnt false lfo_pm lfo_am (hs ch)
  split
  · by_cases hk : k = ch
    · subst hk; simp only [Function.update_same]; exact H.calcOutput _ P _ _ _ _ _ hm
    · simp only [Function.update_noteq hk]; exact hs k
  · by_cases hk : k = ch
    · subst hk; simp only [Function.update_same]; exact hm
    · simp only [Function.update_noteq hk]; exact hs k

theorem frame_foldl_melodicStep {I : Fin 9 → Channel → Prop} (H : ChannelFrame I) (P : Params)
    (eg_cnt lfo_pm lfo_am a i : Nat) (l : List (Fin 9)) (st : (Fin 9 → Channel) × Bufs)
    (hs : ∀ k, I k (st.1 k)) :
    ∀ k, I k ((l.foldl (YM2413.melodicStep P eg_cnt lfo_pm lfo_am a i) st).1 k) := by
  induction l generalizing st with
  | nil => exact hs
  | cons c l ih => exact ih _ (H.frame_melodicStep P eg_cnt lfo_pm lfo_am a i st c hs)

theorem frame_update {I : Fin 9 → Channel → Prop} (chs : Fin 9 → Channel) (ch : Fin 9)
    (c : Channel) (hc : I ch c) (hs : ∀ k, I k (chs k)) :
    ∀ k, I k (Function.update chs ch c k) := by
  intro k
  by_cases hk : k = ch
  · subst hk; simp only [Function.update_same]; exact hc
  · simp only [Function.update_noteq hk]; exact hs k

theorem frame_drumCarrier {I : Fin 9 → Channel → Prop} (H : ChannelFrame I) (ch : Fin 9)
    (P : Params) (active : Bool) (eg_cnt lfo_am i : Nat) (k : Fin (9 + 5)) (phase : Int)
    (st : Channel × Bufs) (hs : I ch st.1) :
    I ch (YM2413.drumCarrier P active eg_cnt lfo_am i k phase st).1 := by
  unfold YM2413.drumCarrier
  split
  · exact H.slotOutput_car _ P _ _ _ _ hs
  · exact hs

theorem frame_drumModulator {I : Fin 9 → Channel → Prop} (H : ChannelFrame I) (ch : Fin 9)
    (P : Params) (active : Bool) (eg_cnt lfo_am i : Nat) (k : Fin (9 + 5)) (phase : Int)
    (st : Channel × Bufs) (hs : I ch st.1) :
    I ch (YM2413.drumModulator P active eg_cnt lfo_am i k phase st).1 := by
  unfold YM2413.drumModulator
  split
  · exact H.slotOutput_mod _ P _ _ _ _ hs
  · exact hs

theorem frame_bassDrum {I : Fin 9 → Channel → Prop} (H : ChannelFrame I) (ch : Fin 9)
    (P : Params) (active : Bool) (eg_cnt lfo_pm lfo_am i : Nat) (st : Channel × Bufs)
    (hs : I ch st.1) : I ch (YM2413.bassDrum P active eg_cnt lfo_pm lfo_am i st).1 := by
  unfold YM2413.bassDrum
  dsimp only
  have h6 := H.calc_slot_mod ch P st.1 eg_cnt true lfo_pm lfo_am hs
  split
  · exact H.calcOutput _ P _ _ _ _ _ h6
  · exact h6

theorem frame_rhythmStep {I : Fin 9 → Channel → Prop} (H : ChannelFrame I) (P : Params)
    (noise_rng eg_cnt lfo_pm lfo_am a i : Nat) (st : (Fin 9 → Channel) × Bufs)
    (hs : ∀ k, I k (st.1 k)) :
    ∀ k, I k ((YM2413.rhythmStep P noise_rng eg_cnt lfo_pm lfo_am a i st).1 k) := by
  unfold YM2413.rhythmStep
  dsimp only
  have h7 := H.calc_phase_mod 7 _ lfo_pm (H.calc_phase_car 7 (st.1 7) lfo_pm (hs 7))
  have h8 := H.calc_phase_mod 8 _ lfo_pm (H.calc_phase_car 8 (st.1 8) lfo_pm (hs 8))
  refine frame_update _ _ _ ?_ (frame_update _ _ _ ?_ (frame_update _ _ _ ?_ hs))
  · exact H.frame_drumModulator 8 P _ _ _ _ _ _ _
      (H.frame_drumCarrier 8 P _ _ _ _ _ _ (_, _) h8)
  · exact H.frame_drumModulator 7 P _ _ _ _ _ _ _
      (H.frame_drumCarrier 7 P _ _ _ _ _ _ (_, _) h7)
  · exact H.frame_bassDrum 6 P _ _ _ _ _ (_, _) (hs 6)

theorem frame_sample {I : Fin 9 → Channel → Prop} (H : ChannelFrame I) (P : Params)
    (a i : Nat) (st : YM2413 × Bufs) (hs : ∀ k, I k (st.1.channels k)) :
    ∀ k, I k ((YM2413.sample P a i st).1.channels k) := by
  unfold YM2413.sample
  dsimp only
  split
  · exact H.frame_rhythmStep P _ _ _ _ a i _ (H.frame_foldl_melodicStep P _ _ _ a i _ _ hs)
  · exact H.frame_foldl_melodicStep P _ _ _ a i _ _ hs

theorem frame_sampleLoop {I : Fin 9 → Channel → Prop} (H : ChannelFrame I) (P : Params)
    (a k i : Nat) (st : YM2413 × Bufs) (hs : ∀ ch, I ch (st.1.channels ch)) :
    ∀ ch, I ch ((YM2413.sampleLoop P a k i st).1.channels ch) := by
  induction k generalizing i st with
  | zero => exact hs
  | succ k ih => rw [YM2413.sampleLoop]; exact ih _ _ (H.frame_sample P a i st hs)

theorem frame_generateChannels {I : Fin 9 → Channel → Prop} (H : ChannelFrame I) (P : Params)
    (s : YM2413) (bufs : Fin (9 + 5) → Nat → Int) (num : Nat)
    (hs : ∀ ch, I ch (s.channels ch)) :
    ∀ ch, I ch ((YM2413.generateChannels P s bufs num).1.channels ch) := by
  unfold YM2413.generateChannels
  dsimp only
  split_ifs
  · exact H.frame_sampleLoop P _ _ _ _ hs
  · exact hs
  · exact H.frame_sampleLoop P _ _ _ _ hs

end ChannelFrame

/-! ## The key bits -/

theorem Slot.calc_envelope_key (s : Slot) (channel : Channel) (eg_cnt : Nat) (carrier : Bool) :
    (s.calc_envelope channel eg_cnt carrier).key = s.key := by
  unfold Slot.calc_envelope
  dsimp only
  split
  · split_ifs <;> rfl
  · split_ifs <;> rfl
  · split_ifs <;> rfl
  · split_ifs <;> rfl
  · cases carrier
    · rfl
    · simp only [if_true]; split_ifs <;> rfl
  · rfl

theorem Slot.calc_phase_key (s : Slot) (channel : Channel) (lfo_pm : Nat) :
    (s.calc_phase channel lfo_pm).1.key = s.key := by
  unfold Slot.calc_phase; rfl

theorem Slot.calcOutput_key (P : Params) (s : Slot) (channel : Channel) (eg_cnt : Nat)
    (carrier : Bool) (lfo_am : Nat) (phase : Int) :
    (s.calcOutput P channel eg_cnt carrier lfo_am phase).1.key = s.key := by
  unfold Slot.calcOutput
  exact Slot.calc_envelope_key s channel eg_cnt carrier

theorem Slot.calc_slot_mod_key (P : Params) (s : Slot) (channel : Channel) (eg_cnt : Nat)
    (carrier : Bool) (lfo_pm lfo_am : Nat) :
    (s.calc_slot_mod P channel eg_cnt carrier lfo_pm lfo_am).1.key = s.key := by
  unfold Slot.calc_slot_mod
  dsimp only
  rw [Slot.calcOutput_key]
  unfold Slot.calc_phase; rfl

theorem Slot.updateGenerators_key (s : Slot) (channel : Channel) :
    (s.updateGenerators channel).key = s.key := by
  unfold Slot.updateGenerators Slot.updateReleaseRate Slot.updateDecayRate Slot.updateAttackRate
  dsimp only
  split_ifs <;> rfl

theorem Slot.updateFrequency_key (s : Slot) (channel : Channel) :
    (s.updateFrequency channel).key = s.key := by
  unfold Slot.updateFrequency
  rw [Slot.updateGenerators_key]
  unfold Slot.updateTotalLevel; rfl

theorem Slot.setAttackRate_key (s : Slot) (channel : Channel) (value : Nat) :
    (s.setAttackRate channel value).key = s.key := by
  unfold Slot.setAttackRate Slot.updateAttackRate
  dsimp only
  split_ifs <;> rfl

theorem Slot.setDecayRate_key (s : Slot) (channel : Channel) (value : Nat) :
    (s.setDecayRate channel value).key = s.key := by
  unfold Slot.setDecayRate Slot.updateDecayRate; rfl

theorem Slot.setReleaseRate_key (s : Slot) (channel : Channel) (value : Nat) :
    (s.setReleaseRate channel value).key = s.key := by
  unfold Slot.setReleaseRate Slot.updateReleaseRate; rfl

theorem Slot.setTotalLevel_key (s : Slot) (channel : Channel) (value : Nat) :
    (s.setTotalLevel channel value).key = s.key := by
  unfold Slot.setTotalLevel Slot.updateTotalLevel; rfl

theorem Slot.setKeyScaleLevel_key (s : Slot) (channel : Channel) (value : Nat) :
    (s.setKeyScaleLevel channel value).key = s.key := by
  unfold Slot.setKeyScaleLevel Slot.updateTotalLevel; rfl

theorem Slot.flags_key (s : Slot) (a : Nat) (b c d e : Bool) :
    (((((s.setFrequencyMultiplier a).setKeyScaleRate b).setEnvelopeSustained c).setVibrato
      d).setAmplitudeModulation e).key = s.key := by
  unfold Slot.setAmplitudeModulation Slot.setVibrato Slot.setEnvelopeSustained
    Slot.setKeyScaleRate Slot.setFrequencyMultiplier
  rfl

theorem Slot.setWaveform_key (s : Slot) (value : Nat) : (s.setWaveform value).key = s.key := by
  unfold Slot.setWaveform; rfl

theorem Slot.setFeedbackShift_key (s : Slot) (value : Nat) :
    (s.setFeedbackShift value).key = s.key := by
  unfold Slot.setFeedbackShift; rfl

theorem Slot.setSustainLevel_key (s : Slot) (value : Nat) :
    (s.setSustainLevel value).key = s.key := by
  unfold Slot.setSustainLevel; rfl

theorem Channel.updateInstrumentPart_key (c : Channel) (part value : Nat) :
    (c.updateInstrumentPart part value).mod.key = c.mod.key ∧
      (c.updateInstrumentPart part value).car.key = c.car.key := by
  unfold Channel.updateInstrumentPart
  split <;> (try dsimp only) <;>
    simp only [Slot.updateGenerators_key, Slot.flags_key, Slot.setTotalLevel_key,
      Slot.setKeyScaleLevel_key, Slot.setWaveform_key, Slot.setFeedbackShift_key,
      Slot.setSustainLevel_key, Slot.setAttackRate_key, Slot.setDecayRate_key,
      Slot.setReleaseRate_key, and_self]

theorem Channel.updateInstrument_key (c : Channel) (inst : Fin 8 → Nat) :
    (c.updateInstrument inst).mod.key = c.mod.key ∧
      (c.updateInstrument inst).car.key = c.car.key := by
  unfold Channel.updateInstrument
  generalize List.finRange 8 = l
  induction l generalizing c with
  | nil => exact ⟨rfl, rfl⟩
  | cons a l ih =>
    rw [List.foldl_cons]
    have h1 := ih (c.updateInstrumentPart a.val (inst a))
    have h2 := Channel.updateInstrumentPart_key c a.val (inst a)
    exact ⟨h1.1.trans h2.1, h1.2.trans h2.2⟩

theorem Channel.setFrequency_key (c : Channel) (block_fnum_ : Nat) :
    (c.setFrequency block_fnum_).mod.key = c.mod.key ∧
      (c.setFrequency block_fnum_).car.key = c.car.key := by
  unfold Channel.setFrequency
  split
  · exact ⟨rfl, rfl⟩
  · dsimp only
    exact ⟨Slot.updateFrequency_key _ _, Slot.updateFrequency_key _ _⟩

theorem or_and_other (x a b : Nat) (h : a &&& b = 0) : (x ||| a) &&& b = x &&& b := by
  rw [Nat.and_distrib_right, h, Nat.or_zero]

theorem and_and_keep (x m b : Nat) (h : m &&& b = b) : (x &&& m) &&& b = x &&& b := by
  rw [Nat.and_assoc, h]

theorem and_and_clear (x m b : Nat) (h : m &&& b = 0) : (x &&& m) &&& b = 0 := by
  rw [Nat.and_assoc, h, Nat.and_zero]

theorem or_and_same (x b : Nat) : (x ||| b) &&& b = b := by
  apply Nat.eq_of_testBit_eq
  intro i
  rw [Nat.testBit_and, Nat.testBit_or]
  cases x.testBit i <;> cases b.testBit i <;> rfl

theorem Slot.setKeyOn_key (s : Slot) (part : Nat) : (s.setKeyOn part).key = s.key ||| part := by
  rw [Slot.setKeyOn_eq]

theorem Slot.setKeyOff_key (s : Slot) (part : Nat) :
    (s.setKeyOff part).key = s.key &&& (0xFF ^^^ part) := by
  rw [Slot.setKeyOff_eq]

/-- A main key switch leaves the rhythm key bit alone. -/
theorem Slot.keyMain_rhythm (s : Slot) (b : Bool) :
    (s.setKeyOnOff KEY_MAIN b).key &&& KEY_RHYTHM = s.key &&& KEY_RHYTHM := by
  unfold Slot.setKeyOnOff
  cases b
  · simp only [Bool.false_eq_true, if_false]
    rw [Slot.setKeyOff_key]; exact and_and_keep _ _ _ (by decide)
  · simp only [if_true]
    rw [Slot.setKeyOn_key]; exact or_and_other _ _ _ (by decide)

/-- A rhythm key switch leaves the main key bit alone. -/
theorem Slot.keyRhythm_main (s : Slot) (b : Bool) :
    (s.setKeyOnOff KEY_RHYTHM b).key &&& KEY_MAIN = s.key &&& KEY_MAIN := by
  unfold Slot.setKeyOnOff
  cases b
  · simp only [Bool.false_eq_true, if_false]
    rw [Slot.setKeyOff_key]; exact and_and_keep _ _ _ (by decide)
  · simp only [if_true]
    rw [Slot.setKeyOn_key]; exact or_and_other _ _ _ (by decide)

/-- A rhythm key switch sets the rhythm key bit to the requested value. -/
theorem Slot.keyRhythm_rhythm (s : Slot) (b : Bool) :
    (s.setKeyOnOff KEY_RHYTHM b).key &&& KEY_RHYTHM = if b then KEY_RHYTHM else 0 := by
  unfold Slot.setKeyOnOff
  cases b
  · simp only [Bool.false_eq_true, if_false]
    rw [Slot.setKeyOff_key]; exact and_and_clear _ _ _ (by decide)
  · simp only [if_true]
    rw [Slot.setKeyOn_key]; exact or_and_same _ _

theorem Slot.resetOperators_key (s : Slot) : s.resetOperators.key = s.key := by
  unfold Slot.resetOperators Slot.setEnvelopeState; rfl

theorem Channel.calcOutput_keys (P : Params) (c : Channel) (eg_cnt lfo_pm lfo_am : Nat)
    (fm : Int) :
    (c.calcOutput P eg_cnt lfo_pm lfo_am fm).1.mod.key = c.mod.key ∧
      (c.calcOutput P eg_cnt lfo_pm lfo_am fm).1.car.key = c.car.key := by
  unfold Channel.calcOutput
  dsimp only
  exact ⟨rfl, (Slot.calcOutput_key _ _ _ _ _ _ _).trans (Slot.calc_phase_key _ _ _)⟩

theorem keys_congr {J : Nat → Nat → Prop} (c : Channel) {c1 : Channel}
    (hm : c1.mod.key &&& KEY_RHYTHM = c.mod.key &&& KEY_RHYTHM)
    (hc : c1.car.key &&& KEY_RHYTHM = c.car.key &&& KEY_RHYTHM)
    (h : J (c.mod.key &&& KEY_RHYTHM) (c.car.key &&& KEY_RHYTHM)) :
    J (c1.mod.key &&& KEY_RHYTHM) (c1.car.key &&& KEY_RHYTHM) := by
  rw [hm, hc]; exact h

theorem keys_congr_eq {J : Nat → Nat → Prop} (c : Channel) {c1 : Channel}
    (hm : c1.mod.key = c.mod.key) (hc : c1.car.key = c.car.key)
    (h : J (c.mod.key &&& KEY_RHYTHM) (c.car.key &&& KEY_RHYTHM)) :
    J (c1.mod.key &&& KEY_RHYTHM) (c1.car.key &&& KEY_RHYTHM) := by
  rw [hm, hc]; exact h

/-- Whatever is said about the rhythm key bits of a channel is kept by every
channel operation other than the rhythm key switches. -/
theorem channelFrame_rhythmKey (J : Fin 9 → Nat → Nat → Prop) :
    ChannelFrame (fun k c => J k (c.mod.key &&& KEY_RHYTHM) (c.car.key &&& KEY_RHYTHM)) where
  updateInstrumentPart := fun _ c part value h =>
    keys_congr_eq c (Channel.updateInstrumentPart_key c part value).1
      (Channel.updateInstrumentPart_key c part value).2 h
  setVolume_mod := fun _ c h => keys_congr_eq c (Slot.setTotalLevel_key _ _ _) rfl h
  setVolume_car := fun _ c _ h => keys_congr_eq c rfl (Slot.setTotalLevel_key _ _ _) h
  setInstvol := fun _ _ _ _ h => h
  keyMain_mod := fun _ c b h => keys_congr c (Slot.keyMain_rhythm c.mod b) rfl h
  keyMain_car := fun _ c b h => keys_congr c rfl (Slot.keyMain_rhythm c.car b) h
  setFrequencyLow := fun _ c _ _ h =>
    keys_congr_eq c (Channel.setFrequency_key c _).1 (Channel.setFrequency_key c _).2 h
  setFrequencyHigh := fun _ c _ h =>
    keys_congr_eq c (Channel.setFrequency_key c _).1 (Channel.setFrequency_key c _).2 h
  setSustain := fun _ _ _ h => h
  resetOperators := fun _ c h =>
    keys_congr_eq c (Slot.resetOperators_key c.mod) (Slot.resetOperators_key c.car) h
  calc_slot_mod := fun _ P c eg_cnt carrier lfo_pm lfo_am h =>
    keys_congr_eq c (Slot.calc_slot_mod_key P c.mod c eg_cnt carrier lfo_pm lfo_am) rfl h
  calcOutput := fun _ P c eg_cnt lfo_pm lfo_am fm h =>
    keys_congr_eq c (Channel.calcOutput_keys P c eg_cnt lfo_pm lfo_am fm).1
      (Channel.calcOutput_keys P c eg_cnt lfo_pm lfo_am fm).2 h
  calc_phase_mod := fun _ c lfo_pm h => keys_congr_eq c (Slot.calc_phase_key c.mod c lfo_pm) rfl h
  calc_phase_car := fun _ c lfo_pm h => keys_congr_eq c rfl (Slot.calc_phase_key c.car c lfo_pm) h
  slotOutput_mod := fun _ P c eg_cnt lfo_am phase h =>
    keys_congr_eq c (Slot.calcOutput_key P c.mod c eg_cnt true lfo_am phase) rfl h
  slotOutput_car := fun _ P c eg_cnt lfo_am phase h =>
    keys_congr_eq c rfl (Slot.calcOutput_key P c.car c eg_cnt true lfo_am phase) h

namespace YM2413

theorem writeRegAt_rhythmReg (s : YM2413) (v : Nat) :
    s.writeRegAt 0x0E v = ({ s with reg := Function.update s.reg 0x0E v }).setRhythmFlags v := by
  unfold writeRegAt
  rfl

theorem setRhythmMode_rhythm (s : YM2413) (b : Bool) : (s.setRhythmMode b).rhythm = b := by
  unfold setRhythmMode
  split
  · assumption
  · dsimp only; split <;> rfl

theorem setRhythmFlags_rhythm (s : YM2413) (flags : Nat) :
    (s.setRhythmFlags flags).rhythm = decide (flags &&& 0x20 ≠ 0) := by
  have h := setRhythmMode_rhythm s (decide (flags &&& 0x20 ≠ 0))
  unfold setRhythmFlags
  dsimp only
  split
  · exact h
  · exact h

theorem writeRegAt_rhythm (s : YM2413) (r : Fin 0x40) (v : Nat) (hr : r.val ≠ 0x0E) :
    (s.writeRegAt r v).rhythm = s.rhythm := by
  unfold writeRegAt
  dsimp only
  split_ifs with h1 h2 h3
  · rfl
  · exact absurd (ChannelFrame.low_nibble_rhythm r h1 h3) hr
  all_goals rfl

theorem foldl_writeRegAt_rhythm (l : List (Fin 0x40)) (hl : ∀ i ∈ l, i.val ≠ 0x0E)
    (s : YM2413) : (l.foldl (fun (s : YM2413) (i : Fin 0x40) => s.writeRegAt i 0) s).rhythm =
      s.rhythm := by
  induction l generalizing s with
  | nil => rfl
  | cons a l ih =>
    rw [List.foldl_cons, ih (fun i hi => hl i (List.mem_cons_of_mem _ hi)),
      writeRegAt_rhythm _ _ _ (hl a (List.mem_cons_self _ _))]

theorem resetOperators_rhythm (s : YM2413) : s.resetOperators.rhythm = s.rhythm := by
  unfold resetOperators; rfl

theorem resetStart_rhythm (s : YM2413) : s.resetStart.rhythm = s.rhythm := by
  unfold resetStart; rfl

/-- A reset does not touch the rhythm flag. -/
theorem reset_rhythm (s : YM2413) : s.reset.rhythm = s.rhythm := by
  rw [reset_eq, resetOperators_rhythm, foldl_writeRegAt_rhythm _ ChannelFrame.resetOrder_ne,
    writeRegAt_rhythm _ _ _ (by decide), resetStart_rhythm]

theorem sample_rhythm (P : Params) (a i : Nat) (st : YM2413 × Bufs) :
    (sample P a i st).1.rhythm = st.1.rhythm := by
  unfold sample; rfl

theorem sampleLoop_rhythm (P : Params) (a k i : Nat) (st : YM2413 × Bufs) :
    (sampleLoop P a k i st).1.rhythm = st.1.rhythm := by
  induction k generalizing i st with
  | zero => rfl
  | succ k ih => rw [sampleLoop, ih, sample_rhythm]

theorem generateChannels_rhythm (P : Params) (s : YM2413) (bufs : Fin (9 + 5) → Nat → Int)
    (num : Nat) : (generateChannels P s bufs num).1.rhythm = s.rhythm := by
  unfold generateChannels
  dsimp only
  split_ifs
  · rw [sampleLoop_rhythm]
  · rfl
  · rw [sampleLoop_rhythm]

end YM2413

/-! ## Rhythm mode and the rhythm key bits -/

namespace YM2413

theorem modifyChannel_channels (s : YM2413) (ch : Fin 9) (f : Channel → Channel) (k : Fin 9) :
    (s.modifyChannel ch f).channels k = if k = ch then f (s.channels ch) else s.channels k := by
  unfold modifyChannel
  by_cases h : k = ch
  · subst h; simp
  · simp [h]

/-- Entering rhythm mode, or staying in the mode, leaves the key bits alone. -/
theorem setRhythmMode_on_keys (s : YM2413) (k : Fin 9) :
    ((s.setRhythmMode true).channels k).mod.key = (s.channels k).mod.key ∧
      ((s.setRhythmMode true).channels k).car.key = (s.channels k).car.key := by
  have hu : ∀ (c : Channel) (inst : Fin 8 → Nat) (m n : Nat), c.mod.key = m ∧ c.car.key = n →
      (c.updateInstrument inst).mod.key = m ∧ (c.updateInstrument inst).car.key = n :=
    fun c inst m n h => ⟨(Channel.updateInstrument_key c inst).1.trans h.1,
      (Channel.updateInstrument_key c inst).2.trans h.2⟩
  have ht : ∀ (c : Channel) (value m n : Nat), c.mod.key = m ∧ c.car.key = n →
      (c.mod.setTotalLevel c value).key = m ∧ c.car.key = n :=
    fun c value m n h => ⟨(Slot.setTotalLevel_key c.mod c value).trans h.1, h.2⟩
  have step := @ChannelFrame.frame_modifyChannel
    (fun k c => c.mod.key = (s.channels k).mod.key ∧ c.car.key = (s.channels k).car.key)
  revert k
  unfold setRhythmMode
  split
  · exact fun k => ⟨rfl, rfl⟩
  · dsimp only
    rw [if_pos rfl]
    refine step _ _ _ (fun c hc => ht c _ _ _ hc) ?_
    refine step _ _ _ (fun c hc => hu c _ _ _ hc) ?_
    refine step _ _ _ (fun c hc => ht c _ _ _ hc) ?_
    refine step _ _ _ (fun c hc => hu c _ _ _ hc) ?_
    refine step _ _ _ (fun c hc => hu c _ _ _ hc) ?_
    exact fun k => ⟨rfl, rfl⟩

/-- The channels after a write of the rhythm register with the mode bit set. -/
theorem setRhythmFlags_on (s : YM2413) (flags : Nat) (h5 : flags &&& 0x20 ≠ 0) :
    (s.setRhythmFlags flags).channels = fun k =>
      if k = 6 then
        { (s.setRhythmMode true).channels 6 with
          mod := ((s.setRhythmMode true).channels 6).mod.setKeyOnOff KEY_RHYTHM
            (decide (flags &&& 0x10 ≠ 0))
          car := ((s.setRhythmMode true).channels 6).car.setKeyOnOff KEY_RHYTHM
            (decide (flags &&& 0x10 ≠ 0)) }
      else if k = 7 then
        { (s.setRhythmMode true).channels 7 with
          mod := ((s.setRhythmMode true).channels 7).mod.setKeyOnOff KEY_RHYTHM
            (decide (flags &&& 0x01 ≠ 0))
          car := ((s.setRhythmMode true).channels 7).car.setKeyOnOff KEY_RHYTHM
            (decide (flags &&& 0x08 ≠ 0)) }
      else if k = 8 then
        { (s.setRhythmMode true).channels 8 with
          mod := ((s.setRhythmMode true).channels 8).mod.setKeyOnOff KEY_RHYTHM
            (decide (flags &&& 0x04 ≠ 0))
          car := ((s.setRhythmMode true).channels 8).car.setKeyOnOff KEY_RHYTHM
            (decide (flags &&& 0x02 ≠ 0)) }
      else (s.setRhythmMode true).channels k := by
  have hb : decide (flags &&& 0x20 ≠ 0) = true := decide_eq_true h5
  unfold setRhythmFlags
  dsimp only
  rw [hb, if_pos (setRhythmMode_rhythm s true)]
  funext k
  simp only [modifyChannel_channels]
  fin_cases k <;> simp

theorem setRhythmFlags_off (s : YM2413) (flags : Nat) (h5 : flags &&& 0x20 = 0) :
    s.setRhythmFlags flags = s.setRhythmMode false := by
  have hb : decide (flags &&& 0x20 ≠ 0) = false := decide_eq_false (by simp [h5])
  unfold setRhythmFlags
  dsimp only
  rw [hb, if_neg (by rw [setRhythmMode_rhythm]; simp)]

theorem setRhythmMode_same (s : YM2413) (b : Bool) (h : s.rhythm = b) :
    s.setRhythmMode b = s := by
  unfold setRhythmMode
  rw [if_pos h]

end YM2413

theorem Slot.setKeyOff_rhythm (s : Slot) : (s.setKeyOff KEY_RHYTHM).key &&& KEY_RHYTHM = 0 := by
  rw [Slot.setKeyOff_key]; exact and_and_clear _ _ _ (by decide)

namespace YM2413

/-- Leaving rhythm mode clears the rhythm key bit of the six slots of channels
6, 7 and 8 and leaves the other channels alone. -/
theorem setRhythmMode_off_keys (s : YM2413) (hr : s.rhythm = true) (k : Fin 9) :
    (k.val < 6 → (s.setRhythmMode false).channels k = s.channels k) ∧
      (6 ≤ k.val → ((s.setRhythmMode false).channels k).mod.key &&& KEY_RHYTHM = 0 ∧
        ((s.setRhythmMode false).channels k).car.key &&& KEY_RHYTHM = 0) := by
  unfold setRhythmMode
  rw [if_neg (by simp [hr])]
  dsimp only
  simp only [Bool.false_eq_true, if_false, modifyChannel_channels]
  fin_cases k <;> simp [Slot.setKeyOff_rhythm]

end YM2413

theorem rhythm_bit_iff (x : Nat) (b : Bool) (h : x &&& KEY_RHYTHM = if b then KEY_RHYTHM else 0) :
    x &&& KEY_RHYTHM ≠ 0 ↔ b = true := by
  cases b
  · simp at h; simp [h]
  · simp at h; rw [h]; simp [KEY_RHYTHM]

/-- C16: for every chip state and every value `v` with bit 5 set, after
`writeReg(0x0E, v)` the RHYTHM key bit of both slots of channel 6 is bit 4 of
`v`, of the modulator and carrier of channel 7 bit 0 and bit 3, of the
modulator and carrier of channel 8 bit 2 and bit 1; the MAIN key bit of every
slot is what it was. -/
theorem rhythm_wiring (s : YM2413) (v : Nat) (h5 : v &&& 0x20 ≠ 0) :
    ∃ s1, s.writeReg 0x0E v = some s1 ∧
      (((s1.channels 6).mod.key &&& KEY_RHYTHM ≠ 0 ↔ v &&& 0x10 ≠ 0) ∧
        ((s1.channels 6).car.key &&& KEY_RHYTHM ≠ 0 ↔ v &&& 0x10 ≠ 0) ∧
        ((s1.channels 7).mod.key &&& KEY_RHYTHM ≠ 0 ↔ v &&& 0x01 ≠ 0) ∧
        ((s1.channels 7).car.key &&& KEY_RHYTHM ≠ 0 ↔ v &&& 0x08 ≠ 0) ∧
        ((s1.channels 8).mod.key &&& KEY_RHYTHM ≠ 0 ↔ v &&& 0x04 ≠ 0) ∧
        ((s1.channels 8).car.key &&& KEY_RHYTHM ≠ 0 ↔ v &&& 0x02 ≠ 0)) ∧
      ∀ ch, (s1.channels ch).mod.key &&& KEY_MAIN = (s.channels ch).mod.key &&& KEY_MAIN ∧
        (s1.channels ch).car.key &&& KEY_MAIN = (s.channels ch).car.key &&& KEY_MAIN := by
  refine ⟨s.writeRegAt 0x0E v, by unfold YM2413.writeReg; rfl, ?_, ?_⟩
  · rw [YM2413.writeRegAt_rhythmReg, YM2413.setRhythmFlags_on _ _ h5]
    simp only [Fin.isValue, if_true]
    refine ⟨?_, ?_, ?_, ?_, ?_, ?_⟩ <;>
      simp [rhythm_bit_iff _ _ (Slot.keyRhythm_rhythm _ _)]
  · intro ch
    have hk := YM2413.setRhythmMode_on_keys { s with reg := Function.update s.reg 0x0E v } ch
    rw [YM2413.writeRegAt_rhythmReg, YM2413.setRhythmFlags_on _ _ h5]
    dsimp only
    split_ifs with h6 h7 h8
    · subst h6; dsimp only; rw [Slot.keyRhythm_main, Slot.keyRhythm_main, hk.1, hk.2]
      exact ⟨rfl, rfl⟩
    · subst h7; dsimp only; rw [Slot.keyRhythm_main, Slot.keyRhythm_main, hk.1, hk.2]
      exact ⟨rfl, rfl⟩
    · subst h8; dsimp only; rw [Slot.keyRhythm_main, Slot.keyRhythm_main, hk.1, hk.2]
      exact ⟨rfl, rfl⟩
    · rw [hk.1, hk.2]; exact ⟨rfl, rfl⟩

theorem rhythm_wiring_witness :
    0x3F &&& 0x20 ≠ 0 ∧ ∃ s1, YM2413.new.writeReg 0x0E 0x3F = some s1 ∧
      (((s1.channels 6).mod.key &&& KEY_RHYTHM ≠ 0 ↔ 0x3F &&& 0x10 ≠ 0) ∧
        ((s1.channels 6).car.key &&& KEY_RHYTHM ≠ 0 ↔ 0x3F &&& 0x10 ≠ 0) ∧
        ((s1.channels 7).mod.key &&& KEY_RHYTHM ≠ 0 ↔ 0x3F &&& 0x01 ≠ 0) ∧
        ((s1.channels 7).car.key &&& KEY_RHYTHM ≠ 0 ↔ 0x3F &&& 0x08 ≠ 0) ∧
        ((s1.channels 8).mod.key &&& KEY_RHYTHM ≠ 0 ↔ 0x3F &&& 0x04 ≠ 0) ∧
        ((s1.channels 8).car.key &&& KEY_RHYTHM ≠ 0 ↔ 0x3F &&& 0x02 ≠ 0)) ∧
      ∀ ch, (s1.channels ch).mod.key &&& KEY_MAIN = (YM2413.new.channels ch).mod.key &&& KEY_MAIN ∧
        (s1.channels ch).car.key &&& KEY_MAIN = (YM2413.new.channels ch).car.key &&& KEY_MAIN :=
  ⟨by decide, rhythm_wiring YM2413.new 0x3F (by decide)⟩

set_option maxRecDepth 100000 in
theorem new_keys : ∀ ch : Fin 9,
    (YM2413.new.channels ch).mod.key = 0 ∧ (YM2413.new.channels ch).car.key = 0 := by
  decide

/-- In every reachable state the rhythm key bit is clear on the channels
0 .. 5 and, outside rhythm mode, on every channel. -/
theorem reachable_rhythm_keys {P : Params} {s : YM2413} (hs : Reachable P s) :
    ∀ ch : Fin 9, (ch.val < 6 ∨ s.rhythm = false) →
      (s.channels ch).mod.key &&& KEY_RHYTHM = 0 ∧ (s.channels ch).car.key &&& KEY_RHYTHM = 0 := by
  induction hs with
  | new =>
    intro ch _
    rw [(new_keys ch).1, (new_keys ch).2]
    exact ⟨by decide, by decide⟩
  | @writeReg s s1 r v _ hv hw ih =>
    unfold YM2413.writeReg at hw
    split at hw
    · rename_i hr
      cases hw
      by_cases hE : r = 0x0E
      · subst hE
        show ∀ ch : Fin 9, (ch.val < 6 ∨ (s.writeRegAt 0x0E v).rhythm = false) →
          ((s.writeRegAt 0x0E v).channels ch).mod.key &&& KEY_RHYTHM = 0 ∧
            ((s.writeRegAt 0x0E v).channels ch).car.key &&& KEY_RHYTHM = 0
        rw [YM2413.writeRegAt_rhythmReg]
        by_cases h5 : v &&& 0x20 = 0
        · rw [YM2413.setRhythmFlags_off _ _ h5]
          by_cases hrh : s.rhythm = true
          · intro ch _
            have h := YM2413.setRhythmMode_off_keys
              { s with reg := Function.update s.reg 0x0E v } hrh ch
            by_cases hch : ch.val < 6
            · rw [h.1 hch]; exact ih ch (Or.inl hch)
            · exact h.2 (by omega)
          · have hf : s.rhythm = false := by simpa using hrh
            rw [YM2413.setRhythmMode_same { s with reg := Function.update s.reg 0x0E v } false hf]
            intro ch _
            exact ih ch (Or.inr hf)
        · intro ch hch
          rw [YM2413.setRhythmFlags_rhythm] at hch
          have hlt : ch.val < 6 := by
            rcases hch with h | h
            · exact h
            · simp [h5] at h
          have hk := YM2413.setRhythmMode_on_keys
            { s with reg := Function.update s.reg 0x0E v } ch
          have hne : ch ≠ 6 ∧ ch ≠ 7 ∧ ch ≠ 8 := by
            refine ⟨?_, ?_, ?_⟩ <;> (intro h; subst h; revert hlt; decide)
          rw [YM2413.setRhythmFlags_on _ _ h5]
          simp only [hne.1, hne.2.1, hne.2.2, if_false]
          rw [hk.1, hk.2]
          exact ih ch (Or.inl hlt)
      · have hne : (⟨r, hr⟩ : Fin 0x40).val ≠ 0x0E := hE
        intro ch hch
        rw [YM2413.writeRegAt_rhythm _ _ _ hne] at hch
        exact (channelFrame_rhythmKey
          (fun k m c => (k.val < 6 ∨ s.rhythm = false) → m = 0 ∧ c = 0)).frame_writeRegAt
            s ⟨r, hr⟩ v hne hv ih ch hch
    · cases hw
  | @reset s _ ih =>
    intro ch hch
    rw [YM2413.reset_rhythm] at hch
    exact (channelFrame_rhythmKey
      (fun k m c => (k.val < 6 ∨ s.rhythm = false) → m = 0 ∧ c = 0)).frame_reset s ih ch hch
  | @generateChannels s bufs num _ ih =>
    intro ch hch
    rw [YM2413.generateChannels_rhythm] at hch
    exact (channelFrame_rhythmKey
      (fun k m c => (k.val < 6 ∨ s.rhythm = false) → m = 0 ∧ c = 0)).frame_generateChannels
        P s bufs num ih ch hch

/-- C17: in every reachable chip state with the rhythm flag false no slot has
its RHYTHM key bit set; in particular a write of a byte `v` with bit 5 clear
to register `0x0E` leaves the chip outside rhythm mode with the RHYTHM key bit
of every slot clear. -/
theorem rhythm_keys_released {P : Params} {s : YM2413} (hs : Reachable P s) :
    (s.rhythm = false → ∀ ch : Fin 9,
      (s.channels ch).mod.key &&& KEY_RHYTHM = 0 ∧ (s.channels ch).car.key &&& KEY_RHYTHM = 0) ∧
    (∀ v, v < 256 → v &&& 0x20 = 0 → ∃ s1, s.writeReg 0x0E v = some s1 ∧ s1.rhythm = false ∧
      ∀ ch : Fin 9, (s1.channels ch).mod.key &&& KEY_RHYTHM = 0 ∧
        (s1.channels ch).car.key &&& KEY_RHYTHM = 0) := by
  refine ⟨fun h ch => reachable_rhythm_keys hs ch (Or.inr h), fun v hv h5 => ?_⟩
  have hw : s.writeReg 0x0E v = some (s.writeRegAt 0x0E v) := by unfold YM2413.writeReg; rfl
  have hf : (s.writeRegAt 0x0E v).rhythm = false := by
    rw [YM2413.writeRegAt_rhythmReg, YM2413.setRhythmFlags_rhythm]; simp [h5]
  exact ⟨_, hw, hf, fun ch =>
    reachable_rhythm_keys (Reachable.writeReg 0x0E v hs hv hw) ch (Or.inr hf)⟩

theorem rhythm_keys_released_witness :
    ∃ s1, (YM2413.new.writeRegAt 0x0E 0x3F).writeReg 0x0E 0x1F = some s1 ∧ s1.rhythm = false ∧
      ∀ ch : Fin 9, (s1.channels ch).mod.key &&& KEY_RHYTHM = 0 ∧
        (s1.channels ch).car.key &&& KEY_RHYTHM = 0 :=
  (@rhythm_keys_released hostParams _
    (Reachable.writeReg 0x0E 0x3F Reachable.new (by decide)
      (by unfold YM2413.writeReg; rfl))).2 0x1F (by decide) (by decide)

/-! ## Writes to the user instrument -/

namespace YM2413

/-- A write to one of the addresses `0x00 .. 0x07` stores the byte in the
mirror and updates the user instrument. -/
theorem writeRegAt_custom (s : YM2413) (r : Nat) (hr : r < 8) (v : Nat) :
    s.writeRegAt ⟨r, by omega⟩ v =
      ({ s with reg := Function.update s.reg ⟨r, by omega⟩ v }).updateCustomInstrument ⟨r, hr⟩ v := by
  have h1 : r &&& 0xF0 = 0 := by interval_cases r <;> rfl
  have h2 : r &&& 0x0F = r := by interval_cases r <;> rfl
  unfold writeRegAt
  dsimp only
  rw [if_pos h1, dif_pos (by rw [h2]; exact hr)]
  congr 1
  exact Fin.ext h2

end YM2413

/-- C18: for every state, `r` in `0 .. 7` and `v`, after `writeReg(r, v)`
entry `r` of the user instrument `inst_tab[0]` is `v`, every other entry of
the instrument table is what it was, and every melodic channel (index below
9, below 6 in rhythm mode) whose `instvol_r` has upper nibble 0 is the result
of `updateInstrumentPart(r, v)` on its previous state. -/
theorem custom_instrument_write (s : YM2413) (r v : Nat) (hr : r < 8) :
    ∃ s1, s.writeReg r v = some s1 ∧
      (∀ (i : Fin 19) (p : Fin 8),
        s1.inst_tab i p = if i = 0 ∧ p.val = r then v else s.inst_tab i p) ∧
      ∀ ch : Fin 9, ch.val < s.getNumMelodicChannels → (s.channels ch).instvol_r &&& 0xF0 = 0 →
        s1.channels ch = (s.channels ch).updateInstrumentPart r v := by
  refine ⟨s.writeRegAt ⟨r, by omega⟩ v, by simp [YM2413.writeReg, show r < 0x40 by omega], ?_, ?_⟩
  · intro i p
    rw [YM2413.writeRegAt_custom s r hr v]
    unfold YM2413.updateCustomInstrument
    dsimp only
    by_cases hi : i = 0
    · subst hi
      by_cases hp : p = ⟨r, hr⟩
      · subst hp; simp
      · have hp1 : p.val ≠ r := fun h => hp (Fin.ext h)
        simp [hp, hp1]
    · simp [hi]
  · intro ch hch hn
    rw [YM2413.writeRegAt_custom s r hr v]
    unfold YM2413.updateCustomInstrument
    dsimp only
    rw [if_pos ⟨hch, hn⟩]

theorem custom_instrument_write_witness :
    0 < 8 ∧ ∃ s1, YM2413.new.writeReg 0 0x61 = some s1 ∧
      (∀ (i : Fin 19) (p : Fin 8),
        s1.inst_tab i p = if i = 0 ∧ p.val = 0 then 0x61 else YM2413.new.inst_tab i p) ∧
      ∀ ch : Fin 9, ch.val < YM2413.new.getNumMelodicChannels →
        (YM2413.new.channels ch).instvol_r &&& 0xF0 = 0 →
        s1.channels ch = (YM2413.new.channels ch).updateInstrumentPart 0 0x61 :=
  ⟨by decide, custom_instrument_write YM2413.new 0 0x61 (by decide)⟩

/-- C19: for every state, `r` in `0 .. 7` and `v`, `writeReg(r, v)` leaves
every channel whose `instvol_r` has a non-zero upper nibble, and the channels
6, 7 and 8 while in rhythm mode, as they were, and leaves `eg_cnt`,
`noise_rng`, the two LFO counters and the rhythm flag as they were. -/
theorem custom_instrument_frame (s : YM2413) (r v : Nat) (hr : r < 8) :
    ∃ s1, s.writeReg r v = some s1 ∧
      (∀ ch : Fin 9, ((s.channels ch).instvol_r &&& 0xF0 ≠ 0 ∨ (s.rhythm = true ∧ 6 ≤ ch.val)) →
        s1.channels ch = s.channels ch) ∧
      s1.eg_cnt = s.eg_cnt ∧ s1.noise_rng = s.noise_rng ∧ s1.lfo_am_cnt = s.lfo_am_cnt ∧
      s1.lfo_pm_cnt = s.lfo_pm_cnt ∧ s1.rhythm = s.rhythm := by
  refine ⟨s.writeRegAt ⟨r, by omega⟩ v, by simp [YM2413.writeReg, show r < 0x40 by omega], ?_, ?_⟩
  · intro ch hch
    rw [YM2413.writeRegAt_custom s r hr v]
    unfold YM2413.updateCustomInstrument
    dsimp only
    rw [if_neg]
    rintro ⟨h1, h2⟩
    rcases hch with h | ⟨h, h6⟩
    · exact h h2
    · unfold YM2413.getNumMelodicChannels at h1
      simp only [h, if_true] at h1
      omega
  · rw [YM2413.writeRegAt_custom s r hr v]
    unfold YM2413.updateCustomInstrument
    exact ⟨rfl, rfl, rfl, rfl, rfl⟩

theorem custom_instrument_frame_witness :
    3 < 8 ∧ ∃ s1, (YM2413.new.writeRegAt 0x30 0x10).writeReg 3 0x17 = some s1 ∧
      (∀ ch : Fin 9, (((YM2413.new.writeRegAt 0x30 0x10).channels ch).instvol_r &&& 0xF0 ≠ 0 ∨
          ((YM2413.new.writeRegAt 0x30 0x10).rhythm = true ∧ 6 ≤ ch.val)) →
        s1.channels ch = (YM2413.new.writeRegAt 0x30 0x10).channels ch) ∧
      s1.eg_cnt = (YM2413.new.writeRegAt 0x30 0x10).eg_cnt ∧
      s1.noise_rng = (YM2413.new.writeRegAt 0x30 0x10).noise_rng ∧
      s1.lfo_am_cnt = (YM2413.new.writeRegAt 0x30 0x10).lfo_am_cnt ∧
      s1.lfo_pm_cnt = (YM2413.new.writeRegAt 0x30 0x10).lfo_pm_cnt ∧
      s1.rhythm = (YM2413.new.writeRegAt 0x30 0x10).rhythm :=
  ⟨by decide, custom_instrument_frame (YM2413.new.writeRegAt 0x30 0x10) 3 0x17 (by decide)⟩

/-! ## Loading an instrument and setting the volume -/

theorem Slot.updateGenerators_setTotalLevel (s : Slot) (c c1 : Channel) (v : Nat) :
    (s.updateGenerators c1).setTotalLevel c v = (s.setTotalLevel c v).updateGenerators c1 := by
  unfold Slot.updateGenerators Slot.setTotalLevel Slot.updateTotalLevel Slot.updateReleaseRate
    Slot.updateDecayRate Slot.updateAttackRate
  dsimp only
  split_ifs <;> rfl

theorem Slot.flags_setTotalLevel (s : Slot) (c : Channel) (v a : Nat) (b1 b2 b3 b4 : Bool) :
    (((((s.setFrequencyMultiplier a).setKeyScaleRate b1).setEnvelopeSustained b2).setVibrato
      b3).setAmplitudeModulation b4).setTotalLevel c v =
    ((((((s.setTotalLevel c v).setFrequencyMultiplier a).setKeyScaleRate b1).setEnvelopeSustained
      b2).setVibrato b3).setAmplitudeModulation b4) := by
  unfold Slot.setAmplitudeModulation Slot.setVibrato Slot.setEnvelopeSustained
    Slot.setKeyScaleRate Slot.setFrequencyMultiplier Slot.setTotalLevel Slot.updateTotalLevel
  rfl

theorem Slot.setKeyScaleLevel_setTotalLevel (s : Slot) (c c1 : Channel) (x v : Nat)
    (h : c1.ksl_base = c.ksl_base) :
    (s.setKeyScaleLevel c1 x).setTotalLevel c v = (s.setTotalLevel c v).setKeyScaleLevel c1 x := by
  unfold Slot.setKeyScaleLevel Slot.setTotalLevel Slot.updateTotalLevel
  dsimp only
  rw [h]

theorem Slot.setWaveform_setTotalLevel (s : Slot) (c : Channel) (x v : Nat) :
    (s.setWaveform x).setTotalLevel c v = (s.setTotalLevel c v).setWaveform x := by
  unfold Slot.setWaveform Slot.setTotalLevel Slot.updateTotalLevel
  rfl

theorem Slot.setAttackRate_setTotalLevel (s : Slot) (c c1 : Channel) (x v : Nat) :
    (s.setAttackRate c1 x).setTotalLevel c v = (s.setTotalLevel c v).setAttackRate c1 x := by
  unfold Slot.setAttackRate Slot.updateAttackRate Slot.setTotalLevel Slot.updateTotalLevel
  dsimp only
  split_ifs <;> rfl

theorem Slot.setDecayRate_setTotalLevel (s : Slot) (c c1 : Channel) (x v : Nat) :
    (s.setDecayRate c1 x).setTotalLevel c v = (s.setTotalLevel c v).setDecayRate c1 x := by
  unfold Slot.setDecayRate Slot.updateDecayRate Slot.setTotalLevel Slot.updateTotalLevel
  rfl

theorem Slot.setReleaseRate_setTotalLevel (s : Slot) (c c1 : Channel) (x v : Nat) :
    (s.setReleaseRate c1 x).setTotalLevel c v = (s.setTotalLevel c v).setReleaseRate c1 x := by
  unfold Slot.setReleaseRate Slot.updateReleaseRate Slot.setTotalLevel Slot.updateTotalLevel
  rfl

theorem Slot.setSustainLevel_setTotalLevel (s : Slot) (c : Channel) (x v : Nat) :
    (s.setSustainLevel x).setTotalLevel c v = (s.setTotalLevel c v).setSustainLevel x := by
  unfold Slot.setSustainLevel Slot.setTotalLevel Slot.updateTotalLevel
  rfl

/-! The slot setters read the key code, the frequency increment, the key scale
base and the sustain flag of their channel and nothing else. -/

theorem Slot.setTotalLevel_congr (s : Slot) (c c1 : Channel) (h : c.ksl_base = c1.ksl_base)
    (v : Nat) : s.setTotalLevel c v = s.setTotalLevel c1 v := by
  unfold Slot.setTotalLevel Slot.updateTotalLevel
  rw [h]

theorem Slot.setKeyScaleLevel_congr (s : Slot) (c c1 : Channel)
    (h : c.ksl_base = c1.ksl_base) (v : Nat) :
    s.setKeyScaleLevel c v = s.setKeyScaleLevel c1 v := by
  unfold Slot.setKeyScaleLevel Slot.updateTotalLevel
  rw [h]

theorem Slot.updateGenerators_congr (s : Slot) (c c1 : Channel)
    (hb : c.block_fnum = c1.block_fnum) (hf : c.fc = c1.fc) (hs : c.sus = c1.sus) :
    s.updateGenerators c = s.updateGenerators c1 := by
  unfold Slot.updateGenerators Channel.getKeyCode
  rw [hb, hf, hs]

theorem Slot.setAttackRate_congr (s : Slot) (c c1 : Channel)
    (hb : c.block_fnum = c1.block_fnum) (v : Nat) :
    s.setAttackRate c v = s.setAttackRate c1 v := by
  unfold Slot.setAttackRate Channel.getKeyCode
  rw [hb]

theorem Slot.setDecayRate_congr (s : Slot) (c c1 : Channel)
    (hb : c.block_fnum = c1.block_fnum) (v : Nat) :
    s.setDecayRate c v = s.setDecayRate c1 v := by
  unfold Slot.setDecayRate Channel.getKeyCode
  rw [hb]

theorem Slot.setReleaseRate_congr (s : Slot) (c c1 : Channel)
    (hb : c.block_fnum = c1.block_fnum) (v : Nat) :
    s.setReleaseRate c v = s.setReleaseRate c1 v := by
  unfold Slot.setReleaseRate Channel.getKeyCode
  rw [hb]

/-- Loading an instrument part commutes with setting the carrier's total
level. -/
theorem Channel.updateInstrumentPart_volume (v : Nat) (a b : Channel) (part value : Nat)
    (h : Channel.SameButVolume v a b) :
    Channel.SameButVolume v (a.updateInstrumentPart part value)
      (b.updateInstrumentPart part value) := by
  obtain ⟨hm, hc, hb, hf, hk, hs⟩ := h
  unfold Channel.updateInstrumentPart
  split
  · refine ⟨?_, ?_, hb, hf, hk, hs⟩
    · dsimp only
      rw [hm, Slot.updateGenerators_congr _ b a hb hf hs]
    · dsimp only
      rw [hc]
      exact Slot.setTotalLevel_congr _ _ _ rfl v
  · refine ⟨hm, ?_, hb, hf, hk, hs⟩
    dsimp only
    rw [hc, Slot.updateGenerators_setTotalLevel, Slot.flags_setTotalLevel,
      Slot.updateGenerators_congr _ b a hb hf hs]
    rfl
  · refine ⟨?_, ?_, hb, hf, hk, hs⟩
    · dsimp only
      rw [hm, Slot.setKeyScaleLevel_congr _ b a hk, Slot.setTotalLevel_congr _ b a hk]
    · dsimp only
      rw [hc]
      exact Slot.setTotalLevel_congr _ _ _ rfl v
  · refine ⟨?_, ?_, hb, hf, hk, hs⟩
    · dsimp only
      rw [hm]
    · dsimp only
      rw [hc, Slot.setWaveform_setTotalLevel, Slot.setKeyScaleLevel_setTotalLevel,
        Slot.setKeyScaleLevel_congr _ b a hk]
      · rfl
      · rfl
  · refine ⟨?_, ?_, hb, hf, hk, hs⟩
    · dsimp only
      rw [hm, Slot.setAttackRate_congr _ b a hb, Slot.setDecayRate_congr _ b a hb]
    · dsimp only
      rw [hc]
      exact Slot.setTotalLevel_congr _ _ _ rfl v
  · refine ⟨hm, ?_, hb, hf, hk, hs⟩
    dsimp only
    rw [hc, Slot.setDecayRate_setTotalLevel, Slot.setAttackRate_setTotalLevel,
      Slot.setAttackRate_congr _ b a hb, Slot.setDecayRate_congr _ b a hb]
    rfl
  · refine ⟨?_, ?_, hb, hf, hk, hs⟩
    · dsimp only
      rw [hm, Slot.setReleaseRate_congr _ b a hb]
    · dsimp only
      rw [hc]
      exact Slot.setTotalLevel_congr _ _ _ rfl v
  · refine ⟨hm, ?_, hb, hf, hk, hs⟩
    dsimp only
    rw [hc, Slot.setReleaseRate_setTotalLevel, Slot.setSustainLevel_setTotalLevel,
      Slot.setReleaseRate_congr _ b a hb]
    rfl
  · exact ⟨hm, hc, hb, hf, hk, hs⟩

theorem Channel.updateInstrument_volume (v : Nat) (a b : Channel) (inst : Fin 8 → Nat)
    (h : Channel.SameButVolume v a b) :
    Channel.SameButVolume v (a.updateInstrument inst) (b.updateInstrument inst) := by
  unfold Channel.updateInstrument
  generalize List.finRange 8 = l
  induction l generalizing a b with
  | nil => exact h
  | cons p l ih => exact ih _ _ (Channel.updateInstrumentPart_volume v a b p.val (inst p) h)

theorem Channel.updateInstrumentPart_instvol (c : Channel) (part value : Nat) :
    (c.updateInstrumentPart part value).instvol_r = c.instvol_r := by
  unfold Channel.updateInstrumentPart
  split <;> rfl

namespace YM2413

theorem instvol_addr : ∀ ch : Fin 9, ¬ (0x30 + ch.val) &&& 0xF0 = 0x00 ∧
    ¬ (0x30 + ch.val) &&& 0xF0 = 0x10 ∧ ¬ (0x30 + ch.val) &&& 0xF0 = 0x20 ∧
    (0x30 + ch.val) &&& 0xF0 = 0x30 ∧ getChannelForReg (0x30 + ch.val) = ch ∧
    ((0x30 + ch.val) &&& 0x0F) % 9 = ch.val := by
  decide

/-- The channel addressed by an instrument/volume write, when it is a melodic
channel: the byte is stored, the carrier's total level set, and the
instrument reloaded when its number changes. -/
theorem writeRegAt_instvol (s : YM2413) (ch : Fin 9) (v : Nat)
    (hm : ch.val < s.getNumMelodicChannels) :
    (s.writeRegAt ⟨0x30 + ch.val, by omega⟩ v).channels ch =
      if (s.channels ch).instvol_r &&& 0xF0 ≠ v &&& 0xF0 then
        Channel.updateInstrument
          { s.channels ch with
            instvol_r := v
            car := (s.channels ch).car.setTotalLevel { s.channels ch with instvol_r := v }
              ((v &&& 0x0F) <<< 2) }
          (s.instrument (v >>> 4))
      else
        { s.channels ch with
          instvol_r := v
          car := (s.channels ch).car.setTotalLevel { s.channels ch with instvol_r := v }
            ((v &&& 0x0F) <<< 2) } := by
  obtain ⟨h0, h1, h2, h3, h4, h5⟩ := instvol_addr ch
  have hm1 : ¬ ch.val ≥ s.getNumMelodicChannels := by omega
  unfold writeRegAt
  dsimp only
  rw [if_neg h0, if_neg h1, if_neg h2, if_pos h3, h4, h5]
  split_ifs with g1 g2
  all_goals first
    | exact absurd g1 hm1
    | (simp only [modifyChannel_channels, if_true]; rfl)
    | simp only [modifyChannel_channels, if_true]

theorem writeRegs_cons (s : YM2413) (r v : Nat) (l : List (Nat × Nat)) (hr : r < 0x40) :
    s.writeRegs ((r, v) :: l) = (s.writeRegAt ⟨r, hr⟩ v).writeRegs l := by
  rw [writeRegs]
  simp only [writeReg, dif_pos hr]

/-- A user-instrument write seen from a melodic channel that plays the user
instrument: the part is loaded, and the channel stays melodic with the user
instrument. -/
theorem writeRegAt_custom_channel (s : YM2413) (ch : Fin 9) (r v : Nat) (hr : r < 8)
    (hm : ch.val < s.getNumMelodicChannels) (hn : (s.channels ch).instvol_r &&& 0xF0 = 0) :
    (s.writeRegAt ⟨r, by omega⟩ v).channels ch = (s.channels ch).updateInstrumentPart r v ∧
      ch.val < (s.writeRegAt ⟨r, by omega⟩ v).getNumMelodicChannels ∧
      ((s.writeRegAt ⟨r, by omega⟩ v).channels ch).instvol_r &&& 0xF0 = 0 := by
  have h1 : (s.writeRegAt ⟨r, by omega⟩ v).channels ch =
      (s.channels ch).updateInstrumentPart r v := by
    rw [writeRegAt_custom s r hr v]
    unfold updateCustomInstrument
    dsimp only
    rw [if_pos ⟨hm, hn⟩]
  have h2 : (s.writeRegAt ⟨r, by omega⟩ v).rhythm = s.rhythm :=
    writeRegAt_rhythm s _ v (by show r ≠ 0x0E; omega)
  refine ⟨h1, ?_, ?_⟩
  · unfold getNumMelodicChannels at hm ⊢
    rw [h2]; exact hm
  · rw [h1, Channel.updateInstrumentPart_instvol]; exact hn

set_option maxRecDepth 100000 in
theorem new_instvol : ∀ ch : Fin 9, (YM2413.new.channels ch).instvol_r = 0 := by
  decide

set_option maxRecDepth 100000 in
theorem new_rhythm : YM2413.new.rhythm = false := by
  decide

theorem new_inst_tab (i : Fin 19) (p : Fin 8) : YM2413.new.inst_tab i p = table i.val p.val := by
  show YM2413.init.reset.inst_tab i p = _
  rw [reset_eq, resetOperators_inst_tab, foldl_writeRegAt_inst_tab _ resetOrder_ge,
    writeRegAt_inst_tab _ 0x0F 0 (by decide)]
  rfl

theorem rom_nibble : ∀ k : Fin 16, 1 ≤ k.val →
    (0 : Nat) &&& 0xF0 ≠ (k.val <<< 4) &&& 0xF0 ∧ (k.val <<< 4) >>> 4 = k.val ∧
      ((k.val <<< 4) &&& 0x0F) <<< 2 = 0 := by
  decide

theorem romWrites_foldl (c : Channel) (k : Nat) :
    ((List.range 8).map fun p => (p, table k p)).foldl
        (fun (c : Channel) (rv : Nat × Nat) => c.updateInstrumentPart rv.1 rv.2) c =
      c.updateInstrument fun p => table k p.val := by
  rfl

/-- A run of user-instrument writes seen from a melodic channel that plays the
user instrument: the parts are loaded one after the other. -/
theorem writeRegs_custom (ch : Fin 9) (l rest : List (Nat × Nat)) (hl : ∀ rv ∈ l, rv.1 < 8)
    (s : YM2413) (hm : ch.val < s.getNumMelodicChannels)
    (hn : (s.channels ch).instvol_r &&& 0xF0 = 0) :
    ∃ s1 : YM2413, s.writeRegs (l ++ rest) = s1.writeRegs rest ∧
      s1.channels ch = l.foldl
        (fun (c : Channel) (rv : Nat × Nat) => c.updateInstrumentPart rv.1 rv.2) (s.channels ch) ∧
      ch.val < s1.getNumMelodicChannels ∧ (s1.channels ch).instvol_r &&& 0xF0 = 0 := by
  induction l generalizing s with
  | nil => exact ⟨s, rfl, rfl, hm, hn⟩
  | cons rv l ih =>
    obtain ⟨r, v⟩ := rv
    have hr : r < 8 := hl (r, v) (List.mem_cons_self _ _)
    obtain ⟨h1, h2, h3⟩ := writeRegAt_custom_channel s ch r v hr hm hn
    obtain ⟨s1, e1, e2, e3, e4⟩ := ih (fun rv h => hl rv (List.mem_cons_of_mem _ h)) _ h2 h3
    refine ⟨s1, ?_, ?_, e3, e4⟩
    · rw [List.cons_append, writeRegs_cons s r v _ (by omega)]
      exact e1
    · rw [e2, h1, List.foldl_cons]

/-- From any state in which channel `ch` is melodic and plays the user
instrument: programming the user instrument with the bytes of instrument `k`
and writing volume 0 configures the operators of `ch` as selecting instrument
`k` with volume 0 does. -/
theorem user_equals_instrument (t : YM2413) (k : Nat) (hk1 : 1 ≤ k) (hk : k ≤ 15) (ch : Fin 9)
    (hm : ch.val < t.getNumMelodicChannels) (hn : (t.channels ch).instvol_r &&& 0xF0 = 0)
    (hrom : ∀ p : Fin 8, t.instrument k p = table k p.val) :
    ∃ sA sB : YM2413,
      t.writeRegs (((List.range 8).map fun p => (p, table k p)) ++ [(0x30 + ch.val, 0)]) =
        some sA ∧
      t.writeReg (0x30 + ch.val) (k <<< 4) = some sB ∧
      (sA.channels ch).mod = (sB.channels ch).mod ∧
      (sA.channels ch).car = (sB.channels ch).car := by
  have hlt : 0x30 + ch.val < 0x40 := by omega
  obtain ⟨s8, e1, e2, e3, e4⟩ := writeRegs_custom ch
    ((List.range 8).map fun p => (p, table k p)) [(0x30 + ch.val, 0)]
    (by
      intro rv hrv
      obtain ⟨p, hp, rfl⟩ := List.mem_map.mp hrv
      exact List.mem_range.mp hp) t hm hn
  rw [romWrites_foldl] at e2
  obtain ⟨n1, n2, n3⟩ := rom_nibble ⟨k, by omega⟩ hk1
  simp only at n1 n2 n3
  refine ⟨s8.writeRegAt ⟨0x30 + ch.val, hlt⟩ 0, t.writeRegAt ⟨0x30 + ch.val, hlt⟩ (k <<< 4),
    ?_, ?_, ?_⟩
  · rw [e1, writeRegs_cons s8 _ _ _ hlt]
    rfl
  · unfold writeReg
    rw [dif_pos hlt]
  · have hA := writeRegAt_instvol s8 ch 0 e3
    have hB := writeRegAt_instvol t ch (k <<< 4) hm
    rw [if_neg (by rw [e4]; simp)] at hA
    rw [if_pos (by rw [hn]; exact n1), n2, n3] at hB
    have hinst : t.instrument k = fun p => table k p.val := funext hrom
    have hsim : Channel.SameButVolume 0 (t.channels ch)
        { t.channels ch with
          instvol_r := k <<< 4
          car := (t.channels ch).car.setTotalLevel
            { t.channels ch with instvol_r := k <<< 4 } 0 } :=
      ⟨rfl, Slot.setTotalLevel_congr _ _ _ rfl 0, rfl, rfl, rfl, rfl⟩
    have h8 := Channel.updateInstrument_volume 0 _ _ (t.instrument k) hsim
    rw [hA, hB, e2, ← hinst]
    generalize (t.channels ch).updateInstrument (t.instrument k) = c8 at h8 ⊢
    generalize Channel.updateInstrument _ (t.instrument k) = b8 at h8 ⊢
    refine ⟨h8.1.symm, ?_⟩
    rw [h8.2.1]
    exact Slot.setTotalLevel_congr c8.car { c8 with instvol_r := 0 } c8 rfl 0

end YM2413
/-- C20: for every ROM instrument `k` in `1 .. 15` and every channel `ch` in
`0 .. 8`, from the state of the chip after construction and reset, writing
the 8 bytes of ROM instrument `k` to the registers `0x00 .. 0x07` and then
`0x00` to `0x30 + ch` leaves both slots of channel `ch` with the same value in
every field as writing `k << 4` to `0x30 + ch` does from the same state. -/
theorem user_equals_rom (k ch : Nat) (hk1 : 1 ≤ k) (hk : k ≤ 15) (hch : ch < 9) :
    ∃ sA sB : YM2413,
      YM2413.new.writeRegs (((List.range 8).map fun p => (p, table k p)) ++ [(0x30 + ch, 0)]) =
        some sA ∧
      YM2413.new.writeReg (0x30 + ch) (k <<< 4) = some sB ∧
      (sA.channels ⟨ch, hch⟩).mod = (sB.channels ⟨ch, hch⟩).mod ∧
      (sA.channels ⟨ch, hch⟩).car = (sB.channels ⟨ch, hch⟩).car := by
  refine YM2413.user_equals_instrument YM2413.new k hk1 hk ⟨ch, hch⟩ ?_ ?_ ?_
  · unfold YM2413.getNumMelodicChannels
    rw [YM2413.new_rhythm]
    exact hch
  · rw [YM2413.new_instvol]
    rfl
  · intro p
    unfold YM2413.instrument
    rw [dif_pos (by omega), YM2413.new_inst_tab]

theorem user_equals_rom_witness :
    (1 ≤ 1 ∧ 1 ≤ 15 ∧ 0 < 9) ∧ ∃ sA sB : YM2413,
      YM2413.new.writeRegs (((List.range 8).map fun p => (p, table 1 p)) ++ [(0x30 + 0, 0)]) =
        some sA ∧
      YM2413.new.writeReg (0x30 + 0) (1 <<< 4) = some sB ∧
      (sA.channels ⟨0, by decide⟩).mod = (sB.channels ⟨0, by decide⟩).mod ∧
      (sA.channels ⟨0, by decide⟩).car = (sB.channels ⟨0, by decide⟩).car :=
  ⟨⟨by decide, by decide, by decide⟩, user_equals_rom 1 0 (by decide) (by decide) (by decide)⟩

/-! ## Scenario A: the first samples of a note -/

set_option maxRecDepth 1000000 in
set_option maxHeartbeats 4000000 in
/-- C21, counterexample: from the post-reset state, after `writeReg(0x30, 0x30)`,
`writeReg(0x10, 0x00)` and `writeReg(0x20, 0x15)` the carrier of channel 0 is
in `DUMP` with `egout = 255`; `generateChannels` over 1 sample into zeroed
buffers leaves `bufs[0][0] = 0`: that sample is the step from `DUMP` to
`ATTACK`, made at full attenuation. -/
theorem first_sample_is_zero :
    YM2413.new.writeRegs [(0x30, 0x30), (0x10, 0x00), (0x20, 0x15)] =
      some (((YM2413.new.writeRegAt 0x30 0x30).writeRegAt 0x10 0x00).writeRegAt 0x20 0x15) ∧
    ((((YM2413.new.writeRegAt 0x30 0x30).writeRegAt 0x10 0x00).writeRegAt 0x20 0x15).channels
      0).car.state = .EG_DUMP ∧
    ((((YM2413.new.writeRegAt 0x30 0x30).writeRegAt 0x10 0x00).writeRegAt 0x20 0x15).channels
      0).car.egout = 255 ∧
    ((YM2413.generateChannels hostParams
      (((YM2413.new.writeRegAt 0x30 0x30).writeRegAt 0x10 0x00).writeRegAt 0x20 0x15)
      (fun _ _ => 0) 1).2 0).map (fun b => b 0) = some 0 ∧
    ((YM2413.generateChannels hostParams
      (((YM2413.new.writeRegAt 0x30 0x30).writeRegAt 0x10 0x00).writeRegAt 0x20 0x15)
      (fun _ _ => 0) 1).1.channels 0).car.state = .EG_ATTACK := by
  refine ⟨rfl, ?_, ?_, ?_, ?_⟩ <;> decide

set_option maxRecDepth 1000000 in
set_option maxHeartbeats 4000000 in
/-- C21, as the code has it: from the post-reset state, after
`writeReg(0x30, 0x30)`, `writeReg(0x10, 0x00)` and `writeReg(0x20, 0x15)`,
`generateChannels` over 2 samples into zeroed buffers (tables of the host)
leaves buffer 0 non-null with `bufs[0][0] = 0` and `bufs[0][1] = 31`, the
first non-zero sample, and nulls the buffers 1 to 13. -/
theorem second_sample_is_nonzero :
    ((YM2413.generateChannels hostParams
      (((YM2413.new.writeRegAt 0x30 0x30).writeRegAt 0x10 0x00).writeRegAt 0x20 0x15)
      (fun _ _ => 0) 2).2 0).map (fun b => (b 0, b 1)) = some (0, 31) ∧
    ∀ k : Fin (9 + 5), k ≠ 0 → ((YM2413.generateChannels hostParams
      (((YM2413.new.writeRegAt 0x30 0x30).writeRegAt 0x10 0x00).writeRegAt 0x20 0x15)
      (fun _ _ => 0) 2).2 k).isNone = true := by
  constructor <;> decide

/-! ## Idle chip: the envelope counter -/

theorem Slot.isActive_eq_false (s : Slot) : s.isActive = false ↔ s.state = .EG_OFF := by
  unfold Slot.isActive
  cases s.state <;> decide

theorem Slot.calc_envelope_off (s : Slot) (channel : Channel) (eg_cnt : Nat) (carrier : Bool)
    (h : s.isActive = false) : (s.calc_envelope channel eg_cnt carrier).isActive = false := by
  rw [Slot.isActive_eq_false] at h
  unfold Slot.calc_envelope
  rw [h]
  exact (Slot.isActive_eq_false s).2 h

theorem Slot.calcOutput_off (P : Params) (s : Slot) (channel : Channel) (eg_cnt : Nat)
    (carrier : Bool) (lfo_am : Nat) (phase : Int) (h : s.isActive = false) :
    (s.calcOutput P channel eg_cnt carrier lfo_am phase).1.isActive = false :=
  Slot.calc_envelope_off s channel eg_cnt carrier h

theorem Slot.calc_slot_mod_off (P : Params) (s : Slot) (channel : Channel) (eg_cnt : Nat)
    (carrier : Bool) (lfo_pm lfo_am : Nat) (h : s.isActive = false) :
    (s.calc_slot_mod P channel eg_cnt carrier lfo_pm lfo_am).1.isActive = false := by
  unfold Slot.calc_slot_mod
  exact Slot.calcOutput_off P _ channel eg_cnt carrier lfo_am _ h

theorem Channel.calcOutput_silent (P : Params) (c : Channel) (eg_cnt lfo_pm lfo_am : Nat)
    (fm : Int) (h : c.Silent) : (c.calcOutput P eg_cnt lfo_pm lfo_am fm).1.Silent := by
  unfold Channel.calcOutput
  exact ⟨Slot.calc_envelope_off _ c eg_cnt true h.1, h.2⟩

namespace YM2413

theorem melodicStep_silent (P : Params) (eg_cnt lfo_pm lfo_am a i : Nat)
    (st : (Fin 9 → Channel) × Bufs) (ch : Fin 9) (hs : ∀ k, (st.1 k).Silent) :
    ∀ k, ((melodicStep P eg_cnt lfo_pm lfo_am a i st ch).1 k).Silent := by
  have hm : Channel.Silent { st.1 ch with
      mod := ((st.1 ch).mod.calc_slot_mod P (st.1 ch) eg_cnt false lfo_pm lfo_am).1 } :=
    ⟨(hs ch).1, Slot.calc_slot_mod_off P _ _ _ _ _ _ (hs ch).2⟩
  unfold melodicStep
  dsimp only
  split
  · exact ChannelInvariant.update_all _ _ _ (Channel.calcOutput_silent P _ _ _ _ _ hm) hs
  · exact ChannelInvariant.update_all _ _ _ hm hs

theorem foldl_melodicStep_silent (P : Params) (eg_cnt lfo_pm lfo_am a i : Nat)
    (l : List (Fin 9)) (st : (Fin 9 → Channel) × Bufs) (hs : ∀ k, (st.1 k).Silent) :
    ∀ k, ((l.foldl (melodicStep P eg_cnt lfo_pm lfo_am a i) st).1 k).Silent := by
  induction l generalizing st with
  | nil => exact hs
  | cons c l ih => exact ih _ (melodicStep_silent P eg_cnt lfo_pm lfo_am a i st c hs)

theorem drumCarrier_silent (P : Params) (active : Bool) (eg_cnt lfo_am i : Nat)
    (k : Fin (9 + 5)) (phase : Int) (st : Channel × Bufs) (hs : st.1.Silent) :
    (drumCarrier P active eg_cnt lfo_am i k phase st).1.Silent := by
  unfold drumCarrier
  split
  · exact ⟨Slot.calc_envelope_off _ _ _ _ hs.1, hs.2⟩
  · exact hs

theorem drumModulator_silent (P : Params) (active : Bool) (eg_cnt lfo_am i : Nat)
    (k : Fin (9 + 5)) (phase : Int) (st : Channel × Bufs) (hs : st.1.Silent) :
    (drumModulator P active eg_cnt lfo_am i k phase st).1.Silent := by
  unfold drumModulator
  split
  · exact ⟨hs.1, Slot.calc_envelope_off _ _ _ _ hs.2⟩
  · exact hs

theorem bassDrum_silent (P : Params) (active : Bool) (eg_cnt lfo_pm lfo_am i : Nat)
    (st : Channel × Bufs) (hs : st.1.Silent) :
    (bassDrum P active eg_cnt lfo_pm lfo_am i st).1.Silent := by
  have h6 : Channel.Silent { st.1 with
      mod := (st.1.mod.calc_slot_mod P st.1 eg_cnt true lfo_pm lfo_am).1 } :=
    ⟨hs.1, Slot.calc_slot_mod_off P _ _ _ _ _ _ hs.2⟩
  unfold bassDrum
  dsimp only
  split
  · exact Channel.calcOutput_silent P _ _ _ _ _ h6
  · exact h6

theorem rhythmStep_silent (P : Params) (noise_rng eg_cnt lfo_pm lfo_am a i : Nat)
    (st : (Fin 9 → Channel) × Bufs) (hs : ∀ k, (st.1 k).Silent) :
    ∀ k, ((rhythmStep P noise_rng eg_cnt lfo_pm lfo_am a i st).1 k).Silent := by
  unfold rhythmStep
  dsimp only
  have h7 : Channel.Silent { st.1 7 with
      car := ((st.1 7).car.calc_phase (st.1 7) lfo_pm).1
      mod := ((st.1 7).mod.calc_phase
        { st.1 7 with car := ((st.1 7).car.calc_phase (st.1 7) lfo_pm).1 } lfo_pm).1 } := hs 7
  have h8 : Channel.Silent { st.1 8 with
      car := ((st.1 8).car.calc_phase (st.1 8) lfo_pm).1
      mod := ((st.1 8).mod.calc_phase
        { st.1 8 with car := ((st.1 8).car.calc_phase (st.1 8) lfo_pm).1 } lfo_pm).1 } := hs 8
  refine ChannelInvariant.update_all _ _ _ ?_
    (ChannelInvariant.update_all _ _ _ ?_ (ChannelInvariant.update_all _ _ _ ?_ hs))
  · exact drumModulator_silent P _ _ _ _ _ _ _ (drumCarrier_silent P _ _ _ _ _ _ (_, _) h8)
  · exact drumModulator_silent P _ _ _ _ _ _ _ (drumCarrier_silent P _ _ _ _ _ _ (_, _) h7)
  · exact bassDrum_silent P _ _ _ _ _ (_, _) (hs 6)

theorem sample_silent (P : Params) (a i : Nat) (st : YM2413 × Bufs)
    (hs : ∀ k, (st.1.channels k).Silent) : ∀ k, ((sample P a i st).1.channels k).Silent := by
  unfold sample
  dsimp only
  split
  · exact rhythmStep_silent P _ _ _ _ a i _ (foldl_melodicStep_silent P _ _ _ a i _ _ hs)
  · exact foldl_melodicStep_silent P _ _ _ a i _ _ hs

theorem sampleLoop_silent (P : Params) (a k i : Nat) (st : YM2413 × Bufs)
    (hs : ∀ ch, (st.1.channels ch).Silent) :
    ∀ ch, ((sampleLoop P a k i st).1.channels ch).Silent := by
  induction k generalizing i st with
  | zero => exact hs
  | succ k ih => rw [sampleLoop]; exact ih _ _ (sample_silent P a i st hs)

/-- A call of `generateChannels` on a chip whose operators are all off: when
the idle counter is above the threshold nothing changes; otherwise `eg_cnt` is
incremented `num` times and the idle counter grows by `num`.  The operators
stay off. -/
theorem generateChannels_silent (P : Params) (s : YM2413) (bufs : Fin (9 + 5) → Nat → Int)
    (num : Nat) (hs : ∀ ch, (s.channels ch).Silent) :
    (∀ ch, ((generateChannels P s bufs num).1.channels ch).Silent) ∧
    (P.CLOCK_FREQ / (72 * 5) < s.idleSamples → (generateChannels P s bufs num).1 = s) ∧
    (s.idleSamples ≤ P.CLOCK_FREQ / (72 * 5) →
      (generateChannels P s bufs num).1.eg_cnt = (fun c => (c + 1) % 2 ^ 32)^[num] s.eg_cnt ∧
      (generateChannels P s bufs num).1.idleSamples = (s.idleSamples + num) % 2 ^ 32) := by
  have h0 := scanActive_of_inactive s (fun k => some (bufs k)) (fun ch => (hs ch).1)
    (fun ch => (hs ch).2)
  unfold generateChannels
  simp only [h0, ne_eq, not_true_eq_false, if_false]
  refine ⟨?_, fun h => ?_, fun h => ?_⟩
  · split
    · exact hs
    · exact sampleLoop_silent P _ _ _ _ hs
  · rw [if_pos h]
  · rw [if_neg (by omega)]
    obtain ⟨_, _, _, h4, h5, _⟩ := sampleLoop_counters P 0 num 0
      ({ s with idleSamples := (s.idleSamples + num) % 2 ^ 32 }, fun _ => none)
    exact ⟨h4, h5⟩

theorem eg_cnt_iterate (k c : Nat) (h : c < 2 ^ 32) :
    (fun c => (c + 1) % 2 ^ 32)^[k] c = (c + k) % 2 ^ 32 := by
  induction k with
  | zero => exact (Nat.mod_eq_of_lt h).symm
  | succ k ih =>
    rw [Function.iterate_succ_apply', ih]
    show ((c + k) % 2 ^ 32 + 1) % 2 ^ 32 = (c + (k + 1)) % 2 ^ 32
    omega

theorem new_counters : YM2413.new.eg_cnt = 0 ∧ YM2413.new.idleSamples = 0 := by
  unfold YM2413.new
  exact ⟨reset_frame (fun s => s.eg_cnt) (fun _ _ _ _ _ => rfl) _,
    reset_frame (fun s => s.idleSamples) (fun _ _ _ _ _ => rfl) _⟩

theorem new_silent : ∀ ch, (YM2413.new.channels ch).Silent :=
  fun _ => ⟨rfl, rfl⟩

end YM2413

/-- C22, counterexample: from the post-reset state one `generateChannels` call
for 44100 samples increments `eg_cnt` 44100 times, more than
`CLOCK_FREQ / (72 * 5) = 9943`: the idle test is made once per call, before
its samples. -/
theorem idle_bound_exceeded :
    (YM2413.generateChannels hostParams YM2413.new (fun _ _ => 0) 44100).1.eg_cnt = 44100 ∧
      hostParams.CLOCK_FREQ / (72 * 5) = 9943 ∧
      ∀ ch, (YM2413.new.channels ch).car.state = .EG_OFF ∧
        (YM2413.new.channels ch).mod.state = .EG_OFF := by
  refine ⟨?_, by decide, fun _ => ⟨rfl, rfl⟩⟩
  have h := (YM2413.generateChannels_silent hostParams YM2413.new (fun _ _ => 0) 44100
    YM2413.new_silent).2.2 (by rw [YM2413.new_counters.2]; exact Nat.zero_le _)
  rw [h.1, YM2413.new_counters.1]
  exact YM2413.eg_cnt_iterate 44100 0 (by norm_num)

/-- C22, as the code has it: while every operator is off, over a run of
`generateChannels` calls of at most `N` samples each, `eg_cnt` is incremented
`k` times in total, where `k` is 0 when the idle counter starts above
`T = CLOCK_FREQ / (72 * 5)` and otherwise the idle counter plus `k` is at most
`T + N`; the idle counter grows by `k` and the operators stay off. -/
theorem idle_advance_bound (P : Params) (calls : List ((Fin (9 + 5) → Nat → Int) × Nat))
    (N : Nat) (s : YM2413) (hs : ∀ ch, (s.channels ch).Silent)
    (hN : ∀ c ∈ calls, c.2 ≤ N) (hT : P.CLOCK_FREQ / (72 * 5) + N < 2 ^ 32) :
    ∃ k, (YM2413.generateRun P s calls).eg_cnt = (fun c => (c + 1) % 2 ^ 32)^[k] s.eg_cnt ∧
      (YM2413.generateRun P s calls).idleSamples = s.idleSamples + k ∧
      (P.CLOCK_FREQ / (72 * 5) < s.idleSamples → k = 0) ∧
      (s.idleSamples ≤ P.CLOCK_FREQ / (72 * 5) →
        s.idleSamples + k ≤ P.CLOCK_FREQ / (72 * 5) + N) ∧
      ∀ ch, ((YM2413.generateRun P s calls).channels ch).Silent := by
  induction calls generalizing s with
  | nil => exact ⟨0, rfl, rfl, fun _ => rfl, fun h => by omega, hs⟩
  | cons c l ih =>
    have hl : ∀ c ∈ l, c.2 ≤ N := fun c hc => hN c (List.mem_cons_of_mem _ hc)
    have hc : c.2 ≤ N := hN c (List.mem_cons_self _ _)
    obtain ⟨g1, g2, g3⟩ := YM2413.generateChannels_silent P s c.1 c.2 hs
    rw [YM2413.generateRun]
    by_cases hi : P.CLOCK_FREQ / (72 * 5) < s.idleSamples
    · rw [g2 hi]
      exact ih s hs hl
    · obtain ⟨e1, e2⟩ := g3 (by omega)
      rw [Nat.mod_eq_of_lt (by omega)] at e2
      obtain ⟨k, h1, h2, h3, h4, h5⟩ := ih _ g1 hl
      refine ⟨k + c.2, ?_, ?_, fun h => absurd h hi, fun _ => ?_, h5⟩
      · rw [h1, e1, Function.iterate_add_apply]
      · rw [h2, e2]; omega
      · rw [e2] at h3 h4
        by_cases hj : P.CLOCK_FREQ / (72 * 5) < s.idleSamples + c.2
        · have := h3 hj
          omega
        · have := h4 (by omega)
          omega

theorem idle_advance_bound_witness :
    (∀ ch, (YM2413.new.channels ch).Silent) ∧
    (∀ c ∈ [((fun _ _ => 0 : Fin (9 + 5) → Nat → Int), 44100), (fun _ _ => 0, 44100)],
        c.2 ≤ 44100) ∧
      hostParams.CLOCK_FREQ / (72 * 5) + 44100 < 2 ^ 32 ∧
      ∃ k, (YM2413.generateRun hostParams YM2413.new
          [(fun _ _ => 0, 44100), (fun _ _ => 0, 44100)]).idleSamples =
            YM2413.new.idleSamples + k ∧
        (YM2413.new.idleSamples ≤ hostParams.CLOCK_FREQ / (72 * 5) →
          YM2413.new.idleSamples + k ≤ hostParams.CLOCK_FREQ / (72 * 5) + 44100) :=
  ⟨YM2413.new_silent, by simp, by decide,
    (idle_advance_bound hostParams [(fun _ _ => 0, 44100), (fun _ _ => 0, 44100)] 44100
      YM2413.new YM2413.new_silent (by simp) (by decide)).imp
      fun _ h => ⟨h.2.1, h.2.2.2.1⟩⟩

/-! ## Buffer nulling -/

namespace YM2413

theorem addSample_none (bufs : Bufs) (k : Fin (9 + 5)) (i : Nat) (x : Int) (j : Fin (9 + 5)) :
    addSample bufs k i x j = none ↔ bufs j = none := by
  unfold addSample
  by_cases h : j = k
  · subst h
    rw [Function.update_same, Option.map_eq_none']
  · rw [Function.update_noteq h]

theorem melodicStep_none (P : Params) (eg_cnt lfo_pm lfo_am a i : Nat)
    (st : (Fin 9 → Channel) × Bufs) (ch : Fin 9) (j : Fin (9 + 5)) :
    (melodicStep P eg_cnt lfo_pm lfo_am a i st ch).2 j = none ↔ st.2 j = none := by
  unfold melodicStep
  dsimp only
  split
  · exact addSample_none _ _ _ _ _
  · exact Iff.rfl

theorem foldl_melodicStep_none (P : Params) (eg_cnt lfo_pm lfo_am a i : Nat)
    (l : List (Fin 9)) (st : (Fin 9 → Channel) × Bufs) (j : Fin (9 + 5)) :
    (l.foldl (melodicStep P eg_cnt lfo_pm lfo_am a i) st).2 j = none ↔ st.2 j = none := by
  induction l generalizing st with
  | nil => exact Iff.rfl
  | cons c l ih => rw [List.foldl_cons, ih, melodicStep_none]

theorem drumCarrier_none (P : Params) (active : Bool) (eg_cnt lfo_am i : Nat)
    (k : Fin (9 + 5)) (phase : Int) (st : Channel × Bufs) (j : Fin (9 + 5)) :
    (drumCarrier P active eg_cnt lfo_am i k phase st).2 j = none ↔ st.2 j = none := by
  unfold drumCarrier
  split
  · exact addSample_none _ _ _ _ _
  · exact Iff.rfl

theorem drumModulator_none (P : Params) (active : Bool) (eg_cnt lfo_am i : Nat)
    (k : Fin (9 + 5)) (phase : Int) (st : Channel × Bufs) (j : Fin (9 + 5)) :
    (drumModulator P active eg_cnt lfo_am i k phase st).2 j = none ↔ st.2 j = none := by
  unfold drumModulator
  split
  · exact addSample_none _ _ _ _ _
  · exact Iff.rfl

theorem bassDrum_none (P : Params) (active : Bool) (eg_cnt lfo_pm lfo_am i : Nat)
    (st : Channel × Bufs) (j : Fin (9 + 5)) :
    (bassDrum P active eg_cnt lfo_pm lfo_am i st).2 j = none ↔ st.2 j = none := by
  unfold bassDrum
  dsimp only
  split
  · exact addSample_none _ _ _ _ _
  · exact Iff.rfl

theorem rhythmStep_none (P : Params) (noise_rng eg_cnt lfo_pm lfo_am a i : Nat)
    (st : (Fin 9 → Channel) × Bufs) (j : Fin (9 + 5)) :
    (rhythmStep P noise_rng eg_cnt lfo_pm lfo_am a i st).2 j = none ↔ st.2 j = none := by
  unfold rhythmStep
  dsimp only
  rw [drumModulator_none, drumModulator_none, drumCarrier_none, drumCarrier_none,
    bassDrum_none]

theorem sample_none (P : Params) (a i : Nat) (st : YM2413 × Bufs) (j : Fin (9 + 5)) :
    (sample P a i st).2 j = none ↔ st.2 j = none := by
  unfold sample
  dsimp only
  split
  · rw [rhythmStep_none, foldl_melodicStep_none]
  · rw [foldl_melodicStep_none]

theorem sampleLoop_none (P : Params) (a k i : Nat) (st : YM2413 × Bufs) (j : Fin (9 + 5)) :
    (sampleLoop P a k i st).2 j = none ↔ st.2 j = none := by
  induction k generalizing i st with
  | zero => exact Iff.rfl
  | succ k ih => rw [sampleLoop, ih, sample_none]

/-- The buffers `generateChannels` hands back as null are those the activity
scan nulls. -/
theorem generateChannels_none (P : Params) (s : YM2413) (bufs : Fin (9 + 5) → Nat → Int)
    (num : Nat) (j : Fin (9 + 5)) :
    (generateChannels P s bufs num).2 j = none ↔
      (s.scanActive fun k => some (bufs k)).2 j = none := by
  unfold generateChannels
  dsimp only
  split_ifs
  · exact sampleLoop_none _ _ _ _ _ _
  · exact Iff.rfl
  · exact sampleLoop_none _ _ _ _ _ _

theorem markCarrier_none (s : YM2413) (buf : Fin 9 → Fin (9 + 5)) (st : Nat × Bufs)
    (ch : Fin 9) (j : Fin (9 + 5)) :
    (markCarrier s buf st ch).2 j = none ↔
      st.2 j = none ∨ (buf ch = j ∧ (s.channels ch).car.state = .EG_OFF) := by
  unfold markCarrier Slot.isActive
  by_cases h : (s.channels ch).car.state = .EG_OFF
  · rw [h]
    simp only [bne_self_eq_false, Bool.false_eq_true, if_false, and_true]
    by_cases hj : j = buf ch
    · subst hj
      simp
    · rw [Function.update_noteq hj]
      exact ⟨Or.inl, fun g => g.elim id fun e => absurd e.symm hj⟩
  · have hb : ((s.channels ch).car.state != .EG_OFF) = true := by
      cases hst : (s.channels ch).car.state <;> first | rfl | exact absurd hst h
    rw [hb]
    simp [h]

theorem markModulator_none (s : YM2413) (ch : Fin 9) (buf : Fin (9 + 5)) (st : Nat × Bufs)
    (j : Fin (9 + 5)) :
    (markModulator s ch buf st).2 j = none ↔
      st.2 j = none ∨ (buf = j ∧ (s.channels ch).mod.state = .EG_OFF) := by
  unfold markModulator Slot.isActive
  by_cases h : (s.channels ch).mod.state = .EG_OFF
  · rw [h]
    simp only [bne_self_eq_false, Bool.false_eq_true, if_false, and_true]
    by_cases hj : j = buf
    · subst hj
      simp
    · rw [Function.update_noteq hj]
      exact ⟨Or.inl, fun g => g.elim id fun e => absurd e.symm hj⟩
  · have hb : ((s.channels ch).mod.state != .EG_OFF) = true := by
      cases hst : (s.channels ch).mod.state <;> first | rfl | exact absurd hst h
    rw [hb]
    simp [h]

theorem foldl_markCarrier_none (s : YM2413) (buf : Fin 9 → Fin (9 + 5)) (l : List (Fin 9))
    (st : Nat × Bufs) (j : Fin (9 + 5)) :
    (l.foldl (markCarrier s buf) st).2 j = none ↔
      st.2 j = none ∨ ∃ ch ∈ l, buf ch = j ∧ (s.channels ch).car.state = .EG_OFF := by
  induction l generalizing st with
  | nil => simp
  | cons c l ih =>
    rw [List.foldl_cons, ih, markCarrier_none]
    simp only [List.mem_cons, exists_eq_or_imp, or_assoc]

theorem scanActive_none_melodic (s : YM2413) (bufs : Bufs) (hr : s.rhythm = false)
    (j : Fin (9 + 5)) :
    (s.scanActive bufs).2 j = none ↔
      9 ≤ j.val ∨ bufs j = none ∨
        ∃ ch : Fin 9, Fin.castLE (by decide) ch = j ∧ (s.channels ch).car.state = .EG_OFF := by
  unfold scanActive getNumMelodicChannels
  simp only [hr, Bool.false_eq_true, if_false]
  by_cases h9 : 9 ≤ j.val
  · simp only [h9, true_or, iff_true]
    obtain ⟨v, hv⟩ := j
    have h9 : 9 ≤ v := h9
    interval_cases v <;> simp +decide [Function.update]
  · have e : ∀ k : Fin (9 + 5), 9 ≤ k.val → j ≠ k := fun k hk h => h9 (h ▸ hk)
    rw [Function.update_noteq (e 13 (by decide)), Function.update_noteq (e 12 (by decide)),
      Function.update_noteq (e 11 (by decide)), Function.update_noteq (e 10 (by decide)),
      Function.update_noteq (e 9 (by decide)), foldl_markCarrier_none]
    simp only [h9, false_or]
    have hmem : ∀ ch : Fin 9, ch ∈ melodicChannels 9 := by decide
    exact or_congr Iff.rfl
      ⟨fun ⟨ch, _, h⟩ => ⟨ch, h⟩, fun ⟨ch, h⟩ => ⟨ch, hmem ch, h⟩⟩

theorem update_none (b : Bufs) (k j : Fin (9 + 5)) :
    Function.update b k none j = none ↔ j = k ∨ b j = none := by
  by_cases h : j = k
  · subst h; simp
  · rw [Function.update_noteq h]; simp [h]

theorem scanActive_none_rhythm (s : YM2413) (bufs : Bufs) (hr : s.rhythm = true)
    (j : Fin (9 + 5)) :
    (s.scanActive bufs).2 j = none ↔
      (((j = 8 ∨ j = 7 ∨ j = 6 ∨ bufs j = none ∨
        ∃ ch ∈ melodicChannels 6, Fin.castLE (by decide) ch = j ∧
          (s.channels ch).car.state = .EG_OFF) ∨
        ∃ ch ∈ [(6 : Fin 9), 7, 8],
          (⟨(ch.val + 3) % (9 + 5), Nat.mod_lt _ (by decide)⟩ : Fin (9 + 5)) = j ∧
            (s.channels ch).car.state = .EG_OFF) ∨
        (12 = j ∧ (s.channels 7).mod.state = .EG_OFF)) ∨
        (13 = j ∧ (s.channels 8).mod.state = .EG_OFF) := by
  unfold scanActive getNumMelodicChannels
  simp only [hr, if_true]
  rw [markModulator_none, markModulator_none, foldl_markCarrier_none, update_none, update_none,
    update_none, foldl_markCarrier_none]

end YM2413

/-- C23: for every state, buffers and number of samples, the buffers
`generateChannels` hands back satisfy: outside rhythm mode, buffers 9 to 13
are null and buffer `ch` (0 to 8) is null exactly when the carrier of channel
`ch` is `OFF` at entry; in rhythm mode, buffers 6 to 8 are null, buffer `ch`
(0 to 5) is null exactly when that carrier is `OFF`, and buffers 9, 10, 11, 12
and 13 are null exactly when the carrier of channel 6, the carrier of
channel 7, the carrier of channel 8, the modulator of channel 7 and the
modulator of channel 8, respectively, is `OFF` at entry. -/
theorem buffer_nulling (P : Params) (s : YM2413) (bufs : Fin (9 + 5) → Nat → Int) (num : Nat) :
    (s.rhythm = false →
      (∀ j : Fin (9 + 5), 9 ≤ j.val → (YM2413.generateChannels P s bufs num).2 j = none) ∧
      ∀ ch : Fin 9,
        (YM2413.generateChannels P s bufs num).2 (Fin.castLE (by decide) ch) = none ↔
          (s.channels ch).car.state = .EG_OFF) ∧
    (s.rhythm = true →
      (∀ j : Fin (9 + 5), 6 ≤ j.val → j.val ≤ 8 →
        (YM2413.generateChannels P s bufs num).2 j = none) ∧
      (∀ ch : Fin 9, ch.val < 6 →
        ((YM2413.generateChannels P s bufs num).2 (Fin.castLE (by decide) ch) = none ↔
          (s.channels ch).car.state = .EG_OFF)) ∧
      ((YM2413.generateChannels P s bufs num).2 9 = none ↔
        (s.channels 6).car.state = .EG_OFF) ∧
      ((YM2413.generateChannels P s bufs num).2 10 = none ↔
        (s.channels 7).car.state = .EG_OFF) ∧
      ((YM2413.generateChannels P s bufs num).2 11 = none ↔
        (s.channels 8).car.state = .EG_OFF) ∧
      ((YM2413.generateChannels P s bufs num).2 12 = none ↔
        (s.channels 7).mod.state = .EG_OFF) ∧
      ((YM2413.generateChannels P s bufs num).2 13 = none ↔
        (s.channels 8).mod.state = .EG_OFF)) := by
  refine ⟨fun hr => ⟨fun j hj => ?_, fun ch => ?_⟩,
    fun hr => ⟨fun j h6 h8 => ?_, fun ch hch => ?_, ?_, ?_, ?_, ?_, ?_⟩⟩
  · rw [YM2413.generateChannels_none, YM2413.scanActive_none_melodic _ _ hr]
    exact Or.inl hj
  · rw [YM2413.generateChannels_none, YM2413.scanActive_none_melodic _ _ hr]
    constructor
    · rintro (h | h | ⟨c, hc, hoff⟩)
      · exact absurd h (by simp only [Fin.coe_castLE]; omega)
      · cases h
      · rw [Fin.castLE_inj] at hc
        exact hc ▸ hoff
    · exact fun h => Or.inr (Or.inr ⟨ch, rfl, h⟩)
  · rw [YM2413.generateChannels_none, YM2413.scanActive_none_rhythm _ _ hr]
    obtain ⟨v, hv⟩ := j
    have h6 : 6 ≤ v := h6
    have h8 : v ≤ 8 := h8
    interval_cases v <;> simp +decide
  · rw [YM2413.generateChannels_none, YM2413.scanActive_none_rhythm _ _ hr]
    obtain ⟨v, hv⟩ := ch
    have hch : v < 6 := hch
    simp only [YM2413.melodicChannels_six, List.mem_cons, List.mem_singleton,
      exists_eq_or_imp, exists_eq_left, List.not_mem_nil, false_and, exists_false, or_false]
    interval_cases v <;> simp +decide
  all_goals
    rw [YM2413.generateChannels_none, YM2413.scanActive_none_rhythm _ _ hr]
    simp only [YM2413.melodicChannels_six, List.mem_cons, List.mem_singleton,
      exists_eq_or_imp, exists_eq_left, List.not_mem_nil, false_and, exists_false, or_false]
    simp +decide

/-! ## The sustain bit and the sustained release rate -/

set_option maxRecDepth 1000000 in
set_option maxHeartbeats 4000000 in
/-- C24: a write to `0x20 + ch` that changes the sustain bit only leaves the
`rs` parameters as they were.  On the constructed chip, after
`writeReg(0x20, 0x01)` and `writeReg(0x20, 0x21)` channel 0 has its sustain
flag set and `block_fnum = 0x100`, and both slots still have `eg_sh_rs = 6`
(rate 7), while `updateGenerators` derives `eg_sh_rs = 8` (rate 5) from that
channel, the value a single `writeReg(0x20, 0x21)` gives. -/
theorem sustain_only_write_keeps_rs :
    (((YM2413.new.writeRegAt 0x20 0x01).writeRegAt 0x20 0x21).channels 0).sus = true ∧
    (((YM2413.new.writeRegAt 0x20 0x01).writeRegAt 0x20 0x21).channels 0).block_fnum = 0x100 ∧
    (((YM2413.new.writeRegAt 0x20 0x01).writeRegAt 0x20 0x21).channels 0).car.eg_sh_rs = 6 ∧
    (((YM2413.new.writeRegAt 0x20 0x01).writeRegAt 0x20 0x21).channels 0).mod.eg_sh_rs = 6 ∧
    ((((YM2413.new.writeRegAt 0x20 0x01).writeRegAt 0x20 0x21).channels 0).car.updateGenerators
      (((YM2413.new.writeRegAt 0x20 0x01).writeRegAt 0x20 0x21).channels 0)).eg_sh_rs = 8 ∧
    (((YM2413.new.writeRegAt 0x20 0x21).channels 0)).car.eg_sh_rs = 8 := by
  decide

/-! ## The release rates -/

/-- C25, counterexample: a non-percussive slot (`eg_sustain = true`) in
`RELEASE` on a channel whose sustain flag is clear is stepped with the `rr`
parameters, not the `rs` ones, which would have raised `egout` from 100 to
101; and for a channel whose sustain flag is clear `updateGenerators` derives
the `rs` parameters from rate 7 (shift 6), not from rate 5 (shift 8). -/
theorem release_rate_not_as_claimed :
    (({ Slot.new with state := .EG_RELEASE, egout := 100, eg_sustain := true,
                      eg_mask_rr := 1 } : Slot).calc_envelope Channel.new 1 true).egout = 100 ∧
      (1 &&& ({ Slot.new with state := .EG_RELEASE, egout := 100, eg_sustain := true,
                              eg_mask_rr := 1 } : Slot).eg_mask_rs = 0 ∧
        (100 : Int) + eg_inc 0 ((1 >>> 0) &&& 7) = 101) ∧
      (Slot.new.updateGenerators Channel.new).eg_sh_rs = 6 ∧
      eg_rate_shift (16 + (5 <<< 2) + (Channel.new.getKeyCode >>> Slot.new.KSR)) = 8 := by
  decide

theorem Slot.calc_envelope_release (s : Slot) (channel : Channel)
    (eg_cnt mask shift sel : Nat) (h : s.state = .EG_RELEASE)
    (hmask : mask =
      if (!s.eg_sustain || channel.sus) = true then s.eg_mask_rs else s.eg_mask_rr)
    (hshift : shift =
      if (!s.eg_sustain || channel.sus) = true then s.eg_sh_rs else s.eg_sh_rr)
    (hsel : sel =
      if (!s.eg_sustain || channel.sus) = true then s.eg_sel_rs else s.eg_sel_rr) :
    s.calc_envelope channel eg_cnt true =
      if eg_cnt &&& mask = 0 then
        if s.egout + eg_inc sel ((eg_cnt >>> shift) &&& 7) ≥ 255 then
          { s with egout := 255, state := .EG_OFF }
        else { s with egout := s.egout + eg_inc sel ((eg_cnt >>> shift) &&& 7) }
      else s := by
  have hM : MAX_ATT_INDEX = 255 := by decide
  unfold Slot.calc_envelope
  simp only [h, if_true]
  rw [← hmask, ← hshift, ← hsel, hM]
  rfl

/-- C25, as the code has it: a slot in `RELEASE` processed as carrier is
stepped with the `rs` parameters when the channel's sustain flag is set or
the slot is percussive (`eg_sustain = false`), and with the `rr` parameters
otherwise (non-percussive slot, sustain flag clear); `updateGenerators`
derives the `rs` parameters from rate 5 (index `16 + (5 << 2) + kcodeScaled`)
when the channel's sustain flag is set and from rate 7 otherwise. -/
theorem release_rate_selection (s : Slot) (channel : Channel) (eg_cnt : Nat)
    (h : s.state = .EG_RELEASE) :
    ((channel.sus = true ∨ s.eg_sustain = false) →
      s.calc_envelope channel eg_cnt true =
        if eg_cnt &&& s.eg_mask_rs = 0 then
          if s.egout + eg_inc s.eg_sel_rs ((eg_cnt >>> s.eg_sh_rs) &&& 7) ≥ 255 then
            { s with egout := 255, state := .EG_OFF }
          else
            { s with egout := s.egout + eg_inc s.eg_sel_rs ((eg_cnt >>> s.eg_sh_rs) &&& 7) }
        else s) ∧
    ((channel.sus = false ∧ s.eg_sustain = true) →
      s.calc_envelope channel eg_cnt true =
        if eg_cnt &&& s.eg_mask_rr = 0 then
          if s.egout + eg_inc s.eg_sel_rr ((eg_cnt >>> s.eg_sh_rr) &&& 7) ≥ 255 then
            { s with egout := 255, state := .EG_OFF }
          else
            { s with egout := s.egout + eg_inc s.eg_sel_rr ((eg_cnt >>> s.eg_sh_rr) &&& 7) }
        else s) ∧
    (s.updateGenerators channel).eg_sh_rs =
      eg_rate_shift ((if channel.sus then 16 + (5 <<< 2) else 16 + (7 <<< 2)) +
        (channel.getKeyCode >>> s.KSR)) ∧
    (s.updateGenerators channel).eg_sel_rs =
      eg_rate_select ((if channel.sus then 16 + (5 <<< 2) else 16 + (7 <<< 2)) +
        (channel.getKeyCode >>> s.KSR)) ∧
    (s.updateGenerators channel).eg_mask_rs =
      (1 <<< (s.updateGenerators channel).eg_sh_rs) - 1 := by
  refine ⟨fun hc => ?_, fun hc => ?_, ?_, ?_, ?_⟩
  · have hb : (!s.eg_sustain || channel.sus) = true := by
      rcases hc with hc | hc <;> simp [hc]
    exact Slot.calc_envelope_release s channel eg_cnt _ _ _ h (by rw [if_pos hb])
      (by rw [if_pos hb]) (by rw [if_pos hb])
  · have hb : ¬ (!s.eg_sustain || channel.sus) = true := by simp [hc.1, hc.2]
    exact Slot.calc_envelope_release s channel eg_cnt _ _ _ h (by rw [if_neg hb])
      (by rw [if_neg hb]) (by rw [if_neg hb])
  · unfold Slot.updateGenerators Slot.updateReleaseRate Slot.updateDecayRate
      Slot.updateAttackRate
    rfl
  · unfold Slot.updateGenerators Slot.updateReleaseRate Slot.updateDecayRate
      Slot.updateAttackRate
    rfl
  · unfold Slot.updateGenerators
    rfl

theorem release_rate_selection_witness :
    ({ Slot.new with state := .EG_RELEASE, egout := 100, eg_sustain := true,
                     eg_mask_rr := 1 } : Slot).state = .EG_RELEASE ∧
      ({ Slot.new with state := .EG_RELEASE, egout := 100, eg_sustain := true,
                       eg_mask_rr := 1 } : Slot).calc_envelope Channel.new 2 true =
        { Slot.new with state := .EG_RELEASE, egout := 100, eg_sustain := true,
                        eg_mask_rr := 1 } :=
  ⟨rfl, ((release_rate_selection
      { Slot.new with state := .EG_RELEASE, egout := 100, eg_sustain := true, eg_mask_rr := 1 }
      Channel.new 2 rfl).2.1 ⟨rfl, rfl⟩).trans (by decide)⟩

/-! ## The user instrument and the register mirror -/

namespace YM2413

/-- A register write keeps the user instrument equal to the registers
`0x00 .. 0x07`. -/
theorem writeRegAt_mirror (s : YM2413) (r : Fin 0x40) (v : Nat)
    (h : ∀ i : Fin 8, s.inst_tab 0 i = s.reg (Fin.castLE (by decide) i)) :
    ∀ i : Fin 8, (s.writeRegAt r v).inst_tab 0 i =
      (s.writeRegAt r v).reg (Fin.castLE (by decide) i) := by
  intro i
  rw [writeRegAt_reg]
  by_cases hr : r.val < 8
  · have e := writeRegAt_custom s r.val hr v
    rw [show (⟨r.val, by omega⟩ : Fin 0x40) = r from rfl] at e
    rw [e]
    unfold updateCustomInstrument
    dsimp only
    by_cases hi : i = ⟨r.val, hr⟩
    · subst hi
      simp [Fin.castLE]
    · have hne : Fin.castLE (by decide) i ≠ r := by
        intro h1
        apply hi
        apply Fin.ext
        have := congrArg Fin.val h1
        simpa using this
      simp [hi, hne, h i]
  · rw [writeRegAt_inst_tab s r v (by omega)]
    have hne : Fin.castLE (by decide) i ≠ r := by
      intro h1
      have := congrArg Fin.val h1
      simp at this
      omega
    rw [Function.update_noteq hne]
    exact h i

theorem new_reg_low (j : Fin 0x40) (hj : j.val < 8) : YM2413.new.reg j = 0 := by
  show YM2413.init.reset.reg j = 0
  rw [reset_eq, resetOperators_reg, foldl_writeRegAt_reg, writeRegAt_reg]
  have h1 : j ∉ resetOrder := fun h => by have := resetOrder_ge j h; omega
  have h2 : j ≠ 0x0F := by
    intro h; rw [h] at hj; revert hj; decide
  rw [if_neg h1, Function.update_noteq h2]
  rfl

theorem new_mirror (i : Fin 8) :
    YM2413.new.inst_tab 0 i = YM2413.new.reg (Fin.castLE (by decide) i) := by
  rw [new_inst_tab, new_reg_low _ (by simp)]
  revert i
  decide

/-- Without a reset in between, the user instrument mirrors the registers
`0x00 .. 0x07`. -/
theorem writeRegs_mirror (l : List (Nat × Nat)) (s s1 : YM2413)
    (h : ∀ i : Fin 8, s.inst_tab 0 i = s.reg (Fin.castLE (by decide) i))
    (hl : s.writeRegs l = some s1) :
    ∀ i : Fin 8, s1.inst_tab 0 i = s1.reg (Fin.castLE (by decide) i) := by
  induction l generalizing s with
  | nil =>
    rw [writeRegs] at hl
    cases hl
    exact h
  | cons rv l ih =>
    obtain ⟨r, v⟩ := rv
    by_cases hr : r < 0x40
    · rw [writeRegs_cons s r v l hr] at hl
      exact ih _ (writeRegAt_mirror s ⟨r, hr⟩ v h) hl
    · rw [writeRegs] at hl
      simp only [writeReg, dif_neg hr] at hl
      cases hl

end YM2413

/-- C26: the user instrument does not mirror the registers `0x00 .. 0x07` in
every reachable state.  After `writeReg(0x00, 0x61)` and `reset()` register 0
still reads `0x61` while `inst_tab[0][0]` is 0: `reset` reloads the whole
instrument table from the ROM table but writes none of the registers
`0x00 .. 0x07`.  From the constructed chip, register writes alone keep the
mirror. -/
theorem user_instrument_mirror_lost :
    (Reachable hostParams (YM2413.new.writeRegAt 0x00 0x61).reset ∧
      (YM2413.new.writeRegAt 0x00 0x61).reset.reg 0 = 0x61 ∧
      (YM2413.new.writeRegAt 0x00 0x61).reset.inst_tab 0 0 = 0) ∧
    ∀ (l : List (Nat × Nat)) (s : YM2413), YM2413.new.writeRegs l = some s →
      ∀ i : Fin 8, s.inst_tab 0 i = s.reg (Fin.castLE (by decide) i) := by
  refine ⟨⟨Reachable.reset (Reachable.writeReg 0x00 0x61 Reachable.new (by decide)
    (by unfold YM2413.writeReg; rfl)), ?_, ?_⟩,
    fun l s hl => YM2413.writeRegs_mirror l _ s YM2413.new_mirror hl⟩
  · rw [YM2413.reset_eq, YM2413.resetOperators_reg, YM2413.foldl_writeRegAt_reg,
      YM2413.writeRegAt_reg]
    rw [if_neg (by decide), Function.update_noteq (by decide)]
    show (YM2413.new.writeRegAt 0x00 0x61).reg 0 = 0x61
    rw [YM2413.writeRegAt_reg, Function.update_same]
  · rw [YM2413.reset_eq, YM2413.resetOperators_inst_tab,
      YM2413.foldl_writeRegAt_inst_tab _ YM2413.resetOrder_ge,
      YM2413.writeRegAt_inst_tab _ 0x0F 0 (by decide)]
    rfl

/-! ## Instrument and volume writes -/

namespace YM2413

/-- The channel addressed by an instrument/volume write, when it is a rhythm
channel: the byte is stored, the carrier's total level set and, on channels 7
and 8, the modulator's total level set from the upper nibble. -/
theorem writeRegAt_instvol_rhythm (s : YM2413) (ch : Fin 9) (v : Nat)
    (hm : ¬ ch.val < s.getNumMelodicChannels) :
    (s.writeRegAt ⟨0x30 + ch.val, by omega⟩ v).channels ch =
      if ch.val ≥ 7 then
        { s.channels ch with
          instvol_r := v
          car := (s.channels ch).car.setTotalLevel { s.channels ch with instvol_r := v }
            ((v &&& 0x0F) <<< 2)
          mod := (s.channels ch).mod.setTotalLevel
            { s.channels ch with
              instvol_r := v
              car := (s.channels ch).car.setTotalLevel { s.channels ch with instvol_r := v }
                ((v &&& 0x0F) <<< 2) }
            ((v >>> 4) <<< 2) }
      else
        { s.channels ch with
          instvol_r := v
          car := (s.channels ch).car.setTotalLevel { s.channels ch with instvol_r := v }
            ((v &&& 0x0F) <<< 2) } := by
  obtain ⟨h0, h1, h2, h3, h4, h5⟩ := instvol_addr ch
  have hm1 : ch.val ≥ s.getNumMelodicChannels := by omega
  unfold writeRegAt
  dsimp only
  rw [if_neg h0, if_neg h1, if_neg h2, if_pos h3, h4, h5]
  dsimp only [getNumMelodicChannels, modifyChannel]
  unfold getNumMelodicChannels at hm1
  rw [if_pos hm1]
  split_ifs <;> simp only [Function.update_same]

end YM2413

theorem Slot.setTotalLevel_TL (s : Slot) (c : Channel) (v : Nat) :
    (s.setTotalLevel c v).TL = ((v <<< 1 : Nat) : Int) := by
  unfold Slot.setTotalLevel Slot.updateTotalLevel
  rfl

theorem Slot.setTotalLevel_eq (s : Slot) (c : Channel) (v : Nat) :
    s.setTotalLevel c v =
      { s with TL := (s.setTotalLevel c v).TL, TLL := (s.setTotalLevel c v).TLL } := by
  unfold Slot.setTotalLevel Slot.updateTotalLevel
  rfl

theorem Channel.updateInstrument_instvol (c : Channel) (inst : Fin 8 → Nat) :
    (c.updateInstrument inst).instvol_r = c.instvol_r := by
  unfold Channel.updateInstrument
  generalize List.finRange 8 = l
  induction l generalizing c with
  | nil => rfl
  | cons p l ih =>
    rw [List.foldl_cons, ih, Channel.updateInstrumentPart_instvol]

/-- C27: for every state, channel `ch` in `0 .. 8` and byte `v`, after
`writeReg(0x30 + ch, v)`: `instvol_r = v` and the carrier's `TL` is
`((v & 0x0F) << 2) << 1`.  If `ch` is a melodic channel and the upper nibble
of `v` differs from the one of the previous `instvol_r`, the channel is the
result of `updateInstrument(inst_tab[v >> 4])` on the channel with the new
`instvol_r` and carrier total level; if `ch` is melodic and the nibble is the
same, the modulator is what it was and the carrier differs at most in `TL` and
`TLL`; if `ch` is 7 or 8 in rhythm mode, the modulator's `TL` is
`((v >> 4) << 2) << 1` and the two slots differ from the previous ones at most
in `TL` and `TLL` (no instrument is loaded). -/
theorem instvol_write (s : YM2413) (ch : Fin 9) (v : Nat) (hv : v < 256) :
    ∃ s1, s.writeReg (0x30 + ch.val) v = some s1 ∧
      (s1.channels ch).instvol_r = v ∧
      (s1.channels ch).car.TL = ((((v &&& 0x0F) <<< 2) <<< 1 : Nat) : Int) ∧
      (ch.val < s.getNumMelodicChannels →
        (s.channels ch).instvol_r &&& 0xF0 ≠ v &&& 0xF0 →
        s1.channels ch = Channel.updateInstrument
          { s.channels ch with
            instvol_r := v
            car := (s.channels ch).car.setTotalLevel (s.channels ch) ((v &&& 0x0F) <<< 2) }
          (s.inst_tab ⟨v >>> 4, by omega⟩)) ∧
      (ch.val < s.getNumMelodicChannels →
        (s.channels ch).instvol_r &&& 0xF0 = v &&& 0xF0 →
        (s1.channels ch).mod = (s.channels ch).mod ∧
          (s1.channels ch).car =
            { (s.channels ch).car with
              TL := (s1.channels ch).car.TL, TLL := (s1.channels ch).car.TLL }) ∧
      (¬ ch.val < s.getNumMelodicChannels → 7 ≤ ch.val →
        (s1.channels ch).mod.TL = ((((v >>> 4) <<< 2) <<< 1 : Nat) : Int) ∧
          (s1.channels ch).mod =
            { (s.channels ch).mod with
              TL := (s1.channels ch).mod.TL, TLL := (s1.channels ch).mod.TLL } ∧
          (s1.channels ch).car =
            { (s.channels ch).car with
              TL := (s1.channels ch).car.TL, TLL := (s1.channels ch).car.TLL }) := by
  have hlt : 0x30 + ch.val < 0x40 := by omega
  have h19 : v >>> 4 < 19 := by
    have h : v >>> 4 = v / 16 := Nat.shiftRight_eq_div_pow v 4
    omega
  have hcar : (s.channels ch).car.setTotalLevel { s.channels ch with instvol_r := v }
      ((v &&& 0x0F) <<< 2) =
      (s.channels ch).car.setTotalLevel (s.channels ch) ((v &&& 0x0F) <<< 2) :=
    Slot.setTotalLevel_congr _ _ _ rfl _
  refine ⟨s.writeRegAt ⟨0x30 + ch.val, hlt⟩ v, by simp [YM2413.writeReg, hlt], ?_⟩
  by_cases hm : ch.val < s.getNumMelodicChannels
  · have e := YM2413.writeRegAt_instvol s ch v hm
    rw [hcar] at e
    by_cases hn : (s.channels ch).instvol_r &&& 0xF0 ≠ v &&& 0xF0
    · rw [if_pos hn] at e
      have hsim : Channel.SameButVolume ((v &&& 0x0F) <<< 2) (s.channels ch)
          { s.channels ch with
            instvol_r := v
            car := (s.channels ch).car.setTotalLevel (s.channels ch)
              ((v &&& 0x0F) <<< 2) } :=
        ⟨rfl, rfl, rfl, rfl, rfl, rfl⟩
      have h8 := Channel.updateInstrument_volume _ _ _ (s.instrument (v >>> 4)) hsim
      have hinst : s.instrument (v >>> 4) = s.inst_tab ⟨v >>> 4, h19⟩ := by
        unfold YM2413.instrument
        rw [dif_pos h19]
      refine ⟨?_, ?_, fun _ _ => ?_, fun _ h => absurd h hn, fun h => absurd hm h⟩
      · rw [e]
        have := Channel.updateInstrument_instvol
          { s.channels ch with
            instvol_r := v
            car := (s.channels ch).car.setTotalLevel (s.channels ch) ((v &&& 0x0F) <<< 2) }
          (s.instrument (v >>> 4))
        exact this
      · rw [e, h8.2.1, Slot.setTotalLevel_TL]
      · rw [e, hinst]
    · have hn' : (s.channels ch).instvol_r &&& 0xF0 = v &&& 0xF0 := by
        by_contra h; exact hn h
      rw [if_neg hn] at e
      refine ⟨?_, ?_, fun _ h => absurd hn' h, fun _ _ => ⟨?_, ?_⟩, fun h => absurd hm h⟩
      · rw [e]
      · rw [e]; exact Slot.setTotalLevel_TL _ _ _
      · rw [e]
      · rw [e]; exact Slot.setTotalLevel_eq _ _ _
  · have e := YM2413.writeRegAt_instvol_rhythm s ch v hm
    rw [hcar] at e
    refine ⟨?_, ?_, fun h => absurd h hm, fun h => absurd h hm, fun _ h7 => ?_⟩
    · rw [e]; split_ifs <;> rfl
    · rw [e]; split_ifs <;> exact Slot.setTotalLevel_TL _ _ _
    · rw [if_pos h7] at e
      rw [e]
      exact ⟨Slot.setTotalLevel_TL _ _ _, Slot.setTotalLevel_eq _ _ _,
        Slot.setTotalLevel_eq _ _ _⟩

theorem instvol_write_witness :
    0x35 < 256 ∧ ∃ s1, YM2413.new.writeReg (0x30 + (2 : Fin 9).val) 0x35 = some s1 ∧
      (s1.channels 2).instvol_r = 0x35 ∧
      (s1.channels 2).car.TL = ((((0x35 &&& 0x0F) <<< 2) <<< 1 : Nat) : Int) :=
  ⟨by decide, (instvol_write YM2413.new 2 0x35 (by decide)).imp
    fun _ h => ⟨h.1, h.2.1, h.2.2.1⟩⟩

/-! ## Channel aliasing -/

namespace YM2413

/-- Outside the addresses `0x00 .. 0x0F`, a register write depends on the
address through its upper nibble and the channel `(r & 0x0F) % 9` only, the
mirror entry apart. -/
theorem writeRegAt_alias (s : YM2413) (r r1 : Fin 0x40) (v : Nat)
    (h0 : ¬ r.val &&& 0xF0 = 0x00) (h1 : r.val &&& 0xF0 = r1.val &&& 0xF0)
    (h2 : getChannelForReg r.val = getChannelForReg r1.val)
    (h3 : (r.val &&& 0x0F) % 9 = (r1.val &&& 0x0F) % 9) :
    { s.writeRegAt r v with reg := s.reg } = { s.writeRegAt r1 v with reg := s.reg } := by
  have h0' : ¬ r1.val &&& 0xF0 = 0x00 := by rw [← h1]; exact h0
  unfold writeRegAt
  dsimp only
  rw [if_neg h0, if_neg h0', h1, h2, h3]
  dsimp only [getNumMelodicChannels, modifyChannel]
  split_ifs <;> rfl

theorem alias_addr : ∀ base : Fin 0x40,
    base.val = 0x10 ∨ base.val = 0x20 ∨ base.val = 0x30 → ∀ k : Fin 7,
      ¬ (base.val + 9 + k.val) &&& 0xF0 = 0x00 ∧
      (base.val + 9 + k.val) &&& 0xF0 = (base.val + k.val) &&& 0xF0 ∧
      getChannelForReg (base.val + 9 + k.val) = getChannelForReg (base.val + k.val) ∧
      ((base.val + 9 + k.val) &&& 0x0F) % 9 = ((base.val + k.val) &&& 0x0F) % 9 ∧
      getChannelForReg (base.val + k.val) = Fin.castLE (by decide) k := by
  decide

end YM2413

/-! ## Dump and release steps -/

/-- C29: for a slot in `DUMP`, a `calc_envelope` step in which the envelope is
updated (the counter passes `eg_mask_dp`) and the updated `egout` is 255 or
more sets `egout = 255`, the state to `ATTACK` and `phase` to 0; every other
step in `DUMP` leaves the state `DUMP` and `phase` as it was.  A step from any
other envelope state leaves `phase` as it was. -/
theorem dump_to_attack (s : Slot) (channel : Channel) (eg_cnt : Nat) (carrier : Bool) :
    (s.state = .EG_DUMP →
      ((eg_cnt &&& s.eg_mask_dp = 0 ∧
          255 ≤ s.egout + eg_inc s.eg_sel_dp ((eg_cnt >>> s.eg_sh_dp) &&& 7)) →
        (s.calc_envelope channel eg_cnt carrier).egout = 255 ∧
          (s.calc_envelope channel eg_cnt carrier).state = .EG_ATTACK ∧
          (s.calc_envelope channel eg_cnt carrier).phase = 0) ∧
      (¬ (eg_cnt &&& s.eg_mask_dp = 0 ∧
          255 ≤ s.egout + eg_inc s.eg_sel_dp ((eg_cnt >>> s.eg_sh_dp) &&& 7)) →
        (s.calc_envelope channel eg_cnt carrier).state = .EG_DUMP ∧
          (s.calc_envelope channel eg_cnt carrier).phase = s.phase)) ∧
    (s.state ≠ .EG_DUMP → (s.calc_envelope channel eg_cnt carrier).phase = s.phase) := by
  have hM : MAX_ATT_INDEX = 255 := by decide
  unfold Slot.calc_envelope
  dsimp only
  split
  · rename_i hst
    refine ⟨fun _ => ⟨?_, ?_⟩, fun h => absurd hst h⟩
    · rintro ⟨h1, h2⟩
      rw [if_pos h1, if_pos (by rw [hM]; exact h2)]
      exact ⟨hM, rfl, rfl⟩
    · intro h
      split_ifs with c1 c2
      · rw [hM] at c2; exact absurd ⟨c1, c2⟩ h
      · exact ⟨hst, rfl⟩
      · exact ⟨hst, rfl⟩
  · rename_i hst
    refine ⟨(fun h => by rw [hst] at h; cases h), fun _ => ?_⟩
    split_ifs <;> rfl
  · rename_i hst
    refine ⟨(fun h => by rw [hst] at h; cases h), fun _ => ?_⟩
    split_ifs <;> rfl
  · rename_i hst
    refine ⟨(fun h => by rw [hst] at h; cases h), fun _ => ?_⟩
    split_ifs <;> rfl
  · rename_i hst
    refine ⟨(fun h => by rw [hst] at h; cases h), fun _ => ?_⟩
    cases carrier
    · rfl
    · simp only [if_true]; split_ifs <;> rfl
  · rename_i hst
    exact ⟨(fun h => by rw [hst] at h; cases h), fun _ => rfl⟩

theorem Slot.calc_envelope_release_modulator (s : Slot) (channel : Channel) (eg_cnt : Nat)
    (h : s.state = .EG_RELEASE) : s.calc_envelope channel eg_cnt false = s := by
  unfold Slot.calc_envelope
  rw [h]
  rfl

/-- C30: a slot in `RELEASE` processed with `carrier = false` is left as it is
by `calc_envelope`, for every counter value; and the modulator step of a
melodic channel (`calc_slot_mod` with `carrier = false`) leaves such a slot in
`RELEASE` with the same `egout`, so it does not reach `OFF`. -/
theorem release_modulator_frozen (s : Slot) (channel : Channel) (h : s.state = .EG_RELEASE) :
    (∀ eg_cnt, s.calc_envelope channel eg_cnt false = s) ∧
    (∀ (P : Params) (eg_cnt lfo_pm lfo_am : Nat),
      (s.calc_slot_mod P channel eg_cnt false lfo_pm lfo_am).1.state = .EG_RELEASE ∧
        (s.calc_slot_mod P channel eg_cnt false lfo_pm lfo_am).1.egout = s.egout) := by
  refine ⟨fun eg_cnt => Slot.calc_envelope_release_modulator s channel eg_cnt h, ?_⟩
  intro P eg_cnt lfo_pm lfo_am
  unfold Slot.calc_slot_mod Slot.calcOutput
  dsimp only
  rw [Slot.calc_envelope_release_modulator _ _ _ (by unfold Slot.calc_phase; exact h)]
  unfold Slot.calc_phase
  exact ⟨h, rfl⟩

theorem release_modulator_frozen_witness :
    ({ Slot.new with state := .EG_RELEASE, egout := 17 } : Slot).state = .EG_RELEASE ∧
      ∀ eg_cnt, ({ Slot.new with state := .EG_RELEASE, egout := 17 } : Slot).calc_envelope
        Channel.new eg_cnt false = { Slot.new with state := .EG_RELEASE, egout := 17 } :=
  ⟨rfl, (release_modulator_frozen { Slot.new with state := .EG_RELEASE, egout := 17 }
    Channel.new rfl).1⟩


/-! ## Output lookup -/

/-- C32: high hat and top cymbal share one gate.  With
`hi = (phaseC8 & 0x28 != 0) or ((bit2(phaseM7) xor bit7(phaseM7)) or bit3(phaseM7))`,
for all `phaseM7`, `phaseC8` and `noise_rng`: `genPhaseCymbal` is `0x300` when
`hi` holds and `0x100` otherwise; `genPhaseHighHat` is `0x2D0` (`hi`, noise
bit 1), `0x34` (not `hi`, noise bit 1), `0x234` (`hi`, noise bit 0) or `0xD0`
(not `hi`, noise bit 0); and the cymbal phase is `0x300` exactly when the
high-hat phase is at least `0x200`. -/
theorem hihat_cymbal_gate (phaseM7 phaseC8 : Int) (noise_rng : Nat) :
    ∃ hi : Bool,
      hi = (decide (Int.land phaseC8 0x28 ≠ 0) ||
        ((xor (decide (Int.land phaseM7 0x04 ≠ 0)) (decide (Int.land phaseM7 0x80 ≠ 0))) ||
          decide (Int.land phaseM7 0x08 ≠ 0))) ∧
      genPhaseCymbal phaseM7 phaseC8 = (if hi then 0x300 else 0x100) ∧
      genPhaseHighHat phaseM7 phaseC8 noise_rng =
        (if noise_rng &&& 1 ≠ 0 then (if hi then 0x2D0 else 0x34)
          else (if hi then 0x234 else 0xD0)) ∧
      (genPhaseCymbal phaseM7 phaseC8 = 0x300 ↔
        0x200 ≤ genPhaseHighHat phaseM7 phaseC8 noise_rng) := by
  refine ⟨_, rfl, ?_⟩
  unfold genPhaseCymbal genPhaseHighHat
  by_cases h1 : Int.land phaseC8 0x28 = 0 <;> by_cases h2 : Int.land phaseM7 0x04 = 0 <;>
    by_cases h3 : Int.land phaseM7 0x80 = 0 <;> by_cases h4 : Int.land phaseM7 0x08 = 0 <;>
    by_cases h5 : noise_rng % 2 = 1 <;> simp [h1, h2, h3, h4, h5]

/-! ## The dump phase -/

theorem dump_rate_rows : ∀ k : Fin 16, eg_rate_shift (16 + (13 <<< 2) + k.val) = 0 ∧
    ∀ i : Fin 8, 1 ≤ eg_inc (eg_rate_select (16 + (13 <<< 2) + k.val)) i.val := by
  decide

theorem Channel.getKeyCode_le (c : Channel) (n : Nat) : c.getKeyCode >>> n ≤ 15 := by
  unfold Channel.getKeyCode
  have h1 : c.block_fnum &&& 0x0F00 ≤ 0x0F00 := Nat.and_le_right
  rw [Nat.shiftRight_eq_div_pow, Nat.shiftRight_eq_div_pow]
  have h2 : (c.block_fnum &&& 0x0F00) / 2 ^ 8 ≤ 15 := by omega
  exact le_trans (Nat.div_le_self _ _) h2

theorem Slot.updateGenerators_dp (s : Slot) (channel : Channel) :
    (s.updateGenerators channel).eg_sh_dp =
        eg_rate_shift (16 + (13 <<< 2) + (channel.getKeyCode >>> s.KSR)) ∧
      (s.updateGenerators channel).eg_sel_dp =
        eg_rate_select (16 + (13 <<< 2) + (channel.getKeyCode >>> s.KSR)) ∧
      (s.updateGenerators channel).eg_mask_dp =
        (1 <<< (s.updateGenerators channel).eg_sh_dp) - 1 := by
  unfold Slot.updateGenerators Slot.updateReleaseRate Slot.updateDecayRate
    Slot.updateAttackRate
  exact ⟨rfl, rfl, rfl⟩

/-- One step in `DUMP` with the counter mask 0. -/
theorem Slot.calc_envelope_dump (s : Slot) (channel : Channel) (eg_cnt : Nat) (carrier : Bool)
    (hst : s.state = .EG_DUMP) (hmask : s.eg_mask_dp = 0) :
    s.calc_envelope channel eg_cnt carrier =
      if 255 ≤ s.egout + eg_inc s.eg_sel_dp ((eg_cnt >>> s.eg_sh_dp) &&& 7) then
        { s with egout := 255, state := .EG_ATTACK, phase := 0 }
      else { s with egout := s.egout + eg_inc s.eg_sel_dp ((eg_cnt >>> s.eg_sh_dp) &&& 7) } := by
  have hM : MAX_ATT_INDEX = 255 := by decide
  unfold Slot.calc_envelope Slot.setEnvelopeState
  rw [hst]
  dsimp only
  rw [hmask, if_pos (Nat.and_zero _), hM]

theorem and_seven_lt (n : Nat) : n &&& 7 < 8 :=
  Nat.lt_succ_of_le Nat.and_le_right

theorem Slot.envelopeSteps_dump (channel : Channel) (carrier : Bool) (m : Nat) :
    ∀ (s : Slot) (eg_cnt : Nat), s.state = .EG_DUMP → s.eg_mask_dp = 0 →
      (∀ i, i < 8 → 1 ≤ eg_inc s.eg_sel_dp i) → 255 - s.egout ≤ (m : Int) + 1 →
      ∃ k, 1 ≤ k ∧ k ≤ m + 1 ∧
        (Slot.envelopeSteps channel carrier k eg_cnt s).state = .EG_ATTACK ∧
        (Slot.envelopeSteps channel carrier k eg_cnt s).phase = 0 ∧
        ∀ j, j < k → (Slot.envelopeSteps channel carrier j eg_cnt s).state = .EG_DUMP := by
  induction m with
  | zero =>
    intro s eg_cnt hst hmask hrow hE
    have h1 := hrow _ (and_seven_lt (eg_cnt >>> s.eg_sh_dp))
    refine ⟨1, le_refl _, le_refl _, ?_, ?_, ?_⟩
    · show (s.calc_envelope channel eg_cnt carrier).state = .EG_ATTACK
      rw [Slot.calc_envelope_dump s channel eg_cnt carrier hst hmask, if_pos (by omega)]
    · show (s.calc_envelope channel eg_cnt carrier).phase = 0
      rw [Slot.calc_envelope_dump s channel eg_cnt carrier hst hmask, if_pos (by omega)]
    · intro j hj
      have : j = 0 := by omega
      subst this
      exact hst
  | succ m ih =>
    intro s eg_cnt hst hmask hrow hE
    have h1 := hrow _ (and_seven_lt (eg_cnt >>> s.eg_sh_dp))
    have e := Slot.calc_envelope_dump s channel eg_cnt carrier hst hmask
    by_cases hc : 255 ≤ s.egout + eg_inc s.eg_sel_dp ((eg_cnt >>> s.eg_sh_dp) &&& 7)
    · rw [if_pos hc] at e
      refine ⟨1, le_refl _, by omega, ?_, ?_, ?_⟩
      · show (s.calc_envelope channel eg_cnt carrier).state = .EG_ATTACK
        rw [e]
      · show (s.calc_envelope channel eg_cnt carrier).phase = 0
        rw [e]
      · intro j hj
        have : j = 0 := by omega
        subst this
        exact hst
    · rw [if_neg hc] at e
      obtain ⟨k, hk1, hk2, g1, g2, g3⟩ := ih (s.calc_envelope channel eg_cnt carrier)
        ((eg_cnt + 1) % 2 ^ 32) (by rw [e]; exact hst) (by rw [e]; exact hmask)
        (by rw [e]; exact hrow) (by rw [e]; dsimp only; push_cast at hE ⊢; omega)
      refine ⟨k + 1, by omega, by omega, g1, g2, ?_⟩
      intro j hj
      cases j with
      | zero => exact hst
      | succ j => exact g3 j (by omega)

/-- The `DUMP` parameters `updateGenerators` derives.  For every slot and
channel (every key code and `KSR`), `updateGenerators` selects for `DUMP` the
counter shift 0, the mask 0 and a row of `eg_inc` whose 8 entries are all at
least 1.  A slot in `DUMP` with such parameters and `egout >= 0` is in
`ATTACK` with `phase = 0` after `k` envelope steps for some `k` in `1 .. 255`,
and in `DUMP` before; a slot with `egout = 255` and no key set that is keyed
on is in `ATTACK` with `phase = 0` after its first step. -/
theorem Slot.dump_bound_derived (s : Slot) (channel : Channel) :
    ((s.updateGenerators channel).eg_sh_dp = 0 ∧ (s.updateGenerators channel).eg_mask_dp = 0 ∧
      ∀ i, i < 8 → 1 ≤ eg_inc (s.updateGenerators channel).eg_sel_dp i) ∧
    (∀ (carrier : Bool) (eg_cnt : Nat), (s.updateGenerators channel).state = .EG_DUMP →
      0 ≤ (s.updateGenerators channel).egout →
      ∃ k, 1 ≤ k ∧ k ≤ 255 ∧
        (Slot.envelopeSteps channel carrier k eg_cnt (s.updateGenerators channel)).state =
          .EG_ATTACK ∧
        (Slot.envelopeSteps channel carrier k eg_cnt (s.updateGenerators channel)).phase = 0 ∧
        ∀ j, j < k →
          (Slot.envelopeSteps channel carrier j eg_cnt (s.updateGenerators channel)).state =
            .EG_DUMP) ∧
    (∀ (carrier : Bool) (eg_cnt part : Nat), (s.updateGenerators channel).key = 0 →
      (s.updateGenerators channel).egout = 255 →
      (((s.updateGenerators channel).setKeyOn part).calc_envelope channel eg_cnt carrier).state =
          .EG_ATTACK ∧
        (((s.updateGenerators channel).setKeyOn part).calc_envelope channel eg_cnt
          carrier).phase = 0) := by
  obtain ⟨d1, d2, d3⟩ := Slot.updateGenerators_dp s channel
  have hk : channel.getKeyCode >>> s.KSR < 16 :=
    Nat.lt_succ_of_le (Channel.getKeyCode_le channel s.KSR)
  have hrows := dump_rate_rows ⟨channel.getKeyCode >>> s.KSR, hk⟩
  have hsh : (s.updateGenerators channel).eg_sh_dp = 0 := d1.trans hrows.1
  have hmask : (s.updateGenerators channel).eg_mask_dp = 0 := by rw [d3, hsh]; rfl
  have hrow : ∀ i, i < 8 → 1 ≤ eg_inc (s.updateGenerators channel).eg_sel_dp i := by
    intro i hi
    rw [d2]
    exact hrows.2 ⟨i, hi⟩
  refine ⟨⟨hsh, hmask, hrow⟩, ?_, ?_⟩
  · intro carrier eg_cnt hst hE
    exact Slot.envelopeSteps_dump channel carrier 254 _ eg_cnt hst hmask hrow (by omega)
  · intro carrier eg_cnt part hkey hE
    have hst : ((s.updateGenerators channel).setKeyOn part).state = .EG_DUMP := by
      unfold Slot.setKeyOn Slot.setEnvelopeState
      rw [if_pos hkey]
    have hm : ((s.updateGenerators channel).setKeyOn part).eg_mask_dp = 0 := by
      unfold Slot.setKeyOn Slot.setEnvelopeState
      rw [if_pos hkey]
      exact hmask
    have hE1 : ((s.updateGenerators channel).setKeyOn part).egout = 255 := by
      unfold Slot.setKeyOn Slot.setEnvelopeState
      rw [if_pos hkey]
      exact hE
    rw [Slot.calc_envelope_dump _ channel eg_cnt carrier hst hm, if_pos (by rw [hE1]; omega)]
    exact ⟨rfl, rfl⟩

set_option maxRecDepth 1000000 in
set_option maxHeartbeats 4000000 in
/-- C38: the bound of 255 steps on the `DUMP` phase holds for the parameters
`updateGenerators` derives, and is exceeded in a reachable state whose slots
still hold the parameters of the constructor.  First part: for every slot and
channel the derived `DUMP` parameters are shift 0, mask 0 and a row with all
entries at least 1; with them a slot in `DUMP` is in `ATTACK` with `phase = 0`
after at most 255 steps, and after its first step when keyed on at
`egout = 255`.  Second part: on the constructed chip, after
`writeReg(0x20, 0x10)`, 8 samples, `writeReg(0x20, 0x00)` and
`writeReg(0x20, 0x10)`, the carrier of channel 0 is in `DUMP` at `egout = 80`
with shift 0, mask 0 and row 0 of `eg_inc` (whose entry 0 is 0), where
`updateGenerators` selects row 4.  It is in `DUMP` after every number of
steps below 350 and in `ATTACK` after 350, in the envelope run and in the
sample loop of the chip alike.  The state loaded from its saved form has the
same `DUMP` state and `egout` with row 4, and its carrier is in `ATTACK` after
175 samples. -/
theorem dump_outlasts_bound :
    (∀ (t : Slot) (channel : Channel),
      ((t.updateGenerators channel).eg_sh_dp = 0 ∧ (t.updateGenerators channel).eg_mask_dp = 0 ∧
        ∀ i, i < 8 → 1 ≤ eg_inc (t.updateGenerators channel).eg_sel_dp i) ∧
      (∀ (carrier : Bool) (eg_cnt : Nat), (t.updateGenerators channel).state = .EG_DUMP →
        0 ≤ (t.updateGenerators channel).egout →
        ∃ k, 1 ≤ k ∧ k ≤ 255 ∧
          (Slot.envelopeSteps channel carrier k eg_cnt (t.updateGenerators channel)).state =
            .EG_ATTACK ∧
          (Slot.envelopeSteps channel carrier k eg_cnt (t.updateGenerators channel)).phase = 0 ∧
          ∀ j, j < k →
            (Slot.envelopeSteps channel carrier j eg_cnt (t.updateGenerators channel)).state =
              .EG_DUMP) ∧
      (∀ (carrier : Bool) (eg_cnt part : Nat), (t.updateGenerators channel).key = 0 →
        (t.updateGenerators channel).egout = 255 →
        (((t.updateGenerators channel).setKeyOn part).calc_envelope channel eg_cnt
            carrier).state = .EG_ATTACK ∧
          (((t.updateGenerators channel).setKeyOn part).calc_envelope channel eg_cnt
            carrier).phase = 0)) ∧
    ∃ s : YM2413,
      s = ((YM2413.generateChannels hostParams (YM2413.new.writeRegAt 0x20 0x10)
        (fun _ _ => 0) 8).1.writeRegAt 0x20 0x00).writeRegAt 0x20 0x10 ∧
      Reachable hostParams s ∧
      (s.channels 0).car.state = .EG_DUMP ∧ (s.channels 0).car.egout = 80 ∧
      (s.channels 0).car.eg_sh_dp = 0 ∧ (s.channels 0).car.eg_mask_dp = 0 ∧
      (s.channels 0).car.eg_sel_dp = 0 ∧ eg_inc 0 0 = 0 ∧
      ((s.channels 0).car.updateGenerators (s.channels 0)).eg_sel_dp = 4 ∧
      (∀ j, j < 350 →
        (Slot.envelopeSteps (s.channels 0) true j s.eg_cnt (s.channels 0).car).state =
          .EG_DUMP) ∧
      (Slot.envelopeSteps (s.channels 0) true 350 s.eg_cnt (s.channels 0).car).state =
        .EG_ATTACK ∧
      ((YM2413.generateChannels hostParams s (fun _ _ => 0) 255).1.channels 0).car.state =
        .EG_DUMP ∧
      ((YM2413.generateChannels hostParams s (fun _ _ => 0) 349).1.channels 0).car.state =
        .EG_DUMP ∧
      ((YM2413.generateChannels hostParams s (fun _ _ => 0) 350).1.channels 0).car.state =
        .EG_ATTACK ∧
      (s.serialize.channels 0).car.state = .EG_DUMP ∧
      (s.serialize.channels 0).car.egout = 80 ∧
      (s.serialize.channels 0).car.eg_sel_dp = 4 ∧
      ((YM2413.generateChannels hostParams s.serialize (fun _ _ => 0) 175).1.channels 0).car.state
        = .EG_ATTACK := by
  refine ⟨fun t channel => Slot.dump_bound_derived t channel, _, rfl, ?_, ?_⟩
  · have r1 : Reachable hostParams (YM2413.new.writeRegAt 0x20 0x10) :=
      Reachable.writeReg 0x20 0x10 Reachable.new (by decide) (by unfold YM2413.writeReg; rfl)
    have r2 := Reachable.generateChannels (fun _ _ => 0) 8 r1
    have r3 : Reachable hostParams ((YM2413.generateChannels hostParams
        (YM2413.new.writeRegAt 0x20 0x10) (fun _ _ => 0) 8).1.writeRegAt 0x20 0x00) :=
      Reachable.writeReg 0x20 0x00 r2 (by decide) (by unfold YM2413.writeReg; rfl)
    exact Reachable.writeReg 0x20 0x10 r3 (by decide) (by unfold YM2413.writeReg; rfl)
  · decide

/-! ## Symmetry of the sine output -/

/-- Bit `i` after a noise step: bit `i + 1` before it, flipped at the
positions 0, 7, 8 and 22 when bit 0 was set. -/
theorem noiseStep_testBit (y i : Nat) :
    (noiseStep y).testBit i = xor (y.testBit 0 && (0x400181 : Nat).testBit i)
      (y.testBit (i + 1)) := by
  rw [noiseStep_eq, Nat.testBit_xor]
  have h1 : (y / 2).testBit i = y.testBit (i + 1) := by
    rw [Nat.testBit_succ]
  have h0 : y.testBit 0 = decide (y % 2 = 1) := Nat.testBit_zero y
  rw [h1, h0]
  by_cases hy : y % 2 = 1
  · simp [hy]
  · simp [hy]

/-- Over `k` steps a bit that passes no feedback position is only shifted. -/
theorem noiseStep_iterate_shift (k : Nat) : ∀ (i y : Nat),
    (∀ j, j < i + k → i ≤ j → (0x400181 : Nat).testBit j = false) →
    (noiseStep^[k] y).testBit i = y.testBit (i + k) := by
  induction k with
  | zero => intro i y _; rfl
  | succ k ih =>
    intro i y h
    rw [Function.iterate_succ_apply', noiseStep_testBit, h i (by omega) (le_refl _),
      ih (i + 1) y (fun j h1 h2 => h j (by omega) (by omega))]
    simp only [Bool.and_false, Bool.false_xor]
    congr 1
    omega

theorem noise_taps_start (y : Nat) (hy : y < 2 ^ 23) :
    (noiseStep^[23] y).testBit 0 =
      xor (xor (xor (y.testBit 0) ((noiseStep^[14] y).testBit 0))
        ((noiseStep^[15] y).testBit 0)) ((noiseStep^[22] y).testBit 0) := by
  have t0 : (0x400181 : Nat).testBit 0 = true := by decide
  have t7 : (0x400181 : Nat).testBit 7 = true := by decide
  have t8 : (0x400181 : Nat).testBit 8 = true := by decide
  have t22 : (0x400181 : Nat).testBit 22 = true := by decide
  have s1 : (noiseStep^[23] y).testBit 0 =
      xor ((noiseStep^[22] y).testBit 0) ((noiseStep^[22] y).testBit 1) := by
    rw [show (23 : Nat) = 22 + 1 from rfl, Function.iterate_succ_apply', noiseStep_testBit, t0]
    simp
  have s2 : (noiseStep^[22] y).testBit 1 = (noiseStep^[16] y).testBit 7 := by
    rw [show (22 : Nat) = 6 + 16 from rfl, Function.iterate_add_apply,
      noiseStep_iterate_shift 6 1 _ (by decide)]
  have s3 : (noiseStep^[16] y).testBit 7 =
      xor ((noiseStep^[15] y).testBit 0) ((noiseStep^[15] y).testBit 8) := by
    rw [show (16 : Nat) = 15 + 1 from rfl, Function.iterate_succ_apply', noiseStep_testBit, t7]
    simp
  have s4 : (noiseStep^[15] y).testBit 8 =
      xor ((noiseStep^[14] y).testBit 0) ((noiseStep^[14] y).testBit 9) := by
    rw [show (15 : Nat) = 14 + 1 from rfl, Function.iterate_succ_apply', noiseStep_testBit, t8]
    simp
  have s5 : (noiseStep^[14] y).testBit 9 = (noiseStep^[1] y).testBit 22 := by
    rw [show (14 : Nat) = 13 + 1 from rfl, Function.iterate_add_apply,
      noiseStep_iterate_shift 13 9 _ (by decide)]
  have s6 : (noiseStep^[1] y).testBit 22 = y.testBit 0 := by
    rw [Function.iterate_one, noiseStep_testBit, t22, Nat.testBit_lt_two_pow hy]
    simp
  rw [s1, s2, s3, s4, s5, s6]
  cases y.testBit 0 <;> cases (noiseStep^[14] y).testBit 0 <;>
    cases (noiseStep^[15] y).testBit 0 <;> cases (noiseStep^[22] y).testBit 0 <;> rfl

/-- C35: for every initial `noise_rng < 2 ^ 23`, the output bits
`b n = bit 0 of noise_rng before the n-th step` of the implemented noise step
satisfy the recurrence of the 23-bit shift register with the feedback taps
0, 14, 15, 22: `b (n + 23) = b n xor b (n + 14) xor b (n + 15) xor b (n + 22)`
for every `n`. -/
theorem noise_recurrence (x n : Nat) (hx : x < 2 ^ 23) :
    (noiseStep^[n + 23] x).testBit 0 =
      xor (xor (xor ((noiseStep^[n] x).testBit 0) ((noiseStep^[n + 14] x).testBit 0))
        ((noiseStep^[n + 15] x).testBit 0)) ((noiseStep^[n + 22] x).testBit 0) := by
  have h := noise_taps_start (noiseStep^[n] x) (noiseStep_iterate_lt n hx)
  rw [← Function.iterate_add_apply, ← Function.iterate_add_apply,
    ← Function.iterate_add_apply, ← Function.iterate_add_apply] at h
  rw [Nat.add_comm n 23, Nat.add_comm n 14, Nat.add_comm n 15, Nat.add_comm n 22]
  exact h

set_option maxRecDepth 100000 in
theorem noise_recurrence_witness :
    1 < 2 ^ 23 ∧ (noiseStep^[0 + 23] 1).testBit 0 = false :=
  ⟨by norm_num, (noise_recurrence 1 0 (by norm_num)).trans (by decide)⟩

/-! ## Levels and frequency members -/

theorem Slot.levels_eq {a b : Slot} (h : a.levels = b.levels) :
    a.TL = b.TL ∧ a.TLL = b.TLL ∧ a.ksl = b.ksl ∧ a.mul = b.mul ∧ a.freq = b.freq := by
  unfold Slot.levels at h
  simp only [Prod.mk.injEq] at h
  exact h

theorem Slot.levelOK_congr {k : Nat} {f : Int} {a b : Slot} (h : a.levels = b.levels)
    (hb : b.LevelOK k f) : a.LevelOK k f := by
  obtain ⟨h1, h2, h3, h4, h5⟩ := Slot.levels_eq h
  unfold Slot.LevelOK at hb ⊢
  rw [h1, h2, h3, h4, h5]
  exact hb

theorem Slot.setKeyOn_levels (s : Slot) (part : Nat) : (s.setKeyOn part).levels = s.levels := by
  unfold Slot.setKeyOn Slot.setEnvelopeState
  dsimp only
  split <;> rfl

theorem Slot.setKeyOff_levels (s : Slot) (part : Nat) :
    (s.setKeyOff part).levels = s.levels := by
  unfold Slot.setKeyOff Slot.setEnvelopeState
  dsimp only
  split_ifs <;> rfl

theorem Slot.setKeyOnOff_levels (s : Slot) (part : Nat) (b : Bool) :
    (s.setKeyOnOff part b).levels = s.levels := by
  unfold Slot.setKeyOnOff
  split
  · exact Slot.setKeyOn_levels s part
  · exact Slot.setKeyOff_levels s part

theorem Slot.updateAttackRate_levels (s : Slot) (k : Nat) :
    (s.updateAttackRate k).levels = s.levels := by
  unfold Slot.updateAttackRate
  dsimp only
  split <;> rfl

theorem Slot.setAttackRate_levels (s : Slot) (c : Channel) (v : Nat) :
    (s.setAttackRate c v).levels = s.levels := by
  unfold Slot.setAttackRate
  exact Slot.updateAttackRate_levels _ _

theorem Slot.setDecayRate_levels (s : Slot) (c : Channel) (v : Nat) :
    (s.setDecayRate c v).levels = s.levels := by
  unfold Slot.setDecayRate Slot.updateDecayRate
  rfl

theorem Slot.setReleaseRate_levels (s : Slot) (c : Channel) (v : Nat) :
    (s.setReleaseRate c v).levels = s.levels := by
  unfold Slot.setReleaseRate Slot.updateReleaseRate
  rfl

/-- What `updateGenerators` does to the level and frequency members: `freq`
is recomputed. -/
theorem Slot.updateGenerators_levels (s : Slot) (c : Channel) :
    (s.updateGenerators c).levels = (s.TL, s.TLL, s.ksl, s.mul, c.fc * (s.mul : Int)) := by
  have h := Slot.levels_eq (Slot.updateAttackRate_levels { s with freq := c.fc * s.mul }
    (c.getKeyCode >>> s.KSR))
  unfold Slot.updateGenerators Slot.updateReleaseRate Slot.updateDecayRate
  unfold Slot.levels
  dsimp only
  rw [h.1, h.2.1, h.2.2.1, h.2.2.2.1, h.2.2.2.2]

theorem Slot.updateFrequency_levels (s : Slot) (c : Channel) :
    (s.updateFrequency c).levels =
      (s.TL, s.TL + ((c.ksl_base >>> s.ksl : Nat) : Int), s.ksl, s.mul, c.fc * (s.mul : Int)) := by
  unfold Slot.updateFrequency
  rw [Slot.updateGenerators_levels]
  rfl

theorem Slot.calc_envelope_levels (s : Slot) (c : Channel) (eg_cnt : Nat) (carrier : Bool) :
    (s.calc_envelope c eg_cnt carrier).levels = s.levels := by
  unfold Slot.calc_envelope Slot.setEnvelopeState
  dsimp only
  split <;> first | rfl | (split_ifs <;> rfl)

theorem Slot.calc_slot_mod_levels (P : Params) (s : Slot) (c : Channel) (eg_cnt : Nat)
    (carrier : Bool) (lfo_pm lfo_am : Nat) :
    (s.calc_slot_mod P c eg_cnt carrier lfo_pm lfo_am).1.levels = s.levels := by
  unfold Slot.calc_slot_mod Slot.calcOutput
  dsimp only
  unfold Slot.levels
  have h := Slot.levels_eq (Slot.calc_envelope_levels
    { (s.calc_phase c lfo_pm).1 with op1_out0 := (s.calc_phase c lfo_pm).1.op1_out1 } c eg_cnt
    carrier)
  rw [h.1, h.2.1, h.2.2.1, h.2.2.2.1, h.2.2.2.2]
  rfl

theorem Slot.calcOutput_levels (P : Params) (s : Slot) (c : Channel) (eg_cnt : Nat)
    (carrier : Bool) (lfo_am : Nat) (phase : Int) :
    (s.calcOutput P c eg_cnt carrier lfo_am phase).1.levels = s.levels :=
  Slot.calc_envelope_levels s c eg_cnt carrier

theorem Slot.resetOperators_levels (s : Slot) : s.resetOperators.levels = s.levels := by
  unfold Slot.resetOperators Slot.setEnvelopeState Slot.levels
  rfl

theorem Slot.calc_phase_levels (s : Slot) (c : Channel) (lfo_pm : Nat) :
    (s.calc_phase c lfo_pm).1.levels = s.levels := by
  unfold Slot.calc_phase Slot.levels
  rfl

theorem Slot.levelOK_updateGenerators (s : Slot) (c : Channel)
    (h : s.TLL = s.TL + ((c.ksl_base >>> s.ksl : Nat) : Int)) :
    (s.updateGenerators c).LevelOK c.ksl_base c.fc ∧ (s.updateGenerators c).TL = s.TL := by
  obtain ⟨h1, h2, h3, h4, h5⟩ : (s.updateGenerators c).TL = s.TL ∧
      (s.updateGenerators c).TLL = s.TLL ∧ (s.updateGenerators c).ksl = s.ksl ∧
      (s.updateGenerators c).mul = s.mul ∧
      (s.updateGenerators c).freq = c.fc * (s.mul : Int) := by
    have := Slot.updateGenerators_levels s c
    unfold Slot.levels at this
    simp only [Prod.mk.injEq] at this
    exact this
  unfold Slot.LevelOK
  rw [h1, h2, h3, h4, h5]
  exact ⟨⟨h, rfl⟩, rfl⟩

theorem Slot.levelOK_updateFrequency (s : Slot) (c : Channel) :
    (s.updateFrequency c).LevelOK c.ksl_base c.fc ∧ (s.updateFrequency c).TL = s.TL := by
  unfold Slot.updateFrequency
  have h := Slot.levelOK_updateGenerators (s.updateTotalLevel c) c
    (by unfold Slot.updateTotalLevel; dsimp only)
  refine ⟨h.1, h.2.trans ?_⟩
  unfold Slot.updateTotalLevel
  dsimp only

theorem Slot.levelOK_setTotalLevel (s : Slot) (c : Channel) (v : Nat)
    (hf : s.freq = c.fc * (s.mul : Int)) :
    (s.setTotalLevel c v).LevelOK c.ksl_base c.fc ∧
      (s.setTotalLevel c v).TL = ((2 : Nat) : Int) * (v : Int) := by
  unfold Slot.setTotalLevel Slot.updateTotalLevel Slot.LevelOK
  dsimp only
  refine ⟨⟨rfl, hf⟩, ?_⟩
  have : ENV_BITS - 2 - 7 = 1 := by decide
  rw [this, Nat.shiftLeft_eq]
  push_cast
  ring

theorem Slot.levelOK_setKeyScaleLevel (s : Slot) (c : Channel) (v : Nat)
    (hf : s.freq = c.fc * (s.mul : Int)) :
    (s.setKeyScaleLevel c v).LevelOK c.ksl_base c.fc ∧ (s.setKeyScaleLevel c v).TL = s.TL := by
  unfold Slot.setKeyScaleLevel Slot.updateTotalLevel Slot.LevelOK
  dsimp only
  exact ⟨⟨rfl, hf⟩, rfl⟩

theorem Slot.tlOK_of_levels {k : Nat} {f : Int} {n m : Nat} {a b : Slot}
    (h : a.levels = b.levels) (hb : b.TLOK k f n m) : a.TLOK k f n m := by
  unfold Slot.TLOK at hb ⊢
  rw [(Slot.levels_eq h).1]
  exact ⟨Slot.levelOK_congr h hb.1, hb.2⟩

theorem Slot.tlOK_multiplier {k : Nat} {f : Int} {n m : Nat} (s : Slot) (c : Channel) (v : Nat)
    (b1 b2 b3 b4 : Bool) (hk : c.ksl_base = k) (hf : c.fc = f) (h : s.TLOK k f n m) :
    (Slot.updateGenerators (((((s.setFrequencyMultiplier v).setKeyScaleRate
      b1).setEnvelopeSustained b2).setVibrato b3).setAmplitudeModulation b4) c).TLOK k f n m := by
  subst hk hf
  obtain ⟨g1, g2⟩ := Slot.levelOK_updateGenerators (((((s.setFrequencyMultiplier v).setKeyScaleRate
      b1).setEnvelopeSustained b2).setVibrato b3).setAmplitudeModulation b4) c
    (by
      unfold Slot.setAmplitudeModulation Slot.setVibrato Slot.setEnvelopeSustained
        Slot.setKeyScaleRate Slot.setFrequencyMultiplier
      dsimp only
      exact h.1.1)
  refine ⟨g1, ?_⟩
  rw [g2]
  unfold Slot.setAmplitudeModulation Slot.setVibrato Slot.setEnvelopeSustained
    Slot.setKeyScaleRate Slot.setFrequencyMultiplier
  dsimp only
  exact h.2

theorem Slot.tlOK_totalLevel {n : Nat} (s : Slot) (c : Channel) (t : Nat) (ht : t ≤ n)
    (hf : s.freq = c.fc * (s.mul : Int)) : (s.setTotalLevel c t).TLOK c.ksl_base c.fc n 2 := by
  obtain ⟨g1, g2⟩ := Slot.levelOK_setTotalLevel s c t hf
  exact ⟨g1, t, ht, g2⟩

theorem Slot.tlOK_keyScaleLevel {n m : Nat} (s : Slot) (c : Channel) (v : Nat)
    (h : s.TLOK c.ksl_base c.fc n m) : (s.setKeyScaleLevel c v).TLOK c.ksl_base c.fc n m := by
  obtain ⟨g1, g2⟩ := Slot.levelOK_setKeyScaleLevel s c v h.1.2
  refine ⟨g1, ?_⟩
  rw [g2]
  exact h.2

theorem Slot.setWaveform_levels (s : Slot) (v : Nat) : (s.setWaveform v).levels = s.levels := by
  unfold Slot.setWaveform Slot.levels
  rfl

theorem Slot.setFeedbackShift_levels (s : Slot) (v : Nat) :
    (s.setFeedbackShift v).levels = s.levels := by
  unfold Slot.setFeedbackShift Slot.levels
  rfl

theorem Slot.setSustainLevel_levels (s : Slot) (v : Nat) :
    (s.setSustainLevel v).levels = s.levels := by
  unfold Slot.setSustainLevel Slot.levels
  rfl

theorem Channel.LevelOK.set_mod (c : Channel) (m : Slot) (h : c.LevelOK)
    (hm : m.TLOK c.ksl_base c.fc 63 2) : Channel.LevelOK { c with mod := m } := by
  unfold Channel.LevelOK at h ⊢
  dsimp only
  exact ⟨h.1, h.2.1, h.2.2.1, h.2.2.2.1, hm, h.2.2.2.2.2⟩

theorem Channel.LevelOK.set_car (c : Channel) (k : Slot) (h : c.LevelOK)
    (hk : k.TLOK c.ksl_base c.fc 15 8) : Channel.LevelOK { c with car := k } := by
  unfold Channel.LevelOK at h ⊢
  dsimp only
  exact ⟨h.1, h.2.1, h.2.2.1, h.2.2.2.1, h.2.2.2.2.1, hk⟩

theorem Channel.LevelOK.set_both (c : Channel) (m k : Slot) (h : c.LevelOK)
    (hm : m.TLOK c.ksl_base c.fc 63 2) (hk : k.TLOK c.ksl_base c.fc 15 8) :
    Channel.LevelOK { c with mod := m, car := k } := by
  unfold Channel.LevelOK at h ⊢
  dsimp only
  exact ⟨h.1, h.2.1, h.2.2.1, h.2.2.2.1, hm, hk⟩

theorem Channel.LevelOK.mod_ok {c : Channel} (h : c.LevelOK) :
    c.mod.TLOK c.ksl_base c.fc 63 2 := h.2.2.2.2.1

theorem Channel.LevelOK.car_ok {c : Channel} (h : c.LevelOK) :
    c.car.TLOK c.ksl_base c.fc 15 8 := h.2.2.2.2.2

theorem Channel.updateInstrumentPart_levelOK (c : Channel) (part value : Nat)
    (h : c.LevelOK) : (c.updateInstrumentPart part value).LevelOK := by
  have hm := h.mod_ok
  have hc := h.car_ok
  unfold Channel.updateInstrumentPart
  split
  · dsimp only
    exact Channel.LevelOK.set_mod c _ h (Slot.tlOK_multiplier c.mod c _ _ _ _ _ rfl rfl hm)
  · dsimp only
    exact Channel.LevelOK.set_car c _ h (Slot.tlOK_multiplier c.car c _ _ _ _ _ rfl rfl hc)
  · dsimp only
    exact Channel.LevelOK.set_mod c _ h
      (Slot.tlOK_totalLevel _ c _ Nat.and_le_right (Slot.tlOK_keyScaleLevel c.mod c _ hm).1.2)
  · dsimp only
    exact Channel.LevelOK.set_both c _ _ h
      (Slot.tlOK_of_levels ((Slot.setFeedbackShift_levels _ _).trans
        (Slot.setWaveform_levels _ _)) hm)
      (Slot.tlOK_of_levels (Slot.setWaveform_levels _ _)
        (Slot.tlOK_keyScaleLevel c.car c _ hc))
  · dsimp only
    exact Channel.LevelOK.set_mod c _ h (Slot.tlOK_of_levels
      ((Slot.setDecayRate_levels _ _ _).trans (Slot.setAttackRate_levels _ _ _)) hm)
  · dsimp only
    exact Channel.LevelOK.set_car c _ h (Slot.tlOK_of_levels
      ((Slot.setDecayRate_levels _ _ _).trans (Slot.setAttackRate_levels _ _ _)) hc)
  · dsimp only
    exact Channel.LevelOK.set_mod c _ h (Slot.tlOK_of_levels
      ((Slot.setReleaseRate_levels _ _ _).trans (Slot.setSustainLevel_levels _ _)) hm)
  · dsimp only
    exact Channel.LevelOK.set_car c _ h (Slot.tlOK_of_levels
      ((Slot.setReleaseRate_levels _ _ _).trans (Slot.setSustainLevel_levels _ _)) hc)
  · exact h

theorem block_fnum_low (b v : Nat) (hv : v < 256) : (b &&& 0x0F00) ||| v < 4096 := by
  have h1 : b &&& 0x0F00 < 2 ^ 12 := lt_of_le_of_lt Nat.and_le_right (by norm_num)
  have h2 : v < 2 ^ 12 := by omega
  exact Nat.or_lt_two_pow h1 h2

theorem block_fnum_high (b v : Nat) : ((v &&& 0x0F) <<< 8) ||| (b &&& 0x00FF) < 4096 := by
  have h0 : v &&& 0x0F ≤ 0x0F := Nat.and_le_right
  have h1 : (v &&& 0x0F) <<< 8 < 2 ^ 12 := by
    rw [Nat.shiftLeft_eq]; omega
  have h2 : b &&& 0x00FF < 2 ^ 12 := lt_of_le_of_lt Nat.and_le_right (by norm_num)
  exact Nat.or_lt_two_pow h1 h2

theorem Slot.tlOK_updateFrequency {n m : Nat} {k : Nat} {f : Int} (s : Slot) (c : Channel)
    (h : s.TLOK k f n m) : (s.updateFrequency c).TLOK c.ksl_base c.fc n m := by
  obtain ⟨g1, g2⟩ := Slot.levelOK_updateFrequency s c
  refine ⟨g1, ?_⟩
  rw [g2]
  exact h.2

theorem Channel.setFrequency_levelOK (c : Channel) (bf : Nat) (hbf : bf < 4096)
    (h : c.LevelOK) : (c.setFrequency bf).LevelOK := by
  unfold Channel.setFrequency
  split
  · exact h
  · dsimp only
    unfold Channel.LevelOK
    dsimp only
    exact ⟨h.1, hbf, rfl, rfl, Slot.tlOK_updateFrequency c.mod _ h.mod_ok,
      Slot.tlOK_updateFrequency c.car _ h.car_ok⟩

theorem Channel.LevelOK.volume_mod (c : Channel) (h : c.LevelOK) :
    Channel.LevelOK { c with mod := c.mod.setTotalLevel c ((c.instvol_r >>> 4) <<< 2) } := by
  refine Channel.LevelOK.set_mod c _ h ?_
  have hi := h.1
  exact Slot.tlOK_totalLevel c.mod c _
    (by rw [Nat.shiftRight_eq_div_pow, Nat.shiftLeft_eq]; omega) h.mod_ok.1.2

theorem Channel.LevelOK.volume_car (c : Channel) (v : Nat) (h : c.LevelOK) :
    Channel.LevelOK { c with car := c.car.setTotalLevel c ((v &&& 0x0F) <<< 2) } := by
  refine Channel.LevelOK.set_car c _ h ?_
  obtain ⟨g1, g2⟩ := Slot.levelOK_setTotalLevel c.car c ((v &&& 0x0F) <<< 2) h.car_ok.1.2
  refine ⟨g1, v &&& 0x0F, Nat.and_le_right, ?_⟩
  rw [g2, Nat.shiftLeft_eq]
  push_cast
  ring

/-- The channel property is kept by every channel operation of the chip. -/
theorem channelFrame_levelOK : ChannelFrame fun _ c => c.LevelOK where
  updateInstrumentPart := fun _ c part value h =>
    Channel.updateInstrumentPart_levelOK c part value h
  setVolume_mod := fun _ c h => Channel.LevelOK.volume_mod c h
  setVolume_car := fun _ c v h => Channel.LevelOK.volume_car c v h
  setInstvol := fun _ c v hv h => by
    unfold Channel.LevelOK at h ⊢
    dsimp only
    exact ⟨hv, h.2⟩
  keyMain_mod := fun _ c b h =>
    Channel.LevelOK.set_mod c _ h (Slot.tlOK_of_levels (Slot.setKeyOnOff_levels _ _ _) h.mod_ok)
  keyMain_car := fun _ c b h =>
    Channel.LevelOK.set_car c _ h (Slot.tlOK_of_levels (Slot.setKeyOnOff_levels _ _ _) h.car_ok)
  setFrequencyLow := fun _ c v hv h =>
    Channel.setFrequency_levelOK c _ (block_fnum_low _ v hv) h
  setFrequencyHigh := fun _ c v h =>
    Channel.setFrequency_levelOK c _ (block_fnum_high _ v) h
  setSustain := fun _ c b h => by
    unfold Channel.setSustain Channel.LevelOK at *
    dsimp only
    exact h
  resetOperators := fun _ c h =>
    Channel.LevelOK.set_both c _ _ h
      (Slot.tlOK_of_levels (Slot.resetOperators_levels _) h.mod_ok)
      (Slot.tlOK_of_levels (Slot.resetOperators_levels _) h.car_ok)
  calc_slot_mod := fun _ P c eg_cnt carrier lfo_pm lfo_am h =>
    Channel.LevelOK.set_mod c _ h
      (Slot.tlOK_of_levels (Slot.calc_slot_mod_levels _ _ _ _ _ _ _) h.mod_ok)
  calcOutput := fun _ P c eg_cnt lfo_pm lfo_am fm h => by
    unfold Channel.calcOutput
    dsimp only
    exact Channel.LevelOK.set_car c _ h (Slot.tlOK_of_levels
      ((Slot.calcOutput_levels _ _ _ _ _ _ _).trans (Slot.calc_phase_levels _ _ _)) h.car_ok)
  calc_phase_mod := fun _ c lfo_pm h =>
    Channel.LevelOK.set_mod c _ h (Slot.tlOK_of_levels (Slot.calc_phase_levels _ _ _) h.mod_ok)
  calc_phase_car := fun _ c lfo_pm h =>
    Channel.LevelOK.set_car c _ h (Slot.tlOK_of_levels (Slot.calc_phase_levels _ _ _) h.car_ok)
  slotOutput_mod := fun _ P c eg_cnt lfo_am phase h =>
    Channel.LevelOK.set_mod c _ h
      (Slot.tlOK_of_levels (Slot.calcOutput_levels _ _ _ _ _ _ _) h.mod_ok)
  slotOutput_car := fun _ P c eg_cnt lfo_am phase h =>
    Channel.LevelOK.set_car c _ h
      (Slot.tlOK_of_levels (Slot.calcOutput_levels _ _ _ _ _ _ _) h.car_ok)

namespace ChannelFrame

/-- Switching the rhythm mode, for a family of properties that the key
switches keep whatever the key part. -/
theorem frame_setRhythmMode {I : Fin 9 → Channel → Prop} (H : ChannelFrame I)
    (Hm : ∀ (k : Fin 9) (c : Channel) (part : Nat) (b : Bool), I k c →
      I k { c with mod := c.mod.setKeyOnOff part b })
    (Hc : ∀ (k : Fin 9) (c : Channel) (part : Nat) (b : Bool), I k c →
      I k { c with car := c.car.setKeyOnOff part b })
    (s : YM2413) (rhythm_ : Bool) (hs : ∀ k, I k (s.channels k)) :
    ∀ k, I k ((s.setRhythmMode rhythm_).channels k) := by
  cases rhythm_ with
  | true => exact H.frame_setRhythmMode_on s true (Or.inl rfl) hs
  | false =>
    unfold YM2413.setRhythmMode
    split
    · exact hs
    · dsimp only
      rw [if_neg (by decide)]
      refine frame_modifyChannel _ _ _ (fun c hc => Hc _ c KEY_RHYTHM false hc) ?_
      refine frame_modifyChannel _ _ _ (fun c hc => Hm _ c KEY_RHYTHM false hc) ?_
      refine frame_modifyChannel _ _ _ (fun c hc => Hc _ c KEY_RHYTHM false hc) ?_
      refine frame_modifyChannel _ _ _ (fun c hc => Hm _ c KEY_RHYTHM false hc) ?_
      refine frame_modifyChannel _ _ _ (fun c hc => Hc _ c KEY_RHYTHM false hc) ?_
      refine frame_modifyChannel _ _ _ (fun c hc => Hm _ c KEY_RHYTHM false hc) ?_
      refine frame_modifyChannel _ _ _ (fun c hc => H.frame_updateInstrument _ c _ hc) ?_
      refine frame_modifyChannel _ _ _ (fun c hc => H.frame_updateInstrument _ c _ hc) ?_
      refine frame_modifyChannel _ _ _ (fun c hc => H.frame_updateInstrument _ c _ hc) ?_
      exact hs

theorem frame_setRhythmFlags {I : Fin 9 → Channel → Prop} (H : ChannelFrame I)
    (Hm : ∀ (k : Fin 9) (c : Channel) (part : Nat) (b : Bool), I k c →
      I k { c with mod := c.mod.setKeyOnOff part b })
    (Hc : ∀ (k : Fin 9) (c : Channel) (part : Nat) (b : Bool), I k c →
      I k { c with car := c.car.setKeyOnOff part b })
    (s : YM2413) (flags : Nat) (hs : ∀ k, I k (s.channels k)) :
    ∀ k, I k ((s.setRhythmFlags flags).channels k) := by
  have h0 := H.frame_setRhythmMode Hm Hc s (decide (flags &&& 0x20 ≠ 0)) hs
  unfold YM2413.setRhythmFlags
  dsimp only
  split
  · refine frame_modifyChannel _ _ _ (fun c hc => Hc _ c KEY_RHYTHM _ hc) ?_
    refine frame_modifyChannel _ _ _ (fun c hc => Hm _ c KEY_RHYTHM _ hc) ?_
    refine frame_modifyChannel _ _ _ (fun c hc => Hc _ c KEY_RHYTHM _ hc) ?_
    refine frame_modifyChannel _ _ _ (fun c hc => Hm _ c KEY_RHYTHM _ hc) ?_
    refine frame_modifyChannel _ _ _ (fun c hc => Hc _ c KEY_RHYTHM _ hc) ?_
    refine frame_modifyChannel _ _ _ (fun c hc => Hm _ c KEY_RHYTHM _ hc) ?_
    exact h0
  · exact h0

/-- Every register write with a byte value. -/
theorem frame_writeRegAt_any {I : Fin 9 → Channel → Prop} (H : ChannelFrame I)
    (Hm : ∀ (k : Fin 9) (c : Channel) (part : Nat) (b : Bool), I k c →
      I k { c with mod := c.mod.setKeyOnOff part b })
    (Hc : ∀ (k : Fin 9) (c : Channel) (part : Nat) (b : Bool), I k c →
      I k { c with car := c.car.setKeyOnOff part b })
    (s : YM2413) (r : Fin 0x40) (v : Nat) (hv : v < 256) (hs : ∀ k, I k (s.channels k)) :
    ∀ k, I k ((s.writeRegAt r v).channels k) := by
  by_cases hr : r.val = 0x0E
  · have hr1 : r = 0x0E := Fin.ext hr
    subst hr1
    rw [YM2413.writeRegAt_rhythmReg]
    exact H.frame_setRhythmFlags Hm Hc _ v hs
  · exact H.frame_writeRegAt s r v hr hv hs

/-- A family of channel properties that holds in the constructed chip holds
in every reachable state. -/
theorem frame_reachable {I : Fin 9 → Channel → Prop} (H : ChannelFrame I)
    (Hm : ∀ (k : Fin 9) (c : Channel) (part : Nat) (b : Bool), I k c →
      I k { c with mod := c.mod.setKeyOnOff part b })
    (Hc : ∀ (k : Fin 9) (c : Channel) (part : Nat) (b : Bool), I k c →
      I k { c with car := c.car.setKeyOnOff part b })
    {P : Params} (hnew : ∀ k, I k (YM2413.new.channels k)) {s : YM2413} (hs : Reachable P s) :
    ∀ k, I k (s.channels k) := by
  induction hs with
  | new => exact hnew
  | @writeReg s s1 r v _ hv hw ih =>
    unfold YM2413.writeReg at hw
    split at hw
    · cases hw; exact H.frame_writeRegAt_any Hm Hc _ _ _ hv ih
    · cases hw
  | reset _ ih => exact H.frame_reset _ ih
  | generateChannels bufs num _ ih => exact H.frame_generateChannels P _ bufs num ih

end ChannelFrame

theorem Channel.levelOK_new : Channel.new.LevelOK := by
  unfold Channel.LevelOK Slot.TLOK Slot.LevelOK Channel.new Slot.new
  dsimp only
  refine ⟨by decide, by decide, by decide, by decide, ⟨⟨by decide, by decide⟩, 0, by decide,
    by decide⟩, ⟨⟨by decide, by decide⟩, 0, by decide, by decide⟩⟩

theorem new_levelOK (ch : Fin 9) : (YM2413.new.channels ch).LevelOK := by
  have h0 : ∀ k, (YM2413.init.channels k).LevelOK := fun _ => Channel.levelOK_new
  exact channelFrame_levelOK.frame_reset YM2413.init h0 ch

/-- In every reachable state every channel has its frequency members derived
from `block_fnum`, total levels of the form the register writes give them,
and up-to-date `TLL` and `freq` in both slots. -/
theorem reachable_levelOK {P : Params} {s : YM2413} (hs : Reachable P s) (ch : Fin 9) :
    (s.channels ch).LevelOK :=
  channelFrame_levelOK.frame_reachable
    (fun _ c _ _ h => Channel.LevelOK.set_mod c _ h
      (Slot.tlOK_of_levels (Slot.setKeyOnOff_levels _ _ _) h.mod_ok))
    (fun _ c _ _ h => Channel.LevelOK.set_car c _ h
      (Slot.tlOK_of_levels (Slot.setKeyOnOff_levels _ _ _) h.car_ok))
    new_levelOK hs ch

set_option maxRecDepth 1000000 in
set_option maxHeartbeats 4000000 in
/-- C33, counterexample: after `writeReg(0x02, 0x01)` on the constructed chip
(user instrument, modulator total level 1) the modulator of channel 0 has
`TL = 2`, which is not `4 * k`: `setTotalLevel` stores `value << 1`. -/
theorem total_level_not_times_four :
    Reachable hostParams (YM2413.new.writeRegAt 0x02 0x01) ∧
      ((YM2413.new.writeRegAt 0x02 0x01).channels 0).mod.TL = 2 ∧
      ¬ ∃ k : Nat, k ≤ 63 ∧ (2 : Int) = 4 * (k : Int) := by
  refine ⟨Reachable.writeReg 0x02 0x01 Reachable.new (by decide)
    (by unfold YM2413.writeReg; rfl), by decide, ?_⟩
  rintro ⟨k, _, hk⟩
  omega

/-- C33, as the code has it: in every chip state reachable from construction
by register writes, resets and sample generation, every modulator's `TL` is
`2 * t` with `t` in `0 .. 63` and every carrier's `TL` is `8 * vol` with
`vol` in `0 .. 15`. -/
theorem total_level_form {P : Params} {s : YM2413} (hs : Reachable P s) (ch : Fin 9) :
    (∃ t : Nat, t ≤ 63 ∧ (s.channels ch).mod.TL = 2 * (t : Int)) ∧
      (∃ vol : Nat, vol ≤ 15 ∧ (s.channels ch).car.TL = 8 * (vol : Int)) := by
  have h := reachable_levelOK hs ch
  exact ⟨h.mod_ok.2, h.car_ok.2⟩

theorem total_level_form_witness :
    (∃ t : Nat, t ≤ 63 ∧
        ((YM2413.new.writeRegAt 0x02 0x01).channels 0).mod.TL = 2 * (t : Int)) ∧
      (∃ vol : Nat, vol ≤ 15 ∧
        ((YM2413.new.writeRegAt 0x02 0x01).channels 0).car.TL = 8 * (vol : Int)) :=
  @total_level_form hostParams _ (Reachable.writeReg 0x02 0x01 Reachable.new (by decide)
    (by unfold YM2413.writeReg; rfl)) 0

/-- C34: in every chip state reachable from construction by register writes,
resets and sample generation, each channel has `block_fnum < 4096`,
`ksl_base = ksl_tab[block_fnum >> 5]` and `fc = fnumToIncrement(2 * block_fnum)`,
and each of its slots has `TLL = TL + (ksl_base >> ksl)` and
`freq = fc * mul`. -/
theorem derived_frequency {P : Params} {s : YM2413} (hs : Reachable P s) (ch : Fin 9) :
    (s.channels ch).block_fnum < 4096 ∧
    (s.channels ch).ksl_base = ksl_tab ((s.channels ch).block_fnum >>> 5) ∧
    (s.channels ch).fc = fnumToIncrement (((s.channels ch).block_fnum : Int) * 2) ∧
    ((s.channels ch).mod.TLL = (s.channels ch).mod.TL +
        (((s.channels ch).ksl_base >>> (s.channels ch).mod.ksl : Nat) : Int) ∧
      (s.channels ch).mod.freq = (s.channels ch).fc * ((s.channels ch).mod.mul : Int)) ∧
    ((s.channels ch).car.TLL = (s.channels ch).car.TL +
        (((s.channels ch).ksl_base >>> (s.channels ch).car.ksl : Nat) : Int) ∧
      (s.channels ch).car.freq = (s.channels ch).fc * ((s.channels ch).car.mul : Int)) := by
  have h := reachable_levelOK hs ch
  exact ⟨h.2.1, h.2.2.1, h.2.2.2.1, h.mod_ok.1, h.car_ok.1⟩

set_option maxRecDepth 1000000 in
set_option maxHeartbeats 4000000 in
theorem derived_frequency_witness :
    ((YM2413.new.writeRegAt 0x10 0xAB).channels 0).block_fnum = 0xAB ∧
      ((YM2413.new.writeRegAt 0x10 0xAB).channels 0).ksl_base = ksl_tab (0xAB >>> 5) :=
  ⟨by decide,
    (@derived_frequency hostParams _ (Reachable.writeReg 0x10 0xAB Reachable.new (by decide)
      (by unfold YM2413.writeReg; rfl)) 0).2.1.trans (by decide)⟩

/-! ## Repeating a register write -/

theorem Channel.updateInstrumentPart_idem0 (c : Channel) (value : Nat) :
    (c.updateInstrumentPart 0 value).updateInstrumentPart 0 value =
      c.updateInstrumentPart 0 value := by
  unfold Channel.updateInstrumentPart
  dsimp only
  unfold Slot.updateGenerators Slot.updateReleaseRate Slot.updateDecayRate Slot.updateAttackRate
    Slot.setAmplitudeModulation Slot.setVibrato Slot.setEnvelopeSustained
    Slot.setKeyScaleRate Slot.setFrequencyMultiplier Channel.getKeyCode
  dsimp only
  by_cases h : c.mod.ar + ((c.block_fnum &&& 0x0F00) >>> 8) >>>
      (if decide (value &&& 0x10 ≠ 0) = true then 0 else 2) < 16 + 62
  · simp only [if_pos h]
  · simp only [if_neg h]

theorem Channel.updateInstrumentPart_idem1 (c : Channel) (value : Nat) :
    (c.updateInstrumentPart 1 value).updateInstrumentPart 1 value =
      c.updateInstrumentPart 1 value := by
  unfold Channel.updateInstrumentPart
  dsimp only
  unfold Slot.updateGenerators Slot.updateReleaseRate Slot.updateDecayRate Slot.updateAttackRate
    Slot.setAmplitudeModulation Slot.setVibrato Slot.setEnvelopeSustained
    Slot.setKeyScaleRate Slot.setFrequencyMultiplier Channel.getKeyCode
  dsimp only
  by_cases h : c.car.ar + ((c.block_fnum &&& 0x0F00) >>> 8) >>>
      (if decide (value &&& 0x10 ≠ 0) = true then 0 else 2) < 16 + 62
  · simp only [if_pos h]
  · simp only [if_neg h]

theorem Channel.updateInstrumentPart_idem2 (c : Channel) (value : Nat) :
    (c.updateInstrumentPart 2 value).updateInstrumentPart 2 value =
      c.updateInstrumentPart 2 value := by
  unfold Channel.updateInstrumentPart
  dsimp only
  unfold Slot.setTotalLevel Slot.setKeyScaleLevel Slot.updateTotalLevel
  dsimp only

theorem Channel.updateInstrumentPart_idem3 (c : Channel) (value : Nat) :
    (c.updateInstrumentPart 3 value).updateInstrumentPart 3 value =
      c.updateInstrumentPart 3 value := by
  unfold Channel.updateInstrumentPart
  dsimp only
  unfold Slot.setWaveform Slot.setFeedbackShift Slot.setKeyScaleLevel Slot.updateTotalLevel
  dsimp only

theorem Channel.updateInstrumentPart_idem4 (c : Channel) (value : Nat) :
    (c.updateInstrumentPart 4 value).updateInstrumentPart 4 value =
      c.updateInstrumentPart 4 value := by
  unfold Channel.updateInstrumentPart
  dsimp only
  unfold Slot.setDecayRate Slot.setAttackRate Slot.updateDecayRate Slot.updateAttackRate
    Channel.getKeyCode
  dsimp only
  by_cases h : (if value >>> 4 ≠ 0 then 16 + (value >>> 4 <<< 2) else 0) +
      ((c.block_fnum &&& 0x0F00) >>> 8) >>> c.mod.KSR < 16 + 62
  · simp only [if_pos h]
  · simp only [if_neg h]

theorem Channel.updateInstrumentPart_idem5 (c : Channel) (value : Nat) :
    (c.updateInstrumentPart 5 value).updateInstrumentPart 5 value =
      c.updateInstrumentPart 5 value := by
  unfold Channel.updateInstrumentPart
  dsimp only
  unfold Slot.setDecayRate Slot.setAttackRate Slot.updateDecayRate Slot.updateAttackRate
    Channel.getKeyCode
  dsimp only
  by_cases h : (if value >>> 4 ≠ 0 then 16 + (value >>> 4 <<< 2) else 0) +
      ((c.block_fnum &&& 0x0F00) >>> 8) >>> c.car.KSR < 16 + 62
  · simp only [if_pos h]
  · simp only [if_neg h]

theorem Channel.updateInstrumentPart_idem6 (c : Channel) (value : Nat) :
    (c.updateInstrumentPart 6 value).updateInstrumentPart 6 value =
      c.updateInstrumentPart 6 value := by
  unfold Channel.updateInstrumentPart
  dsimp only
  unfold Slot.setReleaseRate Slot.setSustainLevel Slot.updateReleaseRate Channel.getKeyCode
  dsimp only

theorem Channel.updateInstrumentPart_idem7 (c : Channel) (value : Nat) :
    (c.updateInstrumentPart 7 value).updateInstrumentPart 7 value =
      c.updateInstrumentPart 7 value := by
  unfold Channel.updateInstrumentPart
  dsimp only
  unfold Slot.setReleaseRate Slot.setSustainLevel Slot.updateReleaseRate Channel.getKeyCode
  dsimp only

/-- Loading one part of an instrument twice is loading it once. -/
theorem Channel.updateInstrumentPart_idem (c : Channel) (part value : Nat) :
    (c.updateInstrumentPart part value).updateInstrumentPart part value =
      c.updateInstrumentPart part value := by
  match part with
  | 0 => exact Channel.updateInstrumentPart_idem0 c value
  | 1 => exact Channel.updateInstrumentPart_idem1 c value
  | 2 => exact Channel.updateInstrumentPart_idem2 c value
  | 3 => exact Channel.updateInstrumentPart_idem3 c value
  | 4 => exact Channel.updateInstrumentPart_idem4 c value
  | 5 => exact Channel.updateInstrumentPart_idem5 c value
  | 6 => exact Channel.updateInstrumentPart_idem6 c value
  | 7 => exact Channel.updateInstrumentPart_idem7 c value
  | n + 8 => rfl

theorem or_or_same (x p : Nat) : (x ||| p) ||| p = x ||| p := by
  rw [Nat.or_assoc, Nat.or_self]

theorem or_eq_zero_left (a b : Nat) (h : a ||| b = 0) : a = 0 := by
  apply Nat.eq_of_testBit_eq
  intro i
  have := congrArg (fun n => Nat.testBit n i) h
  simp only [Nat.testBit_or, Nat.zero_testBit, Bool.or_eq_false_iff] at this
  rw [this.1, Nat.zero_testBit]

theorem and_and_same (x m : Nat) : (x &&& m) &&& m = x &&& m := by
  rw [Nat.and_assoc, Nat.and_self]

/-- A slot whose key mask and envelope state are those a key switch leaves
is not changed by the same key switch. -/
theorem Slot.setKeyOnOff_fixed (t m : Slot) (part : Nat) (b : Bool)
    (hk : t.key = (m.setKeyOnOff part b).key) (hs : t.state = (m.setKeyOnOff part b).state) :
    t.setKeyOnOff part b = t := by
  unfold Slot.setKeyOnOff at hk hs ⊢
  cases b with
  | true =>
    simp only [if_true] at hk hs ⊢
    rw [Slot.setKeyOn_eq] at hk hs
    dsimp only at hk hs
    rw [Slot.setKeyOn_eq]
    have h1 : t.key ||| part = t.key := by rw [hk, or_or_same]
    have h2 : (if t.key = 0 then EnvelopeState.EG_DUMP else t.state) = t.state := by
      split
      · rename_i h0
        rw [hk] at h0
        have hm : m.key = 0 := or_eq_zero_left _ _ h0
        rw [hs, if_pos hm]
      · rfl
    rw [h1, h2]
  | false =>
    simp only [Bool.false_eq_true, if_false] at hk hs ⊢
    rw [Slot.setKeyOff_eq] at hk
    dsimp only at hk
    rw [Slot.setKeyOff_eq]
    have h1 : t.key &&& (0xFF ^^^ part) = t.key := by rw [hk, and_and_same]
    have h2 : (if t.key ≠ 0 ∧ t.key = 0 ∧ t.state ≠ .EG_OFF
        then EnvelopeState.EG_RELEASE else t.state) = t.state := by
      split
      · rename_i h0
        exact absurd h0.2.1 h0.1
      · rfl
    rw [h1, h2]

/-- A slot whose total level is `value << 1` and whose `TLL` is up to date is
not changed by `setTotalLevel(value)`. -/
theorem Slot.setTotalLevel_fixed (t : Slot) (c : Channel) (value : Nat)
    (h1 : t.TL = ((value <<< (ENV_BITS - 2 - 7) : Nat) : Int))
    (h2 : t.TLL = t.TL + ((c.ksl_base >>> t.ksl : Nat) : Int)) :
    t.setTotalLevel c value = t := by
  unfold Slot.setTotalLevel Slot.updateTotalLevel
  dsimp only
  rw [← h1, ← h2]

theorem Slot.setTotalLevel_idem (s : Slot) (c d : Channel) (value : Nat)
    (h : d.ksl_base = c.ksl_base) :
    (s.setTotalLevel c value).setTotalLevel d value = s.setTotalLevel c value := by
  unfold Slot.setTotalLevel Slot.updateTotalLevel
  dsimp only
  rw [h]

theorem Slot.updateFrequency_state (s : Slot) (c : Channel) :
    (s.updateFrequency c).state = s.state := by
  unfold Slot.updateFrequency Slot.updateGenerators Slot.updateReleaseRate Slot.updateDecayRate
    Slot.updateAttackRate Slot.updateTotalLevel
  dsimp only
  split_ifs <;> rfl

theorem Channel.setFrequency_fields (c : Channel) (bf : Nat) :
    (c.setFrequency bf).block_fnum = bf ∧ (c.setFrequency bf).sus = c.sus ∧
      (c.setFrequency bf).instvol_r = c.instvol_r ∧
      (c.setFrequency bf).mod.key = c.mod.key ∧ (c.setFrequency bf).mod.state = c.mod.state ∧
      (c.setFrequency bf).car.key = c.car.key ∧ (c.setFrequency bf).car.state = c.car.state := by
  unfold Channel.setFrequency
  split
  · rename_i h
    exact ⟨h, rfl, rfl, rfl, rfl, rfl, rfl⟩
  · dsimp only
    exact ⟨rfl, rfl, rfl, Slot.updateFrequency_key _ _, Slot.updateFrequency_state _ _,
      Slot.updateFrequency_key _ _, Slot.updateFrequency_state _ _⟩

theorem Channel.setFrequency_fixed (c : Channel) (bf : Nat) (h : c.block_fnum = bf) :
    c.setFrequency bf = c := by
  unfold Channel.setFrequency
  rw [if_pos h]

theorem low_byte_idem (x v : Nat) :
    ((((x &&& 0x0F00) ||| v) &&& 0x0F00) ||| v) = (x &&& 0x0F00) ||| v := by
  apply Nat.eq_of_testBit_eq
  intro i
  simp only [Nat.testBit_or, Nat.testBit_and]
  cases x.testBit i <;> cases (0x0F00 : Nat).testBit i <;> cases v.testBit i <;> rfl

theorem high_byte_idem (x w : Nat) :
    (w <<< 8) ||| (((w <<< 8) ||| (x &&& 0x00FF)) &&& 0x00FF) = (w <<< 8) ||| (x &&& 0x00FF) := by
  apply Nat.eq_of_testBit_eq
  intro i
  simp only [Nat.testBit_or, Nat.testBit_and]
  cases (w <<< 8).testBit i <;> cases (0x00FF : Nat).testBit i <;> cases x.testBit i <;> rfl

theorem Channel.setFrequencyLow_idem (c : Channel) (v : Nat) :
    (c.setFrequencyLow v).setFrequencyLow v = c.setFrequencyLow v := by
  unfold Channel.setFrequencyLow
  apply Channel.setFrequency_fixed
  rw [(Channel.setFrequency_fields c _).1, low_byte_idem]

/-- The channel operations of a write to `0x20 + ch`, in the order of the
source. -/
theorem Channel.keyWrite_idem (c : Channel) (b sus : Bool) (w : Nat) (d : Channel)
    (hd : d = Channel.setFrequencyHigh (Channel.setSustain
      { ({ c with mod := c.mod.setKeyOnOff KEY_MAIN b } : Channel) with
        car := c.car.setKeyOnOff KEY_MAIN b } sus) w) :
    ({ d with mod := d.mod.setKeyOnOff KEY_MAIN b } : Channel) = d ∧
      ({ d with car := d.car.setKeyOnOff KEY_MAIN b } : Channel) = d ∧
      d.setSustain sus = d ∧ d.setFrequencyHigh w = d := by
  have hf := Channel.setFrequency_fields (Channel.setSustain
      { ({ c with mod := c.mod.setKeyOnOff KEY_MAIN b } : Channel) with
        car := c.car.setKeyOnOff KEY_MAIN b } sus)
    ((w <<< 8) ||| (c.block_fnum &&& 0x00FF))
  have hd1 : d = Channel.setFrequency (Channel.setSustain
      { ({ c with mod := c.mod.setKeyOnOff KEY_MAIN b } : Channel) with
        car := c.car.setKeyOnOff KEY_MAIN b } sus)
      ((w <<< 8) ||| (c.block_fnum &&& 0x00FF)) := hd
  rw [← hd1] at hf
  obtain ⟨f1, f2, _, f4, f5, f6, f7⟩ := hf
  have e1 : d.mod.setKeyOnOff KEY_MAIN b = d.mod :=
    Slot.setKeyOnOff_fixed d.mod c.mod KEY_MAIN b f4 f5
  have e2 : d.car.setKeyOnOff KEY_MAIN b = d.car :=
    Slot.setKeyOnOff_fixed d.car c.car KEY_MAIN b f6 f7
  refine ⟨by rw [e1], by rw [e2], ?_, ?_⟩
  · unfold Channel.setSustain
    have : d.sus = sus := f2
    rw [← this]
  · unfold Channel.setFrequencyHigh
    apply Channel.setFrequency_fixed
    rw [f1, high_byte_idem]

namespace YM2413

theorem reg_fixed (t : YM2413) (r : Fin 0x40) (v : Nat) (h : t.reg r = v) :
    ({ t with reg := Function.update t.reg r v } : YM2413) = t := by
  subst h
  rw [Function.update_eq_self]

theorem modifyChannel_fixed (s : YM2413) (ch : Fin 9) (f : Channel → Channel)
    (h : f (s.channels ch) = s.channels ch) : s.modifyChannel ch f = s := by
  unfold modifyChannel
  rw [h, Function.update_eq_self]

theorem modifyChannel_same (s : YM2413) (ch : Fin 9) (f : Channel → Channel) :
    (s.modifyChannel ch f).channels ch = f (s.channels ch) := by
  unfold modifyChannel
  exact Function.update_same _ _ _

theorem modifyChannel_reg (s : YM2413) (ch : Fin 9) (f : Channel → Channel) :
    (s.modifyChannel ch f).reg = s.reg := rfl

theorem writeRegAt_stored (s : YM2413) (r : Fin 0x40) (v : Nat) : (s.writeRegAt r v).reg r = v := by
  rw [writeRegAt_reg, Function.update_same]

/-- A write to `0x10 + k`. -/
theorem writeRegAt_low (s : YM2413) (r : Fin 0x40) (v : Nat) (h : r.val &&& 0xF0 = 0x10) :
    s.writeRegAt r v = ({ s with reg := Function.update s.reg r v } : YM2413).modifyChannel
      (getChannelForReg r.val) fun ch => ch.setFrequencyLow v := by
  unfold writeRegAt
  dsimp only
  rw [if_neg (by rw [h]; decide), if_pos h]

/-- A write to `0x20 + k`. -/
theorem writeRegAt_key (s : YM2413) (r : Fin 0x40) (v : Nat) (h : r.val &&& 0xF0 = 0x20) :
    s.writeRegAt r v =
      ((((({ s with reg := Function.update s.reg r v } : YM2413).modifyChannel
        (getChannelForReg r.val) fun ch =>
          { ch with mod := ch.mod.setKeyOnOff KEY_MAIN (decide (v &&& 0x10 ≠ 0)) }).modifyChannel
        (getChannelForReg r.val) fun ch =>
          { ch with car := ch.car.setKeyOnOff KEY_MAIN (decide (v &&& 0x10 ≠ 0)) }).modifyChannel
        (getChannelForReg r.val) fun ch => ch.setSustain (decide (v &&& 0x20 ≠ 0))).modifyChannel
        (getChannelForReg r.val) fun ch => ch.setFrequencyHigh (v &&& 0x0F)) := by
  unfold writeRegAt
  dsimp only
  rw [if_neg (by rw [h]; decide), if_neg (by rw [h]; decide), if_pos h]

theorem writeRegAt_idem_low (s : YM2413) (r : Fin 0x40) (v : Nat) (h : r.val &&& 0xF0 = 0x10) :
    (s.writeRegAt r v).writeRegAt r v = s.writeRegAt r v := by
  have hreg := writeRegAt_stored s r v
  rw [writeRegAt_low (s.writeRegAt r v) r v h, reg_fixed _ r v hreg]
  apply modifyChannel_fixed
  rw [writeRegAt_low s r v h, modifyChannel_same]
  exact Channel.setFrequencyLow_idem _ v

theorem writeRegAt_idem_key (s : YM2413) (r : Fin 0x40) (v : Nat) (h : r.val &&& 0xF0 = 0x20) :
    (s.writeRegAt r v).writeRegAt r v = s.writeRegAt r v := by
  have hreg := writeRegAt_stored s r v
  rw [writeRegAt_key (s.writeRegAt r v) r v h, reg_fixed _ r v hreg]
  have hd : (s.writeRegAt r v).channels (getChannelForReg r.val) =
      Channel.setFrequencyHigh (Channel.setSustain
        { ({ s.channels (getChannelForReg r.val) with
              mod := (s.channels (getChannelForReg r.val)).mod.setKeyOnOff KEY_MAIN
                (decide (v &&& 0x10 ≠ 0)) } : Channel) with
          car := (s.channels (getChannelForReg r.val)).car.setKeyOnOff KEY_MAIN
            (decide (v &&& 0x10 ≠ 0)) } (decide (v &&& 0x20 ≠ 0))) (v &&& 0x0F) := by
    rw [writeRegAt_key s r v h, modifyChannel_same, modifyChannel_same, modifyChannel_same,
      modifyChannel_same]
  obtain ⟨e1, e2, e3, e4⟩ := Channel.keyWrite_idem _ _ _ _ _ hd
  rw [modifyChannel_fixed (s.writeRegAt r v) _ _ e1, modifyChannel_fixed (s.writeRegAt r v) _ _ e2,
    modifyChannel_fixed (s.writeRegAt r v) _ _ e3, modifyChannel_fixed (s.writeRegAt r v) _ _ e4]

end YM2413

/-- The carrier's total level is `T` and its `TLL` is up to date. -/
theorem Slot.carLevel_of_levels {a b : Slot} (h : a.levels = b.levels) (k : Nat) (T : Int)
    (hb : b.TL = T ∧ b.TLL = b.TL + ((k >>> b.ksl : Nat) : Int)) :
    a.TL = T ∧ a.TLL = a.TL + ((k >>> a.ksl : Nat) : Int) := by
  obtain ⟨h1, h2, h3, _, _⟩ := Slot.levels_eq h
  rw [h1, h2, h3]
  exact hb

theorem Slot.flags_levels (s : Slot) (c : Channel) (v : Nat) (b1 b2 b3 b4 : Bool) :
    (Slot.updateGenerators (((((s.setFrequencyMultiplier v).setKeyScaleRate
      b1).setEnvelopeSustained b2).setVibrato b3).setAmplitudeModulation b4) c).TL = s.TL ∧
    (Slot.updateGenerators (((((s.setFrequencyMultiplier v).setKeyScaleRate
      b1).setEnvelopeSustained b2).setVibrato b3).setAmplitudeModulation b4) c).TLL = s.TLL ∧
    (Slot.updateGenerators (((((s.setFrequencyMultiplier v).setKeyScaleRate
      b1).setEnvelopeSustained b2).setVibrato b3).setAmplitudeModulation b4) c).ksl = s.ksl := by
  have h := Slot.updateGenerators_levels (((((s.setFrequencyMultiplier v).setKeyScaleRate
      b1).setEnvelopeSustained b2).setVibrato b3).setAmplitudeModulation b4) c
  unfold Slot.levels at h
  simp only [Prod.mk.injEq] at h
  obtain ⟨h1, h2, h3, _, _⟩ := h
  rw [h1, h2, h3]
  unfold Slot.setAmplitudeModulation Slot.setVibrato Slot.setEnvelopeSustained
    Slot.setKeyScaleRate Slot.setFrequencyMultiplier
  exact ⟨rfl, rfl, rfl⟩

/-- Loading one part of an instrument keeps `ksl_base`, the carrier's total
level, and the carrier's `TLL` up to date. -/
theorem Channel.updateInstrumentPart_carLevel (c : Channel) (part value : Nat) (T : Int)
    (h : c.car.TL = T ∧ c.car.TLL = c.car.TL + ((c.ksl_base >>> c.car.ksl : Nat) : Int)) :
    (c.updateInstrumentPart part value).ksl_base = c.ksl_base ∧
      (c.updateInstrumentPart part value).car.TL = T ∧
      (c.updateInstrumentPart part value).car.TLL = (c.updateInstrumentPart part value).car.TL +
        ((c.ksl_base >>> (c.updateInstrumentPart part value).car.ksl : Nat) : Int) := by
  unfold Channel.updateInstrumentPart
  split
  · exact ⟨rfl, h⟩
  · dsimp only
    obtain ⟨g1, g2, g3⟩ := Slot.flags_levels c.car c (value &&& 0x0F)
      (decide (value &&& 0x10 ≠ 0)) (decide (value &&& 0x20 ≠ 0)) (decide (value &&& 0x40 ≠ 0))
      (decide (value &&& 0x80 ≠ 0))
    rw [g1, g2, g3]
    exact ⟨rfl, h⟩
  · exact ⟨rfl, h⟩
  · dsimp only
    unfold Slot.setWaveform Slot.setKeyScaleLevel Slot.updateTotalLevel
    dsimp only
    exact ⟨rfl, h.1, rfl⟩
  · exact ⟨rfl, h⟩
  · dsimp only
    exact ⟨rfl, Slot.carLevel_of_levels ((Slot.setDecayRate_levels _ _ _).trans
      (Slot.setAttackRate_levels _ _ _)) _ _ h⟩
  · exact ⟨rfl, h⟩
  · dsimp only
    exact ⟨rfl, Slot.carLevel_of_levels ((Slot.setReleaseRate_levels _ _ _).trans
      (Slot.setSustainLevel_levels _ _)) _ _ h⟩
  · exact ⟨rfl, h⟩

theorem Channel.updateInstrument_carLevel (c : Channel) (inst : Fin 8 → Nat) (T : Int)
    (h : c.car.TL = T ∧ c.car.TLL = c.car.TL + ((c.ksl_base >>> c.car.ksl : Nat) : Int)) :
    (c.updateInstrument inst).ksl_base = c.ksl_base ∧
      (c.updateInstrument inst).car.TL = T ∧
      (c.updateInstrument inst).car.TLL = (c.updateInstrument inst).car.TL +
        ((c.ksl_base >>> (c.updateInstrument inst).car.ksl : Nat) : Int) := by
  unfold Channel.updateInstrument
  generalize List.finRange 8 = l
  induction l generalizing c with
  | nil => exact ⟨rfl, h⟩
  | cons p l ih =>
    obtain ⟨g1, g2, g3⟩ := Channel.updateInstrumentPart_carLevel c p.val (inst p) T h
    rw [List.foldl_cons]
    have := ih (c.updateInstrumentPart p.val (inst p)) ⟨g2, by rw [g1]; exact g3⟩
    rw [g1] at this
    exact this

namespace YM2413

/-- A write to `0x30 + k`. -/
theorem writeRegAt_vol (s : YM2413) (r : Fin 0x40) (v : Nat) (h : r.val &&& 0xF0 = 0x30) :
    s.writeRegAt r v =
      if (r.val &&& 0x0F) % 9 ≥ s.getNumMelodicChannels then
        if (r.val &&& 0x0F) % 9 ≥ 7 then
          (((({ s with reg := Function.update s.reg r v } : YM2413).modifyChannel
            (getChannelForReg r.val) fun ch => { ch with instvol_r := v }).modifyChannel
            (getChannelForReg r.val) fun ch =>
              { ch with car := ch.car.setTotalLevel ch ((v &&& 0x0F) <<< 2) }).modifyChannel
            (getChannelForReg r.val) fun ch =>
              { ch with mod := ch.mod.setTotalLevel ch ((ch.instvol_r >>> 4) <<< 2) })
        else
          ((({ s with reg := Function.update s.reg r v } : YM2413).modifyChannel
            (getChannelForReg r.val) fun ch => { ch with instvol_r := v }).modifyChannel
            (getChannelForReg r.val) fun ch =>
              { ch with car := ch.car.setTotalLevel ch ((v &&& 0x0F) <<< 2) })
      else
        if (s.channels (getChannelForReg r.val)).instvol_r &&& 0xF0 ≠ v &&& 0xF0 then
          (((({ s with reg := Function.update s.reg r v } : YM2413).modifyChannel
            (getChannelForReg r.val) fun ch => { ch with instvol_r := v }).modifyChannel
            (getChannelForReg r.val) fun ch =>
              { ch with car := ch.car.setTotalLevel ch ((v &&& 0x0F) <<< 2) }).modifyChannel
            (getChannelForReg r.val) fun ch => ch.updateInstrument (s.instrument (v >>> 4)))
        else
          ((({ s with reg := Function.update s.reg r v } : YM2413).modifyChannel
            (getChannelForReg r.val) fun ch => { ch with instvol_r := v }).modifyChannel
            (getChannelForReg r.val) fun ch =>
              { ch with car := ch.car.setTotalLevel ch ((v &&& 0x0F) <<< 2) }) := by
  unfold writeRegAt
  dsimp only
  rw [if_neg (by rw [h]; decide), if_neg (by rw [h]; decide), if_neg (by rw [h]; decide),
    if_pos h]
  rfl

/-- The channel addressed by a write to `0x30 + k`, after the write: the
byte is stored, the carrier's total level is set and up to date and, on the
channels 7 and 8 in rhythm mode, so is the modulator's. -/
theorem writeRegAt_vol_channel (s : YM2413) (r : Fin 0x40) (v : Nat)
    (h : r.val &&& 0xF0 = 0x30) (c : Channel)
    (hc : c = (s.writeRegAt r v).channels (getChannelForReg r.val)) :
    c.instvol_r = v ∧
      c.car.setTotalLevel c ((v &&& 0x0F) <<< 2) = c.car ∧
      ((r.val &&& 0x0F) % 9 ≥ s.getNumMelodicChannels → (r.val &&& 0x0F) % 9 ≥ 7 →
        c.mod.setTotalLevel c ((c.instvol_r >>> 4) <<< 2) = c.mod) := by
  rw [writeRegAt_vol s r v h] at hc
  split_ifs at hc with h1 h2 h3
  · rw [modifyChannel_same, modifyChannel_same, modifyChannel_same] at hc
    dsimp only at hc
    subst hc
    dsimp only
    refine ⟨rfl, ?_, fun _ _ => ?_⟩
    · exact Slot.setTotalLevel_idem _ _ _ _ rfl
    · exact Slot.setTotalLevel_idem _ _ _ _ rfl
  · rw [modifyChannel_same, modifyChannel_same] at hc
    dsimp only at hc
    subst hc
    dsimp only
    exact ⟨rfl, Slot.setTotalLevel_idem _ _ _ _ rfl, fun _ g => absurd g h2⟩
  · rw [modifyChannel_same, modifyChannel_same, modifyChannel_same] at hc
    dsimp only at hc
    obtain ⟨g1, g2, g3⟩ := Channel.updateInstrument_carLevel
      { s.channels (getChannelForReg r.val) with
        instvol_r := v
        car := (s.channels (getChannelForReg r.val)).car.setTotalLevel
          { s.channels (getChannelForReg r.val) with instvol_r := v } ((v &&& 0x0F) <<< 2) }
      (s.instrument (v >>> 4))
      (((v &&& 0x0F) <<< 2 <<< (ENV_BITS - 2 - 7) : Nat) : Int)
      (by unfold Slot.setTotalLevel Slot.updateTotalLevel; exact ⟨rfl, rfl⟩)
    rw [← hc] at g1 g2 g3
    refine ⟨?_, ?_, fun g _ => absurd g h1⟩
    · rw [hc, Channel.updateInstrument_instvol]
    · exact Slot.setTotalLevel_fixed c.car c _ g2 (by rw [g1]; exact g3)
  · rw [modifyChannel_same, modifyChannel_same] at hc
    dsimp only at hc
    subst hc
    dsimp only
    exact ⟨rfl, Slot.setTotalLevel_idem _ _ _ _ rfl, fun g _ => absurd g h1⟩

end YM2413

theorem Channel.setInstvol_fixed (c : Channel) (v : Nat) (h : c.instvol_r = v) :
    ({ c with instvol_r := v } : Channel) = c := by
  subst h
  rfl

namespace YM2413

theorem vol_not_rhythmReg : ∀ r : Fin 0x40, r.val &&& 0xF0 = 0x30 → r.val ≠ 0x0E := by
  decide

theorem writeRegAt_idem_vol (s : YM2413) (r : Fin 0x40) (v : Nat) (h : r.val &&& 0xF0 = 0x30) :
    (s.writeRegAt r v).writeRegAt r v = s.writeRegAt r v := by
  have hreg := writeRegAt_stored s r v
  obtain ⟨e1, e2, e3⟩ := writeRegAt_vol_channel s r v h _ rfl
  have hn : (s.writeRegAt r v).getNumMelodicChannels = s.getNumMelodicChannels := by
    unfold getNumMelodicChannels
    rw [writeRegAt_rhythm s r v (vol_not_rhythmReg r h)]
  have f1 : ({ (s.writeRegAt r v).channels (getChannelForReg r.val) with
      instvol_r := v } : Channel) = (s.writeRegAt r v).channels (getChannelForReg r.val) :=
    Channel.setInstvol_fixed _ v e1
  have f2 : ({ (s.writeRegAt r v).channels (getChannelForReg r.val) with
      car := ((s.writeRegAt r v).channels (getChannelForReg r.val)).car.setTotalLevel
        ((s.writeRegAt r v).channels (getChannelForReg r.val)) ((v &&& 0x0F) <<< 2) } : Channel) =
      (s.writeRegAt r v).channels (getChannelForReg r.val) := by
    rw [e2]
  rw [writeRegAt_vol (s.writeRegAt r v) r v h, reg_fixed _ r v hreg,
    modifyChannel_fixed (s.writeRegAt r v) _ _ f1, modifyChannel_fixed (s.writeRegAt r v) _ _ f2,
    hn, e1]
  split_ifs with h1 h2 h3
  · apply modifyChannel_fixed
    rw [e3 h1 h2]
  · rfl
  · exact absurd rfl h3
  · rfl

theorem updateCustomInstrument_idem (s : YM2413) (part : Fin 8) (value : Nat) :
    (s.updateCustomInstrument part value).updateCustomInstrument part value =
      s.updateCustomInstrument part value := by
  unfold updateCustomInstrument getNumMelodicChannels
  dsimp only
  have ht : Function.update (Function.update s.inst_tab 0 (Function.update (s.inst_tab 0) part value))
      0 (Function.update (Function.update s.inst_tab 0 (Function.update (s.inst_tab 0) part value) 0)
        part value) =
      Function.update s.inst_tab 0 (Function.update (s.inst_tab 0) part value) := by
    rw [Function.update_same, Function.update_idem, Function.update_idem]
  rw [ht]
  congr 1
  funext ch
  by_cases hc : ch.val < (if s.rhythm = true then 6 else 9) ∧
      (s.channels ch).instvol_r &&& 0xF0 = 0
  · rw [if_pos hc, if_pos ⟨hc.1, by rw [Channel.updateInstrumentPart_instvol]; exact hc.2⟩,
      Channel.updateInstrumentPart_idem]
  · rw [if_neg hc, if_neg hc]

theorem updateCustomInstrument_reg (s : YM2413) (part : Fin 8) (value : Nat) :
    (s.updateCustomInstrument part value).reg = s.reg := rfl

/-- A write to `0x00 .. 0x07`, for any address with these nibbles. -/
theorem writeRegAt_user (s : YM2413) (r : Fin 0x40) (v : Nat) (h : r.val &&& 0xF0 = 0x00)
    (h8 : r.val &&& 0x0F < 8) :
    s.writeRegAt r v = ({ s with reg := Function.update s.reg r v } : YM2413).updateCustomInstrument
      ⟨r.val &&& 0x0F, h8⟩ v := by
  unfold writeRegAt
  dsimp only
  rw [if_pos h, dif_pos h8]

theorem writeRegAt_idem_user (s : YM2413) (r : Fin 0x40) (v : Nat) (h : r.val &&& 0xF0 = 0x00)
    (h8 : r.val &&& 0x0F < 8) : (s.writeRegAt r v).writeRegAt r v = s.writeRegAt r v := by
  have hreg := writeRegAt_stored s r v
  rw [writeRegAt_user (s.writeRegAt r v) r v h h8, reg_fixed _ r v hreg, writeRegAt_user s r v h h8,
    updateCustomInstrument_idem]

theorem setRhythmFlags_reg (s : YM2413) (v : Nat) : (s.setRhythmFlags v).reg = s.reg := by
  obtain ⟨chs, r, h⟩ := setRhythmFlags_shape s v
  rw [h]

theorem setRhythmFlags_idem (s : YM2413) (flags : Nat) :
    (s.setRhythmFlags flags).setRhythmFlags flags = s.setRhythmFlags flags := by
  have hr := setRhythmFlags_rhythm s flags
  have houter : ∀ t : YM2413, t.rhythm = decide (flags &&& 0x20 ≠ 0) →
      t.setRhythmFlags flags =
        if t.rhythm then
          ((((((t.modifyChannel 6 fun c =>
            { c with mod := c.mod.setKeyOnOff KEY_RHYTHM (decide (flags &&& 0x10 ≠ 0)) }).modifyChannel
            6 fun c =>
            { c with car := c.car.setKeyOnOff KEY_RHYTHM (decide (flags &&& 0x10 ≠ 0)) }).modifyChannel
            7 fun c =>
            { c with mod := c.mod.setKeyOnOff KEY_RHYTHM (decide (flags &&& 0x01 ≠ 0)) }).modifyChannel
            7 fun c =>
            { c with car := c.car.setKeyOnOff KEY_RHYTHM (decide (flags &&& 0x08 ≠ 0)) }).modifyChannel
            8 fun c =>
            { c with mod := c.mod.setKeyOnOff KEY_RHYTHM (decide (flags &&& 0x04 ≠ 0)) }).modifyChannel
            8 fun c =>
            { c with car := c.car.setKeyOnOff KEY_RHYTHM (decide (flags &&& 0x02 ≠ 0)) })
        else t := by
    intro t ht
    have hs := setRhythmMode_same t _ ht
    unfold setRhythmFlags
    dsimp only
    rw [hs]
  rw [houter _ hr]
  by_cases h5 : flags &&& 0x20 ≠ 0
  · have hch := setRhythmFlags_on s flags h5
    have h6 : (s.setRhythmFlags flags).channels 6 = _ := congrFun hch 6
    have h7 : (s.setRhythmFlags flags).channels 7 = _ := congrFun hch 7
    have h8 : (s.setRhythmFlags flags).channels 8 = _ := congrFun hch 8
    simp only [Fin.isValue, if_true, Fin.reduceEq, if_false] at h6 h7 h8
    rw [if_pos (by rw [hr]; exact decide_eq_true h5)]
    have e6m : ({ (s.setRhythmFlags flags).channels 6 with
        mod := ((s.setRhythmFlags flags).channels 6).mod.setKeyOnOff KEY_RHYTHM
          (decide (flags &&& 0x10 ≠ 0)) } : Channel) = (s.setRhythmFlags flags).channels 6 := by
      rw [Slot.setKeyOnOff_fixed _ ((s.setRhythmMode true).channels 6).mod _ _
        (by rw [h6]) (by rw [h6])]
    have e6c : ({ (s.setRhythmFlags flags).channels 6 with
        car := ((s.setRhythmFlags flags).channels 6).car.setKeyOnOff KEY_RHYTHM
          (decide (flags &&& 0x10 ≠ 0)) } : Channel) = (s.setRhythmFlags flags).channels 6 := by
      rw [Slot.setKeyOnOff_fixed _ ((s.setRhythmMode true).channels 6).car _ _
        (by rw [h6]) (by rw [h6])]
    have e7m : ({ (s.setRhythmFlags flags).channels 7 with
        mod := ((s.setRhythmFlags flags).channels 7).mod.setKeyOnOff KEY_RHYTHM
          (decide (flags &&& 0x01 ≠ 0)) } : Channel) = (s.setRhythmFlags flags).channels 7 := by
      rw [Slot.setKeyOnOff_fixed _ ((s.setRhythmMode true).channels 7).mod _ _
        (by rw [h7]) (by rw [h7])]
    have e7c : ({ (s.setRhythmFlags flags).channels 7 with
        car := ((s.setRhythmFlags flags).channels 7).car.setKeyOnOff KEY_RHYTHM
          (decide (flags &&& 0x08 ≠ 0)) } : Channel) = (s.setRhythmFlags flags).channels 7 := by
      rw [Slot.setKeyOnOff_fixed _ ((s.setRhythmMode true).channels 7).car _ _
        (by rw [h7]) (by rw [h7])]
    have e8m : ({ (s.setRhythmFlags flags).channels 8 with
        mod := ((s.setRhythmFlags flags).channels 8).mod.setKeyOnOff KEY_RHYTHM
          (decide (flags &&& 0x04 ≠ 0)) } : Channel) = (s.setRhythmFlags flags).channels 8 := by
      rw [Slot.setKeyOnOff_fixed _ ((s.setRhythmMode true).channels 8).mod _ _
        (by rw [h8]) (by rw [h8])]
    have e8c : ({ (s.setRhythmFlags flags).channels 8 with
        car := ((s.setRhythmFlags flags).channels 8).car.setKeyOnOff KEY_RHYTHM
          (decide (flags &&& 0x02 ≠ 0)) } : Channel) = (s.setRhythmFlags flags).channels 8 := by
      rw [Slot.setKeyOnOff_fixed _ ((s.setRhythmMode true).channels 8).car _ _
        (by rw [h8]) (by rw [h8])]
    rw [modifyChannel_fixed (s.setRhythmFlags flags) _ _ e6m,
      modifyChannel_fixed (s.setRhythmFlags flags) _ _ e6c,
      modifyChannel_fixed (s.setRhythmFlags flags) _ _ e7m,
      modifyChannel_fixed (s.setRhythmFlags flags) _ _ e7c,
      modifyChannel_fixed (s.setRhythmFlags flags) _ _ e8m,
      modifyChannel_fixed (s.setRhythmFlags flags) _ _ e8c]
  · rw [if_neg (by rw [hr]; simpa using h5)]

theorem writeRegAt_idem_rhythm (s : YM2413) (v : Nat) :
    (s.writeRegAt 0x0E v).writeRegAt 0x0E v = s.writeRegAt 0x0E v := by
  have hreg := writeRegAt_stored s 0x0E v
  rw [writeRegAt_rhythmReg (s.writeRegAt 0x0E v), reg_fixed _ 0x0E v hreg, writeRegAt_rhythmReg s,
    setRhythmFlags_idem]

/-- Writing the same byte to the same register twice is writing it once. -/
theorem writeRegAt_idem (s : YM2413) (r : Fin 0x40) (v : Nat) :
    (s.writeRegAt r v).writeRegAt r v = s.writeRegAt r v := by
  by_cases h0 : r.val &&& 0xF0 = 0x00
  · by_cases h8 : r.val &&& 0x0F < 8
    · exact writeRegAt_idem_user s r v h0 h8
    · by_cases hE : r.val &&& 0x0F = 0x0E
      · have hr : r = 0x0E := Fin.ext (ChannelFrame.low_nibble_rhythm r h0 hE)
        subst hr
        exact writeRegAt_idem_rhythm s v
      · have hw : ∀ t : YM2413, t.writeRegAt r v =
            { t with reg := Function.update t.reg r v } := by
          intro t
          unfold writeRegAt
          dsimp only
          rw [if_pos h0, dif_neg h8, if_neg hE]
        rw [hw (s.writeRegAt r v), reg_fixed _ r v (writeRegAt_stored s r v)]
  · by_cases h1 : r.val &&& 0xF0 = 0x10
    · exact writeRegAt_idem_low s r v h1
    · by_cases h2 : r.val &&& 0xF0 = 0x20
      · exact writeRegAt_idem_key s r v h2
      · by_cases h3 : r.val &&& 0xF0 = 0x30
        · exact writeRegAt_idem_vol s r v h3
        · have hw : ∀ t : YM2413, t.writeRegAt r v =
              { t with reg := Function.update t.reg r v } := by
            intro t
            unfold writeRegAt
            dsimp only
            rw [if_neg h0, if_neg h1, if_neg h2, if_neg h3]
          rw [hw (s.writeRegAt r v), reg_fixed _ r v (writeRegAt_stored s r v)]

end YM2413

/-- C36: `writeReg` is idempotent.  For every chip state, every `r < 0x40`
and every `v`, `writeReg(r, v)` is defined, and performing it again on the
state it gives yields that same state. -/
theorem write_is_idempotent (s : YM2413) (r v : Nat) (hr : r < 0x40) :
    ∃ s1, s.writeReg r v = some s1 ∧ s1.writeReg r v = some s1 := by
  refine ⟨s.writeRegAt ⟨r, hr⟩ v, ?_, ?_⟩
  · unfold YM2413.writeReg
    rw [dif_pos hr]
  · unfold YM2413.writeReg
    rw [dif_pos hr, YM2413.writeRegAt_idem]

theorem write_is_idempotent_witness :
    (0x20 : Nat) < 0x40 ∧
      ∃ s1, YM2413.new.writeReg 0x20 0x15 = some s1 ∧ s1.writeReg 0x20 0x15 = some s1 :=
  ⟨by decide, write_is_idempotent YM2413.new 0x20 0x15 (by decide)⟩

/-! ## The channel a register addresses -/

namespace YM2413

/-- A write outside the addresses `0x00 .. 0x0F` leaves every channel but
channel `(r & 0x0F) % 9` as it was. -/
theorem writeRegAt_others (s : YM2413) (r : Fin 0x40) (v : Nat)
    (h0 : ¬ r.val &&& 0xF0 = 0x00) (c : Fin 9) (hc : c ≠ getChannelForReg r.val) :
    (s.writeRegAt r v).channels c = s.channels c := by
  unfold writeRegAt
  dsimp only
  rw [if_neg h0]
  split_ifs <;> simp only [modifyChannel_channels, if_neg hc]

theorem high_addr : ∀ r : Fin 0x40, 0x10 ≤ r.val → ¬ r.val &&& 0xF0 = 0x00 := by
  decide

/-- The channel `(r & 0x0F) % 9` after a write outside `0x00 .. 0x0F`. -/
theorem writeRegAt_target (s : YM2413) (r : Fin 0x40) (v : Nat) :
    (r.val &&& 0xF0 = 0x10 →
      (s.writeRegAt r v).channels (getChannelForReg r.val) =
        (s.channels (getChannelForReg r.val)).setFrequencyLow v) ∧
    (r.val &&& 0xF0 = 0x20 →
      (s.writeRegAt r v).channels (getChannelForReg r.val) =
        Channel.setFrequencyHigh (Channel.setSustain
          { s.channels (getChannelForReg r.val) with
            mod := (s.channels (getChannelForReg r.val)).mod.setKeyOnOff KEY_MAIN
              (decide (v &&& 0x10 ≠ 0))
            car := (s.channels (getChannelForReg r.val)).car.setKeyOnOff KEY_MAIN
              (decide (v &&& 0x10 ≠ 0)) } (decide (v &&& 0x20 ≠ 0))) (v &&& 0x0F)) ∧
    (r.val &&& 0xF0 = 0x30 →
      ((s.writeRegAt r v).channels (getChannelForReg r.val)).instvol_r = v ∧
        ((s.writeRegAt r v).channels (getChannelForReg r.val)).car.TL =
          ((((v &&& 0x0F) <<< 2) <<< 1 : Nat) : Int)) := by
  refine ⟨fun h => ?_, fun h => ?_, fun h => ?_⟩
  · rw [writeRegAt_low s r v h, modifyChannel_same]
  · rw [writeRegAt_key s r v h, modifyChannel_same, modifyChannel_same, modifyChannel_same,
      modifyChannel_same]
  · obtain ⟨g1, g2, _⟩ := writeRegAt_vol_channel s r v h _ rfl
    refine ⟨g1, ?_⟩
    rw [← g2]
    exact Slot.setTotalLevel_TL _ _ _

end YM2413

/-- C28: for every state, every `base` among `0x10`, `0x20`, `0x30`, every `k`
in `0 .. 6` and every `v`, `writeReg(base + 9 + k, v)` and
`writeReg(base + k, v)` give the same channels, instrument table, counters
and rhythm flag; each stores `v` in its own entry of the register mirror.
The channel the code addresses, `getChannelForReg`, is `k = (r & 0x0F) % 9`
at both addresses: every channel other than `k` is what it was, and channel
`k` is the result of `setFrequencyLow(v)` (`base = 0x10`), of the key, sustain
and `setFrequencyHigh(v & 0x0F)` calls (`base = 0x20`), or has `instvol_r = v`
and the carrier's `TL` set from the low nibble (`base = 0x30`).  For every
address `r` in `0x10 .. 0x3F` the write is defined, `getChannelForReg(r)` is
`(r & 0x0F) % 9`, every other channel is unchanged, and that channel receives
the effect of the register group `r & 0xF0`. -/
theorem channel_aliasing (s : YM2413) (base k v : Nat)
    (hb : base = 0x10 ∨ base = 0x20 ∨ base = 0x30) (hk : k ≤ 6) :
    ∃ a b : YM2413, s.writeReg (base + 9 + k) v = some a ∧ s.writeReg (base + k) v = some b ∧
      a.channels = b.channels ∧ a.inst_tab = b.inst_tab ∧ a.eg_cnt = b.eg_cnt ∧
      a.noise_rng = b.noise_rng ∧ a.idleSamples = b.idleSamples ∧
      a.lfo_pm_cnt = b.lfo_pm_cnt ∧ a.lfo_am_cnt = b.lfo_am_cnt ∧ a.rhythm = b.rhythm ∧
      (∀ j : Fin 0x40, a.reg j = if j.val = base + 9 + k then v else s.reg j) ∧
      (∀ j : Fin 0x40, b.reg j = if j.val = base + k then v else s.reg j) ∧
      ((base + 9 + k) &&& 0x0F) % 9 = k ∧ ((base + k) &&& 0x0F) % 9 = k ∧
      (YM2413.getChannelForReg (base + 9 + k)).val = k ∧
      (YM2413.getChannelForReg (base + k)).val = k ∧
      (∀ c : Fin 9, c.val ≠ k → a.channels c = s.channels c ∧ b.channels c = s.channels c) ∧
      (∀ c : Fin 9, c.val = k →
        (base = 0x10 → a.channels c = (s.channels c).setFrequencyLow v) ∧
        (base = 0x20 → a.channels c =
          Channel.setFrequencyHigh (Channel.setSustain
            { s.channels c with
              mod := (s.channels c).mod.setKeyOnOff KEY_MAIN (decide (v &&& 0x10 ≠ 0))
              car := (s.channels c).car.setKeyOnOff KEY_MAIN (decide (v &&& 0x10 ≠ 0)) }
            (decide (v &&& 0x20 ≠ 0))) (v &&& 0x0F)) ∧
        (base = 0x30 → (a.channels c).instvol_r = v ∧
          (a.channels c).car.TL = ((((v &&& 0x0F) <<< 2) <<< 1 : Nat) : Int))) ∧
      (∀ r : Nat, 0x10 ≤ r → r < 0x40 → ∃ t : YM2413, s.writeReg r v = some t ∧
        (YM2413.getChannelForReg r).val = (r &&& 0x0F) % 9 ∧
        (∀ c : Fin 9, c.val ≠ (r &&& 0x0F) % 9 → t.channels c = s.channels c) ∧
        (r &&& 0xF0 = 0x10 → t.channels (YM2413.getChannelForReg r) =
          (s.channels (YM2413.getChannelForReg r)).setFrequencyLow v) ∧
        (r &&& 0xF0 = 0x20 → t.channels (YM2413.getChannelForReg r) =
          Channel.setFrequencyHigh (Channel.setSustain
            { s.channels (YM2413.getChannelForReg r) with
              mod := (s.channels (YM2413.getChannelForReg r)).mod.setKeyOnOff KEY_MAIN
                (decide (v &&& 0x10 ≠ 0))
              car := (s.channels (YM2413.getChannelForReg r)).car.setKeyOnOff KEY_MAIN
                (decide (v &&& 0x10 ≠ 0)) }
            (decide (v &&& 0x20 ≠ 0))) (v &&& 0x0F)) ∧
        (r &&& 0xF0 = 0x30 → (t.channels (YM2413.getChannelForReg r)).instvol_r = v ∧
          (t.channels (YM2413.getChannelForReg r)).car.TL =
            ((((v &&& 0x0F) <<< 2) <<< 1 : Nat) : Int))) := by
  have hlt : base + 9 + k < 0x40 := by omega
  have hlt1 : base + k < 0x40 := by omega
  obtain ⟨h0, h1, h2, h3, h4⟩ := YM2413.alias_addr ⟨base, by omega⟩ hb ⟨k, by omega⟩
  simp only at h0 h1 h2 h3 h4
  have e := YM2413.writeRegAt_alias s ⟨base + 9 + k, hlt⟩ ⟨base + k, hlt1⟩ v h0 h1 h2 h3
  have hreg : ∀ (r : Fin 0x40) (j : Fin 0x40),
      (s.writeRegAt r v).reg j = if j.val = r.val then v else s.reg j := by
    intro r j
    rw [YM2413.writeRegAt_reg]
    by_cases hj : j = r
    · subst hj; simp
    · have : j.val ≠ r.val := fun h => hj (Fin.ext h)
      simp [hj, this]
  have hch : (s.writeRegAt ⟨base + 9 + k, hlt⟩ v).channels =
      (s.writeRegAt ⟨base + k, hlt1⟩ v).channels := by
    have h := congrArg YM2413.channels e; exact h
  have hk1 : (YM2413.getChannelForReg (base + k)).val = k := by
    have := congrArg Fin.val h4
    simpa using this
  have hk9 : (YM2413.getChannelForReg (base + 9 + k)).val = k := by
    rw [h2]; exact hk1
  have h01 : ¬ (base + k) &&& 0xF0 = 0x00 := by rw [← h1]; exact h0
  refine ⟨s.writeRegAt ⟨base + 9 + k, hlt⟩ v, s.writeRegAt ⟨base + k, hlt1⟩ v,
    by simp [YM2413.writeReg, hlt], by simp [YM2413.writeReg, hlt1], hch,
    by have h := congrArg YM2413.inst_tab e; exact h,
    by have h := congrArg YM2413.eg_cnt e; exact h,
    by have h := congrArg YM2413.noise_rng e; exact h,
    by have h := congrArg YM2413.idleSamples e; exact h,
    by have h := congrArg YM2413.lfo_pm_cnt e; exact h,
    by have h := congrArg YM2413.lfo_am_cnt e; exact h,
    by have h := congrArg YM2413.rhythm e; exact h, hreg _, hreg _, ?_, ?_, hk9, hk1, ?_, ?_, ?_⟩
  · have := congrArg Fin.val (h2.trans h4)
    simpa [YM2413.getChannelForReg] using this
  · have := congrArg Fin.val h4
    simpa [YM2413.getChannelForReg] using this
  · intro c hc
    have hne : c ≠ YM2413.getChannelForReg (base + k) := fun h => hc (by rw [h]; exact hk1)
    have hb1 := YM2413.writeRegAt_others s ⟨base + k, hlt1⟩ v h01 c hne
    exact ⟨by rw [hch]; exact hb1, hb1⟩
  · intro c hc
    have hc1 : YM2413.getChannelForReg (base + k) = c := Fin.ext (by rw [hk1, hc])
    obtain ⟨t1, t2, t3⟩ := YM2413.writeRegAt_target s ⟨base + k, hlt1⟩ v
    simp only at t1 t2 t3
    rw [hc1] at t1 t2 t3
    rw [hch]
    refine ⟨fun g => t1 ?_, fun g => t2 ?_, fun g => t3 ?_⟩
    · rw [← h1]; subst g; clear * - hk; interval_cases k <;> decide
    · rw [← h1]; subst g; clear * - hk; interval_cases k <;> decide
    · rw [← h1]; subst g; clear * - hk; interval_cases k <;> decide
  · intro r hr0 hr1
    refine ⟨s.writeRegAt ⟨r, hr1⟩ v, by simp [YM2413.writeReg, hr1], rfl, fun c hc => ?_,
      YM2413.writeRegAt_target s ⟨r, hr1⟩ v⟩
    exact YM2413.writeRegAt_others s ⟨r, hr1⟩ v (YM2413.high_addr ⟨r, hr1⟩ hr0) c
      (fun h => hc (by rw [h]; rfl))

set_option maxRecDepth 100000 in
theorem channel_aliasing_witness :
    ((0x20 : Nat) = 0x10 ∨ (0x20 : Nat) = 0x20 ∨ (0x20 : Nat) = 0x30) ∧ 3 ≤ 6 ∧
    ∃ a b : YM2413, YM2413.new.writeReg (0x20 + 9 + 3) 0x15 = some a ∧
      YM2413.new.writeReg (0x20 + 3) 0x15 = some b ∧
      a.channels = b.channels ∧ a.inst_tab = b.inst_tab ∧ a.eg_cnt = b.eg_cnt ∧
      a.noise_rng = b.noise_rng ∧ a.idleSamples = b.idleSamples ∧
      a.lfo_pm_cnt = b.lfo_pm_cnt ∧ a.lfo_am_cnt = b.lfo_am_cnt ∧ a.rhythm = b.rhythm ∧
      (∀ j : Fin 0x40, a.reg j = if j.val = 0x20 + 9 + 3 then 0x15 else YM2413.new.reg j) ∧
      (∀ j : Fin 0x40, b.reg j = if j.val = 0x20 + 3 then 0x15 else YM2413.new.reg j) ∧
      ((0x20 + 9 + 3) &&& 0x0F) % 9 = 3 ∧ ((0x20 + 3) &&& 0x0F) % 9 = 3 ∧
      (YM2413.getChannelForReg (0x20 + 9 + 3)).val = 3 ∧
      (YM2413.getChannelForReg (0x20 + 3)).val = 3 ∧
      (∀ c : Fin 9, c.val ≠ 3 →
        a.channels c = YM2413.new.channels c ∧ b.channels c = YM2413.new.channels c) :=
  ⟨by decide, by decide,
    (channel_aliasing YM2413.new 0x20 3 0x15 (by decide) (by decide)).imp fun _ h =>
      h.imp fun _ ⟨h1, h2, h3, h4, h5, h6, h7, h8, h9, h10, h11, h12, h13, h14, h15, h16,
          h17, _⟩ =>
        ⟨h1, h2, h3, h4, h5, h6, h7, h8, h9, h10, h11, h12, h13, h14, h15, h16, h17⟩⟩

end YM2413Burczynski
